import Mathlib

/-!
# serviced: a shallow embedding of the control-plane core

The definitions below follow the Go sources of

* `proxy/mux.go`               (TCP multiplexer and its connection accounting),
* `facade/service.go`          (tenant lookup, `AddService`, `UpdateService`,
                                `updateService`, `GetService`, `AssignIPs`,
                                `GetServiceEndpoints`, `CheckRunningVHost`,
                                `getServiceTree`, `walkTree`, `StopService`),
* `domain/service/evaluate.go` (template evaluation on a service),
* `zzk/service/host.go`        (`addInstance`, `removeInstance` and the listener
                                `listenHostState` of an instance on a host),
* `container/controller.go`    (`NewController`).

Go strings are Lean strings, Go maps with string keys are key/value lists
(`GoMap`), a Go `(value, error)` pair is a pair whose second component is an
optional error text, and a Go run-time panic is the `Except.error` of the
result type `Panicking`.
-/

namespace Serviced

/-! ## Go run-time helpers -/

/-- A Go `map[string]α`, kept as a list of key/value pairs.  The functions below
keep the keys pairwise distinct whenever they start from such a list. -/
abbrev GoMap (α : Type) := List (String × α)

namespace GoMap

/-- The map read `v, ok := m[k]`. -/
def get {α : Type} : GoMap α → String → Option α
  | [], _ => none
  | (k', v) :: m, k => if k' = k then some v else get m k

/-- The map write `m[k] = v`: overwrite in place when `k` is a key, add it otherwise. -/
def set {α : Type} : GoMap α → String → α → GoMap α
  | [], k, v => [(k, v)]
  | (k', v') :: m, k, v => if k' = k then (k, v) :: m else (k', v') :: set m k v

/-- The builtin `delete(m, k)`. -/
def delete {α : Type} : GoMap α → String → GoMap α
  | [], _ => []
  | (k', v') :: m, k => if k' = k then delete m k else (k', v') :: delete m k

end GoMap

/-- A computation that may end in a Go run-time panic (`Except.error msg`). -/
abbrev Panicking (α : Type) := Except String α

/-- Go `unicode.IsSpace`, the set of characters `strings.TrimSpace` removes. -/
def isSpace (c : Char) : Bool :=
  let n := c.toNat
  n == 0x09 || n == 0x0A || n == 0x0B || n == 0x0C || n == 0x0D || n == 0x20 ||
  n == 0x85 || n == 0xA0 || n == 0x1680 || (0x2000 ≤ n && n ≤ 0x200A) ||
  n == 0x2028 || n == 0x2029 || n == 0x202F || n == 0x205F || n == 0x3000

/-- Go `strings.TrimSpace`: drop leading and trailing white space. -/
def TrimSpace (s : String) : String :=
  String.mk ((s.data.dropWhile isSpace).reverse.dropWhile isSpace).reverse

/-- Splitting a character list at every occurrence of `sep`; a list with `n`
separators gives `n + 1` pieces. -/
def splitChars (sep : Char) : List Char → List (List Char)
  | [] => [[]]
  | c :: cs =>
    if c = sep then [] :: splitChars sep cs
    else match splitChars sep cs with
      | [] => [[c]]
      | p :: ps => (c :: p) :: ps

/-- Go `strings.Split(s, sep)` for a one-character separator. -/
def Split (s : String) (sep : Char) : List String :=
  (splitChars sep s.data).map String.mk

/-- Worker of `Replace`: `skip` characters of a match that was just replaced are
still to be dropped. -/
def replaceAux (old new : List Char) : Nat → List Char → List Char
  | _, [] => []
  | skip + 1, _ :: cs => replaceAux old new skip cs
  | 0, c :: cs =>
    if old.isPrefixOf (c :: cs) then new ++ replaceAux old new (old.length - 1) cs
    else c :: replaceAux old new 0 cs

/-- Go `strings.Replace(s, old, new, -1)` for a non-empty `old`: every
non-overlapping occurrence, left to right. -/
def Replace (s old new : String) : String :=
  String.mk (replaceAux old.data new.data 0 s.data)

/-- The verb `%-Ns` of `fmt.Sprintf`: the string, padded with blanks on the right
up to `width` characters. -/
def padRight (width : Nat) (s : String) : String :=
  String.mk (s.data ++ List.replicate (width - s.data.length) ' ')

/-! ## proxy/mux.go -/

namespace Proxy

/-- The Go struct `MuxSource`. -/
structure MuxSource where
  AgentHostIP : String := ""
  AgentHostID : String := ""
  ServiceName : String := ""
  TenantID : String := ""
  ServiceID : String := ""
  InstanceID : String := ""
  ContainerIP : String := ""
  ContainerID : String := ""
  deriving DecidableEq, Repr

/-- The Go struct `dao.ApplicationEndpoint`. -/
structure ApplicationEndpoint where
  ServiceID : String := ""
  Application : String := ""
  ContainerPort : Nat := 0
  HostPort : Nat := 0
  HostIP : String := ""
  ContainerIP : String := ""
  Protocol : String := ""
  VirtualAddress : String := ""
  InstanceID : Int := 0
  ProxyPort : Nat := 0
  deriving DecidableEq, Repr

/-- Go's `int` of the 64-bit platforms the agent is built for: the outcome of
`+=` and `--` is the mathematical result wrapped around into
`[-9223372036854775808, 9223372036854775807]`. -/
def wrapInt64 (x : Int) : Int :=
  (x + 9223372036854775808) % 18446744073709551616 - 9223372036854775808

/-- The Go struct `TCPMuxConnectionInfo`.  `ActiveWriters` is a Go `int`: the
count of open connections, on which `updateConnectionInfo` and
`decrementActiveWriters` compute with wrap-around (`wrapInt64`).  `CreatedAt` is a
time stamp. -/
structure TCPMuxConnectionInfo where
  AgentHostIP : String := ""
  AgentHostID : String := ""
  Src : MuxSource := {}
  SrcRemoteAddr : String := ""
  SrcLocalAddr : String := ""
  DstLocalAddr : String := ""
  DstRemoteAddr : String := ""
  DstName : String := ""
  ApplicationEndpoint : ApplicationEndpoint := {}
  ActiveWriters : Int := 0
  CreatedAt : Nat := 0
  deriving DecidableEq, Repr

/-- What the mux reads of a `net.Conn`: its two addresses. -/
structure Conn where
  RemoteAddr : String
  LocalAddr : String
  deriving DecidableEq, Repr

/-- The fields of `TCPMux` the connection handling reads. -/
structure TCPMux where
  hostID : String
  hostIP : String
  deriving DecidableEq, Repr

/-- The two uses of `json.Unmarshal` in `updateConnectionInfo`: the value left in
the target after decoding the text (a decoding error is only logged). -/
structure JSONDecoder where
  unmarshalMuxSource : String → MuxSource → MuxSource
  unmarshalApplicationEndpoint : String → ApplicationEndpoint → ApplicationEndpoint

/-- The package variable `muxConnectionInfo`. -/
abbrev MuxConnectionInfo := GoMap TCPMuxConnectionInfo

/-- The key `fmt.Sprintf("%-15s %-21s <-- %-15s %-21s", ...)` of an entry. -/
def connectionKey (tmci : TCPMuxConnectionInfo) : String :=
  padRight 15 tmci.AgentHostIP ++ " " ++ padRight 21 tmci.DstRemoteAddr ++ " <-- " ++
    padRight 15 tmci.Src.AgentHostIP ++ " " ++ padRight 21 tmci.SrcRemoteAddr

/-- The entry `updateConnectionInfo` builds before it takes the lock: the
addresses, `parts[0]` as destination name, one active writer, created now, and
the decoded optional header fields. -/
def newConnectionInfo (mux : TCPMux) (json : JSONDecoder) (now : Nat)
    (parts : List String) (h : 0 < parts.length) (src dst : Conn) : TCPMuxConnectionInfo :=
  let tmci : TCPMuxConnectionInfo :=
    { AgentHostIP := mux.hostIP
      AgentHostID := mux.hostID
      SrcRemoteAddr := src.RemoteAddr
      SrcLocalAddr := src.LocalAddr
      DstLocalAddr := dst.LocalAddr
      DstRemoteAddr := dst.RemoteAddr
      DstName := parts[0]
      ActiveWriters := 1
      CreatedAt := now }
  let tmci :=
    if h2 : parts.length > 2 then
      { tmci with Src := json.unmarshalMuxSource (Replace parts[1] "===" ":") tmci.Src }
    else tmci
  if h3 : parts.length > 3 then
    { tmci with
      ApplicationEndpoint :=
        json.unmarshalApplicationEndpoint (Replace parts[2] "===" ":") tmci.ApplicationEndpoint }
  else tmci

/-- `TCPMux.updateConnectionInfo`: returns the key and the updated map.  `parts[0]`
is read, so the parts must not be empty. -/
def updateConnectionInfo (mux : TCPMux) (json : JSONDecoder) (now : Nat)
    (parts : List String) (h : 0 < parts.length) (src dst : Conn)
    (info : MuxConnectionInfo) : String × MuxConnectionInfo :=
  let tmci := newConnectionInfo mux json now parts h src dst
  let key := connectionKey tmci
  let tmci :=
    match info.get key with
    | some old =>
      { tmci with
        CreatedAt := old.CreatedAt
        ActiveWriters := wrapInt64 (tmci.ActiveWriters + old.ActiveWriters) }
    | none => tmci
  (key, info.set key tmci)

/-- `TCPMux.decrementActiveWriters`.  `muxConnectionInfo[key].ActiveWriters--`
dereferences the entry, which panics when the key is absent; the decrement is
Go's, so the least `int` becomes the greatest. -/
def decrementActiveWriters (key : String) (info : MuxConnectionInfo) :
    Panicking MuxConnectionInfo :=
  match info.get key with
  | none => .error "invalid memory address or nil pointer dereference"
  | some e =>
    let e1 := { e with ActiveWriters := wrapInt64 (e.ActiveWriters - 1) }
    let info1 := info.set key e1
    if e1.ActiveWriters ≤ 0 then
      if (info1.get key).isSome then .ok (info1.delete key) else .ok info1
    else .ok info1

/-- The two ends of a proxied connection. -/
inductive Peer where
  | client
  | backend
  deriving DecidableEq, Repr

/-- The externally visible steps of `muxConnection` and `proxyLoop`. -/
inductive MuxAction where
  | setReadDeadline (seconds : Nat)
  | clearReadDeadline
  | logError (msg : String)
  | close (p : Peer)
  | dial (network address : String)
  | write (p : Peer) (bytes : String)
  | decrement (key : String)
  | spawnProxyLoop (key : String)
  deriving DecidableEq, Repr

/-- `reader.ReadString(delim)` on the bytes the buffered reader has obtained from
the connection: the line up to and including the first newline and the bytes left
in the buffer, or the read error when no newline arrives. -/
def readString : List Char → List Char → Except String (String × String)
  | _, [] => .error "EOF"
  | acc, c :: cs =>
    if c = '\n' then .ok (String.mk (acc.reverse ++ [c]), String.mk cs)
    else readString (c :: acc) cs

/-- `TCPMux.muxConnection`.  `inbound` is what the header reader obtains from the
connection, `dial` is `net.Dial`.  The result is the sequence of actions taken and
the connection-info map afterwards. -/
def muxConnection (mux : TCPMux) (json : JSONDecoder) (now : Nat) (conn : Conn)
    (inbound : String) (dial : String → String → Except String Conn)
    (info : MuxConnectionInfo) : List MuxAction × MuxConnectionInfo :=
  match readString [] inbound.data with
  | .error e =>
    ([.setReadDeadline 5, .logError ("could not read mux line: " ++ e), .close .client], info)
  | .ok (line, buffered) =>
    let line := TrimSpace line
    let parts := Split line ':'
    if h : parts.length < 2 then
      ([.setReadDeadline 5, .clearReadDeadline, .logError ("malformed mux line: " ++ line),
        .close .client], info)
    else
      let address := parts[parts.length - 2] ++ ":" ++ parts[parts.length - 1]
      match dial "tcp4" address with
      | .error e =>
        ([.setReadDeadline 5, .clearReadDeadline, .dial "tcp4" address,
          .logError ("could not dial to " ++ line ++ " : " ++ e), .close .client], info)
      | .ok svc =>
        let (key, info1) := updateConnectionInfo mux json now parts (by omega) conn svc info
        let pending : List MuxAction :=
          if buffered.data.length > 0 then [.write .client buffered] else []
        ([.setReadDeadline 5, .clearReadDeadline, .dial "tcp4" address] ++ pending ++
          [.spawnProxyLoop key], info1)

/-- One communication of `proxyLoop`: a broker reports on `event`, or `quit` fires. -/
inductive SelectCase where
  | event (written : Int)
  | quit
  deriving DecidableEq, Repr

/-- The inner loop `for ; i < 2; i++ { transferred += <-event }` of the quit
branch: it receives from `event` only. -/
def drainEvents : Nat → Int → List SelectCase → Option Int
  | 0, transferred, _ => some transferred
  | n + 1, transferred, .event w :: rest => drainEvents n (transferred + w) rest
  | _ + 1, _, _ => none

/-- The select loop of `proxyLoop` from iteration `2 - remaining` on, along a
schedule of communications.  `none`: the schedule ends, or does not fit, before the
function returns. -/
def proxyLoopFrom (key : String) : Nat → Int → List SelectCase → Option (List MuxAction × Int)
  | 0, transferred, _ =>
    some ([.decrement key, .close .client, .close .backend], transferred)
  | _ + 1, _, [] => none
  | n + 1, transferred, .event w :: rest => proxyLoopFrom key n (transferred + w) rest
  | n + 1, transferred, .quit :: rest =>
    match drainEvents (n + 1) transferred rest with
    | some t => some ([.decrement key, .close .client, .close .backend], t)
    | none => none

/-- `TCPMux.proxyLoop` after its two brokers are started: the actions it takes and
the byte count, along a schedule of communications. -/
def proxyLoop (key : String) (schedule : List SelectCase) : Option (List MuxAction × Int) :=
  proxyLoopFrom key 2 0 schedule

/-- The addresses dialed in a sequence of actions, in order. -/
def dialed : List MuxAction → List (String × String)
  | [] => []
  | .dial network address :: rest => (network, address) :: dialed rest
  | _ :: rest => dialed rest

/-- The writes in a sequence of actions: target and bytes, in order. -/
def written : List MuxAction → List (Peer × String)
  | [] => []
  | .write p bytes :: rest => (p, bytes) :: written rest
  | _ :: rest => written rest

/-- The keys whose writer count a sequence of actions decrements, in order. -/
def decrements : List MuxAction → List String
  | [] => []
  | .decrement key :: rest => key :: decrements rest
  | _ :: rest => decrements rest

/-- A sample mux: the agent of host `h1`. -/
def sampleMux : TCPMux := { hostID := "h1", hostIP := "10.0.0.1" }

/-- A sample decoder that leaves the target as it is. -/
def sampleJSON : JSONDecoder :=
  { unmarshalMuxSource := fun _ s => s, unmarshalApplicationEndpoint := fun _ a => a }

/-- A sample inbound connection. -/
def sampleConn : Conn := { RemoteAddr := "192.168.1.7:51000", LocalAddr := "10.0.0.1:22250" }

/-- A sample `net.Dial` that reaches every address. -/
def sampleDial : String → String → Except String Conn :=
  fun _ address => .ok { RemoteAddr := address, LocalAddr := "127.0.0.1:40000" }

/-- One call of the connection accounting: the arguments of an
`updateConnectionInfo`, or a `decrementActiveWriters` of the key under study. -/
inductive AccountingCall where
  | update (now : Nat) (parts : List String) (h : 0 < parts.length) (src dst : Conn)
  | decrement

/-- Running a sequence of accounting calls for the key `k` on the map. -/
def runAccounting (mux : TCPMux) (json : JSONDecoder) (k : String) :
    List AccountingCall → MuxConnectionInfo → Panicking MuxConnectionInfo
  | [], info => .ok info
  | .update now parts h src dst :: rest, info =>
    runAccounting mux json k rest (updateConnectionInfo mux json now parts h src dst info).2
  | .decrement :: rest, info =>
    match decrementActiveWriters k info with
    | .error e => .error e
    | .ok info1 => runAccounting mux json k rest info1

/-- The number of `updateConnectionInfo` calls in a sequence. -/
def numUpdates : List AccountingCall → Nat
  | [] => 0
  | .update _ _ _ _ _ :: rest => numUpdates rest + 1
  | .decrement :: rest => numUpdates rest

/-- The number of `decrementActiveWriters` calls in a sequence. -/
def numDecrements : List AccountingCall → Nat
  | [] => 0
  | .update _ _ _ _ _ :: rest => numDecrements rest
  | .decrement :: rest => numDecrements rest + 1

/-- Every update of the sequence produces the key `k`. -/
def producesKey (mux : TCPMux) (json : JSONDecoder) (k : String) : List AccountingCall → Prop
  | [] => True
  | .update now parts h src dst :: rest =>
    connectionKey (newConnectionInfo mux json now parts h src dst) = k ∧ producesKey mux json k rest
  | .decrement :: rest => producesKey mux json k rest

/-- The state of the entry of `k` that goes with `b` open writers. -/
def EntryCounts (k : String) (b : Int) (info : MuxConnectionInfo) : Prop :=
  (0 < b → ∃ e : TCPMuxConnectionInfo, info.get k = some e ∧ e.ActiveWriters = b) ∧
  (b = 0 → info.get k = none)

/-- The key of every connection from `sampleConn` to the backend `127.0.0.1:9000`. -/
def sampleKey : String :=
  connectionKey (newConnectionInfo sampleMux sampleJSON 0 ["127.0.0.1", "9000"] (by decide)
    sampleConn (Conn.mk "127.0.0.1:9000" "127.0.0.1:40000"))

/-- Two connections under `sampleKey` that open one after the other and then
both end. -/
def sampleCalls : List AccountingCall :=
  [ .update 3 ["127.0.0.1", "9000"] (by decide) sampleConn (Conn.mk "127.0.0.1:9000" "127.0.0.1:40000"),
    .update 5 ["127.0.0.1", "9000"] (by decide) sampleConn (Conn.mk "127.0.0.1:9000" "127.0.0.1:40000"),
    .decrement,
    .decrement ]

/-- The backend end of the sample connections. -/
def sampleBackend : Conn := Conn.mk "127.0.0.1:9000" "127.0.0.1:40000"

/-- The entry of `sampleKey` created at time 3, with the given number of active
writers. -/
def sampleEntry (writers : Int) : TCPMuxConnectionInfo :=
  { newConnectionInfo sampleMux sampleJSON 3 ["127.0.0.1", "9000"] (by decide) sampleConn
      sampleBackend with ActiveWriters := writers }

/-- One more connection under `sampleKey`, opened at time 5. -/
def sampleUpdate : AccountingCall :=
  .update 5 ["127.0.0.1", "9000"] (by decide) sampleConn sampleBackend

/-- The run of `n` connections under `sampleKey` that all open before the first
of them ends. -/
def sampleRun (n : Nat) : List AccountingCall :=
  List.replicate n sampleUpdate ++ List.replicate n .decrement

end Proxy

/-! ## domain/service: the service record -/

/-- A log tag of a log config (`servicedefinition.LogTag`). -/
structure LogTag where
  Name : String := ""
  Value : String := ""
  deriving DecidableEq, Repr

/-- A log config of a service (`servicedefinition.LogConfig`); `Type_` is its Go
field `Type`. -/
structure LogConfig where
  Path : String := ""
  Type_ : String := ""
  Filters : List String := []
  LogTags : List LogTag := []
  deriving DecidableEq, Repr

/-- An address assignment as carried on an endpoint. -/
structure AddressAssignment where
  ID : String := ""
  AssignmentType : String := ""
  HostID : String := ""
  PoolID : String := ""
  IPAddr : String := ""
  Port : Nat := 0
  ServiceID : String := ""
  EndpointName : String := ""
  deriving DecidableEq, Repr

/-- The address an endpoint asks for (`servicedefinition.AddressResourceConfig`). -/
structure AddressResourceConfig where
  Port : Nat := 0
  Protocol : String := ""
  deriving DecidableEq, Repr

/-- An endpoint declared on a service (`service.ServiceEndpoint`). -/
structure ServiceEndpoint where
  Name : String := ""
  Purpose : String := ""
  Protocol : String := ""
  PortNumber : Nat := 0
  Application : String := ""
  ApplicationTemplate : String := ""
  VirtualAddress : String := ""
  VHosts : List String := []
  AddressConfig : AddressResourceConfig := {}
  AddressAssignment : AddressAssignment := {}
  deriving DecidableEq, Repr

/-- A config file attached to a service (`servicedefinition.ConfigFile`). -/
structure ConfigFile where
  Filename : String := ""
  Owner : String := ""
  Permissions : String := ""
  Content : String := ""
  Updated : Nat := 0
  Deleted : Bool := false
  Commit : String := ""
  deriving DecidableEq, Repr

/-- The service record (`service.Service`).  `ConfigFiles` is `none` for a nil
map. -/
structure Service where
  ID : String := ""
  Name : String := ""
  Description : String := ""
  Context : String := ""
  Startup : String := ""
  Instances : Int := 0
  ImageID : String := ""
  PoolID : String := ""
  DesiredState : Int := 0
  Launch : String := ""
  ParentServiceID : String := ""
  RAMCommitment : Nat := 0
  Runs : GoMap String := []
  Actions : GoMap String := []
  Endpoints : List ServiceEndpoint := []
  LogConfigs : List LogConfig := []
  ConfigFiles : Option (GoMap ConfigFile) := none
  deriving DecidableEq, Repr

/-- The lookup `gs(id)` handed to tenant lookup and to the template functions: the
service with that id, or the error. -/
abbrev GetService := String → Except String Service

/-- Applying `f` to the element at index `i`, as the Go assignment
`xs[i].field = v` does. -/
def modifyAt {α : Type} (f : α → α) : Nat → List α → List α
  | _, [] => []
  | 0, x :: xs => f x :: xs
  | i + 1, x :: xs => x :: modifyAt f i xs

/-! ## domain/service/evaluate.go -/

/-- Go `text/template` as used by `evaluate.go`, with the function map
`parent`/`context` built from `gs`: `parseError t` is the error of
`template.New(..).Funcs(..).Parse(t)` when `t` is not a valid template, and
`execute gs t service` the outcome of `t.Execute(&buffer, service)`, the buffer
contents or the error. -/
structure TemplateEngine where
  parseError : String → Option String
  execute : GetService → String → Service → Except String String

/-- The text contains the left action delimiter of `text/template`, two opening
braces in a row. -/
def hasAction (t : String) : Bool :=
  (List.zip t.data t.data.tail).any fun p => p.1 = Char.ofNat 123 && p.2 = Char.ofNat 123

/-- The engine treats text without an action delimiter as `text/template` does: it
parses, and executing it prints the text as it is. -/
def PrintsPlainText (eng : TemplateEngine) : Prop :=
  ∀ (gs : GetService) (t : String) (service : Service),
    hasAction t = false → eng.parseError t = none ∧ eng.execute gs t service = .ok t

namespace Service

/-- `Service.evaluateTemplate`.  `template.Must` panics when parsing fails; an
execution error gives the empty string. -/
def evaluateTemplate (eng : TemplateEngine) (gs : GetService) (service : Service)
    (serviceTemplate : String) : Panicking String :=
  match eng.parseError serviceTemplate with
  | some err => .error err
  | none =>
    match eng.execute gs serviceTemplate service with
    | .ok out => .ok out
    | .error _ => .ok ""

/-- `Service.EvaluateStartupTemplate`: the service afterwards and the returned
error (always nil). -/
def EvaluateStartupTemplate (eng : TemplateEngine) (gs : GetService) (service : Service) :
    Panicking (Service × Option String) :=
  match evaluateTemplate eng gs service service.Startup with
  | .error p => .error p
  | .ok result =>
    if result ≠ "" then .ok ({ service with Startup := result }, none)
    else .ok (service, none)

/-- The loop of `EvaluateActionsTemplate` over the entries `key, value` of
`service.Actions` still to be visited. -/
def actionsLoop (eng : TemplateEngine) (gs : GetService) :
    List (String × String) → Service → Panicking Service
  | [], service => .ok service
  | (key, value) :: rest, service =>
    match evaluateTemplate eng gs service value with
    | .error p => .error p
    | .ok result =>
      if result ≠ "" then
        actionsLoop eng gs rest { service with Actions := service.Actions.set key result }
      else actionsLoop eng gs rest service

/-- `Service.EvaluateActionsTemplate`.  The entries are visited in the order of
the list that holds the map; Go leaves the order open. -/
def EvaluateActionsTemplate (eng : TemplateEngine) (gs : GetService) (service : Service) :
    Panicking (Service × Option String) :=
  match actionsLoop eng gs service.Actions service with
  | .error p => .error p
  | .ok service1 => .ok (service1, none)

/-- The loop of `EvaluateRunsTemplate` over the entries `key, value` of
`service.Runs` still to be visited. -/
def runsLoop (eng : TemplateEngine) (gs : GetService) :
    List (String × String) → Service → Panicking Service
  | [], service => .ok service
  | (key, value) :: rest, service =>
    match evaluateTemplate eng gs service value with
    | .error p => .error p
    | .ok result =>
      if result ≠ "" then
        runsLoop eng gs rest { service with Runs := service.Runs.set key result }
      else runsLoop eng gs rest service

/-- `Service.EvaluateRunsTemplate`. -/
def EvaluateRunsTemplate (eng : TemplateEngine) (gs : GetService) (service : Service) :
    Panicking (Service × Option String) :=
  match runsLoop eng gs service.Runs service with
  | .error p => .error p
  | .ok service1 => .ok (service1, none)

/-- The assignment `service.LogConfigs[i].LogTags[j].Value = result`. -/
def setLogTagValue (service : Service) (i j : Nat) (result : String) : Service :=
  { service with
    LogConfigs :=
      modifyAt (fun lc => { lc with LogTags := modifyAt (fun t => { t with Value := result }) j lc.LogTags })
        i service.LogConfigs }

/-- The inner loop of `EvaluateLogConfigTemplate` over the tags `j, tag` of log
config `i` still to be visited. -/
def logTagsLoop (eng : TemplateEngine) (gs : GetService) (i : Nat) :
    Nat → List LogTag → Service → Panicking Service
  | _, [], service => .ok service
  | j, tag :: rest, service =>
    match evaluateTemplate eng gs service tag.Value with
    | .error p => .error p
    | .ok result =>
      if result ≠ "" then logTagsLoop eng gs i (j + 1) rest (setLogTagValue service i j result)
      else logTagsLoop eng gs i (j + 1) rest service

/-- The outer loop of `EvaluateLogConfigTemplate` over the log configs
`i, logConfig` still to be visited. -/
def logConfigsLoop (eng : TemplateEngine) (gs : GetService) :
    Nat → List LogConfig → Service → Panicking Service
  | _, [], service => .ok service
  | i, logConfig :: rest, service =>
    match evaluateTemplate eng gs service logConfig.Path with
    | .error p => .error p
    | .ok result =>
      let service1 :=
        if result ≠ "" then
          { service with
            LogConfigs := modifyAt (fun lc => { lc with Path := result }) i service.LogConfigs }
        else service
      match evaluateTemplate eng gs service1 logConfig.Type_ with
      | .error p => .error p
      | .ok result =>
        let service2 :=
          if result ≠ "" then
            { service1 with
              LogConfigs := modifyAt (fun lc => { lc with Type_ := result }) i service1.LogConfigs }
          else service1
        match logTagsLoop eng gs i 0 logConfig.LogTags service2 with
        | .error p => .error p
        | .ok service3 => logConfigsLoop eng gs (i + 1) rest service3

/-- `Service.EvaluateLogConfigTemplate`. -/
def EvaluateLogConfigTemplate (eng : TemplateEngine) (gs : GetService) (service : Service) :
    Panicking (Service × Option String) :=
  match logConfigsLoop eng gs 0 service.LogConfigs service with
  | .error p => .error p
  | .ok service1 => .ok (service1, none)

/-- The template `EvaluateEndpointTemplates` expands for an endpoint: its
`ApplicationTemplate`, or its `Application` when that is set and the template is
not. -/
def effectiveTemplate (ep : ServiceEndpoint) : String :=
  if ep.Application ≠ "" ∧ ep.ApplicationTemplate = "" then ep.Application
  else ep.ApplicationTemplate

/-- The loop of `EvaluateEndpointTemplates` over the endpoints `i, ep` still to
be visited: the service afterwards and the returned error. -/
def endpointsLoop (eng : TemplateEngine) (gs : GetService) :
    Nat → List ServiceEndpoint → Service → Panicking (Service × Option String)
  | _, [], service => .ok (service, none)
  | i, ep :: rest, service =>
    let service1 : Service :=
      if ep.Application ≠ "" ∧ ep.ApplicationTemplate = "" then
        { service with
          Endpoints :=
            modifyAt (fun e => { e with ApplicationTemplate := ep.Application }) i service.Endpoints }
      else service
    if effectiveTemplate ep ≠ "" then
      match eng.parseError (effectiveTemplate ep) with
      | some err => .error err
      | none =>
        match eng.execute gs (effectiveTemplate ep) service1 with
        | .ok out =>
          endpointsLoop eng gs (i + 1) rest
            { service1 with
              Endpoints := modifyAt (fun e => { e with Application := out }) i service1.Endpoints }
        | .error err => .ok (service1, some err)
    else endpointsLoop eng gs (i + 1) rest service1

/-- `Service.EvaluateEndpointTemplates`. -/
def EvaluateEndpointTemplates (eng : TemplateEngine) (gs : GetService) (service : Service) :
    Panicking (Service × Option String) :=
  endpointsLoop eng gs 0 service.Endpoints service

/-- The retain-or-replace policy for one templated value: `final` is the
expansion of `original` over the context `ctx` when that is non-empty, and
`original` when the expansion is empty or fails. -/
def RetainOrReplace (eng : TemplateEngine) (gs : GetService) (ctx : Service)
    (original final : String) : Prop :=
  (∀ out : String, eng.execute gs original ctx = .ok out → out ≠ "" → final = out) ∧
  (eng.execute gs original ctx = .ok "" → final = original) ∧
  (∀ err : String, eng.execute gs original ctx = .error err → final = original)

/-- The policy for one entry of `Runs`: the key is kept, and the value follows
`RetainOrReplace` over the service as it stands when the value is expanded, which
differs from the service given at most in `Runs`. -/
def RunsPolicy (eng : TemplateEngine) (gs : GetService) (service : Service)
    (entry entry1 : String × String) : Prop :=
  entry1.1 = entry.1 ∧
  ∃ ctx : Service, { ctx with Runs := service.Runs } = service ∧
    RetainOrReplace eng gs ctx entry.2 entry1.2

/-- The policy for one entry of `Actions`, as `RunsPolicy`. -/
def ActionsPolicy (eng : TemplateEngine) (gs : GetService) (service : Service)
    (entry entry1 : String × String) : Prop :=
  entry1.1 = entry.1 ∧
  ∃ ctx : Service, { ctx with Actions := service.Actions } = service ∧
    RetainOrReplace eng gs ctx entry.2 entry1.2

/-- The policy for one log tag: the name is kept and the value follows
`RetainOrReplace` over a service that differs from the one given at most in
`LogConfigs`. -/
def LogTagPolicy (eng : TemplateEngine) (gs : GetService) (service : Service)
    (tag tag1 : LogTag) : Prop :=
  tag1.Name = tag.Name ∧
  ∃ ctx : Service, { ctx with LogConfigs := service.LogConfigs } = service ∧
    RetainOrReplace eng gs ctx tag.Value tag1.Value

/-- The policy for one log config: the filters are kept, path and type follow
`RetainOrReplace`, and the tags correspond one to one under `LogTagPolicy`. -/
def LogConfigPolicy (eng : TemplateEngine) (gs : GetService) (service : Service)
    (lc lc1 : LogConfig) : Prop :=
  lc1.Filters = lc.Filters ∧
  (∃ ctx : Service, { ctx with LogConfigs := service.LogConfigs } = service ∧
    RetainOrReplace eng gs ctx lc.Path lc1.Path) ∧
  (∃ ctx : Service, { ctx with LogConfigs := service.LogConfigs } = service ∧
    RetainOrReplace eng gs ctx lc.Type_ lc1.Type_) ∧
  List.Forall₂ (LogTagPolicy eng gs service) lc.LogTags lc1.LogTags

/-- Every template of the startup command, the runs, the actions and the log
configs of the service parses. -/
def TemplatesParse (eng : TemplateEngine) (service : Service) : Prop :=
  eng.parseError service.Startup = none ∧
  (∀ entry ∈ service.Runs, eng.parseError entry.2 = none) ∧
  (∀ entry ∈ service.Actions, eng.parseError entry.2 = none) ∧
  (∀ lc ∈ service.LogConfigs,
    eng.parseError lc.Path = none ∧ eng.parseError lc.Type_ = none ∧
    ∀ tag ∈ lc.LogTags, eng.parseError tag.Value = none)

/-- What `EvaluateEndpointTemplates`, returning the error `err`, has done to an
endpoint `ep`, now `ep1`, over a service `ctx` that differs from the one given at
most in `Endpoints`: nothing, as `ep` has no template; or the template was
expanded and `Application` is the expansion, empty or not; or the expansion
failed with the error returned and `Application` is as before; or an earlier
endpoint failed and `ep` was not visited. -/
def EndpointOutcome (eng : TemplateEngine) (gs : GetService) (service : Service)
    (err : Option String) (ep ep1 : ServiceEndpoint) : Prop :=
  (effectiveTemplate ep = "" ∧ ep1 = ep) ∨
  (effectiveTemplate ep ≠ "" ∧ ∃ (ctx : Service) (out : String),
    { ctx with Endpoints := service.Endpoints } = service ∧
    eng.execute gs (effectiveTemplate ep) ctx = .ok out ∧
    ep1 = { ep with ApplicationTemplate := effectiveTemplate ep, Application := out }) ∨
  (effectiveTemplate ep ≠ "" ∧ ∃ (ctx : Service) (e : String),
    { ctx with Endpoints := service.Endpoints } = service ∧
    eng.execute gs (effectiveTemplate ep) ctx = .error e ∧ err = some e ∧
    ep1 = { ep with ApplicationTemplate := effectiveTemplate ep }) ∨
  (err ≠ none ∧ ep1 = ep)

end Service

/-- A sample engine.  It agrees with `text/template` on the templates used in the
examples: an unclosed action does not parse, a field action prints the field or
fails on a field the service does not have, and text without an action
delimiter is printed as it is.  Other templates are not supported by the sample. -/
def sampleEngine : TemplateEngine where
  parseError := fun t => if t = "\x7b\x7b" then some "unclosed action" else none
  execute := fun _ t service =>
    if t = "\x7b\x7b.Description\x7d\x7d" then .ok service.Description
    else if t = "\x7b\x7b.Name\x7d\x7d" then .ok service.Name
    else if t = "\x7b\x7b.NoSuchField\x7d\x7d" then .error "can not evaluate field NoSuchField"
    else if hasAction t then .error "not supported by the sample engine"
    else .ok t

/-- A sample lookup that knows no service. -/
def sampleGetService : GetService := fun _ => .error "No such entity"

/-- A sample service.  Its description is empty, so the startup template and the
tag value expand to the empty string; the action template fails; the run `name`
and the log type expand to the service name. -/
def sampleService : Service :=
  { ID := "app"
    Name := "app"
    Startup := "\x7b\x7b.Description\x7d\x7d"
    Runs := [("hello", "echo hello"), ("name", "\x7b\x7b.Name\x7d\x7d")]
    Actions := [("bad", "\x7b\x7b.NoSuchField\x7d\x7d")]
    LogConfigs :=
      [ { Path := "/var/log/app.log", Type_ := "\x7b\x7b.Name\x7d\x7d",
          LogTags := [ { Name := "env", Value := "\x7b\x7b.Description\x7d\x7d" } ] } ]
    Endpoints :=
      [ { Name := "web", Application := "webapp",
          ApplicationTemplate := "\x7b\x7b.Description\x7d\x7d" } ] }

/-! ## facade/service.go -/

namespace Facade

/-- The package variable `tenantIDs`, the memo from service id to tenant id. -/
abbrev TenantCache := GoMap String

/-- `lookUpTenant`. -/
def lookUpTenant (tenantIDs : TenantCache) (svcID : String) : Option String :=
  tenantIDs.get svcID

/-- `updateTenants`: `tenantIDs[id] = tenantID` for every given id, in order. -/
def updateTenants (tenantID : String) : List String → TenantCache → TenantCache
  | [], tenantIDs => tenantIDs
  | id :: rest, tenantIDs => updateTenants tenantID rest (tenantIDs.set id tenantID)

/-- The loop `for svc.ParentServiceID != ""` of `getTenantID` together with the
two statements after it.  Each iteration uses one unit of `fuel`; `none` when the
fuel runs out, which a Go run on a cyclic parent chain does not do: it never
returns. -/
def walkUp (gs : GetService) :
    Nat → Service → List String → TenantCache → Option ((String × Option String) × TenantCache)
  | 0, svc, visitedIDs, tenantIDs =>
    if svc.ParentServiceID ≠ "" then none
    else some ((svc.ID, none), updateTenants svc.ID visitedIDs tenantIDs)
  | fuel + 1, svc, visitedIDs, tenantIDs =>
    if svc.ParentServiceID ≠ "" then
      match lookUpTenant tenantIDs svc.ParentServiceID with
      | some tID => some ((tID, none), tenantIDs)
      | none =>
        match gs svc.ParentServiceID with
        | .error err => some (("", some err), tenantIDs)
        | .ok svc1 => walkUp gs fuel svc1 (visitedIDs ++ [svc1.ID]) tenantIDs
    else some ((svc.ID, none), updateTenants svc.ID visitedIDs tenantIDs)

/-- The function `getTenantID`: the returned `(string, error)` pair and the memo
afterwards. -/
def getTenantID (fuel : Nat) (svcID : String) (gs : GetService) (tenantIDs : TenantCache) :
    Option ((String × Option String) × TenantCache) :=
  match lookUpTenant tenantIDs svcID with
  | some tID => some ((tID, none), tenantIDs)
  | none =>
    match gs svcID with
    | .error err => some (("", some err), tenantIDs)
    | .ok svc => walkUp gs fuel svc [svc.ID] tenantIDs

/-- Modelled from the spec: the service store of the catalog, which is not among
the sources ("Document-style store. Each entity kind has an index on `id`",
with the operations `Get` and `Put`).  It holds the stored services. -/
abbrev ServiceStore := List Service

/-- Modelled from the spec: `store.Get(ctx, id)`, the stored service with that id
or the no-such-entity error. -/
def ServiceStore.Get (store : ServiceStore) (id : String) : Except String Service :=
  match store.find? (fun svc => svc.ID = id) with
  | some svc => .ok svc
  | none => .error "No such entity"

/-- Modelled from the spec: `store.Put(ctx, svc)`, which stores the service under
its id, in place of the service stored there before. -/
def ServiceStore.Put : ServiceStore → Service → ServiceStore
  | [], svc => [svc]
  | old :: rest, svc => if old.ID = svc.ID then svc :: rest else old :: ServiceStore.Put rest svc

/-- A stored config-file revision (`serviceconfigfile.SvcConfigFile`). -/
structure SvcConfigFile where
  ID : String := ""
  ServiceTenantID : String := ""
  ServicePath : String := ""
  ConfFile : ConfigFile := {}
  deriving DecidableEq, Repr

/-- A call into the coordination store made through `zkAPI`. -/
inductive ZkCall where
  | updateService (svc : Service)
  | removeService (svc : Service)
  deriving DecidableEq, Repr

/-- A call that changes the address-assignment store: `AssignAddress` with the
assignment handed over, or `RemoveAddressAssignment` with the id. -/
inductive AssignmentCall where
  | assign (assignment : AddressAssignment)
  | remove (id : String)
  deriving DecidableEq, Repr

/-- The mutable state the facade works on: the service store, the tenant memo,
the config-file revision store, the calls made into the coordination store, the
clock read by `time.Now()`, and the calls made so far that change the
address-assignment store. -/
structure FacadeState where
  services : ServiceStore := []
  tenantIDs : TenantCache := []
  configFiles : GoMap SvcConfigFile := []
  zkCalls : List ZkCall := []
  clock : Nat := 0
  assignmentCalls : List AssignmentCall := []
  deriving DecidableEq, Repr

/-- The collaborators of the facade that are not among the sources, each as the
function the facade calls. -/
structure Collaborators where
  /-- `f.getAddressAssignments(ctx, svc.ID)`: assignments by endpoint name. -/
  getAddressAssignments : String → Except String (GoMap AddressAssignment)
  /-- `svc.ValidEntity()`. -/
  validEntity : Service → Option String
  /-- `svc.GetPath(gs)`. -/
  getPath : GetService → Service → Except String String
  /-- `serviceconfigfile.New(tenantID, servicePath, conf)`. -/
  newSvcConfigFile : String → String → ConfigFile → Except String SvcConfigFile
  /-- The error of `svcStore.Put(ctx, svc)`, if it fails. -/
  putError : Service → Option String
  /-- The error of `zkAPI(f).removeService(svc)`. -/
  zkRemoveService : Service → Option String
  /-- The error of `zkAPI(f).updateService(svc)`. -/
  zkUpdateService : Service → Option String
  /-- The error of `f.validateServicesForStarting(ctx, &svc)`. -/
  validateServicesForStarting : Service → Option String
  /-- The error of `zkAPI(f).CheckRunningVHost(vh, svc.ID)`. -/
  checkRunningVHost : String → String → Option String
  /-- The error of `configStore.GetConfigFiles(ctx, tenantID, servicePath)`, if it
  fails. -/
  getConfigFilesError : String → String → Option String := fun _ _ => none
  /-- The error of `store.Get(ctx, id)` when the lookup fails for another reason
  than a missing entity. -/
  getFault : String → Option String := fun _ => none

/-- `Facade.getService`: the stored service, or the zero service with the error. -/
def getService (store : ServiceStore) (id : String) : Except String Service :=
  store.Get id

/-- `Facade.GetTenantID`: `getTenantID` over the lookup `f.getService`. -/
def GetTenantID (fuel : Nat) (store : ServiceStore) (tenantIDs : TenantCache)
    (serviceID : String) : Option ((String × Option String) × TenantCache) :=
  getTenantID fuel serviceID (getService store) tenantIDs

/-- `Facade.getTenantIDAndPath`: tenant id, path and error, and the state
afterwards. -/
def getTenantIDAndPath (env : Collaborators) (fuel : Nat) (st : FacadeState) (svc : Service) :
    Option ((String × String × Option String) × FacadeState) :=
  match GetTenantID fuel st.services st.tenantIDs svc.ID with
  | none => none
  | some ((tenantID, err), tenantIDs1) =>
    let st1 := { st with tenantIDs := tenantIDs1 }
    match err with
    | some e => some (("", "", some e), st1)
    | none =>
      match env.getPath (getService st.services) svc with
      | .error e => some (("", "", some e), st1)
      | .ok path => some ((tenantID, path, none), st1)

/-- `Facade.fillServiceAddr`: every endpoint gets the assignment recorded under
its name, or loses its assignment; on a lookup error the service is left as it
is and the error is returned. -/
def fillServiceAddr (env : Collaborators) (svc : Service) : Service × Option String :=
  match env.getAddressAssignments svc.ID with
  | .error e => (svc, some e)
  | .ok addrs =>
    ({ svc with
       Endpoints := svc.Endpoints.map fun ep =>
         match addrs.get ep.Name with
         | some assignment => { ep with AddressAssignment := assignment }
         | none => { ep with AddressAssignment := {} } }, none)

/-- `reflect.DeepEqual` on two `ConfigFiles` maps: both nil, or both non-nil with
the same number of keys and equal files under every key. -/
def configFilesDeepEqual : Option (GoMap ConfigFile) → Option (GoMap ConfigFile) → Bool
  | none, none => true
  | some a, some b => a.length == b.length && a.all fun kv => b.get kv.1 == some kv.2
  | _, _ => false

/-- The entries of a possibly nil map. -/
def entriesOf {α : Type} : Option (GoMap α) → GoMap α
  | none => []
  | some m => m

/-- The first loop of the config-file part of `updateService`, over the entries
`key, conf` of `svc.ConfigFiles` still to be visited: `oldConfigs` loses the keys
met, and a revision stamped with the current time is stored for every file that
is new or differs from the old one.  Returns the error of
`serviceconfigfile.New`, the remaining `oldConfigs` and the state. -/
def writeRevisions (env : Collaborators) (tenantID servicePath : String) :
    List (String × ConfigFile) → GoMap ConfigFile → FacadeState →
      Option String × GoMap ConfigFile × FacadeState
  | [], oldConfigs, st => (none, oldConfigs, st)
  | (key, conf) :: rest, oldConfigs, st =>
    let found := oldConfigs.get key
    let oldConfigs1 := if found.isSome then oldConfigs.delete key else oldConfigs
    if found = some conf then writeRevisions env tenantID servicePath rest oldConfigs1 st
    else
      let conf1 := { conf with Updated := st.clock }
      let st1 := { st with clock := st.clock + 1 }
      match env.newSvcConfigFile tenantID servicePath conf1 with
      | .error e => (some e, oldConfigs1, st1)
      | .ok newConf =>
        writeRevisions env tenantID servicePath rest oldConfigs1
          { st1 with configFiles := st1.configFiles.set newConf.ID newConf }

/-- The second loop of the config-file part of `updateService`, over the files
left in `oldConfigs`: a tombstone revision is stored for each.  The flag is true
when `serviceconfigfile.New` failed, on which `updateService` returns nil. -/
def writeTombstones (env : Collaborators) (tenantID servicePath : String) :
    List (String × ConfigFile) → FacadeState → Bool × FacadeState
  | [], st => (false, st)
  | (_, conf) :: rest, st =>
    let conf1 := { conf with Content := "", Deleted := true, Updated := st.clock }
    let st1 := { st with clock := st.clock + 1 }
    match env.newSvcConfigFile tenantID servicePath conf1 with
    | .error _ => (true, st1)
    | .ok newConf =>
      writeTombstones env tenantID servicePath rest
        { st1 with configFiles := st1.configFiles.set newConf.ID newConf }

/-- The end of `updateService`: `svcStore.Put`, then the coordination store, where
the service is removed first when its pool changed and updated unless that
removal failed. -/
def putAndPublish (env : Collaborators) (st : FacadeState) (oldSvc svc : Service) :
    Option String × FacadeState :=
  match env.putError svc with
  | some e => (some e, st)
  | none =>
    let st1 := { st with services := st.services.Put svc }
    if oldSvc.PoolID ≠ svc.PoolID then
      let st2 := { st1 with zkCalls := st1.zkCalls ++ [.removeService oldSvc] }
      match env.zkRemoveService oldSvc with
      | some e => (some e, st2)
      | none =>
        (env.zkUpdateService svc, { st2 with zkCalls := st2.zkCalls ++ [.updateService svc] })
    else (env.zkUpdateService svc, { st1 with zkCalls := st1.zkCalls ++ [.updateService svc] })

/-- `Facade.updateService`: the returned error and the state afterwards; `none`
when the tenant lookup inside does not return. -/
def updateService (env : Collaborators) (fuel : Nat) (st : FacadeState) (svc : Service) :
    Option (Option String × FacadeState) :=
  let id := TrimSpace svc.ID
  if id = "" then some (some "empty Service.ID not allowed", st)
  else
    let svc := (fillServiceAddr env { svc with ID := id }).1
    match st.services.Get svc.ID with
    | .error e => some (some e, st)
    | .ok oldSvc =>
      if configFilesDeepEqual oldSvc.ConfigFiles svc.ConfigFiles then
        some (putAndPublish env st oldSvc svc)
      else
        match env.validEntity svc with
        | some e => some (some e, st)
        | none =>
          match getTenantIDAndPath env fuel st svc with
          | none => none
          | some ((_, _, some e), st1) => some (some e, st1)
          | some ((tenantID, servicePath, none), st1) =>
            match writeRevisions env tenantID servicePath (entriesOf svc.ConfigFiles)
                (entriesOf oldSvc.ConfigFiles) st1 with
            | (some e, _, st2) => some (some e, st2)
            | (none, oldConfigs, st2) =>
              match writeTombstones env tenantID servicePath oldConfigs st2 with
              | (true, st3) => some (none, st3)
              | (false, st3) =>
                some (putAndPublish env st3
                  { oldSvc with ConfigFiles := oldSvc.ConfigFiles.map fun _ => oldConfigs } svc)

/-- The constant `service.SVCRun`. -/
def SVCRun : Int := 1

/-- `svc.GetServiceVHosts()`: the endpoints that declare virtual hosts. -/
def GetServiceVHosts (svc : Service) : List ServiceEndpoint :=
  svc.Endpoints.filter fun ep => ep.VHosts ≠ []

/-- The first error of `CheckRunningVHost` over the virtual hosts of the service,
in the order of the two loops of `UpdateService`. -/
def firstVHostError (env : Collaborators) (svc : Service) : Option String :=
  ((GetServiceVHosts svc).flatMap fun ep => ep.VHosts).findSome? fun vh =>
    env.checkRunningVHost vh svc.ID

/-- `Facade.UpdateService`. -/
def UpdateService (env : Collaborators) (fuel : Nat) (st : FacadeState) (svc : Service) :
    Option (Option String × FacadeState) :=
  if svc.DesiredState = SVCRun then
    match env.validateServicesForStarting svc with
    | some e => some (some e, st)
    | none =>
      match firstVHostError env svc with
      | some e => some (some e, st)
      | none => updateService env fuel st svc
  else updateService env fuel st svc

/-- The memos that calls of `GetTenantID` over one store lead to from the empty
memo. -/
inductive ReachableCache (store : ServiceStore) : TenantCache → Prop where
  | empty : ReachableCache store []
  | step (tenantIDs tenantIDs1 : TenantCache) (fuel : Nat) (serviceID : String)
      (r : String × Option String) :
      ReachableCache store tenantIDs →
      GetTenantID fuel store tenantIDs serviceID = some (r, tenantIDs1) →
      ReachableCache store tenantIDs1

/-- Service `a` is `x` itself or one of its ancestors in the store: the parent
references lead from `x` to `a` through stored services. -/
inductive AncestorOrSelf (store : ServiceStore) : String → String → Prop where
  | self (x : String) (svc : Service) : store.Get x = .ok svc → AncestorOrSelf store x x
  | parent (x a : String) (svc : Service) :
      store.Get x = .ok svc → svc.ParentServiceID ≠ "" →
      AncestorOrSelf store svc.ParentServiceID a → AncestorOrSelf store x a

/-- Service `r` is the root of the parent chain of `x`: an ancestor-or-self of `x`
whose `ParentServiceID` is empty. -/
def IsRootOf (store : ServiceStore) (x r : String) : Prop :=
  AncestorOrSelf store x r ∧ ∃ svc : Service, store.Get r = .ok svc ∧ svc.ParentServiceID = ""

/-- A lookup on the parent chain of `x` fails with `err`: all services up to
some ancestor-or-self exist and have a parent, and the next lookup fails. -/
inductive ChainFails (store : ServiceStore) : String → String → Prop where
  | here (x err : String) : store.Get x = .error err → ChainFails store x err
  | above (x err : String) (svc : Service) :
      store.Get x = .ok svc → svc.ParentServiceID ≠ "" →
      ChainFails store svc.ParentServiceID err → ChainFails store x err

/-- The lookup returns services under the id asked for. -/
def Keyed (gs : GetService) : Prop :=
  ∀ (id : String) (svc : Service), gs id = .ok svc → svc.ID = id

/-- How a run of `getTenantID` from the memo `tenantIDs` can end with the result
`r` and the memo `tenantIDs1`: with a lookup error and the memo untouched; with a
memo hit and the memo untouched; or at a root, whose id is then stored for the
ids visited, none of which was in the memo before. -/
def TenantOutcome (gs : GetService) (tenantIDs : TenantCache) (first : List String)
    (r : String × Option String) (tenantIDs1 : TenantCache) : Prop :=
  (tenantIDs1 = tenantIDs ∧ ∃ e : String, r = ("", some e)) ∨
  (tenantIDs1 = tenantIDs ∧ r.2 = none ∧ ∃ k : String, tenantIDs.get k = some r.1) ∨
  (r.2 = none ∧ ∃ more : List String,
    tenantIDs1 = updateTenants r.1 (first ++ more) tenantIDs ∧
    (∀ v ∈ more, tenantIDs.get v = none) ∧ r.1 ∈ first ++ more ∧
    ∃ root : Service, gs r.1 = .ok root ∧ root.ParentServiceID = "")

/-- Every tenant id in the memo is its own tenant. -/
def FixedCache (tenantIDs : TenantCache) : Prop :=
  ∀ k t : String, tenantIDs.get k = some t → tenantIDs.get t = some t

/-- A sample store: the tenants `tenantA` and `tenantB`, and the service `app`
under `tenantA`. -/
def sampleStore : ServiceStore :=
  [ { ID := "tenantA" }, { ID := "tenantB" }, { ID := "app", ParentServiceID := "tenantA" } ]

/-- Sample collaborators: no address assignments, and nothing fails. -/
def sampleEnv : Collaborators where
  getAddressAssignments := fun _ => .ok []
  validEntity := fun _ => none
  getPath := fun _ svc => .ok ("/" ++ svc.ID)
  newSvcConfigFile := fun tenantID servicePath conf =>
    .ok { ID := tenantID ++ servicePath ++ conf.Filename, ServiceTenantID := tenantID,
          ServicePath := servicePath, ConfFile := conf }
  putError := fun _ => none
  zkRemoveService := fun _ => none
  zkUpdateService := fun _ => none
  validateServicesForStarting := fun _ => none
  checkRunningVHost := fun _ _ => none

/-- The memo after `GetTenantID("app")` on the sample store. -/
def sampleMemo : TenantCache := [("app", "tenantA"), ("tenantA", "tenantA")]

/-- The sample store after `app` has been moved under `tenantB`. -/
def reparentedStore : ServiceStore :=
  [ { ID := "tenantA" }, { ID := "tenantB" }, { ID := "app", ParentServiceID := "tenantB" } ]

/-- The service `app` as submitted for the move under `tenantB`. -/
def reparentedApp : Service := { ID := "app", ParentServiceID := "tenantB" }

end Facade

namespace Service

/-- Applying an evaluation to the service a first application of it returns. -/
def evaluateTwice (evaluate : Service → Panicking (Service × Option String))
    (service : Service) : Panicking (Service × Option String) :=
  match evaluate service with
  | .error p => .error p
  | .ok (service1, _) => evaluate service1

end Service

/-! ## domain/service/evaluate.go: the accessors `parent` and `context` -/

mutual
/-- A value of a JSON object decoded by `json.Unmarshal` into
`map[string]interface{}`: a number (a `float64`; the numbers kept are the
integers), a string, a boolean, null, an array or an object. -/
inductive JSONValue where
  | number (n : Int)
  | string (s : String)
  | bool (b : Bool)
  | null
  | array (items : JSONArray)
  | object (fields : JSONObject)
  deriving DecidableEq, Repr
/-- The items of a decoded JSON array (`[]interface{}`). -/
inductive JSONArray where
  | nil
  | cons (head : JSONValue) (tail : JSONArray)
  deriving DecidableEq, Repr
/-- The members of a decoded JSON object inside another value
(`map[string]interface{}`), by key. -/
inductive JSONObject where
  | nil
  | cons (key : String) (value : JSONValue) (tail : JSONObject)
  deriving DecidableEq, Repr
end

/-- The map read `v, ok := m[k]` on a decoded JSON object. -/
def JSONObject.get : JSONObject → String → Option JSONValue
  | .nil, _ => none
  | .cons key value tail, k => if key = k then some value else JSONObject.get tail k

/-- The `float64` nearest to the natural number `n`, a tie going to the even
mantissa, as the decoder rounds a number; numbers from `2^1024` on are not
decoded. -/
def roundFloat64 (n : Nat) : Nat :=
  if n < 2 ^ 53 then n
  else
    let e := Nat.log2 n - 52
    let q := n / 2 ^ e
    let r := n % 2 ^ e
    let m := if 2 * r > 2 ^ e ∨ (2 * r = 2 ^ e ∧ q % 2 = 1) then q + 1 else q
    m * 2 ^ e

/-- The shortest decimal `strconv` prints for the `float64` with the integer
value `v` of `digits` decimal digits: with `p` significant digits, then `p + 1`,
and so on, the value cut after these digits or the next decimal above it, as
soon as one of them is read back as `v`; the nearer one when both are. -/
def shortestDecimal (v digits : Nat) : Nat → Nat → Nat
  | 0, _ => v
  | fuel + 1, p =>
    let s := 10 ^ (digits - p)
    let down := v / s * s
    let up := down + s
    if roundFloat64 down = v ∧ roundFloat64 up = v then
      if 2 * (v - down) < s then down
      else if s < 2 * (v - down) then up
      else if (v / s) % 2 = 0 then down else up
    else if roundFloat64 down = v then down
    else if roundFloat64 up = v then up
    else shortestDecimal v digits fuel (p + 1)

/-- The digits without the zeros at their end. -/
def dropTrailingZeros (ds : List Char) : List Char :=
  (ds.reverse.dropWhile fun c => c = '0').reverse

/-- What `fmt` prints with `%v` for the `float64` decoded from the integer `n`
(the format `%g` with the shortest digits): the decimal digits of the value below
`10^6`, and from there on one digit, the further digits after a point, and the
exponent with at least two digits, as in `1.234567e+06`. -/
def formatFloat64 (n : Int) : String :=
  let v := roundFloat64 n.natAbs
  if v < 1000000 then toString n
  else
    let digits := (toString v).length
    let ds := (toString (shortestDecimal v digits digits 1)).data
    let mantissa := dropTrailingZeros ds
    (if n < 0 then "-" else "") ++ String.mk (mantissa.take 1) ++
      (if mantissa.length > 1 then "." ++ String.mk (mantissa.drop 1) else "") ++
      "e+" ++ (if ds.length - 1 < 10 then "0" else "") ++ toString (ds.length - 1)

/-- The entries `key:value` of a map as `fmt` prints them, in the order of the
keys, with a blank between two entries. -/
def joinEntries (entries : List (String × String)) : String :=
  " ".intercalate
    ((entries.insertionSort fun a b => a.1 ≤ b.1).map fun e => e.1 ++ ":" ++ e.2)

mutual
/-- What `fmt` prints with `%v` for a decoded JSON value: a number as a
`float64`, a string as it is, `<nil>` for null, an array as `[1 2]` and an object
as `map[a:1 b:2]`, the keys in their order. -/
def JSONValue.print : JSONValue → String
  | .number n => formatFloat64 n
  | .string s => s
  | .bool b => if b then "true" else "false"
  | .null => "<nil>"
  | .array items => "[" ++ " ".intercalate (JSONArray.print items) ++ "]"
  | .object fields => "map[" ++ joinEntries (JSONObject.print fields) ++ "]"
/-- The printed items of an array. -/
def JSONArray.print : JSONArray → List String
  | .nil => []
  | .cons head tail => JSONValue.print head :: JSONArray.print tail
/-- The members of an object, every value printed. -/
def JSONObject.print : JSONObject → List (String × String)
  | .nil => []
  | .cons key value tail => (key, JSONValue.print value) :: JSONObject.print tail
end

/-- `json.Unmarshal([]byte(text), &ctx)` for `ctx map[string]interface{}`: the
decoded object, or the error. -/
abbrev Unmarshal := String → Except String (GoMap JSONValue)

/-- A value met while a template is executed: the service, a decoded JSON object,
a value of such an object, or the missing value of an absent map key. -/
inductive TemplateValue where
  | service (s : Service)
  | object (fields : GoMap JSONValue)
  | json (v : JSONValue)
  | noValue
  deriving DecidableEq, Repr

/-- The expressions of the actions used with services: the dot, a field or key of
a value, and a call of a function of the function map on one argument. -/
inductive TemplateExpr where
  | dot
  | field (e : TemplateExpr) (name : String)
  | call (fn : String) (arg : TemplateExpr)
  deriving DecidableEq, Repr

/-- A parsed template is a list of nodes: text, copied to the output, and actions,
whose value is printed. -/
inductive TemplateNode where
  | text (s : String)
  | action (e : TemplateExpr)
  deriving DecidableEq, Repr

namespace Service

/-- The function `parent(gs)` of the function map: the service with the id
`s.ParentServiceId`, looked up through `gs`. -/
def parent (gs : GetService) (s : Service) : Except String Service :=
  gs s.ParentServiceID

/-- The function `context(gs)` of the function map: the JSON object in
`s.Context`, the context of the service it is applied to; `gs` is not used. -/
def context (unmarshal : Unmarshal) (_gs : GetService) (s : Service) :
    Except String (GoMap JSONValue) :=
  unmarshal s.Context

/-- The fields of string type of a service, by name, as a field action reads
them.  The names are those of the struct `evaluate.go` works on, in which the id
of a service is the field `Id` and the id of its parent `ParentServiceId`. -/
def stringField (s : Service) (name : String) : Except String TemplateValue :=
  if name = "Id" then .ok (.json (.string s.ID))
  else if name = "Name" then .ok (.json (.string s.Name))
  else if name = "Description" then .ok (.json (.string s.Description))
  else if name = "Context" then .ok (.json (.string s.Context))
  else if name = "Startup" then .ok (.json (.string s.Startup))
  else if name = "ImageID" then .ok (.json (.string s.ImageID))
  else if name = "PoolID" then .ok (.json (.string s.PoolID))
  else if name = "Launch" then .ok (.json (.string s.Launch))
  else if name = "ParentServiceId" then .ok (.json (.string s.ParentServiceID))
  else .error ("can not evaluate field " ++ name)

/-- The value of an expression when the dot is `service`.  A function that returns
an error stops the execution with that error. -/
def evalExpr (unmarshal : Unmarshal) (gs : GetService) (service : Service) :
    TemplateExpr → Except String TemplateValue
  | .dot => .ok (.service service)
  | .field e name =>
    match evalExpr unmarshal gs service e with
    | .error err => .error err
    | .ok (.service s) => stringField s name
    | .ok (.object fields) =>
      match fields.get name with
      | some v => .ok (.json v)
      | none => .ok .noValue
    | .ok (.json (.object fields)) =>
      match fields.get name with
      | some v => .ok (.json v)
      | none => .ok .noValue
    | .ok _ => .error ("can not evaluate field " ++ name)
  | .call fn arg =>
    match evalExpr unmarshal gs service arg with
    | .error err => .error err
    | .ok (.service s) =>
      if fn = "parent" then
        match parent gs s with
        | .error err => .error err
        | .ok p => .ok (.service p)
      else if fn = "context" then
        match context unmarshal gs s with
        | .error err => .error err
        | .ok ctx => .ok (.object ctx)
      else .error ("function not defined: " ++ fn)
    | .ok _ => .error ("wrong type of argument for " ++ fn)

/-- The text an action prints for a value, which is what `fmt` prints for it with
`%v`; a null, like a missing key, is printed as `<no value>`.  The struct of the
service is declared outside the sources, and the printing of a whole service is
not modelled. -/
def printValue : TemplateValue → Except String String
  | .json .null => .ok "<no value>"
  | .json v => .ok v.print
  | .noValue => .ok "<no value>"
  | .service _ => .error "printing is not modelled"
  | .object fields =>
    .ok ("map[" ++ joinEntries (fields.map fun kv => (kv.1, kv.2.print)) ++ "]")

/-- `t.Execute(&buffer, service)` on a parsed template: the output, or the first
error. -/
def executeNodes (unmarshal : Unmarshal) (gs : GetService) (service : Service) :
    List TemplateNode → Except String String
  | [] => .ok ""
  | .text s :: rest =>
    match executeNodes unmarshal gs service rest with
    | .error err => .error err
    | .ok out => .ok (s ++ out)
  | .action e :: rest =>
    match evalExpr unmarshal gs service e with
    | .error err => .error err
    | .ok v =>
      match printValue v with
      | .error err => .error err
      | .ok printed =>
        match executeNodes unmarshal gs service rest with
        | .error err => .error err
        | .ok out => .ok (printed ++ out)

/-- The engine made of a parser of templates and a JSON decoder, with the
function map `parent`, `context` of `evaluateTemplate`. -/
def templateEngine (parse : String → Except String (List TemplateNode))
    (unmarshal : Unmarshal) : TemplateEngine where
  parseError := fun t =>
    match parse t with
    | .error err => some err
    | .ok _ => none
  execute := fun gs t service =>
    match parse t with
    | .error err => .error err
    | .ok nodes => executeNodes unmarshal gs service nodes

/-- The startup template of the scenario, `connect` followed by the action
`(context .).port`. -/
def scenarioStartup : String := "connect \x7b\x7b(context .).port\x7d\x7d"

/-- The parsed `scenarioStartup`. -/
def scenarioNodes : List TemplateNode :=
  [.text "connect ", .action (.field (.call "context" .dot) "port")]

/-- The startup template that reads the port from the context of the parent
service, `connect` followed by the action `(context (parent .)).port`. -/
def parentStartup : String := "connect \x7b\x7b(context (parent .)).port\x7d\x7d"

/-- The parsed `parentStartup`. -/
def parentNodes : List TemplateNode :=
  [.text "connect ", .action (.field (.call "context" (.call "parent" .dot)) "port")]

/-- A sample parser: it knows the two scenario templates and text without an
action delimiter. -/
def sampleParse (t : String) : Except String (List TemplateNode) :=
  if t = scenarioStartup then .ok scenarioNodes
  else if t = parentStartup then .ok parentNodes
  else if hasAction t then .error "not supported by the sample parser"
  else .ok [.text t]

/-- A sample decoder: it knows the context of the scenario and that the empty
text is not JSON. -/
def sampleUnmarshal : Unmarshal := fun text =>
  if text = "\x7b\"port\":5432\x7d" then .ok [("port", .number 5432)]
  else if text = "" then .error "unexpected end of JSON input"
  else .error "not supported by the sample decoder"

/-- The service `db` of the scenario, whose context holds the port. -/
def scenarioDB : Service := { ID := "db", Name := "db", Context := "\x7b\"port\":5432\x7d" }

/-- The service `app` of the scenario, a child of `db`; it has no context of its
own. -/
def scenarioApp : Service :=
  { ID := "app", Name := "app", ParentServiceID := "db", Startup := scenarioStartup }

/-- The lookup of the scenario: `db` and `app`. -/
def scenarioGetService : GetService := fun id =>
  if id = "db" then .ok scenarioDB
  else if id = "app" then .ok scenarioApp
  else .error "No such entity"

end Service

/-! ## facade/service.go: `GetService` and `AssignIPs` -/

namespace Facade

/-- Modelled from the spec: `configStore.GetConfigFiles(ctx, tenantID, servicePath)`
("config files by `(tenantID, servicePath)`"), the stored revisions of that
tenant and path, in the order of the store. -/
def GetConfigFiles (configFiles : GoMap SvcConfigFile) (tenantID servicePath : String) :
    List SvcConfigFile :=
  (configFiles.map fun kv => kv.2).filter fun c =>
    c.ServiceTenantID = tenantID ∧ c.ServicePath = servicePath

/-- The first loop of `fillServiceConfigs` over `existingConfs`: the map
`foundConfs` gets the file of a revision under its filename when the filename is
not in the map yet or the file in the map was updated `Before` that of the
revision. -/
def foundConfs : List SvcConfigFile → GoMap ConfigFile → GoMap ConfigFile
  | [], found => found
  | svcConfig :: rest, found =>
    match found.get svcConfig.ConfFile.Filename with
    | none => foundConfs rest (found.set svcConfig.ConfFile.Filename svcConfig.ConfFile)
    | some confFile =>
      if confFile.Updated < svcConfig.ConfFile.Updated then
        foundConfs rest (found.set svcConfig.ConfFile.Filename svcConfig.ConfFile)
      else foundConfs rest found

/-- The second loop of `fillServiceConfigs` over the entries `name, conf` of
`foundConfs`: `svc.ConfigFiles[name] = *conf` for every file that is not deleted.
The write to a nil map is a run-time panic. -/
def replaceConfs : List (String × ConfigFile) → Option (GoMap ConfigFile) →
    Panicking (Option (GoMap ConfigFile))
  | [], configFiles => .ok configFiles
  | (name, conf) :: rest, configFiles =>
    if conf.Deleted then replaceConfs rest configFiles
    else
      match configFiles with
      | none => .error "assignment to entry in nil map"
      | some m => replaceConfs rest (some (m.set name conf))

/-- `Facade.fillServiceConfigs`: the service with its config files replaced by the
stored revisions, and the error; a panic of the map write; `none` when the tenant
lookup inside does not return. -/
def fillServiceConfigs (env : Collaborators) (fuel : Nat) (st : FacadeState) (svc : Service) :
    Option (Panicking (Service × Option String) × FacadeState) :=
  match getTenantIDAndPath env fuel st svc with
  | none => none
  | some ((_, _, some e), st1) => some (.ok (svc, some e), st1)
  | some ((tenantID, servicePath, none), st1) =>
    match env.getConfigFilesError tenantID servicePath with
    | some e => some (.ok (svc, some e), st1)
    | none =>
      match replaceConfs (foundConfs (GetConfigFiles st1.configFiles tenantID servicePath) [])
          svc.ConfigFiles with
      | .error msg => some (.error msg, st1)
      | .ok configFiles => some (.ok ({ svc with ConfigFiles := configFiles }, none), st1)

/-- `Facade.fillOutService`. -/
def fillOutService (env : Collaborators) (fuel : Nat) (st : FacadeState) (svc : Service) :
    Option (Panicking (Service × Option String) × FacadeState) :=
  match fillServiceAddr env svc with
  | (svc1, some e) => some (.ok (svc1, some e), st)
  | (svc1, none) => fillServiceConfigs env fuel st svc1

/-- `Facade.GetService`: the filled-out service or the error, a panic inside
`fillServiceConfigs`, or `none` when the tenant lookup does not return. -/
def GetService (env : Collaborators) (fuel : Nat) (st : FacadeState) (id : String) :
    Option (Panicking (Except String Service) × FacadeState) :=
  match st.services.Get id with
  | .error e => some (.ok (.error e), st)
  | .ok svc =>
    match fillOutService env fuel st svc with
    | none => none
    | some (.error msg, st1) => some (.error msg, st1)
    | some (.ok (_, some e), st1) => some (.ok (.error e), st1)
    | some (.ok (svc1, none), st1) => some (.ok (.ok svc1), st1)

/-- Modelled from the spec: `store.GetChildServices(ctx, parentID)` (the index
"services by `parentID`"), the stored services with that parent. -/
def ServiceStore.GetChildServices (store : ServiceStore) (parentID : String) : List Service :=
  store.filter fun svc => svc.ParentServiceID = parentID

/-- A visitor handed to `walkServices` (`service.Visit`), acting on the state of
the facade: the error returned and the state afterwards, `none` when the visit
does not return. -/
abbrev Visit := FacadeState → Service → Option (Option String × FacadeState)

/-- The loop of `service.Walk` over the children fetched, given the walk of one
service. -/
def walkChildren (walk : String → FacadeState → Option (Option String × FacadeState)) :
    List Service → FacadeState → Option (Option String × FacadeState)
  | [], st => some (none, st)
  | child :: rest, st =>
    match walk child.ID st with
    | none => none
    | some (some e, st1) => some (some e, st1)
    | some (none, st1) => walkChildren walk rest st1

/-- Modelled from the spec: `service.Walk` as called by `Facade.walkServices`
("walk the subtree"): fetch the service, visit it, fetch its children and walk
each of them in turn, stopping at the first error.  The fuel bounds the depth of
the recursion; `none` is a walk that does not return. -/
def walkServices (visitFn : Visit) : Nat → String → FacadeState →
    Option (Option String × FacadeState)
  | 0, _, _ => none
  | fuel + 1, serviceID, st =>
    match st.services.Get serviceID with
    | .error e => some (some e, st)
    | .ok svc =>
      match visitFn st svc with
      | none => none
      | some (some e, st1) => some (some e, st1)
      | some (none, st1) =>
        walkChildren (walkServices visitFn fuel) (st1.services.GetChildServices serviceID) st1

/-- A static IP of a host of the pool (`host.HostIPResource`), with the fields
`retrievePoolIPs` reads. -/
structure HostIPResource where
  HostID : String := ""
  IPAddress : String := ""
  deriving DecidableEq, Repr

/-- A virtual IP of the pool (`pool.VirtualIP`), with the field `retrievePoolIPs`
reads. -/
structure VirtualIP where
  IP : String := ""
  deriving DecidableEq, Repr

/-- The IPs of a pool as returned by `GetPoolIPs` (`facade.PoolIPs`). -/
structure PoolIPs where
  HostIPs : List HostIPResource := []
  VirtualIPs : List VirtualIP := []
  deriving DecidableEq, Repr

/-- The struct `assignIPInfo`. -/
structure assignIPInfo where
  IP : String := ""
  IPType : String := ""
  HostID : String := ""
  deriving DecidableEq, Repr

/-- The request of `AssignIPs` (`dao.AssignmentRequest`). -/
structure AssignmentRequest where
  ServiceID : String := ""
  IPAddress : String := ""
  AutoAssignment : Bool := false
  deriving DecidableEq, Repr

/-- The collaborators of `AssignIPs` that are not among the sources.  Those that
read the address-assignment store are given the calls made so far that changed
it, so that what they answer may follow those calls. -/
structure AssignmentCollaborators where
  /-- `f.GetPoolIPs(ctx, poolID)`. -/
  getPoolIPs : String → Except String PoolIPs
  /-- `rand.Intn(n)` after the seeding; the index used is its value modulo `n`. -/
  randIntn : Nat → Nat
  /-- The error of `f.GetServiceAddressAssignments(ctx, serviceID, &assignments)`. -/
  getServiceAddressAssignments : List AssignmentCall → String → Option String
  /-- `f.needsAddressAssignment(ctx, serviceID, endpoint)`. -/
  needsAddressAssignment : List AssignmentCall → String → ServiceEndpoint →
    Bool × String × Option String
  /-- The error of `f.RemoveAddressAssignment(ctx, id)`. -/
  removeAddressAssignment : List AssignmentCall → String → Option String
  /-- The error of `f.AssignAddress(ctx, assignment, &unusedStr)`. -/
  assignAddress : List AssignmentCall → AddressAssignment → Option String
  /-- The other collaborators of the facade. -/
  facade : List AssignmentCall → Collaborators

/-- `Facade.retrievePoolIPs`: the static IPs of the hosts with their host ids,
then the virtual IPs with an empty host id; the empty slice with the error when
`GetPoolIPs` fails. -/
def retrievePoolIPs (getPoolIPs : String → Except String PoolIPs) (poolID : String) :
    List assignIPInfo × Option String :=
  match getPoolIPs poolID with
  | .error e => ([], some e)
  | .ok poolIPs =>
    (poolIPs.HostIPs.map (fun hostIPResource =>
        { IP := hostIPResource.IPAddress, IPType := "static",
          HostID := hostIPResource.HostID : assignIPInfo })
      ++ poolIPs.VirtualIPs.map (fun virtualIP =>
        { IP := virtualIP.IP, IPType := "virtual", HostID := "" : assignIPInfo }), none)

/-- The loop of the manual branch of `AssignIPs` over `assignIPInfoSlice`, on the
pair `(assignmentType, assignmentHostID)`: every entry with the requested IP
overwrites the pair. -/
def manualLookup (ipAddress : String) : List assignIPInfo → String × String → String × String
  | [], found => found
  | anAssignIPInfo :: rest, found =>
    if ipAddress = anAssignIPInfo.IP then
      manualLookup ipAddress rest (anAssignIPInfo.IPType, anAssignIPInfo.HostID)
    else manualLookup ipAddress rest found

/-- The service behind the pointer handed to `updateService`, as that call leaves
it: the id trimmed and the endpoints filled by `fillServiceAddr`, unless the
trimmed id is empty. -/
def updateServiceArgument (env : Collaborators) (svc : Service) : Service :=
  let id := TrimSpace svc.ID
  if id = "" then svc else (fillServiceAddr env { svc with ID := id }).1

/-- The loop of the visitor of `AssignIPs` over the endpoints of `myService`, with
`count` endpoints from index `idx` on still to be visited.  The endpoint is read
from the service as the earlier `updateService` calls left it. -/
def visitEndpoints (ip : AssignmentCollaborators) (fuel : Nat)
    (ipAddress assignmentType assignmentHostID : String) :
    Nat → Nat → Service → FacadeState → Option (Option String × FacadeState)
  | 0, _, _, st => some (none, st)
  | count + 1, idx, myService, st =>
    match myService.Endpoints.get? idx with
    | none => some (none, st)
    | some endpoint =>
      match ip.needsAddressAssignment st.assignmentCalls myService.ID endpoint with
      | (_, _, some err) => some (some err, st)
      | (needsAnAddressAssignment, addressAssignmentId, none) =>
        if needsAnAddressAssignment = true ∨ addressAssignmentId ≠ "" then
          let removed : Option String × FacadeState :=
            if addressAssignmentId ≠ "" then
              (ip.removeAddressAssignment st.assignmentCalls addressAssignmentId,
                { st with assignmentCalls := st.assignmentCalls ++ [.remove addressAssignmentId] })
            else (none, st)
          match removed with
          | (some err, st1) => some (some err, st1)
          | (none, st1) =>
            let assignment : AddressAssignment :=
              { AssignmentType := assignmentType, HostID := assignmentHostID,
                PoolID := myService.PoolID, IPAddr := ipAddress,
                Port := endpoint.AddressConfig.Port, ServiceID := myService.ID,
                EndpointName := endpoint.Name }
            let st2 := { st1 with assignmentCalls := st1.assignmentCalls ++ [.assign assignment] }
            match ip.assignAddress st1.assignmentCalls assignment with
            | some err => some (some err, st2)
            | none =>
              match updateService (ip.facade st2.assignmentCalls) fuel st2 myService with
              | none => none
              | some (some err, st3) => some (some err, st3)
              | some (none, st3) =>
                visitEndpoints ip fuel ipAddress assignmentType assignmentHostID count (idx + 1)
                  (updateServiceArgument (ip.facade st2.assignmentCalls) myService) st3
        else
          visitEndpoints ip fuel ipAddress assignmentType assignmentHostID count (idx + 1)
            myService st

/-- The closure `visitor` of `AssignIPs`. -/
def assignVisitor (ip : AssignmentCollaborators) (fuel : Nat)
    (ipAddress assignmentType assignmentHostID : String) : Visit :=
  fun st myService =>
    visitEndpoints ip fuel ipAddress assignmentType assignmentHostID myService.Endpoints.length 0
      myService st

/-- The part of `AssignIPs` after the IP has been chosen: the read of the
assignments of the service, and the walk with the visitor. -/
def assignAndWalk (ip : AssignmentCollaborators) (fuel : Nat) (st : FacadeState)
    (serviceID ipAddress assignmentType assignmentHostID : String) :
    Option (Panicking (Option String) × FacadeState) :=
  match ip.getServiceAddressAssignments st.assignmentCalls serviceID with
  | some err => some (.ok (some err), st)
  | none =>
    match walkServices (assignVisitor ip fuel ipAddress assignmentType assignmentHostID) fuel
        serviceID st with
    | none => none
    | some (err, st1) => some (.ok err, st1)

/-- `Facade.AssignIPs`: the error returned (or the panic) and the state
afterwards; `none` when a tenant lookup or the walk does not return. -/
def AssignIPs (ip : AssignmentCollaborators) (fuel : Nat) (st : FacadeState)
    (assignmentRequest : AssignmentRequest) : Option (Panicking (Option String) × FacadeState) :=
  match GetService (ip.facade st.assignmentCalls) fuel st assignmentRequest.ServiceID with
  | none => none
  | some (.error msg, st1) => some (.error msg, st1)
  | some (.ok (.error err), st1) => some (.ok (some err), st1)
  | some (.ok (.ok myService), st1) =>
    match retrievePoolIPs ip.getPoolIPs myService.PoolID with
    | (_, some err) => some (.ok (some err), st1)
    | (assignIPInfoSlice, none) =>
      if assignIPInfoSlice.length < 1 then some (.ok (some "no IPs available"), st1)
      else if assignmentRequest.AutoAssignment then
        match assignIPInfoSlice.get? (ip.randIntn assignIPInfoSlice.length
            % assignIPInfoSlice.length) with
        | none => some (.error "index out of range", st1)
        | some chosen =>
          if chosen.IPType = "" then
            some (.ok (some ("Assignment type could not be determined " ++
              "(virtual IP was likely not in the pool)")), st1)
          else assignAndWalk ip fuel st1 assignmentRequest.ServiceID chosen.IP chosen.IPType
            chosen.HostID
      else
        let found := manualLookup assignmentRequest.IPAddress assignIPInfoSlice ("", "")
        if found.1 = "" then
          some (.ok (some ("requested IP address: " ++ assignmentRequest.IPAddress ++
            " is not contained in pool " ++ myService.PoolID ++ ".")), st1)
        else assignAndWalk ip fuel st1 assignmentRequest.ServiceID assignmentRequest.IPAddress
          found.1 found.2

end Facade

namespace Facade

/-- The calls `after` are the calls `before` followed by further calls, among
which every `AssignAddress` hands over an assignment with the given IP,
assignment type and host id. -/
def AssignsOnly (ipAddress assignmentType assignmentHostID : String)
    (before after : List AssignmentCall) : Prop :=
  ∃ calls : List AssignmentCall, after = before ++ calls ∧
    ∀ a : AddressAssignment, AssignmentCall.assign a ∈ calls →
      a.IPAddr = ipAddress ∧ a.AssignmentType = assignmentType ∧ a.HostID = assignmentHostID

/-- A sample pool: one host with a static IP, and one virtual IP. -/
def samplePoolIPs : PoolIPs :=
  { HostIPs := [{ HostID := "host1", IPAddress := "10.0.0.5" }],
    VirtualIPs := [{ IP := "10.0.0.99" }] }

/-- Sample collaborators of `AssignIPs`: every pool has the IPs of the sample
pool, the random index is 0, an endpoint needs an assignment when it has an
address config and none was assigned in the calls so far, and nothing fails. -/
def sampleAssignment : AssignmentCollaborators where
  getPoolIPs := fun _ => .ok samplePoolIPs
  randIntn := fun _ => 0
  getServiceAddressAssignments := fun _ _ => none
  needsAddressAssignment := fun calls serviceID endpoint =>
    if 0 < endpoint.AddressConfig.Port ∧ endpoint.AddressConfig.Protocol ≠ "" then
      (!calls.any (fun c =>
        match c with
        | .assign a => a.ServiceID = serviceID ∧ a.EndpointName = endpoint.Name
        | .remove _ => false), "", none)
    else (false, "", none)
  removeAddressAssignment := fun _ _ => none
  assignAddress := fun _ _ => none
  facade := fun _ => sampleEnv

/-- A sample service with one endpoint that asks for an address. -/
def sampleWeb : Service :=
  { ID := "web", PoolID := "default",
    Endpoints := [{ Name := "http", AddressConfig := { Port := 80, Protocol := "tcp" } }] }

/-- The assignment `AssignIPs` creates for the endpoint of the sample service from
the static IP of the sample pool. -/
def sampleWebAssignment : AddressAssignment :=
  { AssignmentType := "static", HostID := "host1", PoolID := "default", IPAddr := "10.0.0.5",
    Port := 80, ServiceID := "web", EndpointName := "http" }

end Facade

/-! ## facade/service.go: `AddService` -/

namespace Facade

/-- The loop of `AddService` over `svcCopy.ConfigFiles`: every file gets the
commit text `initial revision`. -/
def initialRevisions (configFiles : GoMap ConfigFile) : GoMap ConfigFile :=
  configFiles.map fun kv => (kv.1, { kv.2 with Commit := "initial revision" })

/-- `Facade.AddService`: the returned error and the state afterwards; `none` when
the tenant lookup inside `updateService` does not return.  The lookup at the
start ends in a fault, finds the service, or reports that there is no such
entity. -/
def AddService (env : Collaborators) (fuel : Nat) (st : FacadeState) (svc : Service) :
    Option (Option String × FacadeState) :=
  match env.getFault svc.ID with
  | some err => some (some err, st)
  | none =>
    match st.services.Get svc.ID with
    | .ok _ => some (some ("error adding service; " ++ svc.ID ++ " already exists"), st)
    | .error _ =>
      match env.putError svc with
      | some err => some (some err, st)
      | none =>
        let st1 := { st with services := st.services.Put svc }
        match svc.ConfigFiles with
        | some configFiles =>
          updateService env fuel st1 { svc with ConfigFiles := some (initialRevisions configFiles) }
        | none =>
          some (env.zkUpdateService svc, { st1 with zkCalls := st1.zkCalls ++ [.updateService svc] })

end Facade

/-! ## facade/service.go: the config-file revisions of `updateService` -/

namespace Facade

/-- The files `updateService` finds changed: the entries of `new` whose key is
absent from `old` or whose file differs from the one `old` has under the key. -/
def changedFiles (old new : GoMap ConfigFile) : List (String × ConfigFile) :=
  new.filter fun kv => old.get kv.1 ≠ some kv.2

/-- The files `updateService` finds removed: the entries of `old` whose key is
absent from `new`. -/
def removedFiles (old new : GoMap ConfigFile) : List (String × ConfigFile) :=
  old.filter fun kv => kv.1 ∉ new.map fun e => e.1

/-- The files stamped one after the other with the readings `now`, `now + 1`, ...
of the clock. -/
def stamped : Nat → List ConfigFile → List ConfigFile
  | _, [] => []
  | now, conf :: rest => { conf with Updated := now } :: stamped (now + 1) rest

/-- The tombstone of a file: no content, and deleted. -/
def tombstone (conf : ConfigFile) : ConfigFile := { conf with Content := "", Deleted := true }

/-- The revision store after `configStore.Put` of the revisions, one after the
other, each under its id. -/
def putRevisions (store : GoMap SvcConfigFile) (revs : List SvcConfigFile) :
    GoMap SvcConfigFile :=
  revs.foldl (fun s rev => s.set rev.ID rev) store

end Facade

namespace Facade

/-- The service `updateService` works on after its first lines: the id trimmed
and the endpoints filled by `fillServiceAddr`. -/
def trimmedAndFilled (env : Collaborators) (svc : Service) : Service :=
  (fillServiceAddr env { svc with ID := TrimSpace svc.ID }).1

/-- A stored service with two config files, and the same service as submitted
with the first file kept, the second one dropped and a third one added. -/
def sampleConfigured : Service :=
  { ID := "app", Name := "app",
    ConfigFiles := some [("a.conf", { Filename := "a.conf", Content := "alpha" }),
                         ("b.conf", { Filename := "b.conf", Content := "beta" })] }

/-- The sample service as submitted: `a.conf` kept, `b.conf` dropped, `c.conf`
added. -/
def sampleReconfigured : Service :=
  { ID := "app", Name := "app",
    ConfigFiles := some [("a.conf", { Filename := "a.conf", Content := "alpha" }),
                         ("c.conf", { Filename := "c.conf", Content := "gamma" })] }

end Facade

/-! ## facade/service.go: config queries and the round trips -/

namespace Facade

/-- A file without its `Updated` stamp. -/
def withoutUpdated (conf : ConfigFile) : ConfigFile := { conf with Updated := 0 }

/-- A file without the fields the server sets, `Commit` and `Updated`. -/
def withoutServerSet (conf : ConfigFile) : ConfigFile := { conf with Commit := "", Updated := 0 }

/-- The `ConfigFiles` map with `f` applied to every file. -/
def mapFiles (f : ConfigFile → ConfigFile) (configFiles : Option (GoMap ConfigFile)) :
    Option (GoMap ConfigFile) :=
  configFiles.map fun m => m.map fun kv => (kv.1, f kv.2)

/-- A `ConfigFiles` map that has no key twice and holds every file under its
filename. -/
def KeyedByFilename (configFiles : Option (GoMap ConfigFile)) : Prop :=
  ((entriesOf configFiles).map fun e => e.1).Nodup ∧
  ∀ kv ∈ entriesOf configFiles, kv.2.Filename = kv.1

/-- The constructor `serviceconfigfile.New` does not fail for this tenant and
path and returns a revision of the file given, for the tenant and path given. -/
def FaithfulRevisions (env : Collaborators) (tenantID servicePath : String) : Prop :=
  ∀ conf : ConfigFile, ∃ rev : SvcConfigFile,
    env.newSvcConfigFile tenantID servicePath conf = .ok rev ∧
    rev.ServiceTenantID = tenantID ∧ rev.ServicePath = servicePath ∧ rev.ConfFile = conf

/-- The ids `serviceconfigfile.New` gives are fresh: the id of a revision stamped
at or after the clock of the state is not in the revision store, and revisions of
files with different filenames have different ids. -/
def FreshRevisions (env : Collaborators) (tenantID servicePath : String) (st : FacadeState) :
    Prop :=
  (∀ (conf : ConfigFile) (rev : SvcConfigFile), st.clock ≤ conf.Updated →
    env.newSvcConfigFile tenantID servicePath conf = .ok rev → st.configFiles.get rev.ID = none) ∧
  (∀ (conf conf2 : ConfigFile) (rev rev2 : SvcConfigFile),
    env.newSvcConfigFile tenantID servicePath conf = .ok rev →
    env.newSvcConfigFile tenantID servicePath conf2 = .ok rev2 →
    rev.ID = rev2.ID → conf.Filename = conf2.Filename)

/-- The revision `rev` is the newest of its filename among `revs`: it is one of
them, and every other file stored for the filename has a strictly earlier
`Updated` time. -/
def IsNewest (rev : SvcConfigFile) (revs : List SvcConfigFile) : Prop :=
  rev ∈ revs ∧
  ∀ other ∈ revs, other.ConfFile.Filename = rev.ConfFile.Filename →
    other.ConfFile ≠ rev.ConfFile → other.ConfFile.Updated < rev.ConfFile.Updated

/-- The stored revisions agree with the stored `ConfigFiles`: a revision that is
not deleted and that no revision of its filename is later than, is, up to
`Updated`, the file the map has under the filename. -/
def RevisionsAgree (revs : List SvcConfigFile) (configFiles : Option (GoMap ConfigFile)) :
    Prop :=
  ∀ rev ∈ revs, rev.ConfFile.Deleted = false →
    (∀ other ∈ revs, other.ConfFile.Filename = rev.ConfFile.Filename →
      other.ConfFile.Updated ≤ rev.ConfFile.Updated) →
    ∃ conf : ConfigFile, GoMap.get (entriesOf configFiles) rev.ConfFile.Filename = some conf ∧
      withoutUpdated conf = withoutUpdated rev.ConfFile

/-- What `foundConfs` holds after the revisions `done`: no filename twice; every
entry is the file of one of the revisions, under its filename, and no revision of
that filename is later; every filename of a revision has an entry. -/
def FoundNewest (done : List SvcConfigFile) (found : GoMap ConfigFile) : Prop :=
  (found.map fun e => e.1).Nodup ∧
  (∀ kv ∈ found, kv.2.Filename = kv.1 ∧ (∃ rev ∈ done, rev.ConfFile = kv.2) ∧
    ∀ rev ∈ done, rev.ConfFile.Filename = kv.1 → rev.ConfFile.Updated ≤ kv.2.Updated) ∧
  (∀ rev ∈ done, rev.ConfFile.Filename ∈ found.map fun e => e.1)

end Facade

namespace Facade

/-- The state before the sample update: the sample service with its two config
files is stored, no revision is, and the clock reads 7. -/
def sampleBeforeUpdate : FacadeState := { services := [sampleConfigured], clock := 7 }

/-- The state after `UpdateService` of the resubmitted sample service: a revision
of `c.conf` stamped 7 and a tombstone of `b.conf` stamped 8 are stored. -/
def sampleAfterUpdate : FacadeState :=
  { services := [sampleReconfigured],
    tenantIDs := [("app", "app")],
    configFiles :=
      [("app/appc.conf",
          { ID := "app/appc.conf", ServiceTenantID := "app", ServicePath := "/app",
            ConfFile := { Filename := "c.conf", Content := "gamma", Updated := 7 } }),
        ("app/appb.conf",
          { ID := "app/appb.conf", ServiceTenantID := "app", ServicePath := "/app",
            ConfFile := { Filename := "b.conf", Content := "", Updated := 8,
                          Deleted := true } })],
    zkCalls := [.updateService sampleReconfigured],
    clock := 9 }

end Facade

namespace Facade

/-- The copy `svcCopy` of `AddService` after its loop: the service with the commit
text `initial revision` on every config file. -/
def initialCopy (svc : Service) : Service :=
  { svc with ConfigFiles := svc.ConfigFiles.map initialRevisions }

/-- A sample service whose parent is not stored. -/
def sampleOrphan : Service := { ID := "app", ParentServiceID := "missing" }

end Facade

/-! ## facade/service.go: `CheckRunningVHost` -/

namespace Facade

/-- An ephemeral node of the vhost registry (`zkregistry.VhostEndpoint`), with the
field `CheckRunningVHost` reads. -/
structure VhostEndpoint where
  ServiceID : String := ""
  deriving DecidableEq, Repr

/-- The coordination-store calls of `CheckRunningVHost`, which are not among the
sources. -/
structure VHostCollaborators where
  /-- The error of `zzk.GetBasePathConnection("/")`. -/
  connectionError : Option String
  /-- The error of `zkregistry.VHostRegistry(rootBasedConnection)`. -/
  registryError : Option String
  /-- `vr.GetVHostKeyChildren(rootBasedConnection, vhostName)`. -/
  getVHostKeyChildren : String → Except String (List VhostEndpoint)

/-- `zkf.CheckRunningVHost`: the error returned.  The loop over the nodes returns
in its first round; the format of its error has a verb without an argument. -/
def CheckRunningVHost (zk : VHostCollaborators) (vhostName serviceID : String) : Option String :=
  match zk.connectionError with
  | some err => some err
  | none =>
    match zk.registryError with
    | some err => some err
    | none =>
      match zk.getVHostKeyChildren vhostName with
      | .error err => some err
      | .ok vhostEphemeralNodes =>
        if vhostEphemeralNodes.length = 0 then none
        else if vhostEphemeralNodes.length > 1 then
          some ("There is more than one ephemeral node for vhost: " ++ vhostName)
        else
          match vhostEphemeralNodes with
          | [] => none
          | vhostEphemeralNode :: _ =>
            if vhostEphemeralNode.ServiceID = serviceID then none
            else some ("failed validation: vhost %!v(MISSING) is already running under a " ++
              "different serviceID")

/-- A sample registry: the vhost `www` has one node, of the service `other`. -/
def sampleVHosts : VHostCollaborators where
  connectionError := none
  registryError := none
  getVHostKeyChildren := fun vhostName =>
    if vhostName = "www" then .ok [{ ServiceID := "other" }] else .ok []

/-- The sample service `app` as submitted for a start, declaring the vhost `www`. -/
def sampleVHostService : Service :=
  { ID := "app", DesiredState := SVCRun, Endpoints := [{ Name := "http", VHosts := ["www"] }] }

end Facade

/-! ## facade/service.go: `GetServiceEndpoints` -/

namespace Facade

/-- The struct `treenode`.  The children, pointers to nodes of `servicesMap` in the
source, are kept as the ids of those nodes, which are their keys in the map. -/
structure treenode where
  id : String := ""
  parent : String := ""
  children : List String := []
  deriving DecidableEq, Repr

/-- The first loop of `getServiceTree`: a node without children for every service
of the list, under the id of the service. -/
def newNodes : List Service → GoMap treenode → GoMap treenode
  | [], servicesMap => servicesMap
  | svc :: rest, servicesMap =>
    newNodes rest
      (servicesMap.set svc.ID { id := svc.ID, parent := svc.ParentServiceID, children := [] })

/-- The second loop of `getServiceTree`: the node of every service of the list is
appended to the children of the node of its parent; a service whose parent has no
node goes to the local `root`, which is not used afterwards. -/
def linkNodes : List Service → GoMap treenode → GoMap treenode
  | [], servicesMap => servicesMap
  | svc :: rest, servicesMap =>
    match servicesMap.get svc.ParentServiceID with
    | some parent =>
      linkNodes rest
        (servicesMap.set svc.ParentServiceID { parent with children := parent.children ++ [svc.ID] })
    | none => linkNodes rest servicesMap

/-- The last loop of `getServiceTree`, from the pointer `topService` (`none` is the
nil pointer, whose dereference panics): up the parent references until a node
with an empty parent.  `none` as the result is a loop that does not end. -/
def topNode (servicesMap : GoMap treenode) : Nat → Option treenode → Option (Panicking treenode)
  | 0, _ => none
  | _ + 1, none => some (.error "invalid memory address or nil pointer dereference")
  | fuel + 1, some topService =>
    if topService.parent.length ≠ 0 then topNode servicesMap fuel (servicesMap.get topService.parent)
    else some (.ok topService)

/-- `Facade.getServiceTree`: the nodes built and the node returned. -/
def getServiceTree (fuel : Nat) (serviceId : String) (servicesList : List Service) :
    Option (Panicking (GoMap treenode × treenode)) :=
  let servicesMap := linkNodes servicesList (newNodes servicesList [])
  match topNode servicesMap fuel (servicesMap.get serviceId) with
  | none => none
  | some (.error msg) => some (.error msg)
  | some (.ok topService) => some (.ok (servicesMap, topService))

/-- The loops of `walkTree` over the children of a node, given the walk of one
node: the ids found below every child, one child after the other. -/
def walkEach (walk : treenode → Option (List String)) (servicesMap : GoMap treenode) :
    List String → Option (List String)
  | [] => some []
  | childId :: rest =>
    match servicesMap.get childId with
    | none => none
    | some childNode =>
      match walk childNode, walkEach walk servicesMap rest with
      | some ids, some more => some (ids ++ more)
      | _, _ => none

/-- The function `walkTree`: the ids of the hierarchy below the node, the node's
own id last.  The fuel bounds the depth of the recursion; `none` is a walk that
does not return. -/
def walkTree (servicesMap : GoMap treenode) : Nat → treenode → Option (List String)
  | 0, _ => none
  | fuel + 1, node =>
    if node.children.length = 0 then some [node.id]
    else
      match walkEach (walkTree servicesMap fuel) servicesMap node.children with
      | none => none
      | some relatedServiceIDs => some (relatedServiceIDs ++ [node.id])

/-- A published instance of a service (`servicestate.ServiceState`), with the
fields `GetServiceEndpoints` reads. -/
structure ServiceState where
  ID : String := ""
  ServiceID : String := ""
  HostIP : String := ""
  PrivateIP : String := ""
  InstanceID : Int := 0
  deriving DecidableEq, Repr

/-- The collaborators of `GetServiceEndpoints` that are not among the sources. -/
structure EndpointCollaborators where
  /-- The error of `f.getServices(ctx)`, if it fails. -/
  getServicesError : Option String
  /-- `zkAPI(f).getSvcStates(poolID, &states, serviceIDs...)`. -/
  getSvcStates : String → List String → Except String (List ServiceState)
  /-- The error of `regexp.Compile(pattern)`. -/
  compileError : String → Option String
  /-- `ss.GetHostEndpointInfo(applicationRegex)` for the expression compiled from
  the pattern: host port, container port, protocol, and whether an export of the
  state matches. -/
  getHostEndpointInfo : ServiceState → String → Nat × Nat × String × Bool

/-- Modelled from the spec: `myService.GetServiceImports()`, the endpoints of the
service whose purpose is `import` ("`purpose ∈ {export,import}`"). -/
def GetServiceImports (svc : Service) : List ServiceEndpoint :=
  svc.Endpoints.filter fun ep => ep.Purpose = "import"

/-- The pattern `GetServiceEndpoints` compiles for an import. -/
def applicationPattern (endpoint : ServiceEndpoint) : String :=
  "^" ++ endpoint.Application ++ "$"

/-- The endpoint `GetServiceEndpoints` builds for the import `endpoint` and the
state `ss`, from the host port and from the container port and protocol already
chosen. -/
def applicationEndpoint (endpoint : ServiceEndpoint) (ss : ServiceState)
    (hostPort containerPort : Nat) (protocol : String) : Proxy.ApplicationEndpoint :=
  { Application := endpoint.Application, ServiceID := ss.ServiceID,
    ContainerPort := containerPort, HostPort := hostPort, HostIP := ss.HostIP,
    ContainerIP := ss.PrivateIP, Protocol := protocol,
    VirtualAddress := endpoint.VirtualAddress, InstanceID := ss.InstanceID }

/-- The inner loop of `GetServiceEndpoints` over the states, for one import whose
pattern compiled. -/
def statesLoop (ec : EndpointCollaborators) (endpoint : ServiceEndpoint) :
    List ServiceState → GoMap (List Proxy.ApplicationEndpoint) →
      GoMap (List Proxy.ApplicationEndpoint)
  | [], result => result
  | ss :: rest, result =>
    match ec.getHostEndpointInfo ss (applicationPattern endpoint) with
    | (hostPort, containerPort, protocol, true) =>
      let containerPort := if endpoint.PortNumber ≠ 0 then endpoint.PortNumber else containerPort
      let protocol := if endpoint.Protocol ≠ "" then endpoint.Protocol else protocol
      let ep := applicationEndpoint endpoint ss hostPort containerPort protocol
      let key := protocol ++ ":" ++ toString containerPort
      let result1 := if (result.get key).isNone then result.set key [] else result
      statesLoop ec endpoint rest (result1.set key ((result1.get key).getD [] ++ [ep]))
    | (_, _, _, false) => statesLoop ec endpoint rest result

/-- The outer loop of `GetServiceEndpoints` over the imports; an import whose
pattern does not compile is skipped. -/
def importsLoop (ec : EndpointCollaborators) (states : List ServiceState) :
    List ServiceEndpoint → GoMap (List Proxy.ApplicationEndpoint) →
      GoMap (List Proxy.ApplicationEndpoint)
  | [], result => result
  | endpoint :: rest, result =>
    match ec.compileError (applicationPattern endpoint) with
    | some _ => importsLoop ec states rest result
    | none => importsLoop ec states rest (statesLoop ec endpoint states result)

/-- `Facade.GetServiceEndpoints`: the map returned and the error; a panic of
`getServiceTree`; `none` when the walk up or `walkTree` does not return.  The call
`f.fillServiceAddr(ctx, &myService)` changes the local `myService` only, which is
not read afterwards; the imports were copied before. -/
def GetServiceEndpoints (ec : EndpointCollaborators) (fuel : Nat) (st : FacadeState)
    (serviceId : String) :
    Option (Panicking (GoMap (List Proxy.ApplicationEndpoint) × Option String)) :=
  match getService st.services serviceId with
  | .error err => some (.ok ([], some err))
  | .ok myService =>
    let service_imports := GetServiceImports myService
    if service_imports.length > 0 then
      match ec.getServicesError with
      | some err => some (.ok ([], some err))
      | none =>
        match getServiceTree fuel serviceId st.services with
        | none => none
        | some (.error msg) => some (.error msg)
        | some (.ok (servicesMap, topService)) =>
          match walkTree servicesMap fuel topService with
          | none => none
          | some relatedServiceIDs =>
            match ec.getSvcStates myService.PoolID relatedServiceIDs with
            | .error err => some (.ok ([], some err))
            | .ok states => some (.ok (importsLoop ec states service_imports [], none))
    else some (.ok ([], none))

/-- The key of the spec for an endpoint: `<protocol>:<containerPort>`, the port in
decimal. -/
def endpointKey (e : Proxy.ApplicationEndpoint) : String :=
  e.Protocol ++ ":" ++ toString e.ContainerPort

/-- The endpoints of the spec for one import: one endpoint for every state with a
matching export, in the order of the states; its container port and protocol are
those of the import when they are set and those of the export otherwise. -/
def matchesOf (ec : EndpointCollaborators) (endpoint : ServiceEndpoint)
    (states : List ServiceState) : List Proxy.ApplicationEndpoint :=
  states.filterMap fun ss =>
    let info := ec.getHostEndpointInfo ss (applicationPattern endpoint)
    if info.2.2.2 then
      some (applicationEndpoint endpoint ss info.1
        (if endpoint.PortNumber ≠ 0 then endpoint.PortNumber else info.2.1)
        (if endpoint.Protocol ≠ "" then endpoint.Protocol else info.2.2.1))
    else none

/-- The endpoints of the spec ("emit one `ApplicationEndpoint` per match"): for
every import whose pattern compiles and every state with a matching export, in
this order, one endpoint. -/
def matchedEndpoints (ec : EndpointCollaborators) (imports : List ServiceEndpoint)
    (states : List ServiceState) : List Proxy.ApplicationEndpoint :=
  imports.flatMap fun endpoint =>
    if (ec.compileError (applicationPattern endpoint)).isSome then []
    else matchesOf ec endpoint states

/-- The entry of a key after further endpoints with that key were appended. -/
def appendUnder (entry : Option (List Proxy.ApplicationEndpoint))
    (more : List Proxy.ApplicationEndpoint) : Option (List Proxy.ApplicationEndpoint) :=
  match entry with
  | some es => some (es ++ more)
  | none => if more = [] then none else some more

/-- The map the spec describes for a list of endpoints: under every key the
endpoints with that key, in their order; no entry for a key without endpoints. -/
def endpointsUnder (es : List Proxy.ApplicationEndpoint) (key : String) :
    Option (List Proxy.ApplicationEndpoint) :=
  if es.filter (fun e => endpointKey e = key) = [] then none
  else some (es.filter fun e => endpointKey e = key)

end Facade

/-! ## zzk/service/host.go: instances on a host -/

namespace Zzk

/-- An instance of a service (`servicestate.ServiceState`), with the fields the
host listener reads.  `Started` and `Terminated` hold the readings
`state.Started.UnixNano()` and `state.Terminated.UnixNano()`, the only use the
listener makes of the two times. -/
structure ServiceState where
  Id : String := ""
  ServiceID : String := ""
  HostID : String := ""
  Started : Int := 0
  Terminated : Int := 0
  deriving DecidableEq, Repr

/-- The struct `HostState`, the node that stores an instance per host. -/
structure HostState where
  HostID : String := ""
  ServiceID : String := ""
  ServiceStateID : String := ""
  DesiredState : Int := 0
  deriving DecidableEq, Repr

/-- The constant `service.SVCRun`. -/
def SVCRun : Int := 1

/-- Modelled from the spec: the constant `service.SVCStop`, declared outside the
sources (`desiredState ∈ {Run,Stop,Pause}`); a value other than `SVCRun`. -/
def SVCStop : Int := 0

/-- `NewHostState`. -/
def NewHostState (state : ServiceState) : HostState :=
  { HostID := state.HostID, ServiceID := state.ServiceID, ServiceStateID := state.Id,
    DesiredState := SVCRun }

/-- The elements of a rooted path after `path.Clean`: empty elements and `.` are
dropped, `..` removes the element before it and is dropped at the root.  `kept`
holds the elements kept so far, the last one first. -/
def cleanElems : List String → List String → List String
  | [], kept => kept.reverse
  | elem :: rest, kept =>
    if elem = "" ∨ elem = "." then cleanElems rest kept
    else if elem = ".." then cleanElems rest kept.tail
    else cleanElems rest (elem :: kept)

/-- Go `path.Join` when the first element is rooted, as it is in `hostpath`: the
elements separated by slashes, the result cleaned. -/
def Join (elems : List String) : String :=
  "/" ++ "/".intercalate (cleanElems (elems.flatMap fun elem => Split elem '/') [])

/-- The constant `zkHost`. -/
def zkHost : String := "/hosts"

/-- `hostpath`. -/
def hostpath (nodes : List String) : String :=
  Join (zkHost :: nodes)

/-- Modelled from the spec: the constant `zkService` of the package, declared
outside the sources (the node `/services/<serviceID>/<stateID>`). -/
def zkService : String := "/services"

/-- Modelled from the spec: `servicepath`, declared outside the sources, the
counterpart of `hostpath` under `/services`. -/
def servicepath (nodes : List String) : String :=
  Join (zkService :: nodes)

/-- The value of a node of the coordination store, by the kind of variable it is
written from: `ServiceStateNode`, `HostState` or `ServiceNode`. -/
inductive Node where
  | serviceState (state : ServiceState)
  | hostState (hs : HostState)
  | service (svc : Service)
  deriving DecidableEq, Repr

/-- A call on the connection to the coordination store. -/
inductive ConnCall where
  | create (path : String) (node : Node)
  | delete (path : String)
  | get (path : String)
  | getW (path : String)
  | set (path : String) (node : Node)
  deriving DecidableEq, Repr

/-- Modelled from the spec: the connection to the coordination store
(`client.Connection`, "create/read/update/delete nodes"), which is not among the
sources: the nodes by path, and the calls made on the connection so far. -/
structure Conn where
  nodes : GoMap Node := []
  calls : List ConnCall := []
  deriving DecidableEq, Repr

/-- Modelled from the spec: the failures of the connection that do not depend on
the nodes stored (a lost session, say), by operation and path. -/
structure Faults where
  create : String → Option String := fun _ => none
  delete : String → Option String := fun _ => none
  get : String → Option String := fun _ => none
  set : String → Option String := fun _ => none

/-- Modelled from the spec: the error kind `AlreadyExists` of the store. -/
def ErrNodeExists : String := "coord-client: node exists"

/-- Modelled from the spec: the error kind `NotFound` of the store. -/
def ErrNoNode : String := "coord-client: no node"

/-- Modelled from the spec: the error of reading a node into a variable of another
kind. -/
def ErrSerialization : String := "coord-client: serialization error"

/-- Modelled from the spec: `conn.Create(path, node)`.  A create that fails leaves
the nodes as they are; a path that holds a node cannot be created. -/
def Conn.Create (faults : Faults) (conn : Conn) (path : String) (node : Node) :
    Option String × Conn :=
  let conn1 : Conn := { conn with calls := conn.calls ++ [.create path node] }
  match faults.create path with
  | some err => (some err, conn1)
  | none =>
    match conn.nodes.get path with
    | some _ => (some ErrNodeExists, conn1)
    | none => (none, { conn1 with nodes := conn.nodes.set path node })

/-- Modelled from the spec: `conn.Delete(path)`. -/
def Conn.Delete (faults : Faults) (conn : Conn) (path : String) : Option String × Conn :=
  let conn1 : Conn := { conn with calls := conn.calls ++ [.delete path] }
  match faults.delete path with
  | some err => (some err, conn1)
  | none =>
    match conn.nodes.get path with
    | none => (some ErrNoNode, conn1)
    | some _ => (none, { conn1 with nodes := conn.nodes.delete path })

/-- Modelled from the spec: `conn.Set(path, node)`, which writes a node that
exists. -/
def Conn.Set (faults : Faults) (conn : Conn) (path : String) (node : Node) :
    Option String × Conn :=
  let conn1 : Conn := { conn with calls := conn.calls ++ [.set path node] }
  match faults.set path with
  | some err => (some err, conn1)
  | none =>
    match conn.nodes.get path with
    | none => (some ErrNoNode, conn1)
    | some _ => (none, { conn1 with nodes := conn.nodes.set path node })

/-- Modelled from the spec: the value read by `conn.Get(path, node)` and by
`conn.GetW(path, node)`. -/
def Conn.read (faults : Faults) (conn : Conn) (path : String) : Except String Node :=
  match faults.get path with
  | some err => .error err
  | none =>
    match conn.nodes.get path with
    | none => .error ErrNoNode
    | some node => .ok node

/-- Modelled from the spec: `conn.Get(path, &hs)` into a `HostState`. -/
def Conn.GetHostState (faults : Faults) (conn : Conn) (path : String) :
    Except String HostState × Conn :=
  let conn1 : Conn := { conn with calls := conn.calls ++ [.get path] }
  match conn.read faults path with
  | .ok (.hostState hs) => (.ok hs, conn1)
  | .ok _ => (.error ErrSerialization, conn1)
  | .error err => (.error err, conn1)

/-- Modelled from the spec: `conn.GetW(path, &hs)` into a `HostState`; the event
channel returned is the one the `select` of the listener reads. -/
def Conn.GetWHostState (faults : Faults) (conn : Conn) (path : String) :
    Except String HostState × Conn :=
  let conn1 : Conn := { conn with calls := conn.calls ++ [.getW path] }
  match conn.read faults path with
  | .ok (.hostState hs) => (.ok hs, conn1)
  | .ok _ => (.error ErrSerialization, conn1)
  | .error err => (.error err, conn1)

/-- Modelled from the spec: `conn.Get(path, &ServiceStateNode{ServiceState: &state})`. -/
def Conn.GetServiceState (faults : Faults) (conn : Conn) (path : String) :
    Except String ServiceState × Conn :=
  let conn1 : Conn := { conn with calls := conn.calls ++ [.get path] }
  match conn.read faults path with
  | .ok (.serviceState state) => (.ok state, conn1)
  | .ok _ => (.error ErrSerialization, conn1)
  | .error err => (.error err, conn1)

/-- Modelled from the spec: `conn.Get(path, &ServiceNode{Service: &svc})`. -/
def Conn.GetService (faults : Faults) (conn : Conn) (path : String) :
    Except String Service × Conn :=
  let conn1 : Conn := { conn with calls := conn.calls ++ [.get path] }
  match conn.read faults path with
  | .ok (.service svc) => (.ok svc, conn1)
  | .ok _ => (.error ErrSerialization, conn1)
  | .error err => (.error err, conn1)

/-- `addInstance`: the error returned and the connection afterwards. -/
def addInstance (faults : Faults) (conn : Conn) (state : ServiceState) : Option String × Conn :=
  if state.Id = "" then (some "missing service state id", conn)
  else if state.ServiceID = "" then (some "missing service id", conn)
  else
    let spath := servicepath [state.ServiceID, state.Id]
    match conn.Create faults spath (.serviceState state) with
    | (some err, conn1) => (some err, conn1)
    | (none, conn1) =>
      match conn1.Create faults (hostpath [state.HostID, state.Id])
          (.hostState (NewHostState state)) with
      | (some err, conn2) => (some err, (conn2.Delete faults spath).2)
      | (none, conn2) => (none, conn2)

/-- `updateInstance`. -/
def updateInstance (faults : Faults) (conn : Conn) (state : ServiceState) : Option String × Conn :=
  conn.Set faults (servicepath [state.ServiceID, state.Id]) (.serviceState state)

/-- `removeInstance`. -/
def removeInstance (faults : Faults) (conn : Conn) (hostID ssID : String) : Option String × Conn :=
  match conn.GetHostState faults (hostpath [hostID, ssID]) with
  | (.error err, conn1) => (some err, conn1)
  | (.ok hs, conn1) =>
    match conn1.Delete faults (hostpath [hostID, ssID]) with
    | (some err, conn2) => (some err, conn2)
    | (none, conn2) => conn2.Delete faults (servicepath [hs.ServiceID, hs.ServiceStateID])

/-- The interface `HostHandler`, which is implemented outside the sources: the
error each method returns and the service state its pointer argument refers to
afterwards. -/
structure HostHandler where
  AttachService : Service → ServiceState → Option String × ServiceState
  StartService : Service → ServiceState → Option String × ServiceState
  StopService : ServiceState → Option String × ServiceState
  /-- Whether a value arrives on the channel with that number handed to
  `StartService` or `AttachService`, so that a receive on it returns. -/
  delivers : Nat → Bool := fun _ => true

/-- A step of the listener that is seen outside the coordination store: a call of
the handler with the service state handed over (and the number of the channel,
for a start or an attach), or the receive `<-done` of `detachInstance`. -/
inductive HostAction where
  | startService (svc : Service) (state : ServiceState) (done : Nat)
  | attachService (svc : Service) (state : ServiceState) (done : Nat)
  | stopService (state : ServiceState)
  | waitDone (done : Nat)
  deriving DecidableEq, Repr

/-- The state of one run of `listenHostState`: the connection, the steps taken so
far, the variable `processDone` (`none` is the nil channel, a channel is the
number of the `make` that created it) and the number of channels made. -/
structure Listener where
  conn : Conn := {}
  actions : List HostAction := []
  processDone : Option Nat := none
  chans : Nat := 0
  deriving DecidableEq, Repr

/-- `HostStateListener.startInstance`: the channel and the error returned, the
service state afterwards, and the listener. -/
def startInstance (faults : Faults) (handler : HostHandler) (l : Listener) (svc : Service)
    (state : ServiceState) : (Option Nat × Option String) × ServiceState × Listener :=
  let done := l.chans
  let l1 : Listener := { l with chans := l.chans + 1,
                                actions := l.actions ++ [.startService svc state done] }
  match handler.StartService svc state with
  | (some err, state1) => ((none, some err), state1, l1)
  | (none, state1) =>
    match updateInstance faults l1.conn state1 with
    | (some err, conn1) => ((none, some err), state1, { l1 with conn := conn1 })
    | (none, conn1) => ((some done, none), state1, { l1 with conn := conn1 })

/-- `HostStateListener.attachInstance`. -/
def attachInstance (faults : Faults) (handler : HostHandler) (l : Listener) (svc : Service)
    (state : ServiceState) : (Option Nat × Option String) × ServiceState × Listener :=
  let done := l.chans
  let l1 : Listener := { l with chans := l.chans + 1,
                                actions := l.actions ++ [.attachService svc state done] }
  match handler.AttachService svc state with
  | (some err, state1) => ((none, some err), state1, l1)
  | (none, state1) =>
    match updateInstance faults l1.conn state1 with
    | (some err, conn1) => ((none, some err), state1, { l1 with conn := conn1 })
    | (none, conn1) => ((some done, none), state1, { l1 with conn := conn1 })

/-- `HostStateListener.stopInstance`. -/
def stopInstance (faults : Faults) (handler : HostHandler) (l : Listener)
    (state : ServiceState) : Option String × Listener :=
  let l1 : Listener := { l with actions := l.actions ++ [.stopService state] }
  match handler.StopService state with
  | (some err, _) => (some err, l1)
  | (none, state1) =>
    match removeInstance faults l1.conn state1.HostID state1.Id with
    | (err, conn1) => (err, { l1 with conn := conn1 })

/-- `HostStateListener.detachInstance`; `none` when the receive `<-done` does not
return. -/
def detachInstance (faults : Faults) (handler : HostHandler) (l : Listener) (done : Nat)
    (state : ServiceState) : Option (Option String × Listener) :=
  let l1 : Listener := { l with actions := l.actions ++ [.stopService state] }
  match handler.StopService state with
  | (some err, _) => some (some err, l1)
  | (none, state1) =>
    let l2 : Listener := { l1 with actions := l1.actions ++ [.waitDone done] }
    if handler.delivers done then
      match removeInstance faults l2.conn state1.HostID state1.Id with
      | (err, conn1) => some (err, { l2 with conn := conn1 })
    else none

/-- How one pass through the body of the loop of `listenHostState` ends before
the `select`: with a `return`, or at the `select`, the variable `state` holding
the service state given. -/
inductive Pass where
  | returned
  | selecting (state : ServiceState)
  deriving DecidableEq, Repr

/-- The body of the loop of `listenHostState` up to the `select`: the host state
is loaded with a watch, then the service state and the service, then the desired
state decides.  `none` when the pass does not come to an end. -/
def pass (faults : Faults) (handler : HostHandler) (hostID ssID : String) (l : Listener) :
    Option (Pass × Listener) :=
  let hpath := hostpath [hostID, ssID]
  match l.conn.GetWHostState faults hpath with
  | (.error _, conn1) => some (.returned, { l with conn := conn1 })
  | (.ok hs, conn1) =>
    if hs.ServiceID = "" ∨ hs.ServiceStateID = "" then some (.returned, { l with conn := conn1 })
    else
      match conn1.GetServiceState faults (servicepath [hs.ServiceID, hs.ServiceStateID]) with
      | (.error _, conn2) => some (.returned, { l with conn := (conn2.Delete faults hpath).2 })
      | (.ok state, conn2) =>
        match conn2.GetService faults (servicepath [hs.ServiceID]) with
        | (.error _, conn3) => some (.returned, { l with conn := conn3 })
        | (.ok svc, conn3) =>
          let l3 : Listener := { l with conn := conn3 }
          if hs.DesiredState = SVCRun then
            if state.Started ≤ state.Terminated then
              match startInstance faults handler l3 svc state with
              | ((_, some _), state1, l4) =>
                some (.returned, (stopInstance faults handler l4 state1).2)
              | ((processDone, none), state1, l4) =>
                some (.selecting state1, { l4 with processDone := processDone })
            else if l3.processDone = none then
              match attachInstance faults handler l3 svc state with
              | ((_, some _), state1, l4) =>
                some (.returned, (stopInstance faults handler l4 state1).2)
              | ((processDone, none), state1, l4) =>
                some (.selecting state1, { l4 with processDone := processDone })
            else some (.selecting state, l3)
          else if hs.DesiredState = SVCStop then
            match l3.processDone with
            | some done =>
              match detachInstance faults handler l3 done state with
              | none => none
              | some (_, l4) => some (.returned, l4)
            | none => some (.returned, (stopInstance faults handler l3 state).2)
          else some (.selecting state, l3)

/-- A case of the `select` of `listenHostState` that fires: a value on
`processDone`, a watch event on the host-state node (with whether its type is
`EventNodeDeleted`), or the shutdown. -/
inductive Wake where
  | processDone
  | event (deleted : Bool)
  | shutdown
  deriving DecidableEq, Repr

/-- What happens while the listener waits in the `select`: the case that fires,
and the nodes of the store as the other clients have left them by then (`none`
when they have not touched them). -/
structure Wakeup where
  wake : Wake
  nodes : Option (GoMap Node) := none
  deriving DecidableEq, Repr

/-- The listener once the other clients have written. -/
def Listener.seen (l : Listener) (w : Wakeup) : Listener :=
  match w.nodes with
  | none => l
  | some nodes => { l with conn := { l.conn with nodes := nodes } }

/-- The loop of `listenHostState` from its `select`, over the wake-ups still to
come; `state` is the variable of that name.  The result is the listener when the
function returns, `none` when it does not: it waits in the `select` after the
last wake-up, or in a receive.  A value on `processDone` is not received while
the variable is nil; such a wake-up is passed over. -/
def selectLoop (faults : Faults) (handler : HostHandler) (hostID ssID : String) :
    List Wakeup → ServiceState → Listener → Option Listener
  | [], _, _ => none
  | w :: rest, state, l =>
    match w.wake with
    | .processDone =>
      if l.processDone = none then selectLoop faults handler hostID ssID rest state l
      else
        match pass faults handler hostID ssID { (l.seen w) with processDone := none } with
        | none => none
        | some (.returned, l1) => some l1
        | some (.selecting state1, l1) => selectLoop faults handler hostID ssID rest state1 l1
    | .event deleted =>
      if deleted then some (l.seen w)
      else
        match pass faults handler hostID ssID (l.seen w) with
        | none => none
        | some (.returned, l1) => some l1
        | some (.selecting state1, l1) => selectLoop faults handler hostID ssID rest state1 l1
    | .shutdown =>
      match l.processDone with
      | some done =>
        match detachInstance faults handler (l.seen w) done state with
        | none => none
        | some (_, l1) => some l1
      | none => some (stopInstance faults handler (l.seen w) state).2

/-- `HostStateListener.listenHostState` on the wake-ups to come: the first pass
through the body of the loop, then the `select`. -/
def listenHostState (faults : Faults) (handler : HostHandler) (hostID ssID : String)
    (schedule : List Wakeup) (l : Listener) : Option Listener :=
  match pass faults handler hostID ssID l with
  | none => none
  | some (.returned, l1) => some l1
  | some (.selecting state, l1) => selectLoop faults handler hostID ssID schedule state l1

end Zzk

namespace Zzk

/-- A pass of `listenHostState` loads these three values: the host state of the
instance with its two ids set, the service state it names and the service. -/
def Loaded (faults : Faults) (conn : Conn) (hostID ssID : String) (hs : HostState)
    (state : ServiceState) (svc : Service) : Prop :=
  conn.read faults (hostpath [hostID, ssID]) = .ok (.hostState hs) ∧
  hs.ServiceID ≠ "" ∧ hs.ServiceStateID ≠ "" ∧
  conn.read faults (servicepath [hs.ServiceID, hs.ServiceStateID]) = .ok (.serviceState state) ∧
  conn.read faults (servicepath [hs.ServiceID]) = .ok (.service svc)

/-- The listener after the three loads of a pass. -/
def Listener.loaded (l : Listener) (hostID ssID : String) (hs : HostState) : Listener :=
  { l with
    conn := { l.conn with
      calls := l.conn.calls ++
        [.getW (hostpath [hostID, ssID]),
         .get (servicepath [hs.ServiceID, hs.ServiceStateID]),
         .get (servicepath [hs.ServiceID])] } }

/-- A sample instance: state `s1` of the service `svc` on the host `h1`. -/
def sampleState : ServiceState := { Id := "s1", ServiceID := "svc", HostID := "h1" }

/-- A connection on which the creation of host-state nodes fails. -/
def sampleFaults : Faults :=
  { create := fun path => if path = "/hosts/h1/s1" then some "session lost" else none }

/-- A store that holds the host-state node of the sample instance, as an earlier
attempt to add the instance can leave it. -/
def sampleRetry : Conn :=
  { nodes := [("/hosts/h1/s1", .hostState (NewHostState sampleState))] }

/-- The nodes of the sample instance with the given desired state, and the node
of its service. -/
def sampleNodes (desiredState : Int) : GoMap Node :=
  [ ("/hosts/h1/s1", .hostState { NewHostState sampleState with DesiredState := desiredState }),
    ("/services/svc/s1", .serviceState sampleState),
    ("/services/svc", .service { ID := "svc" }) ]

/-- A handler whose calls succeed; a start or an attach stamps the start time. -/
def sampleHandler : HostHandler where
  AttachService := fun _ state => (none, { state with Started := 5 })
  StartService := fun _ state => (none, { state with Started := 5 })
  StopService := fun state => (none, state)

/-- A handler whose `StartService` fails. -/
def failingHandler : HostHandler where
  AttachService := fun _ state => (none, state)
  StartService := fun _ state => (some "no such image", state)
  StopService := fun state => (none, state)

end Zzk

namespace Zzk

/-- A listener at the start of `listenHostState` on the sample nodes. -/
def sampleListener (desiredState : Int) : Listener :=
  { conn := { nodes := sampleNodes desiredState } }

end Zzk

/-! ## container/controller.go -/

namespace Container

/-- The error `ErrInvalidTenantID`. -/
def ErrInvalidTenantID : String := "container: invalid tenant id"

/-- The error `ErrInvalidServicedID`. -/
def ErrInvalidServicedID : String := "container: invalid serviced id"

/-- The field `Service` of `ControllerOptions`. -/
structure ServiceOptions where
  ID : String := ""
  TenantID : String := ""
  Autorestart : Bool := false
  Command : List String := []
  deriving DecidableEq, Repr

/-- The field `Logforwarder` of `ControllerOptions`. -/
structure LogforwarderOptions where
  Enabled : Bool := false
  Path : String := ""
  ConfigFile : String := ""
  deriving DecidableEq, Repr

/-- The field `Metric` of `ControllerOptions`. -/
structure MetricOptions where
  Address : String := ""
  RemoteEndoint : String := ""
  deriving DecidableEq, Repr

/-- The struct `ControllerOptions`, without the `Mux` options, which
`NewController` does not read. -/
structure ControllerOptions where
  ServicedEndpoint : String := ""
  Service : ServiceOptions := {}
  Logforwarder : LogforwarderOptions := {}
  Metric : MetricOptions := {}
  deriving DecidableEq, Repr

/-- A process made by `subprocess.New`: the command and its arguments. -/
structure Instance where
  command : String := ""
  args : List String := []
  deriving DecidableEq, Repr

/-- A forwarder made by `NewMetricForwarder`: the address it serves and the url
it redirects to. -/
structure MetricForwarder where
  address : String := ""
  redirect : String := ""
  deriving DecidableEq, Repr

/-- The struct `Controller` as `NewController` fills it; `looping` says that the
goroutine `c.loop()` was started. -/
structure Controller where
  metricForwarder : Option MetricForwarder := none
  logforwarder : Option Instance := none
  looping : Bool := false
  deriving DecidableEq, Repr

/-- The two constructors `NewController` calls, which are not among the sources,
each with the error it can return. -/
structure Constructors where
  /-- `subprocess.New(sigtermTimeout, sigkillTimeout, command, args...)`. -/
  subprocessNew : String → List String → Except String Instance
  /-- `NewMetricForwarder(address, redirect)`. -/
  NewMetricForwarder : String → String → Except String MetricForwarder

/-- The log forwarder of `NewController`: made when the options enable it. -/
def newLogforwarder (env : Constructors) (options : ControllerOptions) :
    Except String (Option Instance) :=
  if options.Logforwarder.Enabled then
    match env.subprocessNew options.Logforwarder.Path
        ["-old-files-hours=26280", "-config", options.Logforwarder.ConfigFile] with
    | .error err => .error err
    | .ok logforwarder => .ok (some logforwarder)
  else .ok none

/-- `NewController`: the controller returned (`none` is the nil pointer) and the
error. -/
def NewController (env : Constructors) (options : ControllerOptions) :
    Option Controller × Option String :=
  match newLogforwarder env options with
  | .error err => (none, some err)
  | .ok logforwarder =>
    let c : Controller := { logforwarder := logforwarder }
    let metric_redirect := options.Metric.RemoteEndoint
    if metric_redirect.length = 0 then (some { c with looping := true }, none)
    else if options.Service.TenantID.length = 0 then (none, some ErrInvalidTenantID)
    else if options.Service.ID.length > 0 then (none, some ErrInvalidServicedID)
    else
      let metric_redirect := metric_redirect ++ "&controlplane_service_id=" ++ options.Service.ID
      let metric_redirect :=
        metric_redirect ++ "?controlplane_tenant_id=" ++ options.Service.TenantID
      match env.NewMetricForwarder options.Metric.Address metric_redirect with
      | .error err => (some c, some err)
      | .ok forwarder => (some { c with metricForwarder := some forwarder, looping := true }, none)

/-- Sample constructors that do not fail. -/
def sampleConstructors : Constructors where
  subprocessNew := fun command args => .ok { command := command, args := args }
  NewMetricForwarder := fun address redirect => .ok { address := address, redirect := redirect }

/-- Sample options: the service `svc1` of the tenant `t1`, with metric forwarding. -/
def sampleOptions : ControllerOptions :=
  { Service := { ID := "svc1", TenantID := "t1" },
    Metric := { Address := ":22350", RemoteEndoint := "http://localhost:8444/api/metrics/store" } }

/-- The sample options with an empty service id. -/
def sampleOptionsNoID : ControllerOptions :=
  { sampleOptions with Service := { ID := "", TenantID := "t1" } }

end Container

namespace Facade

/-- The sample collaborators, except that `serviceconfigfile.New` fails for a
file marked as deleted. -/
def tombstoneFailing : Collaborators :=
  { sampleEnv with
    newSvcConfigFile := fun tenantID servicePath conf =>
      if conf.Deleted then .error "could not generate a uuid"
      else sampleEnv.newSvcConfigFile tenantID servicePath conf }

end Facade

/-! ## facade/service.go: `StopService` -/

namespace Facade

/-- Modelled from the spec: the constant `commons.MANUAL`, declared outside the
sources (`launch ∈ {Auto,Manual}`). -/
def MANUAL : String := "manual"

/-- Modelled from the spec: the constant `service.SVCStop`, declared outside the
sources (`desiredState ∈ {Run,Stop,Pause}`); a value other than `SVCRun`. -/
def SVCStop : Int := 0

/-- The closure `visitor` of `StopService`. -/
def stopVisitor (env : Collaborators) (fuel : Nat) : Visit :=
  fun st svc =>
    if svc.Launch = MANUAL then some (none, st)
    else updateService env fuel st { svc with DesiredState := SVCStop }

/-- `Facade.StopService`: the error returned and the state afterwards; `none` when
the walk does not return. -/
def StopService (env : Collaborators) (fuel : Nat) (st : FacadeState) (id : String) :
    Option (Option String × FacadeState) :=
  walkServices (stopVisitor env fuel) fuel id st

/-- The service with that id is in the subtree rooted at `root`: it is `root`, or
a stored service whose parent is in the subtree. -/
inductive InSubtree (store : ServiceStore) (root : String) : String → Prop where
  | root : InSubtree store root root
  | child (svc : Service) : svc ∈ store → InSubtree store root svc.ParentServiceID →
      InSubtree store root svc.ID

/-- The record the visitor of `StopService` hands to `Put` for a stored service
that is not launched manually: the desired state is `SVCStop`, and
`updateService` has filled in the address assignments. -/
def stopRecord (env : Collaborators) (svc : Service) : Service :=
  (fillServiceAddr env { svc with DesiredState := SVCStop }).1

/-- The stored service after the visits of `StopService` to the services with the
ids `visited`. -/
def stopIn (env : Collaborators) (visited : List String) (svc : Service) : Service :=
  if svc.ID ∈ visited ∧ svc.Launch ≠ MANUAL then stopRecord env svc else svc

/-- The service stores on which `updateService` writes the record it has read:
the ids are pairwise distinct (the store is indexed by id) and trimmed
(`updateService` trims the id before it looks the service up and stores it;
`AddService` stores the id as given, so this is a condition on the ids added),
and no config-file map has a key twice (a Go map). -/
def StoreKept (store : ServiceStore) : Prop :=
  (store.map fun svc => svc.ID).Nodup ∧
  (∀ svc ∈ store, TrimSpace svc.ID = svc.ID) ∧
  (∀ svc ∈ store, ((entriesOf svc.ConfigFiles).map fun e => e.1).Nodup)

/-- A sample tree: the tenant `tenantA` with the children `web`, launched
manually, and `db`; and the tenant `tenantB`. -/
def sampleTree : ServiceStore :=
  [ { ID := "tenantA", Launch := "auto", DesiredState := SVCRun },
    { ID := "web", ParentServiceID := "tenantA", Launch := "manual", DesiredState := SVCRun },
    { ID := "db", ParentServiceID := "tenantA", Launch := "auto", DesiredState := SVCRun },
    { ID := "tenantB", Launch := "auto", DesiredState := SVCRun } ]

/-- The sample tree after `StopService("tenantA")`. -/
def sampleStopped : ServiceStore :=
  [ { ID := "tenantA", Launch := "auto", DesiredState := SVCStop },
    { ID := "web", ParentServiceID := "tenantA", Launch := "manual", DesiredState := SVCRun },
    { ID := "db", ParentServiceID := "tenantA", Launch := "auto", DesiredState := SVCStop },
    { ID := "tenantB", Launch := "auto", DesiredState := SVCRun } ]

end Facade

namespace Facade

/-- The state after `StopService("tenantA")` on the sample tree: `tenantA` and `db`
are stopped and published, in that order. -/
def sampleStoppedState : FacadeState :=
  { services := sampleStopped,
    zkCalls :=
      [ .updateService { ID := "tenantA", Launch := "auto", DesiredState := SVCStop },
        .updateService { ID := "db", ParentServiceID := "tenantA", Launch := "auto",
                         DesiredState := SVCStop } ] }

end Facade

/-! ## facade/service.go: the tenant memo as a refinement, and termination -/

namespace Facade

/-- The parent chain that starts at `x` ends after `d` parent references: at a
service without parent, or at a lookup that fails (a reference to a service that
cannot be looked up counts as one more). -/
inductive ChainDepth (gs : Serviced.GetService) : String → Nat → Prop where
  | failed (x e : String) : gs x = .error e → ChainDepth gs x 0
  | root (x : String) (svc : Service) :
      gs x = .ok svc → svc.ParentServiceID = "" → ChainDepth gs x 0
  | parent (x : String) (svc : Service) (d : Nat) :
      gs x = .ok svc → svc.ParentServiceID ≠ "" → ChainDepth gs svc.ParentServiceID d →
      ChainDepth gs x (d + 1)

/-- Every tenant id in the memo is the root of the parent chain of its key. -/
def RootedCache (store : ServiceStore) (tenantIDs : TenantCache) : Prop :=
  ∀ k t : String, tenantIDs.get k = some t → IsRootOf store k t

/-- The ids handed to `gs` by the loop of `getTenantID` (see `walkUp`), in the
order of the calls. -/
def walkUpLookups (gs : Serviced.GetService) : Nat → Service → TenantCache → List String
  | 0, _, _ => []
  | fuel + 1, svc, tenantIDs =>
    if svc.ParentServiceID ≠ "" then
      match lookUpTenant tenantIDs svc.ParentServiceID with
      | some _ => []
      | none =>
        match gs svc.ParentServiceID with
        | .error _ => [svc.ParentServiceID]
        | .ok svc1 => svc.ParentServiceID :: walkUpLookups gs fuel svc1 tenantIDs
    else []

/-- The ids handed to `gs` by `getTenantID`, in the order of the calls: the one
before the loop, then those of the loop. -/
def getTenantIDLookups (fuel : Nat) (svcID : String) (gs : Serviced.GetService)
    (tenantIDs : TenantCache) : List String :=
  match lookUpTenant tenantIDs svcID with
  | some _ => []
  | none =>
    match gs svcID with
    | .error _ => [svcID]
    | .ok svc => svcID :: walkUpLookups gs fuel svc tenantIDs

end Facade

/-! ## facade/service.go: the service tree -/

namespace Facade

/-- The service with id `d` is in the list, `k` parent references below the
service of the list with id `a`. -/
inductive Below (servicesList : List Service) (a : String) : String → Nat → Prop where
  | self (svc : Service) : svc ∈ servicesList → svc.ID = a → Below servicesList a a 0
  | child (svc : Service) (k : Nat) : svc ∈ servicesList →
      Below servicesList a svc.ParentServiceID k → Below servicesList a svc.ID (k + 1)

/-- The ids of the services of the list whose parent is `id`, in the order of the
list. -/
def childIds (servicesList : List Service) (id : String) : List String :=
  (servicesList.filter fun svc => svc.ParentServiceID = id).map fun svc => svc.ID

/-- The node `getServiceTree` builds for a service of the list. -/
def nodeOf (servicesList : List Service) (svc : Service) : treenode :=
  { id := svc.ID, parent := svc.ParentServiceID, children := childIds servicesList svc.ID }

/-- A list with one service, whose id is empty. -/
def sampleNameless : List Service := [{ ID := "" }]

/-- A sample list: the tenant `web` with the child `db`, which has the child
`cache`, and another tenant. -/
def sampleHierarchy : List Service :=
  [ { ID := "db", ParentServiceID := "web" }, { ID := "web" },
    { ID := "cache", ParentServiceID := "db" }, { ID := "other" } ]

end Facade

namespace Zzk

/-- A store that holds the service-state node of the sample instance, as an
earlier instance of the same id leaves it. -/
def sampleTaken : Conn :=
  { nodes := [("/services/svc/s1", .serviceState sampleState)] }

/-- A handler whose `StopService` fails. -/
def stubbornHandler : HostHandler where
  AttachService := fun _ state => (none, state)
  StartService := fun _ state => (none, { state with Started := 5 })
  StopService := fun state => (some "container does not stop", state)

/-- A handler whose calls succeed and on whose channels no value ever arrives. -/
def silentHandler : HostHandler where
  AttachService := fun _ state => (none, state)
  StartService := fun _ state => (none, { state with Started := 5 })
  StopService := fun state => (none, state)
  delivers := fun _ => false

/-- A connection on which the delete of the node at the given path fails. -/
def deleteFaults (path : String) : Faults :=
  { delete := fun p => if p = path then some "session lost" else none }

/-- The sample nodes with `DesiredState = SVCStop`, the service state of the
instance naming the host `h2`. -/
def sampleMoved : GoMap Node :=
  [ ("/hosts/h1/s1", .hostState { NewHostState sampleState with DesiredState := SVCStop }),
    ("/services/svc/s1", .serviceState { sampleState with HostID := "h2" }),
    ("/services/svc", .service { ID := "svc" }) ]

/-- The sample nodes with `DesiredState = SVCStop`, the service state stored for
the instance carrying the id `s9`. -/
def sampleRenamed : GoMap Node :=
  [ ("/hosts/h1/s1", .hostState { NewHostState sampleState with DesiredState := SVCStop }),
    ("/services/svc/s1", .serviceState { sampleState with Id := "s9" }),
    ("/services/svc", .service { ID := "svc" }) ]

/-- The sample nodes with `DesiredState = SVCStop`, without the node of the
service. -/
def sampleUnlisted : GoMap Node :=
  [ ("/hosts/h1/s1", .hostState { NewHostState sampleState with DesiredState := SVCStop }),
    ("/services/svc/s1", .serviceState sampleState) ]

end Zzk

namespace Facade

/-- A store with the tenant `t` and the service `db`, which is no child of it. -/
def sampleApart : ServiceStore :=
  [ { ID := "t", Launch := "auto", DesiredState := SVCRun },
    { ID := "db", Launch := "auto", DesiredState := SVCRun } ]

/-- The store `sampleApart` after `AddService` of a child of `t` whose id is
`db` with a blank before it. -/
def sampleUntrimmed : ServiceStore :=
  [ { ID := "t", Launch := "auto", DesiredState := SVCRun },
    { ID := "db", Launch := "auto", DesiredState := SVCRun },
    { ID := " db", ParentServiceID := "t", Launch := "auto", DesiredState := SVCRun } ]

end Facade

namespace Facade

/-- A pair of an import endpoint and a service state matches, in the spec's
words: the pattern of the import compiles and the state has an export matching
it. -/
def matchingPair (ec : EndpointCollaborators) (p : ServiceEndpoint × ServiceState) : Bool :=
  (ec.compileError (applicationPattern p.1)).isNone &&
    (ec.getHostEndpointInfo p.2 (applicationPattern p.1)).2.2.2

/-- The pairs of an import endpoint and a service state that match, every pair of
the two lists at most once: one import after the other, and for every import
one state after the other. -/
def matchingPairs (ec : EndpointCollaborators) (imports : List ServiceEndpoint)
    (states : List ServiceState) : List (ServiceEndpoint × ServiceState) :=
  (List.product imports states).filter (matchingPair ec)

/-- The endpoint of the spec for a matching pair: the container port and the
protocol are those of the import when they are not zero and not empty, and those
of the matched export otherwise. -/
def endpointFor (ec : EndpointCollaborators) (p : ServiceEndpoint × ServiceState) :
    Proxy.ApplicationEndpoint :=
  let info := ec.getHostEndpointInfo p.2 (applicationPattern p.1)
  applicationEndpoint p.1 p.2 info.1
    (if p.1.PortNumber ≠ 0 then p.1.PortNumber else info.2.1)
    (if p.1.Protocol ≠ "" then p.1.Protocol else info.2.2.1)

/-- The endpoints a result map holds, key by key. -/
def emitted (result : GoMap (List Proxy.ApplicationEndpoint)) :
    List Proxy.ApplicationEndpoint :=
  result.flatMap fun entry => entry.2

/-- Sample collaborators with two states: an instance of `db`, which exports
`mysql` on port 3306 over tcp, and an instance of `cache`, which exports `redis`
on port 6379 over tcp; the pattern of the application `(` does not compile. -/
def sampleExports : EndpointCollaborators where
  getServicesError := none
  getSvcStates := fun _ _ =>
    .ok [{ ID := "s1", ServiceID := "db", HostIP := "10.0.0.5", PrivateIP := "172.17.0.2" },
         { ID := "s2", ServiceID := "cache", HostIP := "10.0.0.6", PrivateIP := "172.17.0.3" }]
  compileError := fun pattern => if pattern = "^($" then some "missing closing )" else none
  getHostEndpointInfo := fun ss pattern =>
    if pattern = "^mysql$" ∧ ss.ServiceID = "db" then (49153, 3306, "tcp", true)
    else if pattern = "^redis$" ∧ ss.ServiceID = "cache" then (49154, 6379, "tcp", true)
    else (0, 0, "", false)

/-- A sample service with three imports: `mysql` without port or protocol of its
own, an application whose pattern does not compile, and `redis` on port 6380
over udp. -/
def sampleClient : Service :=
  { ID := "web", PoolID := "default",
    Endpoints :=
      [ { Name := "db", Purpose := "import", Application := "mysql" },
        { Name := "bad", Purpose := "import", Application := "(" },
        { Name := "cache", Purpose := "import", Application := "redis", PortNumber := 6380,
          Protocol := "udp" },
        { Name := "http", Purpose := "export", Application := "web" } ] }

/-- The map `GetServiceEndpoints` returns for the sample client. -/
def sampleClientEndpoints : GoMap (List Proxy.ApplicationEndpoint) :=
  [ ("tcp:3306",
      [{ ServiceID := "db", Application := "mysql", ContainerPort := 3306, HostPort := 49153,
         HostIP := "10.0.0.5", ContainerIP := "172.17.0.2", Protocol := "tcp" }]),
    ("udp:6380",
      [{ ServiceID := "cache", Application := "redis", ContainerPort := 6380, HostPort := 49154,
         HostIP := "10.0.0.6", ContainerIP := "172.17.0.3", Protocol := "udp" }]) ]

end Facade

namespace Facade

/-- The state of `sampleBeforeUpdate` with one revision stored for the sample
service: `a.conf` with the content `omega`, stamped 3, while the stored service
has the content `alpha` for that file. -/
def sampleStale : FacadeState :=
  { services := [sampleConfigured],
    configFiles :=
      [("r1", { ID := "r1", ServiceTenantID := "app", ServicePath := "/app",
                ConfFile := { Filename := "a.conf", Content := "omega", Updated := 3 } })],
    clock := 7 }

/-- The sample service as submitted with one config file, `c.conf`, under the key
`settings`. -/
def sampleMiskeyed : Service :=
  { ID := "app", Name := "app",
    ConfigFiles := some [("settings", { Filename := "c.conf", Content := "gamma" })] }

end Facade

-- ===== Theorems =====

/-! ## Facts about `GoMap` -/

namespace GoMap

theorem get_set_self {α : Type} (m : GoMap α) (k : String) (v : α) :
    (m.set k v).get k = some v := by
  induction m with
  | nil => simp [set, get]
  | cons p m ih =>
    obtain ⟨k', v'⟩ := p
    by_cases hk : k' = k
    · simp [set, get, hk]
    · simp [set, get, hk, ih]

theorem get_set_ne {α : Type} (m : GoMap α) (k k2 : String) (v : α) (hne : k ≠ k2) :
    (m.set k v).get k2 = m.get k2 := by
  induction m with
  | nil => simp [set, get, hne]
  | cons p m ih =>
    obtain ⟨k', v'⟩ := p
    by_cases hk : k' = k
    · subst hk
      simp [set, get, hne]
    · by_cases hk2 : k' = k2
      · subst hk2
        simp [set, get, hk]
      · simp [set, get, hk, hk2, ih]

theorem get_delete_self {α : Type} (m : GoMap α) (k : String) :
    (m.delete k).get k = none := by
  induction m with
  | nil => simp [delete, get]
  | cons p m ih =>
    obtain ⟨k', v'⟩ := p
    by_cases hk : k' = k
    · simp [delete, hk, ih]
    · simp [delete, get, hk, ih]

theorem get_delete_ne {α : Type} (m : GoMap α) (k k2 : String) (hne : k ≠ k2) :
    (m.delete k).get k2 = m.get k2 := by
  induction m with
  | nil => simp [delete, get]
  | cons p m ih =>
    obtain ⟨k', v'⟩ := p
    by_cases hk : k' = k
    · subst hk
      simp [delete, get, hne, ih]
    · by_cases hk2 : k' = k2
      · subst hk2
        simp [delete, get, hk]
      · simp [delete, get, hk, hk2, ih]

end GoMap

/-! ## proxy/mux.go: header parsing and dialing -/

namespace Proxy

theorem splitChars_ne_nil (sep : Char) (cs : List Char) : splitChars sep cs ≠ [] := by
  induction cs with
  | nil => simp [splitChars]
  | cons c cs ih =>
    unfold splitChars
    split
    · simp
    · split <;> simp

/-- `strings.Split` never returns an empty list. -/
theorem Split_length_pos (s : String) (sep : Char) : 0 < (Split s sep).length := by
  unfold Split
  have h := splitChars_ne_nil sep s.data
  rw [List.length_map]
  exact List.length_pos.mpr h

/-- C1. For a header line read by `muxConnection`, with `parts` the trimmed line
split on the colon: with fewer than two parts the inbound connection is closed and
nothing is dialed; otherwise exactly one dial is made, to the last two parts
joined by a colon, whatever the earlier parts are. -/
theorem muxConnection_dials_last_two_fields (mux : TCPMux) (json : JSONDecoder) (now : Nat)
    (conn : Conn) (inbound : String) (dial : String → String → Except String Conn)
    (info : MuxConnectionInfo) (line buffered : String)
    (hread : readString [] inbound.data = .ok (line, buffered)) :
    ((Split (TrimSpace line) ':').length < 2 →
      MuxAction.close Peer.client ∈ (muxConnection mux json now conn inbound dial info).1 ∧
      dialed (muxConnection mux json now conn inbound dial info).1 = [] ∧
      (muxConnection mux json now conn inbound dial info).2 = info) ∧
    (2 ≤ (Split (TrimSpace line) ':').length →
      ∃ host port : String,
        (Split (TrimSpace line) ':')[(Split (TrimSpace line) ':').length - 2]?
          = some host ∧
        (Split (TrimSpace line) ':')[(Split (TrimSpace line) ':').length - 1]?
          = some port ∧
        dialed (muxConnection mux json now conn inbound dial info).1
          = [("tcp4", host ++ ":" ++ port)]) := by
  constructor
  · intro hlt
    unfold muxConnection
    simp only [hread]
    simp [hlt, dialed]
  · intro hge
    have hnlt : ¬ (Split (TrimSpace line) ':').length < 2 := by omega
    refine ⟨(Split (TrimSpace line) ':')[(Split (TrimSpace line) ':').length - 2],
      (Split (TrimSpace line) ':')[(Split (TrimSpace line) ':').length - 1],
      ?_, ?_, ?_⟩
    · exact List.getElem?_eq_getElem _
    · exact List.getElem?_eq_getElem _
    · unfold muxConnection
      simp only [hread]
      rw [dif_neg hnlt]
      cases hd : dial "tcp4"
          ((Split (TrimSpace line) ':')[(Split (TrimSpace line) ':').length - 2]
            ++ ":" ++
            (Split (TrimSpace line) ':')[(Split (TrimSpace line) ':').length - 1]) with
      | error e => simp [dialed]
      | ok svc =>
        simp only []
        split <;> simp [dialed]

/-- Witness for C1: the line `127.0.0.1:9000` dials `127.0.0.1:9000`. -/
theorem muxConnection_dials_last_two_fields_witness :
    readString [] "127.0.0.1:9000\n".data = .ok ("127.0.0.1:9000\n", "") ∧
    dialed (muxConnection sampleMux sampleJSON 0 sampleConn "127.0.0.1:9000\n" sampleDial []).1
      = [("tcp4", "127.0.0.1:9000")] := by
  refine ⟨rfl, ?_⟩
  obtain ⟨host, port, h1, h2, h3⟩ :=
    (muxConnection_dials_last_two_fields sampleMux sampleJSON 0 sampleConn "127.0.0.1:9000\n"
      sampleDial [] "127.0.0.1:9000\n" "" rfl).2 (by decide)
  have e1 : (Split (TrimSpace "127.0.0.1:9000\n") ':')[
      (Split (TrimSpace "127.0.0.1:9000\n") ':').length - 2]? = some "127.0.0.1" := by
    decide
  have e2 : (Split (TrimSpace "127.0.0.1:9000\n") ':')[
      (Split (TrimSpace "127.0.0.1:9000\n") ':').length - 1]? = some "9000" := by
    decide
  rw [e1] at h1
  rw [e2] at h2
  cases h1
  cases h2
  exact h3

/-- On no input does `muxConnection` write to the backend: every write it makes
goes to the inbound client connection. -/
theorem muxConnection_never_writes_backend (mux : TCPMux) (json : JSONDecoder) (now : Nat)
    (conn : Conn) (inbound : String) (dial : String → String → Except String Conn)
    (info : MuxConnectionInfo) (p : Peer) (bytes : String)
    (hw : (p, bytes) ∈ written (muxConnection mux json now conn inbound dial info).1) :
    p = Peer.client := by
  unfold muxConnection at hw
  cases hread : readString [] inbound.data with
  | error e => simp [hread, written] at hw
  | ok lb =>
    obtain ⟨line, buffered⟩ := lb
    simp only [hread] at hw
    by_cases hlt : (Split (TrimSpace line) ':').length < 2
    · simp [hlt, written] at hw
    · rw [dif_neg hlt] at hw
      cases hd : dial "tcp4"
          ((Split (TrimSpace line) ':')[(Split (TrimSpace line) ':').length - 2]
            ++ ":" ++
            (Split (TrimSpace line) ':')[(Split (TrimSpace line) ':').length - 1]) with
      | error e => simp [hd, written] at hw
      | ok svc =>
        simp only [hd] at hw
        split at hw
        · simp [written] at hw
          exact hw.1
        · simp [written] at hw

/-- C2 (the code at the failing input). On the scenario input, whose header is
followed by the bytes `HELLO`, `muxConnection` writes `HELLO` to the inbound
client connection and writes nothing to the dialed backend. -/
theorem muxConnection_writes_buffered_to_client :
    written (muxConnection sampleMux sampleJSON 0 sampleConn "127.0.0.1:9000\nHELLO"
      sampleDial []).1 = [(Peer.client, "HELLO")] := by
  decide

/-! ## proxy/mux.go: connection accounting -/

theorem wrapInt64_of_range (x : Int) (hlo : -9223372036854775808 ≤ x)
    (hhi : x < 9223372036854775808) : wrapInt64 x = x := by
  unfold wrapInt64
  omega

theorem wrapInt64_range (x : Int) :
    -9223372036854775808 ≤ wrapInt64 x ∧ wrapInt64 x < 9223372036854775808 := by
  unfold wrapInt64
  omega

theorem wrapInt64_add_one (x : Int) : wrapInt64 (1 + wrapInt64 x) = wrapInt64 (1 + x) := by
  unfold wrapInt64
  omega

theorem newConnectionInfo_counts (mux : TCPMux) (json : JSONDecoder) (now : Nat)
    (parts : List String) (h : 0 < parts.length) (src dst : Conn) :
    (newConnectionInfo mux json now parts h src dst).ActiveWriters = 1 ∧
    (newConnectionInfo mux json now parts h src dst).CreatedAt = now := by
  unfold newConnectionInfo
  constructor <;> (simp only []; split <;> split <;> rfl)

theorem updateConnectionInfo_key (mux : TCPMux) (json : JSONDecoder) (now : Nat)
    (parts : List String) (h : 0 < parts.length) (src dst : Conn) (info : MuxConnectionInfo) :
    (updateConnectionInfo mux json now parts h src dst info).1
      = connectionKey (newConnectionInfo mux json now parts h src dst) := rfl

/-- The entry `updateConnectionInfo` stores under its key: the new entry, with the
time of creation and the writers of the entry found there, if any. -/
theorem updateConnectionInfo_stored (mux : TCPMux) (json : JSONDecoder) (now : Nat)
    (parts : List String) (h : 0 < parts.length) (src dst : Conn) (info : MuxConnectionInfo) :
    (updateConnectionInfo mux json now parts h src dst info).2.get
        (connectionKey (newConnectionInfo mux json now parts h src dst))
      = some (match info.get (connectionKey (newConnectionInfo mux json now parts h src dst)) with
          | some old =>
            { newConnectionInfo mux json now parts h src dst with
              CreatedAt := old.CreatedAt
              ActiveWriters :=
                wrapInt64 ((newConnectionInfo mux json now parts h src dst).ActiveWriters
                  + old.ActiveWriters) }
          | none => newConnectionInfo mux json now parts h src dst) := by
  simp only [updateConnectionInfo]
  exact GoMap.get_set_self _ _ _

theorem updateConnectionInfo_others (mux : TCPMux) (json : JSONDecoder) (now : Nat)
    (parts : List String) (h : 0 < parts.length) (src dst : Conn) (info : MuxConnectionInfo)
    (k2 : String) (hne : k2 ≠ connectionKey (newConnectionInfo mux json now parts h src dst)) :
    (updateConnectionInfo mux json now parts h src dst info).2.get k2 = info.get k2 := by
  simp only [updateConnectionInfo]
  exact GoMap.get_set_ne _ _ _ _ (Ne.symm hne)

/-- C4 (the claim as stated fails at the last `int`).  The map holds under
`sampleKey` an entry with `ActiveWriters = 9223372036854775807`, the greatest Go
`int`; one more connection under that key makes `updateConnectionInfo` store an
entry with `ActiveWriters = -9223372036854775808`, which is not the previous count
plus one. -/
theorem updateConnectionInfo_wraps_at_max_int :
    GoMap.get [(sampleKey, sampleEntry 9223372036854775807)] sampleKey
      = some (sampleEntry 9223372036854775807) ∧
    (updateConnectionInfo sampleMux sampleJSON 5 ["127.0.0.1", "9000"] (by decide) sampleConn
      sampleBackend [(sampleKey, sampleEntry 9223372036854775807)]).1 = sampleKey ∧
    (updateConnectionInfo sampleMux sampleJSON 5 ["127.0.0.1", "9000"] (by decide) sampleConn
      sampleBackend [(sampleKey, sampleEntry 9223372036854775807)]).2
      = [(sampleKey, sampleEntry (-9223372036854775808))] ∧
    (sampleEntry (-9223372036854775808)).ActiveWriters
      ≠ (sampleEntry 9223372036854775807).ActiveWriters + 1 := by
  refine ⟨by decide, by decide, by decide, by decide⟩

/-- C4 (amended).  `updateConnectionInfo` on a key already in the map stores an
entry whose `ActiveWriters` is the previous `ActiveWriters` plus one in Go's
64-bit `int`: the previous count plus one for every previous count below
9223372036854775807, and -9223372036854775808 at 9223372036854775807; its
`CreatedAt` is the previous `CreatedAt`.  On a key not in the map it stores an
entry with `ActiveWriters = 1` and `CreatedAt` the current time.  The entries
under all other keys are unchanged. -/
theorem updateConnectionInfo_entry (mux : TCPMux) (json : JSONDecoder) (now : Nat)
    (parts : List String) (h : 0 < parts.length) (src dst : Conn) (info : MuxConnectionInfo) :
    (∀ old : TCPMuxConnectionInfo,
      info.get (updateConnectionInfo mux json now parts h src dst info).1 = some old →
      ∃ e : TCPMuxConnectionInfo,
        (updateConnectionInfo mux json now parts h src dst info).2.get
          (updateConnectionInfo mux json now parts h src dst info).1 = some e ∧
        e.ActiveWriters = wrapInt64 (old.ActiveWriters + 1) ∧
        (-9223372036854775808 ≤ old.ActiveWriters → old.ActiveWriters < 9223372036854775807 →
          e.ActiveWriters = old.ActiveWriters + 1) ∧
        (old.ActiveWriters = 9223372036854775807 → e.ActiveWriters = -9223372036854775808) ∧
        e.CreatedAt = old.CreatedAt) ∧
    (info.get (updateConnectionInfo mux json now parts h src dst info).1 = none →
      ∃ e : TCPMuxConnectionInfo,
        (updateConnectionInfo mux json now parts h src dst info).2.get
          (updateConnectionInfo mux json now parts h src dst info).1 = some e ∧
        e.ActiveWriters = 1 ∧ e.CreatedAt = now) ∧
    (∀ k2 : String, k2 ≠ (updateConnectionInfo mux json now parts h src dst info).1 →
      (updateConnectionInfo mux json now parts h src dst info).2.get k2 = info.get k2) := by
  obtain ⟨haw, hca⟩ := newConnectionInfo_counts mux json now parts h src dst
  have hstored := updateConnectionInfo_stored mux json now parts h src dst info
  rw [updateConnectionInfo_key]
  refine ⟨?_, ?_, ?_⟩
  · intro old hold
    rw [hold] at hstored
    simp only [haw] at hstored
    rw [add_comm] at hstored
    refine ⟨_, hstored, rfl, ?_, ?_, rfl⟩
    · intro hlo hhi
      exact wrapInt64_of_range _ (by omega) (by omega)
    · intro hmax
      show wrapInt64 (old.ActiveWriters + 1) = -9223372036854775808
      rw [hmax]
      decide
  · intro hnone
    rw [hnone] at hstored
    exact ⟨_, hstored, haw, hca⟩
  · intro k2 hne
    exact updateConnectionInfo_others mux json now parts h src dst info k2 hne

/-- Witness for C4 (amended): a second connection under `sampleKey`, whose entry
holds one writer and was created at time 3. -/
theorem updateConnectionInfo_entry_witness :
    0 < ["127.0.0.1", "9000"].length ∧
    GoMap.get [(sampleKey, sampleEntry 1)]
      (updateConnectionInfo sampleMux sampleJSON 7 ["127.0.0.1", "9000"] (by decide) sampleConn
        sampleBackend [(sampleKey, sampleEntry 1)]).1 = some (sampleEntry 1) ∧
    ∃ e : TCPMuxConnectionInfo,
      (updateConnectionInfo sampleMux sampleJSON 7 ["127.0.0.1", "9000"] (by decide) sampleConn
        sampleBackend [(sampleKey, sampleEntry 1)]).2.get
        (updateConnectionInfo sampleMux sampleJSON 7 ["127.0.0.1", "9000"] (by decide) sampleConn
          sampleBackend [(sampleKey, sampleEntry 1)]).1 = some e ∧
      e.ActiveWriters = 2 ∧ e.CreatedAt = 3 := by
  refine ⟨by decide, by decide, ?_⟩
  obtain ⟨e, he, -, hin, -, hca⟩ :=
    (updateConnectionInfo_entry sampleMux sampleJSON 7 ["127.0.0.1", "9000"] (by decide) sampleConn
      sampleBackend [(sampleKey, sampleEntry 1)]).1 (sampleEntry 1) (by decide)
  exact ⟨e, he, hin (by decide) (by decide), hca⟩

theorem updateConnectionInfo_counts (mux : TCPMux) (json : JSONDecoder) (now : Nat)
    (parts : List String) (h : 0 < parts.length) (src dst : Conn) (info : MuxConnectionInfo)
    (k : String) (b : Int) (hb : 0 ≤ b) (hhi : b + 1 < 9223372036854775808)
    (hk : connectionKey (newConnectionInfo mux json now parts h src dst) = k)
    (hinv : EntryCounts k b info) :
    EntryCounts k (b + 1) (updateConnectionInfo mux json now parts h src dst info).2 := by
  obtain ⟨haw, -⟩ := newConnectionInfo_counts mux json now parts h src dst
  have hstored := updateConnectionInfo_stored mux json now parts h src dst info
  rw [hk] at hstored
  refine ⟨fun _ => ?_, fun h0 => by omega⟩
  rcases lt_or_eq_of_le hb with hpos | hzero
  · obtain ⟨e, he, hawe⟩ := hinv.1 hpos
    rw [he] at hstored
    refine ⟨_, hstored, ?_⟩
    simp only [haw, hawe]
    rw [wrapInt64_of_range _ (by omega) (by omega)]
    ring
  · rw [hinv.2 hzero.symm] at hstored
    refine ⟨_, hstored, ?_⟩
    rw [haw, ← hzero]
    ring

theorem decrementActiveWriters_counts (k : String) (b : Int) (hb : 0 < b)
    (hhi : b < 9223372036854775808)
    (info : MuxConnectionInfo) (hinv : EntryCounts k b info) :
    ∃ info1 : MuxConnectionInfo,
      decrementActiveWriters k info = .ok info1 ∧ EntryCounts k (b - 1) info1 := by
  obtain ⟨e, he, haw⟩ := hinv.1 hb
  have hw : wrapInt64 (e.ActiveWriters - 1) = e.ActiveWriters - 1 :=
    wrapInt64_of_range _ (by omega) (by omega)
  unfold decrementActiveWriters
  simp only [he, hw]
  by_cases hle : e.ActiveWriters - 1 ≤ 0
  · simp only [hle, GoMap.get_set_self, Option.isSome_some, if_true]
    refine ⟨_, rfl, fun hpos => by omega, fun _ => GoMap.get_delete_self _ _⟩
  · simp only [hle, if_false]
    refine ⟨_, rfl, fun _ => ⟨_, GoMap.get_set_self _ _ _, by simp [haw]⟩, fun h0 => by omega⟩

theorem runAccounting_counts (mux : TCPMux) (json : JSONDecoder) (k : String) :
    ∀ (calls : List AccountingCall) (info : MuxConnectionInfo) (b : Int), 0 ≤ b →
      b < 9223372036854775808 →
      EntryCounts k b info → producesKey mux json k calls →
      (∀ p q : List AccountingCall, calls = p ++ q →
        0 ≤ b + (numUpdates p : Int) - (numDecrements p : Int) ∧
        b + (numUpdates p : Int) - (numDecrements p : Int) < 9223372036854775808) →
      ∃ info1 : MuxConnectionInfo, runAccounting mux json k calls info = .ok info1 ∧
        EntryCounts k (b + (numUpdates calls : Int) - (numDecrements calls : Int)) info1 := by
  intro calls
  induction calls with
  | nil =>
    intro info b _ _ hinv _ _
    exact ⟨info, rfl, by simpa [numUpdates, numDecrements] using hinv⟩
  | cons c rest ih =>
    intro info b hb hbhi hinv hkey hvalid
    cases c with
    | update now parts h src dst =>
      obtain ⟨hk, hrest⟩ := hkey
      have hone : b + 1 < 9223372036854775808 := by
        have := (hvalid [AccountingCall.update now parts h src dst] rest rfl).2
        simp only [numUpdates, numDecrements] at this
        push_cast at this
        omega
      have hinv1 :=
        updateConnectionInfo_counts mux json now parts h src dst info k b hb hone hk hinv
      have hvalid1 : ∀ p q : List AccountingCall, rest = p ++ q →
          0 ≤ (b + 1) + (numUpdates p : Int) - (numDecrements p : Int) ∧
          (b + 1) + (numUpdates p : Int) - (numDecrements p : Int) < 9223372036854775808 := by
        intro p q hpq
        have := hvalid (AccountingCall.update now parts h src dst :: p) q (by rw [hpq]; rfl)
        simp only [numUpdates, numDecrements] at this
        push_cast at this
        omega
      obtain ⟨info1, hrun, hfin⟩ := ih _ (b + 1) (by omega) hone hinv1 hrest hvalid1
      refine ⟨info1, hrun, ?_⟩
      have e : b + ((numUpdates (AccountingCall.update now parts h src dst :: rest) : Nat) : Int)
          - (numDecrements (AccountingCall.update now parts h src dst :: rest) : Int)
          = (b + 1) + (numUpdates rest : Int) - (numDecrements rest : Int) := by
        simp only [numUpdates, numDecrements]
        push_cast
        ring
      rw [e]
      exact hfin
    | decrement =>
      have hpos : 0 < b := by
        have := (hvalid [AccountingCall.decrement] rest rfl).1
        simp only [numUpdates, numDecrements] at this
        push_cast at this
        omega
      obtain ⟨info0, hdec, hinv1⟩ := decrementActiveWriters_counts k b hpos hbhi info hinv
      have hvalid1 : ∀ p q : List AccountingCall, rest = p ++ q →
          0 ≤ (b - 1) + (numUpdates p : Int) - (numDecrements p : Int) ∧
          (b - 1) + (numUpdates p : Int) - (numDecrements p : Int) < 9223372036854775808 := by
        intro p q hpq
        have := hvalid (AccountingCall.decrement :: p) q (by rw [hpq]; rfl)
        simp only [numUpdates, numDecrements] at this
        push_cast at this
        omega
      obtain ⟨info1, hrun, hfin⟩ := ih info0 (b - 1) (by omega) (by omega) hinv1 hkey hvalid1
      refine ⟨info1, ?_, ?_⟩
      · simp only [runAccounting, hdec]
        exact hrun
      · have e : b + ((numUpdates (AccountingCall.decrement :: rest) : Nat) : Int)
            - (numDecrements (AccountingCall.decrement :: rest) : Int)
            = (b - 1) + (numUpdates rest : Int) - (numDecrements rest : Int) := by
          simp only [numUpdates, numDecrements]
          push_cast
          ring
        rw [e]
        exact hfin

theorem producesKey_of_append (mux : TCPMux) (json : JSONDecoder) (k : String) :
    ∀ p q : List AccountingCall, producesKey mux json k (p ++ q) → producesKey mux json k p := by
  intro p
  induction p with
  | nil => intro _ _; trivial
  | cons c p ih =>
    intro q hq
    cases c with
    | update now parts h src dst => exact ⟨hq.1, ih q hq.2⟩
    | decrement => exact ih q hq

theorem proxyLoopFrom_actions (key : String) :
    ∀ (n : Nat) (transferred : Int) (schedule : List SelectCase) (r : List MuxAction × Int),
      proxyLoopFrom key n transferred schedule = some r →
      r.1 = [MuxAction.decrement key, MuxAction.close Peer.client, MuxAction.close Peer.backend] := by
  intro n
  induction n with
  | zero =>
    intro t schedule r h
    simp only [proxyLoopFrom, Option.some.injEq] at h
    rw [← h]
  | succ n ih =>
    intro t schedule r h
    cases schedule with
    | nil => simp [proxyLoopFrom] at h
    | cons c rest =>
      cases c with
      | event w => exact ih _ _ _ (by simpa [proxyLoopFrom] using h)
      | quit =>
        simp only [proxyLoopFrom] at h
        split at h
        · simp only [Option.some.injEq] at h
          rw [← h]
        · simp at h

/-! ### The run of `n` connections that are all open at once -/

theorem numUpdates_append (p q : List AccountingCall) :
    numUpdates (p ++ q) = numUpdates p + numUpdates q := by
  induction p with
  | nil => simp [numUpdates]
  | cons c p ih =>
    cases c with
    | update now parts h src dst =>
      show numUpdates (p ++ q) + 1 = numUpdates p + 1 + numUpdates q
      omega
    | decrement => exact ih

theorem numDecrements_append (p q : List AccountingCall) :
    numDecrements (p ++ q) = numDecrements p + numDecrements q := by
  induction p with
  | nil => simp [numDecrements]
  | cons c p ih =>
    cases c with
    | update now parts h src dst => exact ih
    | decrement =>
      show numDecrements (p ++ q) + 1 = numDecrements p + 1 + numDecrements q
      omega

theorem numDecrements_le_length (p : List AccountingCall) : numDecrements p ≤ p.length := by
  induction p with
  | nil => simp [numDecrements]
  | cons c p ih =>
    cases c with
    | update now parts h src dst => simp only [numDecrements, List.length_cons]; omega
    | decrement => simp only [numDecrements, List.length_cons]; omega

theorem counts_of_all_updates (p : List AccountingCall) (hall : ∀ c ∈ p, c = sampleUpdate) :
    numUpdates p = p.length ∧ numDecrements p = 0 := by
  induction p with
  | nil => exact ⟨rfl, rfl⟩
  | cons c p ih =>
    have hc : c = sampleUpdate := hall c (List.mem_cons_self _ _)
    obtain ⟨hu, hd⟩ := ih (fun c hmem => hall c (List.mem_cons_of_mem _ hmem))
    subst hc
    exact ⟨by simp only [sampleUpdate, numUpdates, List.length_cons, hu],
      by simp only [sampleUpdate, numDecrements, hd]⟩

theorem counts_of_all_decrements (p : List AccountingCall)
    (hall : ∀ c ∈ p, c = AccountingCall.decrement) :
    numUpdates p = 0 ∧ numDecrements p = p.length := by
  induction p with
  | nil => exact ⟨rfl, rfl⟩
  | cons c p ih =>
    have hc : c = AccountingCall.decrement := hall c (List.mem_cons_self _ _)
    obtain ⟨hu, hd⟩ := ih (fun c hmem => hall c (List.mem_cons_of_mem _ hmem))
    subst hc
    exact ⟨by simp only [numUpdates, hu], by simp only [numDecrements, List.length_cons, hd]⟩

theorem sampleRun_counts (n : Nat) :
    numUpdates (sampleRun n) = n ∧ numDecrements (sampleRun n) = n := by
  obtain ⟨hu1, hd1⟩ := counts_of_all_updates (List.replicate n sampleUpdate)
    (fun c hc => (List.mem_replicate.1 hc).2)
  obtain ⟨hu2, hd2⟩ := counts_of_all_decrements (List.replicate n AccountingCall.decrement)
    (fun c hc => (List.mem_replicate.1 hc).2)
  rw [List.length_replicate] at hu1 hd2
  unfold sampleRun
  rw [numUpdates_append, numDecrements_append, hu1, hd1, hu2, hd2]
  omega

theorem sampleRun_producesKey (n : Nat) :
    producesKey sampleMux sampleJSON sampleKey (sampleRun n) := by
  have hdec : ∀ m : Nat,
      producesKey sampleMux sampleJSON sampleKey (List.replicate m AccountingCall.decrement) := by
    intro m
    induction m with
    | zero => trivial
    | succ m ih => exact ih
  have hboth : ∀ a m : Nat,
      producesKey sampleMux sampleJSON sampleKey
        (List.replicate a sampleUpdate ++ List.replicate m AccountingCall.decrement) := by
    intro a m
    induction a with
    | zero => exact hdec m
    | succ a ih =>
      rw [List.replicate_succ, List.cons_append]
      exact ⟨rfl, ih⟩
  exact hboth n n

/-- Every way of cutting the run `sampleRun n` in two leaves no more decrements
than updates in the first part. -/
theorem sampleRun_valid (n : Nat) (p q : List AccountingCall) (hpq : sampleRun n = p ++ q) :
    numDecrements p ≤ numUpdates p := by
  unfold sampleRun at hpq
  rcases List.append_eq_append_iff.1 hpq with ⟨a, hp, hq⟩ | ⟨c, hp, -⟩
  · -- the cut lies in the decrements
    obtain ⟨hu1, hd1⟩ := counts_of_all_updates (List.replicate n sampleUpdate)
      (fun c hc => (List.mem_replicate.1 hc).2)
    rw [List.length_replicate] at hu1
    have hlen : a.length ≤ n := by
      have := congrArg List.length hq
      rw [List.length_replicate, List.length_append] at this
      omega
    have := numDecrements_le_length a
    rw [hp, numUpdates_append, numDecrements_append, hu1, hd1]
    omega
  · -- the cut lies in the updates
    have hall : ∀ x ∈ p, x = sampleUpdate := by
      intro x hx
      have : x ∈ List.replicate n sampleUpdate := by
        rw [hp]
        exact List.mem_append_left _ hx
      exact (List.mem_replicate.1 this).2
    rw [(counts_of_all_updates p hall).2]
    exact Nat.zero_le _

/-- One more connection under `sampleKey` on a map that holds an entry for it. -/
theorem sampleUpdate_on_entry (info : MuxConnectionInfo) (e : TCPMuxConnectionInfo)
    (he : info.get sampleKey = some e) :
    ∃ e1 : TCPMuxConnectionInfo,
      (updateConnectionInfo sampleMux sampleJSON 5 ["127.0.0.1", "9000"] (by decide) sampleConn
        sampleBackend info).2.get sampleKey = some e1 ∧
      e1.ActiveWriters = wrapInt64 (1 + e.ActiveWriters) := by
  have hstored := updateConnectionInfo_stored sampleMux sampleJSON 5 ["127.0.0.1", "9000"]
    (by decide) sampleConn sampleBackend info
  have hk : connectionKey (newConnectionInfo sampleMux sampleJSON 5 ["127.0.0.1", "9000"]
    (by decide) sampleConn sampleBackend) = sampleKey := by decide
  rw [hk, he] at hstored
  exact ⟨_, hstored, rfl⟩

/-- After `n` further connections under `sampleKey` the entry holds the writers
it held plus `n`, wrapped into the Go `int`. -/
theorem runAccounting_updates (n : Nat) :
    ∀ (info : MuxConnectionInfo) (e : TCPMuxConnectionInfo),
      info.get sampleKey = some e →
      -9223372036854775808 ≤ e.ActiveWriters → e.ActiveWriters < 9223372036854775808 →
      ∃ (info1 : MuxConnectionInfo) (e1 : TCPMuxConnectionInfo),
        runAccounting sampleMux sampleJSON sampleKey (List.replicate n sampleUpdate) info
          = .ok info1 ∧
        info1.get sampleKey = some e1 ∧
        e1.ActiveWriters = wrapInt64 (e.ActiveWriters + (n : Int)) := by
  induction n with
  | zero =>
    intro info e he hlo hhi
    refine ⟨info, e, rfl, he, ?_⟩
    rw [wrapInt64_of_range _ (by simpa using hlo) (by simpa using hhi)]
    simp
  | succ n ih =>
    intro info e he hlo hhi
    obtain ⟨e0, he0, haw0⟩ := sampleUpdate_on_entry info e he
    obtain ⟨hlo0, hhi0⟩ := wrapInt64_range (1 + e.ActiveWriters)
    rw [← haw0] at hlo0 hhi0
    obtain ⟨info1, e1, hrun, he1, haw1⟩ := ih _ e0 he0 hlo0 hhi0
    refine ⟨info1, e1, hrun, he1, ?_⟩
    rw [haw1, haw0]
    push_cast
    unfold wrapInt64
    omega

/-- The run of `n ≥ 1` connections that are all open at once, from the empty
map: after the `n` updates the entry of `sampleKey` holds `n` wrapped into the Go
`int`. -/
theorem sampleRun_opened (n : Nat) (hn : 0 < n) :
    ∃ (info1 : MuxConnectionInfo) (e1 : TCPMuxConnectionInfo),
      runAccounting sampleMux sampleJSON sampleKey (List.replicate n sampleUpdate) []
        = .ok info1 ∧
      info1.get sampleKey = some e1 ∧ e1.ActiveWriters = wrapInt64 (n : Int) := by
  obtain ⟨m, rfl⟩ : ∃ m, n = m + 1 := ⟨n - 1, by omega⟩
  have hfirst : (updateConnectionInfo sampleMux sampleJSON 5 ["127.0.0.1", "9000"] (by decide)
      sampleConn sampleBackend []).2.get sampleKey
        = some (newConnectionInfo sampleMux sampleJSON 5 ["127.0.0.1", "9000"] (by decide)
            sampleConn sampleBackend) := by
    decide
  obtain ⟨info1, e1, hrun, he1, haw1⟩ := runAccounting_updates m _ _ hfirst (by decide) (by decide)
  refine ⟨info1, e1, ?_, he1, ?_⟩
  · rw [List.replicate_succ]
    exact hrun
  · rw [haw1]
    have h1 : (newConnectionInfo sampleMux sampleJSON 5 ["127.0.0.1", "9000"] (by decide)
        sampleConn sampleBackend).ActiveWriters = 1 := by decide
    rw [h1]
    push_cast
    rw [add_comm]

/-- C3 (the claim as stated fails once 9223372036854775808 connections are open
at once).  The run of 9223372036854775808 updates producing `sampleKey` followed by
as many decrements meets every premise of the claim (equal numbers of updates and
decrements, every update produces the key, decrements never outnumber the updates
before them, the key is not in the map at the start).  After the updates, with no
decrement yet, updates minus decrements is 9223372036854775808 and positive, and
the entry of the key holds `ActiveWriters = -9223372036854775808`. -/
theorem accounting_wraps_after_max_int_updates :
    numUpdates (sampleRun 9223372036854775808) = 9223372036854775808 ∧
    numDecrements (sampleRun 9223372036854775808) = 9223372036854775808 ∧
    GoMap.get ([] : MuxConnectionInfo) sampleKey = none ∧
    producesKey sampleMux sampleJSON sampleKey (sampleRun 9223372036854775808) ∧
    (∀ p q : List AccountingCall, sampleRun 9223372036854775808 = p ++ q →
      numDecrements p ≤ numUpdates p) ∧
    sampleRun 9223372036854775808
      = List.replicate 9223372036854775808 sampleUpdate
        ++ List.replicate 9223372036854775808 AccountingCall.decrement ∧
    numUpdates (List.replicate 9223372036854775808 sampleUpdate) = 9223372036854775808 ∧
    numDecrements (List.replicate 9223372036854775808 sampleUpdate) = 0 ∧
    ∃ (info1 : MuxConnectionInfo) (e : TCPMuxConnectionInfo),
      runAccounting sampleMux sampleJSON sampleKey
        (List.replicate 9223372036854775808 sampleUpdate) [] = .ok info1 ∧
      info1.get sampleKey = some e ∧
      e.ActiveWriters = -9223372036854775808 := by
  obtain ⟨hu, hd⟩ := sampleRun_counts 9223372036854775808
  obtain ⟨hu1, hd1⟩ := counts_of_all_updates (List.replicate 9223372036854775808 sampleUpdate)
    (fun c hc => (List.mem_replicate.1 hc).2)
  rw [List.length_replicate] at hu1
  obtain ⟨info1, e, hrun, he, haw⟩ := sampleRun_opened 9223372036854775808 (by decide)
  refine ⟨hu, hd, rfl, sampleRun_producesKey _, sampleRun_valid _, rfl, hu1, hd1,
    info1, e, hrun, he, ?_⟩
  rw [haw]
  decide

/-- C3 (amended).  Connection accounting balances while fewer than
9223372036854775808 connections of the key are open at once.  From a map without
the key `k`, along any sequence of `n` `updateConnectionInfo` calls producing `k`
and `n` `decrementActiveWriters(k)` calls in which decrements never outnumber the
updates before them and updates never lead the decrements before them by
9223372036854775808 or more, no call panics, after every part of the sequence
carried out the entry of `k` holds `ActiveWriters = updates − decrements` while
that is positive, and after the last call `k` is absent.  `proxyLoop` returns on
its two exit paths (both brokers reported; `quit` received before or between the
reports) and whenever it returns it has decremented the writers of its key exactly
once. -/
theorem connection_accounting_balances (mux : TCPMux) (json : JSONDecoder) (k : String)
    (calls : List AccountingCall) (info : MuxConnectionInfo) (n : Nat)
    (hups : numUpdates calls = n) (hdecs : numDecrements calls = n)
    (habsent : info.get k = none)
    (hkey : producesKey mux json k calls)
    (hvalid : ∀ p q : List AccountingCall, calls = p ++ q → numDecrements p ≤ numUpdates p)
    (hbound : ∀ p q : List AccountingCall, calls = p ++ q →
      numUpdates p < numDecrements p + 9223372036854775808) :
    (∀ p q : List AccountingCall, calls = p ++ q →
      ∃ info1 : MuxConnectionInfo, runAccounting mux json k p info = .ok info1 ∧
        (numDecrements p < numUpdates p →
          ∃ e : TCPMuxConnectionInfo, info1.get k = some e ∧
            e.ActiveWriters = (numUpdates p : Int) - (numDecrements p : Int))) ∧
    (∃ final : MuxConnectionInfo,
      runAccounting mux json k calls info = .ok final ∧ final.get k = none) ∧
    (∀ (key : String) (schedule : List SelectCase) (r : List MuxAction × Int),
      proxyLoop key schedule = some r → decrements r.1 = [key]) ∧
    (∀ (key : String) (w1 w2 : Int),
      (∃ r, proxyLoop key [.event w1, .event w2] = some r) ∧
      (∃ r, proxyLoop key [.quit, .event w1, .event w2] = some r) ∧
      (∃ r, proxyLoop key [.event w1, .quit, .event w2] = some r)) := by
  have hstart : EntryCounts k 0 info := ⟨fun h => absurd h (lt_irrefl 0), fun _ => habsent⟩
  have hprefix : ∀ p q : List AccountingCall, calls = p ++ q →
      ∃ info1 : MuxConnectionInfo, runAccounting mux json k p info = .ok info1 ∧
        EntryCounts k (0 + (numUpdates p : Int) - (numDecrements p : Int)) info1 := by
    intro p q hpq
    refine runAccounting_counts mux json k p info 0 (le_refl 0) (by decide) hstart
      (producesKey_of_append mux json k p q (hpq ▸ hkey)) ?_
    intro p1 q1 hp1
    have h1 := hvalid p1 (q1 ++ q) (by rw [hpq, hp1, List.append_assoc])
    have h2 := hbound p1 (q1 ++ q) (by rw [hpq, hp1, List.append_assoc])
    omega
  refine ⟨?_, ?_, ?_, ?_⟩
  · intro p q hpq
    obtain ⟨info1, hrun, hcount⟩ := hprefix p q hpq
    refine ⟨info1, hrun, fun hlt => ?_⟩
    obtain ⟨e, he, haw⟩ := hcount.1 (by omega)
    exact ⟨e, he, by rw [haw]; ring⟩
  · obtain ⟨final, hrun, hcount⟩ := hprefix calls [] (by simp)
    exact ⟨final, hrun, hcount.2 (by rw [hups, hdecs]; ring)⟩
  · intro key schedule r hr
    rw [proxyLoopFrom_actions key 2 0 schedule r hr]
    rfl
  · intro key w1 w2
    exact ⟨⟨_, rfl⟩, ⟨_, rfl⟩, ⟨_, rfl⟩⟩

/-- Witness for C3 (amended): two connections under one key, opened and then
closed. -/
theorem connection_accounting_balances_witness :
    numUpdates sampleCalls = 2 ∧ numDecrements sampleCalls = 2 ∧
    (∃ final : MuxConnectionInfo,
      runAccounting sampleMux sampleJSON sampleKey sampleCalls [] = .ok final ∧
        final.get sampleKey = none) := by
  have hcuts : ∀ p q : List AccountingCall, sampleCalls = p ++ q →
      numDecrements p ≤ numUpdates p ∧ numUpdates p < numDecrements p + 9223372036854775808 := by
    intro p q hpq
    unfold sampleCalls at hpq
    rcases p with _ | ⟨c1, _ | ⟨c2, _ | ⟨c3, _ | ⟨c4, _ | ⟨c5, p⟩⟩⟩⟩⟩
    · simp [numUpdates, numDecrements]
    · simp only [List.cons_append, List.nil_append, List.cons.injEq] at hpq
      obtain ⟨rfl, -⟩ := hpq
      simp [numUpdates, numDecrements]
    · simp only [List.cons_append, List.nil_append, List.cons.injEq] at hpq
      obtain ⟨rfl, rfl, -⟩ := hpq
      simp [numUpdates, numDecrements]
    · simp only [List.cons_append, List.nil_append, List.cons.injEq] at hpq
      obtain ⟨rfl, rfl, rfl, -⟩ := hpq
      simp [numUpdates, numDecrements]
    · simp only [List.cons_append, List.nil_append, List.cons.injEq] at hpq
      obtain ⟨rfl, rfl, rfl, rfl, -⟩ := hpq
      simp [numUpdates, numDecrements]
    · simp at hpq
  refine ⟨rfl, rfl, ?_⟩
  exact (connection_accounting_balances sampleMux sampleJSON sampleKey sampleCalls [] 2 rfl rfl
    rfl ⟨rfl, rfl, trivial⟩ (fun p q hpq => (hcuts p q hpq).1)
    (fun p q hpq => (hcuts p q hpq).2)).2.1

end Proxy

/-! ## facade/service.go: tenant lookup -/

namespace Facade

theorem updateTenants_get (t : String) :
    ∀ (ids : List String) (c : TenantCache) (k : String),
      (updateTenants t ids c).get k = if k ∈ ids then some t else c.get k := by
  intro ids
  induction ids with
  | nil => intro c k; simp [updateTenants]
  | cons id rest ih =>
    intro c k
    simp only [updateTenants, ih]
    by_cases hk : k ∈ rest
    · simp [hk]
    · by_cases hid : k = id
      · subst hid
        simp [hk, GoMap.get_set_self]
      · simp [hk, hid, GoMap.get_set_ne _ _ _ _ (Ne.symm hid)]

theorem ServiceStore.Get_keyed (store : ServiceStore) : Keyed (getService store) := by
  intro id svc h
  unfold getService ServiceStore.Get at h
  split at h
  · rename_i found hfind
    have := List.find?_some hfind
    cases h
    simpa using this
  · cases h

theorem walkUp_outcome (gs : Serviced.GetService) (hk : Keyed gs) (c : TenantCache) :
    ∀ (fuel : Nat) (svc : Service) (visited : List String) (r : String × Option String)
      (c1 : TenantCache),
      gs svc.ID = .ok svc → svc.ID ∈ visited →
      walkUp gs fuel svc visited c = some (r, c1) → TenantOutcome gs c visited r c1 := by
  intro fuel
  induction fuel with
  | zero =>
    intro svc visited r c1 hsvc hmem h
    unfold walkUp at h
    split at h
    · cases h
    · rename_i hp
      simp only [ne_eq, not_not] at hp
      simp only [Option.some.injEq, Prod.mk.injEq] at h
      obtain ⟨rfl, rfl⟩ := h
      exact Or.inr (Or.inr ⟨rfl, [], by simp, by simp, by simpa using hmem, svc, hsvc, hp⟩)
  | succ fuel ih =>
    intro svc visited r c1 hsvc hmem h
    unfold walkUp at h
    split at h
    · rename_i hp
      cases hl : lookUpTenant c svc.ParentServiceID with
      | some tID =>
        simp only [hl, Option.some.injEq, Prod.mk.injEq] at h
        obtain ⟨rfl, rfl⟩ := h
        exact Or.inr (Or.inl ⟨rfl, rfl, svc.ParentServiceID, hl⟩)
      | none =>
        simp only [hl] at h
        cases hg : gs svc.ParentServiceID with
        | error e =>
          simp only [hg, Option.some.injEq, Prod.mk.injEq] at h
          obtain ⟨rfl, rfl⟩ := h
          exact Or.inl ⟨rfl, e, rfl⟩
        | ok svc1 =>
          simp only [hg] at h
          have hid : svc1.ID = svc.ParentServiceID := hk _ _ hg
          have hsvc1 : gs svc1.ID = .ok svc1 := by rw [hid]; exact hg
          rcases ih svc1 (visited ++ [svc1.ID]) r c1 hsvc1 (by simp) h with hA | hB | hC
          · exact Or.inl hA
          · exact Or.inr (Or.inl hB)
          · obtain ⟨hr, more, hc1, hnone, hin, hroot⟩ := hC
            refine Or.inr (Or.inr ⟨hr, svc1.ID :: more, ?_, ?_, ?_, hroot⟩)
            · simpa [List.append_assoc] using hc1
            · intro v hv
              rcases List.mem_cons.mp hv with rfl | hv
              · rw [hid]; exact hl
              · exact hnone v hv
            · simpa [List.append_assoc] using hin
    · rename_i hp
      simp only [ne_eq, not_not] at hp
      simp only [Option.some.injEq, Prod.mk.injEq] at h
      obtain ⟨rfl, rfl⟩ := h
      exact Or.inr (Or.inr ⟨rfl, [], by simp, by simp, by simpa using hmem, svc, hsvc, hp⟩)

/-- The ways `getTenantID` can end: see `TenantOutcome`; in the third case the id
asked for is among the ids stored. -/
theorem getTenantID_outcome (gs : Serviced.GetService) (hk : Keyed gs) (c : TenantCache) (fuel : Nat)
    (x : String) (r : String × Option String) (c1 : TenantCache)
    (h : getTenantID fuel x gs c = some (r, c1)) :
    TenantOutcome gs c [] r c1 ∧
      (c1 = c ∨ ∃ more : List String, c1 = updateTenants r.1 more c ∧
        ∀ v ∈ more, c.get v = none) := by
  unfold getTenantID at h
  cases hl : lookUpTenant c x with
  | some tID =>
    simp only [hl, Option.some.injEq, Prod.mk.injEq] at h
    obtain ⟨rfl, rfl⟩ := h
    exact ⟨Or.inr (Or.inl ⟨rfl, rfl, x, hl⟩), Or.inl rfl⟩
  | none =>
    simp only [hl] at h
    cases hg : gs x with
    | error e =>
      simp only [hg, Option.some.injEq, Prod.mk.injEq] at h
      obtain ⟨rfl, rfl⟩ := h
      exact ⟨Or.inl ⟨rfl, e, rfl⟩, Or.inl rfl⟩
    | ok svc =>
      simp only [hg] at h
      have hid : svc.ID = x := hk _ _ hg
      have hsvc : gs svc.ID = .ok svc := by rw [hid]; exact hg
      rcases walkUp_outcome gs hk c fuel svc [svc.ID] r c1 hsvc (by simp) h with hA | hB | hC
      · exact ⟨Or.inl hA, Or.inl hA.1⟩
      · exact ⟨Or.inr (Or.inl hB), Or.inl hB.1⟩
      · obtain ⟨hr, more, hc1, hnone, hin, hroot⟩ := hC
        have hall : ∀ v ∈ svc.ID :: more, c.get v = none := by
          intro v hv
          rcases List.mem_cons.mp hv with rfl | hv
          · rw [hid]; exact hl
          · exact hnone v hv
        refine ⟨Or.inr (Or.inr ⟨hr, svc.ID :: more, ?_, hall, ?_, hroot⟩), Or.inr ⟨svc.ID :: more, ?_, hall⟩⟩
        · simpa using hc1
        · simpa using hin
        · simpa using hc1

/-- A call of `getTenantID` never changes or removes an entry of the memo. -/
theorem getTenantID_keeps_entries (gs : Serviced.GetService) (hk : Keyed gs) (c : TenantCache)
    (fuel : Nat) (x : String) (r : String × Option String) (c1 : TenantCache)
    (h : getTenantID fuel x gs c = some (r, c1)) (k t : String) (hkt : c.get k = some t) :
    c1.get k = some t := by
  rcases (getTenantID_outcome gs hk c fuel x r c1 h).2 with rfl | ⟨more, rfl, hnone⟩
  · exact hkt
  · rw [updateTenants_get]
    have : k ∉ more := fun hmem => by rw [hnone k hmem] at hkt; cases hkt
    simp [this, hkt]

theorem getTenantID_fixedCache (gs : Serviced.GetService) (hk : Keyed gs) (c : TenantCache)
    (fuel : Nat) (x : String) (r : String × Option String) (c1 : TenantCache)
    (h : getTenantID fuel x gs c = some (r, c1)) (hfix : FixedCache c) : FixedCache c1 := by
  rcases (getTenantID_outcome gs hk c fuel x r c1 h).1 with hA | hB | hC
  · rw [hA.1]; exact hfix
  · rw [hB.1]; exact hfix
  · obtain ⟨-, more, rfl, hnone, hin, -⟩ := hC
    simp only [List.nil_append] at hin ⊢
    intro k t hkt
    rw [updateTenants_get] at hkt ⊢
    by_cases hmem : k ∈ more
    · simp only [hmem, if_true, Option.some.injEq] at hkt
      subst hkt
      simp [hin]
    · simp only [hmem, if_false] at hkt
      have ht := hfix k t hkt
      have : t ∉ more := fun hm => by rw [hnone t hm] at ht; cases ht
      simp [this, ht]

theorem ReachableCache.fixed (store : ServiceStore) (c : TenantCache)
    (h : ReachableCache store c) : FixedCache c := by
  induction h with
  | empty => intro k t hkt; simp [GoMap.get] at hkt
  | step c0 c1 fuel x r _ hstep ih =>
    exact getTenantID_fixedCache _ (ServiceStore.Get_keyed store) c0 fuel x r c1 hstep ih

theorem getTenantID_hit (gs : Serviced.GetService) (c : TenantCache) (fuel : Nat) (x t : String)
    (h : c.get x = some t) : getTenantID fuel x gs c = some ((t, none), c) := by
  unfold getTenantID lookUpTenant
  rw [h]

theorem getTenantID_root (gs : Serviced.GetService) (c : TenantCache) (fuel : Nat) (x : String)
    (root : Service) (hmiss : c.get x = none) (hg : gs x = .ok root)
    (hp : root.ParentServiceID = "") :
    getTenantID fuel x gs c = some ((root.ID, none), updateTenants root.ID [root.ID] c) := by
  unfold getTenantID lookUpTenant
  rw [hmiss]
  simp only [hg]
  cases fuel <;> simp [walkUp, hp]

/-- C5. Tenant lookup is a fixed point.  Over a fixed store and a memo reached
from the empty memo by calls of `GetTenantID`, if `GetTenantID(x)` succeeds with
tenant `t`, then `GetTenantID(t)` succeeds and returns `t`, both when it is called
next (on the memo the first call left) and when it is called on the memo the
first call started from. -/
theorem tenant_lookup_fixed_point (store : ServiceStore) (tenantIDs : TenantCache)
    (hreach : ReachableCache store tenantIDs) (fuel : Nat) (x t : String)
    (tenantIDs1 : TenantCache)
    (h : GetTenantID fuel store tenantIDs x = some ((t, none), tenantIDs1)) :
    (∀ fuel2 : Nat, GetTenantID fuel2 store tenantIDs1 t = some ((t, none), tenantIDs1)) ∧
    (∀ fuel2 : Nat, ∃ tenantIDs2 : TenantCache,
      GetTenantID fuel2 store tenantIDs t = some ((t, none), tenantIDs2)) := by
  have hk := ServiceStore.Get_keyed store
  have hfix := ReachableCache.fixed store tenantIDs hreach
  have hfix1 : FixedCache tenantIDs1 :=
    getTenantID_fixedCache _ hk tenantIDs fuel x (t, none) tenantIDs1 h hfix
  rcases (getTenantID_outcome _ hk tenantIDs fuel x (t, none) tenantIDs1 h).1 with hA | hB | hC
  · obtain ⟨-, e, he⟩ := hA
    cases he
  · obtain ⟨rfl, -, k, hkt⟩ := hB
    have ht := hfix k t hkt
    exact ⟨fun fuel2 => getTenantID_hit _ _ fuel2 t t ht,
      fun fuel2 => ⟨_, getTenantID_hit _ _ fuel2 t t ht⟩⟩
  · obtain ⟨-, more, hc1, hnone, hin, root, hroot, hp⟩ := hC
    simp only [List.nil_append] at hc1 hin
    have ht1 : tenantIDs1.get t = some t := by
      rw [hc1, updateTenants_get]
      simp [hin]
    refine ⟨fun fuel2 => getTenantID_hit _ _ fuel2 t t ht1, fun fuel2 => ?_⟩
    have hid : root.ID = t := hk _ _ hroot
    have := getTenantID_root (getService store) tenantIDs fuel2 t root (hnone t hin) hroot hp
    rw [hid] at this
    exact ⟨_, this⟩

/-- Witness for C5: on the sample store the tenant of `app` is `tenantA`, and
the tenant of `tenantA` is `tenantA`. -/
theorem tenant_lookup_fixed_point_witness :
    GetTenantID 1 sampleStore [] "app" = some (("tenantA", none), sampleMemo) ∧
    GetTenantID 0 sampleStore sampleMemo "tenantA" = some (("tenantA", none), sampleMemo) :=
  ⟨by decide,
    (tenant_lookup_fixed_point sampleStore [] ReachableCache.empty 1 "app" "tenantA" sampleMemo
      (by decide)).1 0⟩

theorem AncestorOrSelf.exists_service (store : ServiceStore) (y r : String)
    (h : AncestorOrSelf store y r) : ∃ svc : Service, store.Get y = .ok svc := by
  cases h with
  | self _ svc hget => exact ⟨svc, hget⟩
  | parent _ _ svc hget _ _ => exact ⟨svc, hget⟩

theorem walkUp_reaches_root (store : ServiceStore) (y r : String)
    (h : AncestorOrSelf store y r)
    (hroot : ∃ rs : Service, store.Get r = .ok rs ∧ rs.ParentServiceID = "") :
    ∀ svc : Service, store.Get y = .ok svc →
      ∃ fuel0 : Nat, ∀ fuel : Nat, fuel0 ≤ fuel → ∀ visited : List String,
        ∃ c1 : TenantCache,
          walkUp (getService store) fuel svc visited [] = some ((r, none), c1) := by
  induction h with
  | self x svc0 hget =>
    intro svc hsvc
    obtain ⟨rs, hrs, hp⟩ := hroot
    have hs : svc = rs := by rw [hsvc] at hrs; cases hrs; rfl
    have hid : svc.ID = x := ServiceStore.Get_keyed store x svc hsvc
    refine ⟨0, fun fuel _ visited => ?_⟩
    subst hs
    cases fuel <;> simp [walkUp, hp, hid]
  | parent x a svc0 hget hp hanc ih =>
    intro svc hsvc
    have hs : svc = svc0 := by rw [hsvc] at hget; cases hget; rfl
    subst hs
    obtain ⟨p, hpget⟩ := AncestorOrSelf.exists_service store _ _ hanc
    obtain ⟨fuel0, hfuel⟩ := ih hroot p hpget
    refine ⟨fuel0 + 1, fun fuel hle visited => ?_⟩
    obtain ⟨f, rfl⟩ : ∃ f, fuel = f + 1 := ⟨fuel - 1, by omega⟩
    obtain ⟨c1, hc1⟩ := hfuel f (by omega) (visited ++ [p.ID])
    refine ⟨c1, ?_⟩
    have hg : getService store svc.ParentServiceID = .ok p := hpget
    simp only [walkUp, hp, ne_eq, not_false_eq_true, if_true, lookUpTenant, GoMap.get, hg]
    exact hc1

theorem walkUp_fails (store : ServiceStore) (p e : String) (h : ChainFails store p e) :
    ∃ fuel0 : Nat, ∀ fuel : Nat, fuel0 ≤ fuel → ∀ (svc : Service) (visited : List String),
      svc.ParentServiceID = p → p ≠ "" →
      walkUp (getService store) fuel svc visited [] = some (("", some e), []) := by
  induction h with
  | here p e hget =>
    refine ⟨1, fun fuel hle svc visited hsp hne => ?_⟩
    obtain ⟨f, rfl⟩ : ∃ f, fuel = f + 1 := ⟨fuel - 1, by omega⟩
    have hg : getService store svc.ParentServiceID = .error e := by rw [hsp]; exact hget
    have hne2 : svc.ParentServiceID ≠ "" := by rw [hsp]; exact hne
    simp only [walkUp, hne2, ne_eq, not_false_eq_true, if_true, lookUpTenant, GoMap.get, hg]
  | above p e svc1 hget hp1 _ ih =>
    obtain ⟨fuel0, hfuel⟩ := ih
    refine ⟨fuel0 + 1, fun fuel hle svc visited hsp hne => ?_⟩
    obtain ⟨f, rfl⟩ : ∃ f, fuel = f + 1 := ⟨fuel - 1, by omega⟩
    have hg : getService store svc.ParentServiceID = .ok svc1 := by rw [hsp]; exact hget
    have hne2 : svc.ParentServiceID ≠ "" := by rw [hsp]; exact hne
    simp only [walkUp, hne2, ne_eq, not_false_eq_true, if_true, lookUpTenant, GoMap.get, hg]
    exact hfuel f (by omega) svc1 _ rfl hp1

theorem IsRootOf.unique (store : ServiceStore) (x r r2 : String)
    (h : IsRootOf store x r) (h2 : IsRootOf store x r2) : r2 = r := by
  obtain ⟨hanc, rs, hrs, hp⟩ := h
  obtain ⟨hanc2, hroot2⟩ := h2
  induction hanc with
  | self x svc0 hget =>
    cases hanc2 with
    | self _ _ _ => rfl
    | parent _ _ svc hget2 hp2 _ =>
      rw [hrs] at hget2
      cases hget2
      exact absurd hp hp2
  | parent x a svc0 hget hp0 hanc ih =>
    cases hanc2 with
    | self _ svc hget2 =>
      obtain ⟨rs2, hrs2, hp2⟩ := hroot2
      rw [hget] at hrs2
      cases hrs2
      exact absurd hp2 hp0
    | parent _ _ svc hget2 hp2 hanc2 =>
      rw [hget] at hget2
      cases hget2
      exact ih hrs hanc2

/-- C6. With an empty memo, `GetTenantID(x)` returns the id of the root of the
parent chain of `x` whenever that chain leads through stored services to a
service with empty `ParentServiceID`, and that root is unique; for a stored
service with empty `ParentServiceID` it returns the service's own id; and when a
lookup on the chain fails it returns that error with the empty string, leaving
the memo empty. -/
theorem getTenantID_returns_root (store : ServiceStore) (x : String) :
    (∀ r : String, IsRootOf store x r →
      (∃ fuel0 : Nat, ∀ fuel : Nat, fuel0 ≤ fuel →
        ∃ tenantIDs1 : TenantCache,
          GetTenantID fuel store [] x = some ((r, none), tenantIDs1)) ∧
      (∀ r2 : String, IsRootOf store x r2 → r2 = r)) ∧
    (∀ svc : Service, store.Get x = .ok svc → svc.ParentServiceID = "" →
      ∀ fuel : Nat, ∃ tenantIDs1 : TenantCache,
        GetTenantID fuel store [] x = some ((x, none), tenantIDs1)) ∧
    (∀ e : String, ChainFails store x e →
      ∃ fuel0 : Nat, ∀ fuel : Nat, fuel0 ≤ fuel →
        GetTenantID fuel store [] x = some (("", some e), [])) := by
  refine ⟨fun r hr => ⟨?_, fun r2 h2 => IsRootOf.unique store x r r2 hr h2⟩, ?_, ?_⟩
  · obtain ⟨svc, hsvc⟩ := AncestorOrSelf.exists_service store x r hr.1
    obtain ⟨fuel0, hfuel⟩ := walkUp_reaches_root store x r hr.1 hr.2 svc hsvc
    refine ⟨fuel0, fun fuel hle => ?_⟩
    obtain ⟨c1, hc1⟩ := hfuel fuel hle [svc.ID]
    refine ⟨c1, ?_⟩
    have hg : getService store x = .ok svc := hsvc
    simp only [GetTenantID, getTenantID, lookUpTenant, GoMap.get, hg]
    exact hc1
  · intro svc hsvc hp fuel
    have hid : svc.ID = x := ServiceStore.Get_keyed store x svc hsvc
    have := getTenantID_root (getService store) [] fuel x svc rfl hsvc hp
    rw [hid] at this
    exact ⟨_, this⟩
  · intro e he
    cases he with
    | here _ _ hget =>
      refine ⟨0, fun fuel _ => ?_⟩
      have hg : getService store x = .error e := hget
      simp only [GetTenantID, getTenantID, lookUpTenant, GoMap.get, hg]
    | above _ _ svc hget hp hcf =>
      obtain ⟨fuel0, hfuel⟩ := walkUp_fails store _ e hcf
      refine ⟨fuel0, fun fuel hle => ?_⟩
      have hg : getService store x = .ok svc := hget
      simp only [GetTenantID, getTenantID, lookUpTenant, GoMap.get, hg]
      exact hfuel fuel hle svc _ rfl hp

/-- Witness for C6: on the sample store the root of the parent chain of `app` is
`tenantA`, which `GetTenantID` returns from the empty memo. -/
theorem getTenantID_returns_root_witness :
    IsRootOf sampleStore "app" "tenantA" ∧
    ∃ fuel0 : Nat, ∀ fuel : Nat, fuel0 ≤ fuel →
      ∃ tenantIDs1 : TenantCache,
        GetTenantID fuel sampleStore [] "app" = some (("tenantA", none), tenantIDs1) := by
  have hroot : IsRootOf sampleStore "app" "tenantA" :=
    ⟨AncestorOrSelf.parent "app" "tenantA" { ID := "app", ParentServiceID := "tenantA" } rfl
        (by decide) (AncestorOrSelf.self "tenantA" { ID := "tenantA" } rfl),
      { ID := "tenantA" }, rfl, rfl⟩
  exact ⟨hroot, ((getTenantID_returns_root sampleStore "app").1 "tenantA" hroot).1⟩

/-! ## facade/service.go: the memo across `updateService` -/

theorem writeRevisions_tenantIDs (env : Collaborators) (tenantID servicePath : String) :
    ∀ (entries : List (String × ConfigFile)) (oldConfigs : GoMap ConfigFile) (st : FacadeState),
      (writeRevisions env tenantID servicePath entries oldConfigs st).2.2.tenantIDs
        = st.tenantIDs := by
  intro entries
  induction entries with
  | nil => intro oldConfigs st; rfl
  | cons kv rest ih =>
    intro oldConfigs st
    obtain ⟨key, conf⟩ := kv
    simp only [writeRevisions]
    split
    · exact ih _ _
    · split
      · rfl
      · rw [ih]

theorem writeTombstones_tenantIDs (env : Collaborators) (tenantID servicePath : String) :
    ∀ (entries : List (String × ConfigFile)) (st : FacadeState),
      (writeTombstones env tenantID servicePath entries st).2.tenantIDs = st.tenantIDs := by
  intro entries
  induction entries with
  | nil => intro st; rfl
  | cons kv rest ih =>
    intro st
    obtain ⟨key, conf⟩ := kv
    simp only [writeTombstones]
    split
    · rfl
    · rw [ih]

theorem putAndPublish_tenantIDs (env : Collaborators) (st : FacadeState) (oldSvc svc : Service) :
    (putAndPublish env st oldSvc svc).2.tenantIDs = st.tenantIDs := by
  unfold putAndPublish
  cases env.putError svc with
  | some e => rfl
  | none =>
    by_cases hpool : oldSvc.PoolID ≠ svc.PoolID
    · simp only [if_pos hpool]
      cases env.zkRemoveService oldSvc <;> rfl
    · simp only [if_neg hpool]

theorem getTenantIDAndPath_keeps_entries (env : Collaborators) (fuel : Nat) (st : FacadeState)
    (svc : Service) (r : String × String × Option String) (st1 : FacadeState)
    (h : getTenantIDAndPath env fuel st svc = some (r, st1)) (k t : String)
    (hkt : st.tenantIDs.get k = some t) : st1.tenantIDs.get k = some t := by
  unfold getTenantIDAndPath at h
  cases hg : GetTenantID fuel st.services st.tenantIDs svc.ID with
  | none => simp [hg] at h
  | some res =>
    obtain ⟨⟨tenantID, err⟩, c1⟩ := res
    have hkeep : c1.get k = some t :=
      getTenantID_keeps_entries _ (ServiceStore.Get_keyed st.services) st.tenantIDs fuel svc.ID
        (tenantID, err) c1 hg k t hkt
    simp only [hg] at h
    cases err with
    | some e =>
      simp only [Option.some.injEq, Prod.mk.injEq] at h
      rw [← h.2]
      exact hkeep
    | none =>
      simp only at h
      split at h <;>
        (simp only [Option.some.injEq, Prod.mk.injEq] at h
         rw [← h.2]
         exact hkeep)

theorem updateService_keeps_entries (env : Collaborators) (fuel : Nat) (st : FacadeState)
    (svc : Service) (err : Option String) (st1 : FacadeState)
    (h : updateService env fuel st svc = some (err, st1)) (k t : String)
    (hkt : st.tenantIDs.get k = some t) : st1.tenantIDs.get k = some t := by
  unfold updateService at h
  simp only at h
  split at h
  · simp only [Option.some.injEq, Prod.mk.injEq] at h
    rw [← h.2]; exact hkt
  · split at h
    · simp only [Option.some.injEq, Prod.mk.injEq] at h
      rw [← h.2]; exact hkt
    · split at h
      · simp only [Option.some.injEq] at h
        have e := congrArg (fun r => r.2.tenantIDs) h
        simp only [putAndPublish_tenantIDs] at e
        rw [← e]; exact hkt
      · split at h
        · simp only [Option.some.injEq, Prod.mk.injEq] at h
          rw [← h.2]; exact hkt
        · split at h
          · cases h
          · rename_i hgp
            simp only [Option.some.injEq, Prod.mk.injEq] at h
            rw [← h.2]
            exact getTenantIDAndPath_keeps_entries env fuel st _ _ _ hgp k t hkt
          · rename_i tenantID servicePath st2 hgp
            have hk2 := getTenantIDAndPath_keeps_entries env fuel st _ _ _ hgp k t hkt
            split at h
            · rename_i hw
              simp only [Option.some.injEq, Prod.mk.injEq] at h
              have e := congrArg (fun r => r.2.2.tenantIDs) hw
              simp only [writeRevisions_tenantIDs] at e
              rw [← h.2, ← e]; exact hk2
            · rename_i oldConfigs st3 hw
              have e3 := congrArg (fun r => r.2.2.tenantIDs) hw
              simp only [writeRevisions_tenantIDs] at e3
              split at h
              · rename_i st4 hwt
                simp only [Option.some.injEq, Prod.mk.injEq] at h
                have e4 := congrArg (fun r => r.2.tenantIDs) hwt
                simp only [writeTombstones_tenantIDs] at e4
                rw [← h.2, ← e4, ← e3]; exact hk2
              · rename_i st4 hwt
                simp only [Option.some.injEq] at h
                have e4 := congrArg (fun r => r.2.tenantIDs) hwt
                simp only [writeTombstones_tenantIDs] at e4
                have e5 := congrArg (fun r => r.2.tenantIDs) h
                simp only [putAndPublish_tenantIDs] at e5
                rw [← e5, ← e4, ← e3]; exact hk2

/-- C7 (as stated, refuted).  On the sample store `GetTenantID("app")` returns
`tenantA` and stores it in the memo.  `UpdateService` then moves `app` under
`tenantB` and succeeds, leaving the memo as it was.  The root of the parent chain
of `app` is now `tenantB`, yet `GetTenantID("app")` still returns `tenantA`. -/
theorem tenant_memo_not_invalidated :
    GetTenantID 1 sampleStore [] "app" = some (("tenantA", none), sampleMemo) ∧
    UpdateService sampleEnv 1 { services := sampleStore, tenantIDs := sampleMemo } reparentedApp
      = some (none, { services := reparentedStore, tenantIDs := sampleMemo,
                      zkCalls := [ZkCall.updateService reparentedApp] }) ∧
    GetTenantID 1 reparentedStore [] "app"
      = some (("tenantB", none), [("app", "tenantB"), ("tenantB", "tenantB")]) ∧
    GetTenantID 1 reparentedStore sampleMemo "app" = some (("tenantA", none), sampleMemo) := by
  decide

/-- C7 (amended).  The tenant memo is not invalidated: when `x` is in the memo
with tenant `t` and a service is then updated through `updateService` or
`UpdateService`, whatever the update changes and however it ends, the entry of
`x` is still `t` and a later `GetTenantID(x)` returns `t`, the tenant id stored
before. -/
theorem tenant_memo_survives_updateService (env : Collaborators) (fuel : Nat)
    (st : FacadeState) (svc : Service) (x t : String) (err : Option String) (st1 : FacadeState)
    (hx : st.tenantIDs.get x = some t)
    (hu : updateService env fuel st svc = some (err, st1) ∨
      UpdateService env fuel st svc = some (err, st1)) :
    st1.tenantIDs.get x = some t ∧
    ∀ fuel2 : Nat,
      GetTenantID fuel2 st1.services st1.tenantIDs x = some ((t, none), st1.tenantIDs) := by
  have hkeep : st1.tenantIDs.get x = some t := by
    rcases hu with hu | hu
    · exact updateService_keeps_entries env fuel st svc err st1 hu x t hx
    · unfold UpdateService at hu
      split at hu
      · split at hu
        · simp only [Option.some.injEq, Prod.mk.injEq] at hu
          rw [← hu.2]; exact hx
        · split at hu
          · simp only [Option.some.injEq, Prod.mk.injEq] at hu
            rw [← hu.2]; exact hx
          · exact updateService_keeps_entries env fuel st svc err st1 hu x t hx
      · exact updateService_keeps_entries env fuel st svc err st1 hu x t hx
  exact ⟨hkeep, fun fuel2 => getTenantID_hit _ _ fuel2 x t hkeep⟩

/-- Witness for the amended C7: `app` is in the memo with `tenantA`, is moved
under `tenantB`, and its lookup still returns `tenantA`. -/
theorem tenant_memo_survives_updateService_witness :
    sampleMemo.get "app" = some "tenantA" ∧
    GetTenantID 0 reparentedStore sampleMemo "app" = some (("tenantA", none), sampleMemo) :=
  ⟨by decide,
    (tenant_memo_survives_updateService sampleEnv 1
      { services := sampleStore, tenantIDs := sampleMemo } reparentedApp "app" "tenantA" none
      { services := reparentedStore, tenantIDs := sampleMemo,
        zkCalls := [ZkCall.updateService reparentedApp] }
      (by decide) (Or.inr (by decide))).2 0⟩

end Facade

/-! ## domain/service/evaluate.go: retain or replace -/

theorem GoMap.set_append_of_not_mem {α : Type} (key : String) (v0 v : α) :
    ∀ (done rest : GoMap α), key ∉ done.map Prod.fst →
      GoMap.set (done ++ (key, v0) :: rest) key v = done ++ (key, v) :: rest := by
  intro done
  induction done with
  | nil => intro rest _; simp [GoMap.set]
  | cons p done ih =>
    intro rest hmem
    obtain ⟨k, w⟩ := p
    simp only [List.map_cons, List.mem_cons, not_or] at hmem
    have hne : ¬ k = key := fun h => hmem.1 h.symm
    simp only [List.cons_append, GoMap.set, hne, if_false, List.cons.injEq, true_and]
    exact ih rest hmem.2

theorem modifyAt_append_length {α : Type} (f : α → α) (x : α) :
    ∀ (done rest : List α), modifyAt f done.length (done ++ x :: rest) = done ++ f x :: rest := by
  intro done
  induction done with
  | nil => intro rest; rfl
  | cons d done ih => intro rest; simp [modifyAt, ih]

namespace Service

/-- What `evaluateTemplate` returns, and that the value kept or replaced from it
follows the policy. -/
theorem evaluateTemplate_policy (eng : TemplateEngine) (gs : GetService) (ctx : Service)
    (original result : String) (h : evaluateTemplate eng gs ctx original = .ok result) :
    eng.parseError original = none ∧
    RetainOrReplace eng gs ctx original (if result ≠ "" then result else original) := by
  unfold evaluateTemplate at h
  cases hp : eng.parseError original with
  | some e => simp [hp] at h
  | none =>
    refine ⟨rfl, ?_⟩
    simp only [hp] at h
    unfold RetainOrReplace
    cases hx : eng.execute gs original ctx with
    | error e =>
      simp only [hx, Except.ok.injEq] at h
      subst h
      exact ⟨fun out ho => (by cases ho), fun ho => (by cases ho), fun _ _ => (by simp)⟩
    | ok out =>
      simp only [hx, Except.ok.injEq] at h
      subst h
      refine ⟨fun out2 ho hne => ?_, fun ho => ?_, fun e ho => (by cases ho)⟩
      · simp only [Except.ok.injEq] at ho
        subst ho
        simp [hne]
      · simp only [Except.ok.injEq] at ho
        subst ho
        simp

theorem evaluateTemplate_returns (eng : TemplateEngine) (gs : GetService) (ctx : Service)
    (original : String) (hp : eng.parseError original = none) :
    ∃ result : String, evaluateTemplate eng gs ctx original = .ok result := by
  unfold evaluateTemplate
  simp only [hp]
  cases eng.execute gs original ctx with
  | error e => exact ⟨_, rfl⟩
  | ok out => exact ⟨_, rfl⟩

theorem runsLoop_policy (eng : TemplateEngine) (gs : GetService) (service : Service) :
    ∀ (entries done : List (String × String)) (s s1 : Service),
      s.Runs = done ++ entries → ((done ++ entries).map Prod.fst).Nodup →
      { s with Runs := service.Runs } = service →
      runsLoop eng gs entries s = .ok s1 →
      { s1 with Runs := service.Runs } = service ∧
      ∃ entries1 : List (String × String), s1.Runs = done ++ entries1 ∧
        List.Forall₂ (RunsPolicy eng gs service) entries entries1 := by
  intro entries
  induction entries with
  | nil =>
    intro done s s1 hruns _ hsame h
    simp only [runsLoop, Except.ok.injEq] at h
    subst h
    exact ⟨hsame, [], hruns, List.Forall₂.nil⟩
  | cons kv rest ih =>
    intro done s s1 hruns hnodup hsame h
    obtain ⟨key, value⟩ := kv
    simp only [runsLoop] at h
    cases hev : evaluateTemplate eng gs s value with
    | error e => simp [hev] at h
    | ok result =>
      simp only [hev] at h
      have hpol := (evaluateTemplate_policy eng gs s value result hev).2
      have hkey : key ∉ done.map Prod.fst := by
        intro hmem
        rw [List.map_append, List.nodup_append] at hnodup
        exact hnodup.2.2 hmem (by simp)
      by_cases hres : result ≠ ""
      · rw [if_pos hres] at h hpol
        have hset : GoMap.set s.Runs key result = (done ++ [(key, result)]) ++ rest := by
          rw [hruns, GoMap.set_append_of_not_mem key value result done rest hkey]
          simp
        obtain ⟨hsame1, entries1, hr1, hall⟩ :=
          ih (done ++ [(key, result)]) { s with Runs := GoMap.set s.Runs key result } s1 hset
            (by simpa using hnodup) (by simpa using hsame) h
        refine ⟨hsame1, (key, result) :: entries1, by simpa using hr1, ?_⟩
        exact List.Forall₂.cons ⟨rfl, s, hsame, hpol⟩ hall
      · rw [if_neg hres] at h hpol
        obtain ⟨hsame1, entries1, hr1, hall⟩ :=
          ih (done ++ [(key, value)]) s s1 (by simpa using hruns) (by simpa using hnodup) hsame h
        refine ⟨hsame1, (key, value) :: entries1, by simpa using hr1, ?_⟩
        exact List.Forall₂.cons ⟨rfl, s, hsame, hpol⟩ hall

theorem runsLoop_returns (eng : TemplateEngine) (gs : GetService) :
    ∀ (entries : List (String × String)) (s : Service),
      (∀ entry ∈ entries, eng.parseError entry.2 = none) →
      ∃ s1 : Service, runsLoop eng gs entries s = .ok s1 := by
  intro entries
  induction entries with
  | nil => intro s _; exact ⟨s, rfl⟩
  | cons kv rest ih =>
    intro s hp
    obtain ⟨key, value⟩ := kv
    obtain ⟨result, hres⟩ := evaluateTemplate_returns eng gs s value (hp (key, value) (by simp))
    simp only [runsLoop, hres]
    split
    · exact ih _ (fun e he => hp e (List.mem_cons_of_mem _ he))
    · exact ih _ (fun e he => hp e (List.mem_cons_of_mem _ he))

theorem actionsLoop_policy (eng : TemplateEngine) (gs : GetService) (service : Service) :
    ∀ (entries done : List (String × String)) (s s1 : Service),
      s.Actions = done ++ entries → ((done ++ entries).map Prod.fst).Nodup →
      { s with Actions := service.Actions } = service →
      actionsLoop eng gs entries s = .ok s1 →
      { s1 with Actions := service.Actions } = service ∧
      ∃ entries1 : List (String × String), s1.Actions = done ++ entries1 ∧
        List.Forall₂ (ActionsPolicy eng gs service) entries entries1 := by
  intro entries
  induction entries with
  | nil =>
    intro done s s1 hruns _ hsame h
    simp only [actionsLoop, Except.ok.injEq] at h
    subst h
    exact ⟨hsame, [], hruns, List.Forall₂.nil⟩
  | cons kv rest ih =>
    intro done s s1 hruns hnodup hsame h
    obtain ⟨key, value⟩ := kv
    simp only [actionsLoop] at h
    cases hev : evaluateTemplate eng gs s value with
    | error e => simp [hev] at h
    | ok result =>
      simp only [hev] at h
      have hpol := (evaluateTemplate_policy eng gs s value result hev).2
      have hkey : key ∉ done.map Prod.fst := by
        intro hmem
        rw [List.map_append, List.nodup_append] at hnodup
        exact hnodup.2.2 hmem (by simp)
      by_cases hres : result ≠ ""
      · rw [if_pos hres] at h hpol
        have hset : GoMap.set s.Actions key result = (done ++ [(key, result)]) ++ rest := by
          rw [hruns, GoMap.set_append_of_not_mem key value result done rest hkey]
          simp
        obtain ⟨hsame1, entries1, hr1, hall⟩ :=
          ih (done ++ [(key, result)]) { s with Actions := GoMap.set s.Actions key result } s1 hset
            (by simpa using hnodup) (by simpa using hsame) h
        refine ⟨hsame1, (key, result) :: entries1, by simpa using hr1, ?_⟩
        exact List.Forall₂.cons ⟨rfl, s, hsame, hpol⟩ hall
      · rw [if_neg hres] at h hpol
        obtain ⟨hsame1, entries1, hr1, hall⟩ :=
          ih (done ++ [(key, value)]) s s1 (by simpa using hruns) (by simpa using hnodup) hsame h
        refine ⟨hsame1, (key, value) :: entries1, by simpa using hr1, ?_⟩
        exact List.Forall₂.cons ⟨rfl, s, hsame, hpol⟩ hall

theorem actionsLoop_returns (eng : TemplateEngine) (gs : GetService) :
    ∀ (entries : List (String × String)) (s : Service),
      (∀ entry ∈ entries, eng.parseError entry.2 = none) →
      ∃ s1 : Service, actionsLoop eng gs entries s = .ok s1 := by
  intro entries
  induction entries with
  | nil => intro s _; exact ⟨s, rfl⟩
  | cons kv rest ih =>
    intro s hp
    obtain ⟨key, value⟩ := kv
    obtain ⟨result, hres⟩ := evaluateTemplate_returns eng gs s value (hp (key, value) (by simp))
    simp only [actionsLoop, hres]
    split
    · exact ih _ (fun e he => hp e (List.mem_cons_of_mem _ he))
    · exact ih _ (fun e he => hp e (List.mem_cons_of_mem _ he))

theorem logTagsLoop_policy (eng : TemplateEngine) (gs : GetService) (service : Service)
    (doneLC restLC : List LogConfig) :
    ∀ (tags doneTags : List LogTag) (lc : LogConfig) (s s1 : Service),
      s.LogConfigs = doneLC ++ lc :: restLC → lc.LogTags = doneTags ++ tags →
      { s with LogConfigs := service.LogConfigs } = service →
      logTagsLoop eng gs doneLC.length doneTags.length tags s = .ok s1 →
      { s1 with LogConfigs := service.LogConfigs } = service ∧
      ∃ tags1 : List LogTag,
        s1.LogConfigs = doneLC ++ { lc with LogTags := doneTags ++ tags1 } :: restLC ∧
        List.Forall₂ (LogTagPolicy eng gs service) tags tags1 := by
  intro tags
  induction tags with
  | nil =>
    intro doneTags lc s s1 hlcs htags hsame h
    simp only [logTagsLoop, Except.ok.injEq] at h
    subst h
    refine ⟨hsame, [], ?_, List.Forall₂.nil⟩
    rw [hlcs, ← htags]
  | cons tag rest ih =>
    intro doneTags lc s s1 hlcs htags hsame h
    simp only [logTagsLoop] at h
    cases hev : evaluateTemplate eng gs s tag.Value with
    | error e => simp [hev] at h
    | ok result =>
      simp only [hev] at h
      have hpol := (evaluateTemplate_policy eng gs s tag.Value result hev).2
      by_cases hres : result ≠ ""
      · rw [if_pos hres] at h hpol
        have hset : (setLogTagValue s doneLC.length doneTags.length result).LogConfigs
            = doneLC ++ { lc with LogTags := (doneTags ++ [{ tag with Value := result }]) ++ rest }
                :: restLC := by
          simp only [setLogTagValue, hlcs, modifyAt_append_length, htags, List.append_assoc,
            List.singleton_append]
        have hlen : (doneTags ++ [{ tag with Value := result }]).length = doneTags.length + 1 := by
          simp
        rw [← hlen] at h
        obtain ⟨hsame1, tags1, hr1, hall⟩ :=
          ih (doneTags ++ [{ tag with Value := result }])
            { lc with LogTags := (doneTags ++ [{ tag with Value := result }]) ++ rest }
            (setLogTagValue s doneLC.length doneTags.length result) s1 hset rfl
            (by simpa [setLogTagValue] using hsame) h
        refine ⟨hsame1, { tag with Value := result } :: tags1, by simpa using hr1, ?_⟩
        exact List.Forall₂.cons ⟨rfl, s, hsame, hpol⟩ hall
      · rw [if_neg hres] at h hpol
        have hlen : (doneTags ++ [tag]).length = doneTags.length + 1 := by simp
        rw [← hlen] at h
        obtain ⟨hsame1, tags1, hr1, hall⟩ :=
          ih (doneTags ++ [tag]) lc s s1 hlcs (by simpa using htags) hsame h
        refine ⟨hsame1, tag :: tags1, by simpa using hr1, ?_⟩
        exact List.Forall₂.cons ⟨rfl, s, hsame, hpol⟩ hall

theorem logTagsLoop_returns (eng : TemplateEngine) (gs : GetService) (i : Nat) :
    ∀ (tags : List LogTag) (j : Nat) (s : Service),
      (∀ tag ∈ tags, eng.parseError tag.Value = none) →
      ∃ s1 : Service, logTagsLoop eng gs i j tags s = .ok s1 := by
  intro tags
  induction tags with
  | nil => intro j s _; exact ⟨s, rfl⟩
  | cons tag rest ih =>
    intro j s hp
    obtain ⟨result, hres⟩ := evaluateTemplate_returns eng gs s tag.Value (hp tag (by simp))
    simp only [logTagsLoop, hres]
    split
    · exact ih _ _ (fun t ht => hp t (List.mem_cons_of_mem _ ht))
    · exact ih _ _ (fun t ht => hp t (List.mem_cons_of_mem _ ht))

theorem logConfigsLoop_policy (eng : TemplateEngine) (gs : GetService) (service : Service) :
    ∀ (lcs doneLC : List LogConfig) (s s1 : Service),
      s.LogConfigs = doneLC ++ lcs →
      { s with LogConfigs := service.LogConfigs } = service →
      logConfigsLoop eng gs doneLC.length lcs s = .ok s1 →
      { s1 with LogConfigs := service.LogConfigs } = service ∧
      ∃ lcs1 : List LogConfig, s1.LogConfigs = doneLC ++ lcs1 ∧
        List.Forall₂ (LogConfigPolicy eng gs service) lcs lcs1 := by
  intro lcs
  induction lcs with
  | nil =>
    intro doneLC s s1 hlcs hsame h
    simp only [logConfigsLoop, Except.ok.injEq] at h
    subst h
    exact ⟨hsame, [], hlcs, List.Forall₂.nil⟩
  | cons lc rest ih =>
    intro doneLC s s1 hlcs hsame h
    simp only [logConfigsLoop] at h
    cases hev1 : evaluateTemplate eng gs s lc.Path with
    | error e => simp [hev1] at h
    | ok result1 =>
      simp only [hev1] at h
      have hpol1 := (evaluateTemplate_policy eng gs s lc.Path result1 hev1).2
      obtain ⟨sv1, hsv1⟩ : ∃ sv1 : Service, sv1 =
          (if result1 ≠ "" then
            { s with
              LogConfigs := modifyAt (fun lc => { lc with Path := result1 }) doneLC.length s.LogConfigs }
          else s) := ⟨_, rfl⟩
      rw [← hsv1] at h
      have hsv1lcs : sv1.LogConfigs
          = doneLC ++ { lc with Path := if result1 ≠ "" then result1 else lc.Path } :: rest := by
        rw [hsv1]
        by_cases hres : result1 ≠ ""
        · simp only [if_pos hres, hlcs, modifyAt_append_length]
        · simp only [if_neg hres, hlcs]
      have hsv1same : { sv1 with LogConfigs := service.LogConfigs } = service := by
        rw [hsv1]
        by_cases hres : result1 ≠ ""
        · simpa only [if_pos hres] using hsame
        · simpa only [if_neg hres] using hsame
      cases hev2 : evaluateTemplate eng gs sv1 lc.Type_ with
      | error e => simp [hev2] at h
      | ok result2 =>
        simp only [hev2] at h
        have hpol2 := (evaluateTemplate_policy eng gs sv1 lc.Type_ result2 hev2).2
        obtain ⟨sv2, hsv2⟩ : ∃ sv2 : Service, sv2 =
            (if result2 ≠ "" then
              { sv1 with
                LogConfigs :=
                  modifyAt (fun lc => { lc with Type_ := result2 }) doneLC.length sv1.LogConfigs }
            else sv1) := ⟨_, rfl⟩
        rw [← hsv2] at h
        have hsv2lcs : sv2.LogConfigs
            = doneLC ++ { lc with Path := if result1 ≠ "" then result1 else lc.Path,
                                  Type_ := if result2 ≠ "" then result2 else lc.Type_ } :: rest := by
          rw [hsv2]
          by_cases hres : result2 ≠ ""
          · simp only [if_pos hres, hsv1lcs, modifyAt_append_length]
          · simp only [if_neg hres, hsv1lcs]
        have hsv2same : { sv2 with LogConfigs := service.LogConfigs } = service := by
          rw [hsv2]
          by_cases hres : result2 ≠ ""
          · simpa only [if_pos hres] using hsv1same
          · simpa only [if_neg hres] using hsv1same
        cases hev3 : logTagsLoop eng gs doneLC.length 0 lc.LogTags sv2 with
        | error e => simp [hev3] at h
        | ok sv3 =>
          simp only [hev3] at h
          obtain ⟨hsv3same, tags1, hsv3lcs, htags⟩ :=
            logTagsLoop_policy eng gs service doneLC rest lc.LogTags []
              { lc with Path := if result1 ≠ "" then result1 else lc.Path,
                        Type_ := if result2 ≠ "" then result2 else lc.Type_ }
              sv2 sv3 hsv2lcs rfl hsv2same hev3
          obtain ⟨lc1, hlc1⟩ : ∃ lc1 : LogConfig, lc1 =
              { Path := if result1 ≠ "" then result1 else lc.Path
                Type_ := if result2 ≠ "" then result2 else lc.Type_
                Filters := lc.Filters
                LogTags := tags1 } := ⟨_, rfl⟩
          have hsv3lcs1 : sv3.LogConfigs = (doneLC ++ [lc1]) ++ rest := by
            rw [hsv3lcs, hlc1]
            simp
          have hlen : (doneLC ++ [lc1]).length = doneLC.length + 1 := by simp
          rw [← hlen] at h
          obtain ⟨hsame1, lcs1, hr1, hall⟩ := ih (doneLC ++ [lc1]) sv3 s1 hsv3lcs1 hsv3same h
          refine ⟨hsame1, lc1 :: lcs1, by simpa using hr1, ?_⟩
          refine List.Forall₂.cons ?_ hall
          rw [hlc1]
          exact ⟨rfl, ⟨s, hsame, hpol1⟩, ⟨sv1, hsv1same, hpol2⟩, htags⟩

theorem logConfigsLoop_returns (eng : TemplateEngine) (gs : GetService) :
    ∀ (lcs : List LogConfig) (i : Nat) (s : Service),
      (∀ lc ∈ lcs, eng.parseError lc.Path = none ∧ eng.parseError lc.Type_ = none ∧
        ∀ tag ∈ lc.LogTags, eng.parseError tag.Value = none) →
      ∃ s1 : Service, logConfigsLoop eng gs i lcs s = .ok s1 := by
  intro lcs
  induction lcs with
  | nil => intro i s _; exact ⟨s, rfl⟩
  | cons lc rest ih =>
    intro i s hp
    obtain ⟨hp1, hp2, hp3⟩ := hp lc (by simp)
    obtain ⟨result1, hres1⟩ := evaluateTemplate_returns eng gs s lc.Path hp1
    simp only [logConfigsLoop, hres1]
    obtain ⟨result2, hres2⟩ := evaluateTemplate_returns eng gs
      (if result1 ≠ "" then
        { s with LogConfigs := modifyAt (fun lc => { lc with Path := result1 }) i s.LogConfigs }
      else s) lc.Type_ hp2
    simp only [hres2]
    obtain ⟨sv3, hsv3⟩ := logTagsLoop_returns eng gs i lc.LogTags 0
      (if result2 ≠ "" then
        { (if result1 ≠ "" then
            { s with LogConfigs := modifyAt (fun lc => { lc with Path := result1 }) i s.LogConfigs }
          else s) with
          LogConfigs := modifyAt (fun lc => { lc with Type_ := result2 }) i
            (if result1 ≠ "" then
              { s with LogConfigs := modifyAt (fun lc => { lc with Path := result1 }) i s.LogConfigs }
            else s).LogConfigs }
      else
        (if result1 ≠ "" then
          { s with LogConfigs := modifyAt (fun lc => { lc with Path := result1 }) i s.LogConfigs }
        else s)) hp3
    simp only [hsv3]
    exact ih _ _ (fun l hl => hp l (List.mem_cons_of_mem _ hl))

/-- C8. Retain or replace.  For a service whose `Runs` and `Actions` maps have
pairwise distinct keys: when `EvaluateStartupTemplate`, `EvaluateRunsTemplate`,
`EvaluateActionsTemplate` or `EvaluateLogConfigTemplate` returns, it returns no
error, the startup string, every run, every action, and every log config's path,
type and tag values equal the expansion when that is non-empty and the original
value when the expansion is empty or its execution fails, and the keys, the list
lengths, the filters, the tag names and all other fields of the service are as
before.  Each of the four returns whenever the templates it expands parse. -/
theorem evaluate_templates_retain_or_replace (eng : TemplateEngine) (gs : GetService)
    (service : Service) (hruns : (service.Runs.map Prod.fst).Nodup)
    (hactions : (service.Actions.map Prod.fst).Nodup) :
    (∀ (s1 : Service) (err : Option String),
      EvaluateStartupTemplate eng gs service = .ok (s1, err) →
      err = none ∧ { s1 with Startup := service.Startup } = service ∧
      RetainOrReplace eng gs service service.Startup s1.Startup) ∧
    (∀ (s1 : Service) (err : Option String),
      EvaluateRunsTemplate eng gs service = .ok (s1, err) →
      err = none ∧ { s1 with Runs := service.Runs } = service ∧
      List.Forall₂ (RunsPolicy eng gs service) service.Runs s1.Runs) ∧
    (∀ (s1 : Service) (err : Option String),
      EvaluateActionsTemplate eng gs service = .ok (s1, err) →
      err = none ∧ { s1 with Actions := service.Actions } = service ∧
      List.Forall₂ (ActionsPolicy eng gs service) service.Actions s1.Actions) ∧
    (∀ (s1 : Service) (err : Option String),
      EvaluateLogConfigTemplate eng gs service = .ok (s1, err) →
      err = none ∧ { s1 with LogConfigs := service.LogConfigs } = service ∧
      List.Forall₂ (LogConfigPolicy eng gs service) service.LogConfigs s1.LogConfigs) ∧
    (TemplatesParse eng service →
      (∃ s1 : Service, EvaluateStartupTemplate eng gs service = .ok (s1, none)) ∧
      (∃ s1 : Service, EvaluateRunsTemplate eng gs service = .ok (s1, none)) ∧
      (∃ s1 : Service, EvaluateActionsTemplate eng gs service = .ok (s1, none)) ∧
      (∃ s1 : Service, EvaluateLogConfigTemplate eng gs service = .ok (s1, none))) := by
  refine ⟨?_, ?_, ?_, ?_, ?_⟩
  · intro s1 err h
    unfold EvaluateStartupTemplate at h
    cases hev : evaluateTemplate eng gs service service.Startup with
    | error e => simp [hev] at h
    | ok result =>
      simp only [hev] at h
      have hpol := (evaluateTemplate_policy eng gs service service.Startup result hev).2
      by_cases hres : result ≠ ""
      · rw [if_pos hres] at h hpol
        simp only [Except.ok.injEq, Prod.mk.injEq] at h
        obtain ⟨rfl, rfl⟩ := h
        exact ⟨rfl, rfl, hpol⟩
      · rw [if_neg hres] at h hpol
        simp only [Except.ok.injEq, Prod.mk.injEq] at h
        obtain ⟨rfl, rfl⟩ := h
        exact ⟨rfl, rfl, hpol⟩
  · intro s1 err h
    unfold EvaluateRunsTemplate at h
    cases hl : runsLoop eng gs service.Runs service with
    | error e => simp [hl] at h
    | ok s2 =>
      simp only [hl, Except.ok.injEq, Prod.mk.injEq] at h
      obtain ⟨rfl, rfl⟩ := h
      obtain ⟨hsame, entries1, hr, hall⟩ :=
        runsLoop_policy eng gs service service.Runs [] service s2 rfl (by simpa using hruns) rfl hl
      refine ⟨rfl, hsame, ?_⟩
      rw [hr]
      exact hall
  · intro s1 err h
    unfold EvaluateActionsTemplate at h
    cases hl : actionsLoop eng gs service.Actions service with
    | error e => simp [hl] at h
    | ok s2 =>
      simp only [hl, Except.ok.injEq, Prod.mk.injEq] at h
      obtain ⟨rfl, rfl⟩ := h
      obtain ⟨hsame, entries1, hr, hall⟩ :=
        actionsLoop_policy eng gs service service.Actions [] service s2 rfl
          (by simpa using hactions) rfl hl
      refine ⟨rfl, hsame, ?_⟩
      rw [hr]
      exact hall
  · intro s1 err h
    unfold EvaluateLogConfigTemplate at h
    cases hl : logConfigsLoop eng gs 0 service.LogConfigs service with
    | error e => simp [hl] at h
    | ok s2 =>
      simp only [hl, Except.ok.injEq, Prod.mk.injEq] at h
      obtain ⟨rfl, rfl⟩ := h
      obtain ⟨hsame, lcs1, hr, hall⟩ :=
        logConfigsLoop_policy eng gs service service.LogConfigs [] service s2 rfl rfl hl
      refine ⟨rfl, hsame, ?_⟩
      rw [hr]
      exact hall
  · intro hparse
    obtain ⟨hp1, hp2, hp3, hp4⟩ := hparse
    refine ⟨?_, ?_, ?_, ?_⟩
    · obtain ⟨result, hres⟩ := evaluateTemplate_returns eng gs service service.Startup hp1
      unfold EvaluateStartupTemplate
      simp only [hres]
      split
      · exact ⟨_, rfl⟩
      · exact ⟨_, rfl⟩
    · obtain ⟨s1, hs1⟩ := runsLoop_returns eng gs service.Runs service hp2
      exact ⟨s1, by simp [EvaluateRunsTemplate, hs1]⟩
    · obtain ⟨s1, hs1⟩ := actionsLoop_returns eng gs service.Actions service hp3
      exact ⟨s1, by simp [EvaluateActionsTemplate, hs1]⟩
    · obtain ⟨s1, hs1⟩ := logConfigsLoop_returns eng gs service.LogConfigs 0 service hp4
      exact ⟨s1, by simp [EvaluateLogConfigTemplate, hs1]⟩

theorem sampleService_templates_parse : TemplatesParse sampleEngine sampleService := by
  unfold TemplatesParse
  decide

/-- Witness for C8: on the sample service the four evaluations return; the startup
template expands to the empty string and is retained, and the run `name` is
replaced by its expansion. -/
theorem evaluate_templates_retain_or_replace_witness :
    (sampleService.Runs.map Prod.fst).Nodup ∧ (sampleService.Actions.map Prod.fst).Nodup ∧
    (∃ s1 : Service,
      EvaluateStartupTemplate sampleEngine sampleGetService sampleService = .ok (s1, none)) ∧
    EvaluateStartupTemplate sampleEngine sampleGetService sampleService
      = .ok (sampleService, none) ∧
    EvaluateRunsTemplate sampleEngine sampleGetService sampleService
      = .ok ({ sampleService with Runs := [("hello", "echo hello"), ("name", "app")] }, none) :=
  ⟨by decide, by decide,
    ((evaluate_templates_retain_or_replace sampleEngine sampleGetService sampleService
      (by decide) (by decide)).2.2.2.2 sampleService_templates_parse).1,
    by rfl, by rfl⟩

/-! ## domain/service/evaluate.go: endpoints and failure modes -/

theorem endpointsLoop_outcome (eng : TemplateEngine) (gs : GetService) (service : Service) :
    ∀ (eps done : List ServiceEndpoint) (s s1 : Service) (err : Option String),
      s.Endpoints = done ++ eps →
      { s with Endpoints := service.Endpoints } = service →
      endpointsLoop eng gs done.length eps s = .ok (s1, err) →
      { s1 with Endpoints := service.Endpoints } = service ∧
      ∃ eps1 : List ServiceEndpoint, s1.Endpoints = done ++ eps1 ∧
        List.Forall₂ (EndpointOutcome eng gs service err) eps eps1 := by
  intro eps
  induction eps with
  | nil =>
    intro done s s1 err heps hsame h
    simp only [endpointsLoop, Except.ok.injEq, Prod.mk.injEq] at h
    obtain ⟨rfl, rfl⟩ := h
    exact ⟨hsame, [], heps, List.Forall₂.nil⟩
  | cons ep rest ih =>
    intro done s s1 err heps hsame h
    simp only [endpointsLoop] at h
    obtain ⟨sv1, hsv1⟩ : ∃ sv1 : Service, sv1 =
        (if ep.Application ≠ "" ∧ ep.ApplicationTemplate = "" then
          { s with
            Endpoints :=
              modifyAt (fun e => { e with ApplicationTemplate := ep.Application }) done.length
                s.Endpoints }
        else s) := ⟨_, rfl⟩
    rw [← hsv1] at h
    have hsv1eps : sv1.Endpoints
        = done ++ { ep with ApplicationTemplate := effectiveTemplate ep } :: rest := by
      rw [hsv1]
      unfold effectiveTemplate
      by_cases hfill : ep.Application ≠ "" ∧ ep.ApplicationTemplate = ""
      · simp only [if_pos hfill, heps, modifyAt_append_length]
      · simp only [if_neg hfill, heps]
    have hsv1same : { sv1 with Endpoints := service.Endpoints } = service := by
      rw [hsv1]
      by_cases hfill : ep.Application ≠ "" ∧ ep.ApplicationTemplate = ""
      · simpa only [if_pos hfill] using hsame
      · simpa only [if_neg hfill] using hsame
    have hlen : ∀ e : ServiceEndpoint, (done ++ [e]).length = done.length + 1 := by
      intro e; simp
    by_cases htpl : effectiveTemplate ep ≠ ""
    · rw [if_pos htpl] at h
      cases hparse : eng.parseError (effectiveTemplate ep) with
      | some e => simp [hparse] at h
      | none =>
        simp only [hparse] at h
        cases hexec : eng.execute gs (effectiveTemplate ep) sv1 with
        | ok out =>
          simp only [hexec] at h
          obtain ⟨ep1, hep1⟩ : ∃ ep1 : ServiceEndpoint, ep1 =
              { ep with ApplicationTemplate := effectiveTemplate ep, Application := out } :=
            ⟨_, rfl⟩
          have hsv2eps :
              (modifyAt (fun e => { e with Application := out }) done.length sv1.Endpoints)
                = (done ++ [ep1]) ++ rest := by
            rw [hsv1eps, modifyAt_append_length, hep1]
            simp
          rw [← hlen ep1] at h
          obtain ⟨hsame1, eps1, hr1, hall⟩ :=
            ih (done ++ [ep1])
              { sv1 with
                Endpoints := modifyAt (fun e => { e with Application := out }) done.length
                  sv1.Endpoints }
              s1 err hsv2eps (by simpa using hsv1same) h
          refine ⟨hsame1, ep1 :: eps1, by simpa using hr1, ?_⟩
          refine List.Forall₂.cons ?_ hall
          exact Or.inr (Or.inl ⟨htpl, sv1, out, hsv1same, hexec, hep1⟩)
        | error e =>
          simp only [hexec, Except.ok.injEq, Prod.mk.injEq] at h
          obtain ⟨rfl, rfl⟩ := h
          refine ⟨hsv1same, _, hsv1eps, ?_⟩
          refine List.Forall₂.cons ?_ ?_
          · exact Or.inr (Or.inr (Or.inl ⟨htpl, sv1, e, hsv1same, hexec, rfl, rfl⟩))
          · exact List.forall₂_same.mpr (fun x _ => Or.inr (Or.inr (Or.inr ⟨by simp, rfl⟩)))
    · rw [if_neg htpl] at h
      simp only [ne_eq, not_not] at htpl
      have hep : ({ ep with ApplicationTemplate := effectiveTemplate ep } : ServiceEndpoint) = ep := by
        have hnofill : ¬ (ep.Application ≠ "" ∧ ep.ApplicationTemplate = "") := by
          intro hfill
          unfold effectiveTemplate at htpl
          rw [if_pos hfill] at htpl
          exact hfill.1 htpl
        unfold effectiveTemplate
        rw [if_neg hnofill]
      rw [hep] at hsv1eps
      rw [← hlen ep] at h
      obtain ⟨hsame1, eps1, hr1, hall⟩ :=
        ih (done ++ [ep]) sv1 s1 err (by simpa using hsv1eps) hsv1same h
      refine ⟨hsame1, ep :: eps1, by simpa using hr1, ?_⟩
      exact List.Forall₂.cons (Or.inl ⟨htpl, rfl⟩) hall

/-- C9 (as stated, refuted).  The endpoint `web` of the sample service has the
application `webapp` and a template that expands to the empty string;
`EvaluateEndpointTemplates` returns without error and has set the application of
the endpoint to the empty string. -/
theorem EvaluateEndpointTemplates_empty_expansion_replaces :
    sampleEngine.execute sampleGetService "\x7b\x7b.Description\x7d\x7d" sampleService = .ok "" ∧
    sampleService.Endpoints.map (fun ep => ep.Application) = ["webapp"] ∧
    ∃ s1 : Service,
      EvaluateEndpointTemplates sampleEngine sampleGetService sampleService = .ok (s1, none) ∧
      s1.Endpoints.map (fun ep => ep.Application) = [""] :=
  ⟨by rfl, by decide, _, rfl, by decide⟩

/-- C9 (amended).  When `EvaluateEndpointTemplates` returns, every endpoint is in
one of four states: it has no template and is as before; or its template was
expanded and `Application` is the expansion, also when that is the empty string;
or the expansion failed, the error is the one returned, and `Application` is as
before; or an earlier endpoint failed and it is as before.  So `Application` is
left at its original value when the expansion fails, and every successful
expansion replaces it.  All other fields of the service are as before. -/
theorem EvaluateEndpointTemplates_outcome (eng : TemplateEngine) (gs : GetService)
    (service s1 : Service) (err : Option String)
    (h : EvaluateEndpointTemplates eng gs service = .ok (s1, err)) :
    { s1 with Endpoints := service.Endpoints } = service ∧
    List.Forall₂ (EndpointOutcome eng gs service err) service.Endpoints s1.Endpoints := by
  obtain ⟨hsame, eps1, hr, hall⟩ :=
    endpointsLoop_outcome eng gs service service.Endpoints [] service s1 err rfl rfl h
  refine ⟨hsame, ?_⟩
  rw [hr]
  exact hall

/-- Witness for the amended C9: the run on the sample service. -/
theorem EvaluateEndpointTemplates_outcome_witness :
    EvaluateEndpointTemplates sampleEngine sampleGetService sampleService
      = .ok ({ sampleService with
                Endpoints := [ { Name := "web", Application := "",
                                 ApplicationTemplate := "\x7b\x7b.Description\x7d\x7d" } ] }, none) ∧
    List.Forall₂ (EndpointOutcome sampleEngine sampleGetService sampleService none)
      sampleService.Endpoints
      [ { Name := "web", Application := "",
          ApplicationTemplate := "\x7b\x7b.Description\x7d\x7d" } ] :=
  ⟨rfl,
    (EvaluateEndpointTemplates_outcome sampleEngine sampleGetService sampleService
      { sampleService with
        Endpoints := [ { Name := "web", Application := "",
                         ApplicationTemplate := "\x7b\x7b.Description\x7d\x7d" } ] } none rfl).2⟩

/-- C10 (the code at the failing input).  On the template that consists of an
unclosed action, which does not parse, `evaluateTemplate` does not return the
empty string: it panics with the parse error. -/
theorem evaluateTemplate_panics_on_invalid_template :
    sampleEngine.parseError "\x7b\x7b" = some "unclosed action" ∧
    evaluateTemplate sampleEngine sampleGetService sampleService "\x7b\x7b"
      = .error "unclosed action" :=
  ⟨by decide, by rfl⟩

/-- For every engine, a template that does not parse makes `evaluateTemplate`
panic with the parse error. -/
theorem evaluateTemplate_panics_of_parseError (eng : TemplateEngine) (gs : GetService)
    (service : Service) (t e : String) (hp : eng.parseError t = some e) :
    evaluateTemplate eng gs service t = .error e := by
  unfold evaluateTemplate
  rw [hp]

end Service

/-! ## domain/service/evaluate.go: values without template syntax -/

theorem GoMap.get_of_mem_nodup {α : Type} :
    ∀ (m : GoMap α) (k : String) (v : α), (m.map Prod.fst).Nodup → (k, v) ∈ m →
      GoMap.get m k = some v := by
  intro m
  induction m with
  | nil => intro k v _ h; cases h
  | cons p m ih =>
    intro k v hnd hmem
    obtain ⟨k', v'⟩ := p
    simp only [List.map_cons, List.nodup_cons] at hnd
    rcases List.mem_cons.mp hmem with heq | hin
    · cases heq
      simp [GoMap.get]
    · have hne : ¬ k' = k := by
        intro h
        subst h
        exact hnd.1 (List.mem_map.mpr ⟨(k', v), hin, rfl⟩)
      simp only [GoMap.get, hne, if_false]
      exact ih k v hnd.2 hin

theorem sampleEngine_prints_plain_text : PrintsPlainText sampleEngine := by
  intro gs t service h
  have h1 : t ≠ "\x7b\x7b" := by
    intro e; subst e; revert h; decide
  have h2 : t ≠ "\x7b\x7b.Description\x7d\x7d" := by
    intro e; subst e; revert h; decide
  have h3 : t ≠ "\x7b\x7b.Name\x7d\x7d" := by
    intro e; subst e; revert h; decide
  have h4 : t ≠ "\x7b\x7b.NoSuchField\x7d\x7d" := by
    intro e; subst e; revert h; decide
  simp [sampleEngine, h1, h2, h3, h4, h]

namespace Service

theorem RetainOrReplace.plain (eng : TemplateEngine) (gs : GetService) (ctx : Service)
    (hplain : PrintsPlainText eng) (original final : String) (hno : hasAction original = false)
    (h : RetainOrReplace eng gs ctx original final) : final = original := by
  obtain ⟨hnonempty, hempty, -⟩ := h
  have hexec := (hplain gs original ctx hno).2
  by_cases he : original = ""
  · apply hempty
    rw [hexec, he]
  · exact hnonempty original hexec he

/-- Entries related one to one by a retain-or-replace policy: the keys are those
of the entries given, and an entry whose value is plain text is an entry
afterwards. -/
theorem plain_entries_kept (eng : TemplateEngine) (gs : GetService)
    (hplain : PrintsPlainText eng) (R : String × String → String × String → Prop)
    (hR : ∀ e e1, R e e1 → e1.1 = e.1 ∧ ∃ ctx : Service, RetainOrReplace eng gs ctx e.2 e1.2) :
    ∀ (entries entries1 : List (String × String)), List.Forall₂ R entries entries1 →
      entries1.map Prod.fst = entries.map Prod.fst ∧
      (∀ e ∈ entries, hasAction e.2 = false → e ∈ entries1) ∧
      ((∀ e ∈ entries, hasAction e.2 = false) → entries1 = entries) := by
  intro entries entries1 h
  induction h with
  | nil => exact ⟨rfl, fun e he => (by cases he), fun _ => rfl⟩
  | cons hhead htail ih =>
    rename_i e e1 rest rest1
    obtain ⟨hkeys, hmem, hall⟩ := ih
    obtain ⟨hk, ctx, hpol⟩ := hR e e1 hhead
    have hval : hasAction e.2 = false → e1 = e := by
      intro hno
      have := RetainOrReplace.plain eng gs ctx hplain e.2 e1.2 hno hpol
      exact Prod.ext hk this
    refine ⟨by simp [hk, hkeys], ?_, ?_⟩
    · intro x hx hno
      rcases List.mem_cons.mp hx with rfl | hx
      · rw [hval hno]
        exact List.mem_cons_self _ _
      · exact List.mem_cons_of_mem _ (hmem x hx hno)
    · intro hno
      rw [hval (hno e (List.mem_cons_self _ _)),
        hall (fun x hx => hno x (List.mem_cons_of_mem _ hx))]

/-- C11. Template evaluation is idempotent on values without template syntax.
For an engine that prints plain text as it is (as `text/template` does) and a
service whose `Runs` and `Actions` have pairwise distinct keys: when the startup
string holds no action delimiter, `EvaluateStartupTemplate` returns the service
unchanged, so evaluating twice gives what evaluating once gives; the same holds
for `EvaluateRunsTemplate` and `EvaluateActionsTemplate` when no value holds an
action delimiter; and whenever these two return, every value without an action
delimiter is still the value under its key. -/
theorem evaluate_idempotent_on_plain_values (eng : TemplateEngine) (gs : GetService)
    (service : Service) (hplain : PrintsPlainText eng)
    (hruns : (service.Runs.map Prod.fst).Nodup)
    (hactions : (service.Actions.map Prod.fst).Nodup) :
    (hasAction service.Startup = false →
      EvaluateStartupTemplate eng gs service = .ok (service, none) ∧
      evaluateTwice (EvaluateStartupTemplate eng gs) service
        = EvaluateStartupTemplate eng gs service) ∧
    ((∀ entry ∈ service.Runs, hasAction entry.2 = false) →
      EvaluateRunsTemplate eng gs service = .ok (service, none) ∧
      evaluateTwice (EvaluateRunsTemplate eng gs) service
        = EvaluateRunsTemplate eng gs service) ∧
    ((∀ entry ∈ service.Actions, hasAction entry.2 = false) →
      EvaluateActionsTemplate eng gs service = .ok (service, none) ∧
      evaluateTwice (EvaluateActionsTemplate eng gs) service
        = EvaluateActionsTemplate eng gs service) ∧
    (∀ (s1 : Service) (err : Option String) (key value : String),
      EvaluateRunsTemplate eng gs service = .ok (s1, err) →
      (key, value) ∈ service.Runs → hasAction value = false →
      s1.Runs.get key = some value) ∧
    (∀ (s1 : Service) (err : Option String) (key value : String),
      EvaluateActionsTemplate eng gs service = .ok (s1, err) →
      (key, value) ∈ service.Actions → hasAction value = false →
      s1.Actions.get key = some value) := by
  have hrunsR : ∀ e e1, RunsPolicy eng gs service e e1 →
      e1.1 = e.1 ∧ ∃ ctx : Service, RetainOrReplace eng gs ctx e.2 e1.2 :=
    fun e e1 h => ⟨h.1, h.2.choose, h.2.choose_spec.2⟩
  have hactionsR : ∀ e e1, ActionsPolicy eng gs service e e1 →
      e1.1 = e.1 ∧ ∃ ctx : Service, RetainOrReplace eng gs ctx e.2 e1.2 :=
    fun e e1 h => ⟨h.1, h.2.choose, h.2.choose_spec.2⟩
  have twice : ∀ evaluate : Service → Panicking (Service × Option String),
      evaluate service = .ok (service, none) → evaluateTwice evaluate service = evaluate service := by
    intro evaluate h
    unfold evaluateTwice
    rw [h]
    exact h
  refine ⟨?_, ?_, ?_, ?_, ?_⟩
  · intro hno
    obtain ⟨hp, hx⟩ := hplain gs service.Startup service hno
    have h1 : EvaluateStartupTemplate eng gs service = .ok (service, none) := by
      unfold EvaluateStartupTemplate evaluateTemplate
      simp only [hp, hx]
      split <;> rfl
    exact ⟨h1, twice _ h1⟩
  · intro hno
    obtain ⟨s1, hs1⟩ := runsLoop_returns eng gs service.Runs service
      (fun e he => (hplain gs e.2 service (hno e he)).1)
    obtain ⟨hsame, entries1, hr, hall⟩ :=
      runsLoop_policy eng gs service service.Runs [] service s1 rfl (by simpa using hruns) rfl hs1
    have heq := (plain_entries_kept eng gs hplain _ hrunsR _ _ hall).2.2 hno
    simp only [List.nil_append] at hr
    rw [heq] at hr
    have hs : s1 = service := by
      rw [← hr] at hsame
      exact hsame
    have h1 : EvaluateRunsTemplate eng gs service = .ok (service, none) := by
      unfold EvaluateRunsTemplate
      rw [hs1, hs]
    exact ⟨h1, twice _ h1⟩
  · intro hno
    obtain ⟨s1, hs1⟩ := actionsLoop_returns eng gs service.Actions service
      (fun e he => (hplain gs e.2 service (hno e he)).1)
    obtain ⟨hsame, entries1, hr, hall⟩ :=
      actionsLoop_policy eng gs service service.Actions [] service s1 rfl
        (by simpa using hactions) rfl hs1
    have heq := (plain_entries_kept eng gs hplain _ hactionsR _ _ hall).2.2 hno
    simp only [List.nil_append] at hr
    rw [heq] at hr
    have hs : s1 = service := by
      rw [← hr] at hsame
      exact hsame
    have h1 : EvaluateActionsTemplate eng gs service = .ok (service, none) := by
      unfold EvaluateActionsTemplate
      rw [hs1, hs]
    exact ⟨h1, twice _ h1⟩
  · intro s1 err key value h hmem hno
    unfold EvaluateRunsTemplate at h
    cases hl : runsLoop eng gs service.Runs service with
    | error e => simp [hl] at h
    | ok s2 =>
      simp only [hl, Except.ok.injEq, Prod.mk.injEq] at h
      obtain ⟨rfl, -⟩ := h
      obtain ⟨-, entries1, hr, hall⟩ :=
        runsLoop_policy eng gs service service.Runs [] service s2 rfl (by simpa using hruns) rfl hl
      simp only [List.nil_append] at hr
      obtain ⟨hkeys, hkept, -⟩ := plain_entries_kept eng gs hplain _ hrunsR _ _ hall
      rw [hr]
      exact GoMap.get_of_mem_nodup entries1 key value (by rw [hkeys]; exact hruns)
        (hkept (key, value) hmem hno)
  · intro s1 err key value h hmem hno
    unfold EvaluateActionsTemplate at h
    cases hl : actionsLoop eng gs service.Actions service with
    | error e => simp [hl] at h
    | ok s2 =>
      simp only [hl, Except.ok.injEq, Prod.mk.injEq] at h
      obtain ⟨rfl, -⟩ := h
      obtain ⟨-, entries1, hr, hall⟩ :=
        actionsLoop_policy eng gs service service.Actions [] service s2 rfl
          (by simpa using hactions) rfl hl
      simp only [List.nil_append] at hr
      obtain ⟨hkeys, hkept, -⟩ := plain_entries_kept eng gs hplain _ hactionsR _ _ hall
      rw [hr]
      exact GoMap.get_of_mem_nodup entries1 key value (by rw [hkeys]; exact hactions)
        (hkept (key, value) hmem hno)

/-- Witness for C11: the run `hello` of the sample service is plain text and is
the same after `EvaluateRunsTemplate`. -/
theorem evaluate_idempotent_on_plain_values_witness :
    PrintsPlainText sampleEngine ∧ hasAction "echo hello" = false ∧
    ∃ s1 : Service,
      EvaluateRunsTemplate sampleEngine sampleGetService sampleService = .ok (s1, none) ∧
      s1.Runs.get "hello" = some "echo hello" :=
  ⟨sampleEngine_prints_plain_text, by decide, _, rfl,
    (evaluate_idempotent_on_plain_values sampleEngine sampleGetService sampleService
      sampleEngine_prints_plain_text (by decide) (by decide)).2.2.2.1 _ none "hello" "echo hello"
      rfl (by decide) (by decide)⟩

end Service

/-! ## domain/service/evaluate.go: the template expansion scenario -/

namespace Service

/-- C12 (as stated, refuted).  The service `db` has the context with port 5432 and
`app` is its child with the startup template of the scenario; `app` has no
context of its own.  The action `context .` decodes the context of `app`, which is
not JSON, so the expansion fails and the startup of `app` stays as written; it is
not `connect 5432`. -/
theorem scenario_startup_reads_own_context :
    scenarioDB.Context = "\x7b\"port\":5432\x7d" ∧
    scenarioApp.ParentServiceID = scenarioDB.ID ∧
    scenarioApp.Startup = "connect \x7b\x7b(context .).port\x7d\x7d" ∧
    scenarioGetService scenarioApp.ParentServiceID = .ok scenarioDB ∧
    EvaluateStartupTemplate (templateEngine sampleParse sampleUnmarshal) scenarioGetService
      scenarioApp = .ok (scenarioApp, none) ∧
    scenarioApp.Startup ≠ "connect 5432" :=
  ⟨rfl, rfl, rfl, rfl, rfl, by decide⟩

theorem printValue_port : printValue (.json (.number 5432)) = .ok "5432" := by rfl

theorem executeNodes_scenario_ok (unmarshal : Unmarshal) (gs : GetService) (service : Service)
    (ctx : GoMap JSONValue) (hu : unmarshal service.Context = .ok ctx)
    (hport : ctx.get "port" = some (.number 5432)) :
    executeNodes unmarshal gs service scenarioNodes = .ok "connect 5432" := by
  have hfn : ¬ ("context" = "parent") := by decide
  simp only [scenarioNodes, executeNodes, evalExpr, context, hu, hport, printValue_port, hfn,
    if_false, if_true]
  rfl

theorem executeNodes_scenario_error (unmarshal : Unmarshal) (gs : GetService)
    (service : Service) (e : String) (hu : unmarshal service.Context = .error e) :
    executeNodes unmarshal gs service scenarioNodes = .error e := by
  have hfn : ¬ ("context" = "parent") := by decide
  simp only [scenarioNodes, executeNodes, evalExpr, context, hu, hfn, if_false, if_true]

theorem executeNodes_parent_ok (unmarshal : Unmarshal) (gs : GetService) (service db : Service)
    (ctx : GoMap JSONValue) (hg : gs service.ParentServiceID = .ok db)
    (hu : unmarshal db.Context = .ok ctx) (hport : ctx.get "port" = some (.number 5432)) :
    executeNodes unmarshal gs service parentNodes = .ok "connect 5432" := by
  have hfn : ¬ ("context" = "parent") := by decide
  simp only [parentNodes, executeNodes, evalExpr, context, parent, hg, hu, hport,
    printValue_port, hfn, if_false, if_true]
  rfl

theorem executeNodes_parent_error (unmarshal : Unmarshal) (gs : GetService)
    (service db : Service) (e : String) (hg : gs service.ParentServiceID = .ok db)
    (hu : unmarshal db.Context = .error e) :
    executeNodes unmarshal gs service parentNodes = .error e := by
  have hfn : ¬ ("context" = "parent") := by decide
  simp only [parentNodes, executeNodes, evalExpr, context, parent, hg, hu, hfn, if_false,
    if_true]

/-- C12 (amended).  With a parser that parses the two startup templates as
`text/template` does: the startup `connect` with the action `(context .).port`
of a service `app` materializes to `connect 5432` when the context of `app`
itself decodes to an object whose port is 5432, and stays as written when the
context of `app` cannot be decoded.  The context of the parent is consulted by
the action `(context (parent .)).port`: with it, the startup materializes to
`connect 5432` when the parent `db` is found and its context decodes to an object
whose port is 5432, and stays as written when that context cannot be decoded. -/
theorem startup_materializes_consulted_context
    (parse : String → Except String (List TemplateNode)) (unmarshal : Unmarshal)
    (gs : GetService)
    (hparse : parse scenarioStartup = .ok scenarioNodes)
    (hparseParent : parse parentStartup = .ok parentNodes) :
    (∀ (app : Service) (ctx : GoMap JSONValue), app.Startup = scenarioStartup →
      unmarshal app.Context = .ok ctx → ctx.get "port" = some (.number 5432) →
      EvaluateStartupTemplate (templateEngine parse unmarshal) gs app
        = .ok ({ app with Startup := "connect 5432" }, none)) ∧
    (∀ (app : Service) (e : String), app.Startup = scenarioStartup →
      unmarshal app.Context = .error e →
      EvaluateStartupTemplate (templateEngine parse unmarshal) gs app = .ok (app, none)) ∧
    (∀ (app db : Service) (ctx : GoMap JSONValue), app.Startup = parentStartup →
      gs app.ParentServiceID = .ok db →
      unmarshal db.Context = .ok ctx → ctx.get "port" = some (.number 5432) →
      EvaluateStartupTemplate (templateEngine parse unmarshal) gs app
        = .ok ({ app with Startup := "connect 5432" }, none)) ∧
    (∀ (app db : Service) (e : String), app.Startup = parentStartup →
      gs app.ParentServiceID = .ok db → unmarshal db.Context = .error e →
      EvaluateStartupTemplate (templateEngine parse unmarshal) gs app = .ok (app, none)) := by
  refine ⟨?_, ?_, ?_, ?_⟩
  · intro app ctx hs hu hport
    have hx := executeNodes_scenario_ok unmarshal gs app ctx hu hport
    simp only [EvaluateStartupTemplate, evaluateTemplate, templateEngine, hs, hparse, hx]
    rw [if_pos (by decide)]
  · intro app e hs hu
    have hx := executeNodes_scenario_error unmarshal gs app e hu
    simp only [EvaluateStartupTemplate, evaluateTemplate, templateEngine, hs, hparse, hx]
    simp
  · intro app db ctx hs hg hu hport
    have hx := executeNodes_parent_ok unmarshal gs app db ctx hg hu hport
    simp only [EvaluateStartupTemplate, evaluateTemplate, templateEngine, hs, hparseParent, hx]
    rw [if_pos (by decide)]
  · intro app db e hs hg hu
    have hx := executeNodes_parent_error unmarshal gs app db e hg hu
    simp only [EvaluateStartupTemplate, evaluateTemplate, templateEngine, hs, hparseParent, hx]
    simp

/-- Witness for the amended C12: the scenario with the template that consults the
context of the parent. -/
theorem startup_materializes_consulted_context_witness :
    sampleParse scenarioStartup = .ok scenarioNodes ∧
    sampleParse parentStartup = .ok parentNodes ∧
    EvaluateStartupTemplate (templateEngine sampleParse sampleUnmarshal) scenarioGetService
        { scenarioApp with Startup := parentStartup }
      = .ok ({ scenarioApp with Startup := "connect 5432" }, none) :=
  ⟨rfl, rfl,
    (startup_materializes_consulted_context sampleParse sampleUnmarshal scenarioGetService
      rfl rfl).2.2.1 { scenarioApp with Startup := parentStartup } scenarioDB
      [("port", .number 5432)] rfl rfl rfl rfl⟩

end Service

/-! ## facade/service.go: `AssignIPs` -/

namespace Facade

theorem AssignsOnly.refl (ipAddress ty host : String) (calls : List AssignmentCall) :
    AssignsOnly ipAddress ty host calls calls :=
  ⟨[], by simp, fun a ha => by cases ha⟩

theorem AssignsOnly.trans (ipAddress ty host : String) (a b c : List AssignmentCall)
    (hab : AssignsOnly ipAddress ty host a b) (hbc : AssignsOnly ipAddress ty host b c) :
    AssignsOnly ipAddress ty host a c := by
  obtain ⟨c1, e1, h1⟩ := hab
  obtain ⟨c2, e2, h2⟩ := hbc
  refine ⟨c1 ++ c2, by rw [e2, e1, List.append_assoc], ?_⟩
  intro x hx
  rcases List.mem_append.mp hx with hx | hx
  · exact h1 x hx
  · exact h2 x hx

theorem AssignsOnly.remove (ipAddress ty host : String) (calls : List AssignmentCall)
    (id : String) : AssignsOnly ipAddress ty host calls (calls ++ [.remove id]) :=
  ⟨[.remove id], rfl, fun a ha => by simp at ha⟩

theorem AssignsOnly.assign (ipAddress ty host : String) (calls : List AssignmentCall)
    (a : AddressAssignment) (h1 : a.IPAddr = ipAddress) (h2 : a.AssignmentType = ty)
    (h3 : a.HostID = host) : AssignsOnly ipAddress ty host calls (calls ++ [.assign a]) := by
  refine ⟨[.assign a], rfl, ?_⟩
  intro x hx
  simp only [List.mem_singleton, AssignmentCall.assign.injEq] at hx
  subst hx
  exact ⟨h1, h2, h3⟩

theorem getTenantIDAndPath_frame (env : Collaborators) (fuel : Nat) (st : FacadeState)
    (svc : Service) (r : String × String × Option String) (st1 : FacadeState)
    (h : getTenantIDAndPath env fuel st svc = some (r, st1)) :
    st1 = { st with tenantIDs := st1.tenantIDs } := by
  unfold getTenantIDAndPath at h
  cases hg : GetTenantID fuel st.services st.tenantIDs svc.ID with
  | none => simp [hg] at h
  | some res =>
    obtain ⟨⟨tenantID, err⟩, c1⟩ := res
    simp only [hg] at h
    cases err with
    | some e =>
      simp only [Option.some.injEq, Prod.mk.injEq] at h
      rw [← h.2]
    | none =>
      simp only at h
      split at h <;>
        (simp only [Option.some.injEq, Prod.mk.injEq] at h
         rw [← h.2])

theorem writeRevisions_assignmentCalls (env : Collaborators) (tenantID servicePath : String) :
    ∀ (entries : List (String × ConfigFile)) (oldConfigs : GoMap ConfigFile) (st : FacadeState),
      (writeRevisions env tenantID servicePath entries oldConfigs st).2.2.assignmentCalls
        = st.assignmentCalls := by
  intro entries
  induction entries with
  | nil => intro oldConfigs st; rfl
  | cons kv rest ih =>
    intro oldConfigs st
    obtain ⟨key, conf⟩ := kv
    simp only [writeRevisions]
    split
    · exact ih _ _
    · split
      · rfl
      · rw [ih]

theorem writeTombstones_assignmentCalls (env : Collaborators) (tenantID servicePath : String) :
    ∀ (entries : List (String × ConfigFile)) (st : FacadeState),
      (writeTombstones env tenantID servicePath entries st).2.assignmentCalls
        = st.assignmentCalls := by
  intro entries
  induction entries with
  | nil => intro st; rfl
  | cons kv rest ih =>
    intro st
    obtain ⟨key, conf⟩ := kv
    simp only [writeTombstones]
    split
    · rfl
    · rw [ih]

theorem putAndPublish_assignmentCalls (env : Collaborators) (st : FacadeState)
    (oldSvc svc : Service) :
    (putAndPublish env st oldSvc svc).2.assignmentCalls = st.assignmentCalls := by
  unfold putAndPublish
  cases env.putError svc with
  | some e => rfl
  | none =>
    by_cases hpool : oldSvc.PoolID ≠ svc.PoolID
    · simp only [if_pos hpool]
      cases env.zkRemoveService oldSvc <;> rfl
    · simp only [if_neg hpool]

theorem updateService_assignmentCalls (env : Collaborators) (fuel : Nat) (st : FacadeState)
    (svc : Service) (err : Option String) (st1 : FacadeState)
    (h : updateService env fuel st svc = some (err, st1)) :
    st1.assignmentCalls = st.assignmentCalls := by
  unfold updateService at h
  simp only at h
  split at h
  · simp only [Option.some.injEq, Prod.mk.injEq] at h
    rw [← h.2]
  · split at h
    · simp only [Option.some.injEq, Prod.mk.injEq] at h
      rw [← h.2]
    · split at h
      · simp only [Option.some.injEq] at h
        have e := congrArg (fun r => r.2.assignmentCalls) h
        simp only [putAndPublish_assignmentCalls] at e
        rw [← e]
      · split at h
        · simp only [Option.some.injEq, Prod.mk.injEq] at h
          rw [← h.2]
        · split at h
          · cases h
          · rename_i hgp
            simp only [Option.some.injEq, Prod.mk.injEq] at h
            rw [← h.2, getTenantIDAndPath_frame env fuel st _ _ _ hgp]
          · rename_i tenantID servicePath st2 hgp
            have hk2 : st2.assignmentCalls = st.assignmentCalls := by
              rw [getTenantIDAndPath_frame env fuel st _ _ _ hgp]
            split at h
            · rename_i hw
              simp only [Option.some.injEq, Prod.mk.injEq] at h
              have e := congrArg (fun r => r.2.2.assignmentCalls) hw
              simp only [writeRevisions_assignmentCalls] at e
              rw [← h.2, ← e]; exact hk2
            · rename_i oldConfigs st3 hw
              have e3 := congrArg (fun r => r.2.2.assignmentCalls) hw
              simp only [writeRevisions_assignmentCalls] at e3
              split at h
              · rename_i st4 hwt
                simp only [Option.some.injEq, Prod.mk.injEq] at h
                have e4 := congrArg (fun r => r.2.assignmentCalls) hwt
                simp only [writeTombstones_assignmentCalls] at e4
                rw [← h.2, ← e4, ← e3]; exact hk2
              · rename_i st4 hwt
                simp only [Option.some.injEq] at h
                have e4 := congrArg (fun r => r.2.assignmentCalls) hwt
                simp only [writeTombstones_assignmentCalls] at e4
                have e5 := congrArg (fun r => r.2.assignmentCalls) h
                simp only [putAndPublish_assignmentCalls] at e5
                rw [← e5, ← e4, ← e3]; exact hk2


theorem visitEndpoints_calls (ip : AssignmentCollaborators) (fuel : Nat)
    (ipAddress ty host : String) :
    ∀ (count idx : Nat) (myService : Service) (st : FacadeState) (r : Option String)
      (st1 : FacadeState),
      visitEndpoints ip fuel ipAddress ty host count idx myService st = some (r, st1) →
      AssignsOnly ipAddress ty host st.assignmentCalls st1.assignmentCalls := by
  intro count
  induction count with
  | zero =>
    intro idx myService st r st1 h
    simp only [visitEndpoints, Option.some.injEq, Prod.mk.injEq] at h
    rw [← h.2]
    exact AssignsOnly.refl _ _ _ _
  | succ count ih =>
    intro idx myService st r st1 h
    rw [visitEndpoints] at h
    split at h
    · simp only [Option.some.injEq, Prod.mk.injEq] at h
      rw [← h.2]
      exact AssignsOnly.refl _ _ _ _
    · rename_i endpoint hep
      split at h
      · simp only [Option.some.injEq, Prod.mk.injEq] at h
        rw [← h.2]
        exact AssignsOnly.refl _ _ _ _
      · rename_i needs id hneeds
        split at h
        · -- an assignment is made
          have htail : ∀ (st2 : FacadeState) (assignment : AddressAssignment),
              assignment.IPAddr = ipAddress → assignment.AssignmentType = ty →
              assignment.HostID = host →
              AssignsOnly ipAddress ty host st.assignmentCalls st2.assignmentCalls →
              (match ip.assignAddress st2.assignmentCalls assignment with
                | some err =>
                  some (some err,
                    { st2 with assignmentCalls := st2.assignmentCalls ++ [.assign assignment] })
                | none =>
                  match updateService
                      (ip.facade (st2.assignmentCalls ++ [.assign assignment])) fuel
                      { st2 with assignmentCalls := st2.assignmentCalls ++ [.assign assignment] }
                      myService with
                  | none => none
                  | some (some err, st3) => some (some err, st3)
                  | some (none, st3) =>
                    visitEndpoints ip fuel ipAddress ty host count (idx + 1)
                      (updateServiceArgument
                        (ip.facade (st2.assignmentCalls ++ [.assign assignment])) myService)
                      st3) = some (r, st1) →
              AssignsOnly ipAddress ty host st.assignmentCalls st1.assignmentCalls := by
            intro st2 assignment ha1 ha2 ha3 hst2 h2
            have hst3 := AssignsOnly.trans _ _ _ _ _ _ hst2
              (AssignsOnly.assign ipAddress ty host st2.assignmentCalls assignment ha1 ha2 ha3)
            split at h2
            · simp only [Option.some.injEq, Prod.mk.injEq] at h2
              rw [← h2.2]
              exact hst3
            · split at h2
              · cases h2
              · rename_i err st4 hup
                simp only [Option.some.injEq, Prod.mk.injEq] at h2
                rw [← h2.2, updateService_assignmentCalls _ _ _ _ _ _ hup]
                exact hst3
              · rename_i st4 hup
                have h4 := ih _ _ _ _ _ h2
                rw [updateService_assignmentCalls _ _ _ _ _ _ hup] at h4
                exact AssignsOnly.trans _ _ _ _ _ _ hst3 h4
          by_cases hid : id ≠ ""
          · simp only [if_pos hid] at h
            cases hrem : ip.removeAddressAssignment st.assignmentCalls id with
            | some err =>
              simp only [hrem, Option.some.injEq, Prod.mk.injEq] at h
              rw [← h.2]
              exact AssignsOnly.remove _ _ _ _ _
            | none =>
              simp only [hrem] at h
              exact htail { st with assignmentCalls := st.assignmentCalls ++ [.remove id] } _
                rfl rfl rfl (AssignsOnly.remove _ _ _ _ id) h
          · simp only [if_neg hid] at h
            exact htail st _ rfl rfl rfl (AssignsOnly.refl _ _ _ _) h
        · exact ih _ _ _ _ _ h

theorem walkChildren_invariant (R : FacadeState → FacadeState → Prop)
    (hrefl : ∀ st, R st st) (htrans : ∀ a b c, R a b → R b c → R a c)
    (walk : String → FacadeState → Option (Option String × FacadeState))
    (hwalk : ∀ id st r st1, walk id st = some (r, st1) → R st st1) :
    ∀ (children : List Service) (st : FacadeState) (r : Option String) (st1 : FacadeState),
      walkChildren walk children st = some (r, st1) → R st st1 := by
  intro children
  induction children with
  | nil =>
    intro st r st1 h
    simp only [walkChildren, Option.some.injEq, Prod.mk.injEq] at h
    rw [← h.2]
    exact hrefl _
  | cons child rest ih =>
    intro st r st1 h
    rw [walkChildren] at h
    split at h
    · cases h
    · rename_i e st2 hw
      simp only [Option.some.injEq, Prod.mk.injEq] at h
      rw [← h.2]
      exact hwalk _ _ _ _ hw
    · rename_i st2 hw
      exact htrans _ _ _ (hwalk _ _ _ _ hw) (ih _ _ _ h)

theorem walkServices_invariant (R : FacadeState → FacadeState → Prop)
    (hrefl : ∀ st, R st st) (htrans : ∀ a b c, R a b → R b c → R a c)
    (visitFn : Visit) (hvisit : ∀ st svc r st1, visitFn st svc = some (r, st1) → R st st1) :
    ∀ (fuel : Nat) (serviceID : String) (st : FacadeState) (r : Option String)
      (st1 : FacadeState),
      walkServices visitFn fuel serviceID st = some (r, st1) → R st st1 := by
  intro fuel
  induction fuel with
  | zero => intro serviceID st r st1 h; simp [walkServices] at h
  | succ fuel ih =>
    intro serviceID st r st1 h
    rw [walkServices] at h
    split at h
    · simp only [Option.some.injEq, Prod.mk.injEq] at h
      rw [← h.2]
      exact hrefl _
    · split at h
      · cases h
      · rename_i e st2 hv
        simp only [Option.some.injEq, Prod.mk.injEq] at h
        rw [← h.2]
        exact hvisit _ _ _ _ hv
      · rename_i st2 hv
        exact htrans _ _ _ (hvisit _ _ _ _ hv)
          (walkChildren_invariant R hrefl htrans _ (fun id s r s1 => ih id s r s1) _ _ _ _ h)

theorem assignAndWalk_calls (ip : AssignmentCollaborators) (fuel : Nat) (st : FacadeState)
    (serviceID ipAddress ty host : String) (r : Panicking (Option String)) (st1 : FacadeState)
    (h : assignAndWalk ip fuel st serviceID ipAddress ty host = some (r, st1)) :
    AssignsOnly ipAddress ty host st.assignmentCalls st1.assignmentCalls := by
  unfold assignAndWalk at h
  split at h
  · simp only [Option.some.injEq, Prod.mk.injEq] at h
    rw [← h.2]
    exact AssignsOnly.refl _ _ _ _
  · split at h
    · cases h
    · rename_i err st2 hw
      simp only [Option.some.injEq, Prod.mk.injEq] at h
      rw [← h.2]
      exact walkServices_invariant
        (fun a b => AssignsOnly ipAddress ty host a.assignmentCalls b.assignmentCalls)
        (fun _ => AssignsOnly.refl _ _ _ _)
        (fun _ _ _ hab hbc => AssignsOnly.trans _ _ _ _ _ _ hab hbc)
        _ (fun s svc r s1 hv => visitEndpoints_calls ip fuel ipAddress ty host _ _ _ _ _ _ hv)
        _ _ _ _ _ hw

theorem retrievePoolIPs_entries (getPoolIPs : String → Except String PoolIPs) (poolID : String)
    (infos : List assignIPInfo) (h : retrievePoolIPs getPoolIPs poolID = (infos, none)) :
    ∃ poolIPs : PoolIPs, getPoolIPs poolID = .ok poolIPs ∧
      ∀ info ∈ infos,
        (info.IPType = "static" ∧
          ∃ hostIP ∈ poolIPs.HostIPs, hostIP.IPAddress = info.IP ∧ hostIP.HostID = info.HostID) ∨
        (info.IPType = "virtual" ∧ info.HostID = "" ∧
          ∃ virtualIP ∈ poolIPs.VirtualIPs, virtualIP.IP = info.IP) := by
  unfold retrievePoolIPs at h
  split at h
  · simp at h
  · rename_i poolIPs hp
    refine ⟨poolIPs, hp, ?_⟩
    simp only [Prod.mk.injEq, and_true] at h
    intro info hinfo
    rw [← h] at hinfo
    rcases List.mem_append.mp hinfo with hm | hm
    · left
      obtain ⟨hostIP, hmem, rfl⟩ := List.mem_map.mp hm
      exact ⟨rfl, hostIP, hmem, rfl, rfl⟩
    · right
      obtain ⟨virtualIP, hmem, rfl⟩ := List.mem_map.mp hm
      exact ⟨rfl, rfl, virtualIP, hmem, rfl⟩

theorem retrievePoolIPs_error (getPoolIPs : String → Except String PoolIPs) (poolID : String)
    (infos : List assignIPInfo) (e : String)
    (h : retrievePoolIPs getPoolIPs poolID = (infos, some e)) : infos = [] := by
  unfold retrievePoolIPs at h
  split at h
  · simp only [Prod.mk.injEq] at h
    exact h.1.symm
  · simp at h

theorem manualLookup_outcome (ipAddress : String) :
    ∀ (infos : List assignIPInfo) (found : String × String),
      (manualLookup ipAddress infos found = found ∧ ∀ info ∈ infos, info.IP ≠ ipAddress) ∨
      (∃ info ∈ infos, info.IP = ipAddress ∧
        manualLookup ipAddress infos found = (info.IPType, info.HostID)) := by
  intro infos
  induction infos with
  | nil => intro found; left; exact ⟨rfl, fun info h => by cases h⟩
  | cons first rest ih =>
    intro found
    rw [manualLookup]
    by_cases hip : ipAddress = first.IP
    · rw [if_pos hip]
      right
      rcases ih (first.IPType, first.HostID) with ⟨hsame, _⟩ | ⟨info, hmem, hi, hres⟩
      · exact ⟨first, List.mem_cons_self _ _, hip.symm, hsame⟩
      · exact ⟨info, List.mem_cons_of_mem _ hmem, hi, hres⟩
    · rw [if_neg hip]
      rcases ih found with ⟨hsame, hnone⟩ | ⟨info, hmem, hi, hres⟩
      · left
        refine ⟨hsame, ?_⟩
        intro info hinfo
        rcases List.mem_cons.mp hinfo with rfl | hm
        · exact fun h => hip h.symm
        · exact hnone info hm
      · right
        exact ⟨info, List.mem_cons_of_mem _ hmem, hi, hres⟩

theorem fillServiceConfigs_frame (env : Collaborators) (fuel : Nat) (st : FacadeState)
    (svc : Service) (r : Panicking (Service × Option String)) (st1 : FacadeState)
    (h : fillServiceConfigs env fuel st svc = some (r, st1)) :
    st1 = { st with tenantIDs := st1.tenantIDs } := by
  unfold fillServiceConfigs at h
  split at h
  · cases h
  · rename_i hgp
    simp only [Option.some.injEq, Prod.mk.injEq] at h
    rw [← h.2]
    exact getTenantIDAndPath_frame env fuel st _ _ _ hgp
  · rename_i hgp
    have hf := getTenantIDAndPath_frame env fuel st _ _ _ hgp
    split at h
    · simp only [Option.some.injEq, Prod.mk.injEq] at h
      rw [← h.2]
      exact hf
    · split at h <;>
        (simp only [Option.some.injEq, Prod.mk.injEq] at h
         rw [← h.2]
         exact hf)

theorem GetService_frame (env : Collaborators) (fuel : Nat) (st : FacadeState) (id : String)
    (r : Panicking (Except String Service)) (st1 : FacadeState)
    (h : GetService env fuel st id = some (r, st1)) :
    st1 = { st with tenantIDs := st1.tenantIDs } := by
  unfold GetService at h
  split at h
  · simp only [Option.some.injEq, Prod.mk.injEq] at h
    rw [← h.2]
  · rename_i svc hget
    have hfill : ∀ (r2 : Panicking (Service × Option String)) (st2 : FacadeState),
        fillOutService env fuel st svc = some (r2, st2) →
        st2 = { st with tenantIDs := st2.tenantIDs } := by
      intro r2 st2 h2
      unfold fillOutService at h2
      split at h2
      · simp only [Option.some.injEq, Prod.mk.injEq] at h2
        rw [← h2.2]
      · exact fillServiceConfigs_frame env fuel st _ _ _ h2
    split at h
    · cases h
    · rename_i msg st2 hf
      simp only [Option.some.injEq, Prod.mk.injEq] at h
      rw [← h.2]
      exact hfill _ _ hf
    · rename_i s e st2 hf
      simp only [Option.some.injEq, Prod.mk.injEq] at h
      rw [← h.2]
      exact hfill _ _ hf
    · rename_i s st2 hf
      simp only [Option.some.injEq, Prod.mk.injEq] at h
      rw [← h.2]
      exact hfill _ _ hf


theorem AssignIPs_calls (ip : AssignmentCollaborators) (fuel : Nat) (st : FacadeState)
    (request : AssignmentRequest) (r : Panicking (Option String)) (st1 : FacadeState)
    (h : AssignIPs ip fuel st request = some (r, st1)) :
    st1.assignmentCalls = st.assignmentCalls ∨
    ∃ (myService : Service) (stg : FacadeState) (infos : List assignIPInfo) (info : assignIPInfo),
      GetService (ip.facade st.assignmentCalls) fuel st request.ServiceID
        = some (.ok (.ok myService), stg) ∧
      retrievePoolIPs ip.getPoolIPs myService.PoolID = (infos, none) ∧ info ∈ infos ∧
      AssignsOnly info.IP info.IPType info.HostID st.assignmentCalls st1.assignmentCalls := by
  unfold AssignIPs at h
  split at h
  · cases h
  · rename_i msg stg hg
    simp only [Option.some.injEq, Prod.mk.injEq] at h
    left
    rw [← h.2, GetService_frame _ _ _ _ _ _ hg]
  · rename_i err stg hg
    simp only [Option.some.injEq, Prod.mk.injEq] at h
    left
    rw [← h.2, GetService_frame _ _ _ _ _ _ hg]
  · rename_i myService stg hg
    have hstg : stg.assignmentCalls = st.assignmentCalls := by
      rw [GetService_frame _ _ _ _ _ _ hg]
    split at h
    · simp only [Option.some.injEq, Prod.mk.injEq] at h
      left
      rw [← h.2, hstg]
    · rename_i infos hpool
      split at h
      · simp only [Option.some.injEq, Prod.mk.injEq] at h
        left
        rw [← h.2, hstg]
      · split at h
        · split at h
          · simp only [Option.some.injEq, Prod.mk.injEq] at h
            left
            rw [← h.2, hstg]
          · rename_i chosen hchosen
            split at h
            · simp only [Option.some.injEq, Prod.mk.injEq] at h
              left
              rw [← h.2, hstg]
            · right
              have hc := assignAndWalk_calls ip fuel stg _ _ _ _ r st1 h
              rw [hstg] at hc
              exact ⟨myService, stg, infos, chosen, hg, hpool, List.get?_mem hchosen, hc⟩
        · simp only at h
          split at h
          · simp only [Option.some.injEq, Prod.mk.injEq] at h
            left
            rw [← h.2, hstg]
          · rename_i hfound
            have hc := assignAndWalk_calls ip fuel stg _ _ _ _ r st1 h
            rw [hstg] at hc
            rcases manualLookup_outcome request.IPAddress infos ("", "") with
              ⟨hsame, _⟩ | ⟨info, hmem, hi, hres⟩
            · rw [hsame] at hfound
              exact absurd rfl hfound
            · right
              rw [hres] at hc
              rw [← hi] at hc
              exact ⟨myService, stg, infos, info, hg, hpool, hmem, hc⟩

/-- C13.  Whenever `AssignIPs` returns, with or without an error, in the automatic
or the manual mode, the calls it made to the address-assignment store follow
those made before, and every assignment it handed to `AssignAddress` has the IP,
assignment type and host id of one entry of the IP union `retrievePoolIPs`
returned for the pool of the service: a static entry, carrying the IP and the
host id of a host IP of the pool, or a virtual entry, carrying a virtual IP of the
pool and an empty host id.  When the union is empty, `AssignIPs` returns the
error `no IPs available` and has made no call to the address-assignment store. -/
theorem AssignIPs_assigns_from_pool_union (ip : AssignmentCollaborators) (fuel : Nat)
    (st : FacadeState) (request : AssignmentRequest) :
    (∀ (r : Panicking (Option String)) (st1 : FacadeState),
      AssignIPs ip fuel st request = some (r, st1) →
      ∃ calls : List AssignmentCall, st1.assignmentCalls = st.assignmentCalls ++ calls ∧
        ∀ a : AddressAssignment, AssignmentCall.assign a ∈ calls →
          ∃ (myService : Service) (stg : FacadeState) (infos : List assignIPInfo)
            (poolIPs : PoolIPs) (info : assignIPInfo),
            GetService (ip.facade st.assignmentCalls) fuel st request.ServiceID
              = some (.ok (.ok myService), stg) ∧
            ip.getPoolIPs myService.PoolID = .ok poolIPs ∧
            retrievePoolIPs ip.getPoolIPs myService.PoolID = (infos, none) ∧
            info ∈ infos ∧
            (a.IPAddr, a.AssignmentType, a.HostID) = (info.IP, info.IPType, info.HostID) ∧
            ((info.IPType = "static" ∧
                ∃ hostIP ∈ poolIPs.HostIPs,
                  hostIP.IPAddress = info.IP ∧ hostIP.HostID = info.HostID) ∨
              (info.IPType = "virtual" ∧ info.HostID = "" ∧
                ∃ virtualIP ∈ poolIPs.VirtualIPs, virtualIP.IP = info.IP))) ∧
    (∀ (myService : Service) (stg : FacadeState),
      GetService (ip.facade st.assignmentCalls) fuel st request.ServiceID
        = some (.ok (.ok myService), stg) →
      retrievePoolIPs ip.getPoolIPs myService.PoolID = ([], none) →
      AssignIPs ip fuel st request = some (.ok (some "no IPs available"), stg) ∧
      stg.assignmentCalls = st.assignmentCalls) := by
  constructor
  · intro r st1 h
    rcases AssignIPs_calls ip fuel st request r st1 h with hsame |
      ⟨myService, stg, infos, info, hg, hpool, hmem, calls, hcalls, hall⟩
    · exact ⟨[], by rw [hsame, List.append_nil], fun a ha => by cases ha⟩
    · refine ⟨calls, hcalls, ?_⟩
      intro a ha
      obtain ⟨poolIPs, hp, hshape⟩ := retrievePoolIPs_entries _ _ _ hpool
      obtain ⟨h1, h2, h3⟩ := hall a ha
      exact ⟨myService, stg, infos, poolIPs, info, hg, hp, hpool, hmem, by rw [h1, h2, h3],
        hshape info hmem⟩
  · intro myService stg hg hpool
    refine ⟨?_, by rw [GetService_frame _ _ _ _ _ _ hg]⟩
    unfold AssignIPs
    simp only [hg, hpool, List.length_nil, Nat.lt_one_iff, if_true]

/-- Witness for C13: on the sample service, whose endpoint asks for an address,
the automatic mode hands exactly one assignment to `AssignAddress`; it carries the
static IP of the sample pool and the id of its host. -/
theorem AssignIPs_assigns_from_pool_union_witness :
    AssignIPs sampleAssignment 2 { services := [sampleWeb] }
        { ServiceID := "web", AutoAssignment := true }
      = some (.ok none,
          { services := [sampleWeb], tenantIDs := [("web", "web")],
            zkCalls := [.updateService sampleWeb],
            assignmentCalls := [.assign sampleWebAssignment] }) ∧
    ∃ info ∈ (retrievePoolIPs sampleAssignment.getPoolIPs "default").1,
      (sampleWebAssignment.IPAddr, sampleWebAssignment.AssignmentType,
        sampleWebAssignment.HostID) = (info.IP, info.IPType, info.HostID) := by
  have hrun : AssignIPs sampleAssignment 2 { services := [sampleWeb] }
        { ServiceID := "web", AutoAssignment := true }
      = some (.ok none,
          { services := [sampleWeb], tenantIDs := [("web", "web")],
            zkCalls := [.updateService sampleWeb],
            assignmentCalls := [.assign sampleWebAssignment] }) := by rfl
  refine ⟨hrun, ?_⟩
  obtain ⟨calls, hcalls, hall⟩ :=
    (AssignIPs_assigns_from_pool_union sampleAssignment 2 { services := [sampleWeb] }
      { ServiceID := "web", AutoAssignment := true }).1 _ _ hrun
  simp only [List.nil_append] at hcalls
  obtain ⟨myService, stg, infos, poolIPs, info, hg, _, hpool, hmem, htriple, _⟩ :=
    hall sampleWebAssignment (by rw [← hcalls]; exact List.mem_singleton.mpr rfl)
  have hsvc : GetService (sampleAssignment.facade []) 2 { services := [sampleWeb] } "web"
      = some (.ok (.ok sampleWeb), { services := [sampleWeb], tenantIDs := [("web", "web")] }) := by
    rfl
  rw [hsvc] at hg
  simp only [Option.some.injEq, Prod.mk.injEq, Except.ok.injEq] at hg
  rw [← hg.1] at hpool
  exact ⟨info, by rw [show sampleWeb.PoolID = "default" from rfl] at hpool; rw [hpool]; exact hmem,
    htriple⟩

/-- C14.  For a manual request (`AutoAssignment` false) on a service that
`GetService` returns and whose pool has the IP union `infos`: when the requested
IP is the IP of no entry of the union, `AssignIPs` returns an error and the
address-assignment calls, the service store, the revision store and the
coordination-store calls are as before, so that no `RemoveAddressAssignment`, no
`AssignAddress` and no `updateService` took place; when the requested IP is the
IP of an entry, the check passes: the lookup gives the type and host id of such an
entry, the type is not empty, and `AssignIPs` goes on with the read of the
assignments and the walk. -/
theorem AssignIPs_manual_verifies_membership (ip : AssignmentCollaborators) (fuel : Nat)
    (st : FacadeState) (request : AssignmentRequest) (myService : Service) (stg : FacadeState)
    (infos : List assignIPInfo)
    (hmanual : request.AutoAssignment = false)
    (hget : GetService (ip.facade st.assignmentCalls) fuel st request.ServiceID
      = some (.ok (.ok myService), stg))
    (hpool : retrievePoolIPs ip.getPoolIPs myService.PoolID = (infos, none)) :
    ((∀ info ∈ infos, info.IP ≠ request.IPAddress) →
      ∃ err : String, AssignIPs ip fuel st request = some (.ok (some err), stg) ∧
        stg.assignmentCalls = st.assignmentCalls ∧ stg.services = st.services ∧
        stg.configFiles = st.configFiles ∧ stg.zkCalls = st.zkCalls) ∧
    ((∃ info ∈ infos, info.IP = request.IPAddress) →
      ∃ info ∈ infos, info.IP = request.IPAddress ∧ info.IPType ≠ "" ∧
        manualLookup request.IPAddress infos ("", "") = (info.IPType, info.HostID) ∧
        AssignIPs ip fuel st request
          = assignAndWalk ip fuel stg request.ServiceID request.IPAddress info.IPType
              info.HostID) := by
  have hframe := GetService_frame _ _ _ _ _ _ hget
  obtain ⟨poolIPs, _, hshape⟩ := retrievePoolIPs_entries _ _ _ hpool
  constructor
  · intro hnone
    have hlook : manualLookup request.IPAddress infos ("", "") = ("", "") := by
      rcases manualLookup_outcome request.IPAddress infos ("", "") with
        ⟨hsame, _⟩ | ⟨info, hmem, hi, _⟩
      · exact hsame
      · exact absurd hi (hnone info hmem)
    have hfields : stg.assignmentCalls = st.assignmentCalls ∧ stg.services = st.services ∧
        stg.configFiles = st.configFiles ∧ stg.zkCalls = st.zkCalls := by
      rw [hframe]
      exact ⟨rfl, rfl, rfl, rfl⟩
    by_cases hlen : infos.length < 1
    · refine ⟨"no IPs available", ?_, hfields⟩
      unfold AssignIPs
      simp only [hget, hpool, if_pos hlen]
    · refine ⟨"requested IP address: " ++ request.IPAddress ++ " is not contained in pool " ++
        myService.PoolID ++ ".", ?_, hfields⟩
      unfold AssignIPs
      simp only [hget, hpool, if_neg hlen, hmanual, hlook, if_true, Bool.false_eq_true,
        if_false]
  · rintro ⟨info0, hmem0, hi0⟩
    rcases manualLookup_outcome request.IPAddress infos ("", "") with
      ⟨_, hnone⟩ | ⟨info, hmem, hi, hres⟩
    · exact absurd hi0 (hnone info0 hmem0)
    · have hty : info.IPType ≠ "" := by
        rcases hshape info hmem with ⟨hs, _⟩ | ⟨hv, _⟩
        · rw [hs]; decide
        · rw [hv]; decide
      refine ⟨info, hmem, hi, hty, hres, ?_⟩
      have hlen : ¬ infos.length < 1 := by
        cases infos with
        | nil => cases hmem
        | cons _ _ => simp
      unfold AssignIPs
      simp only [hget, hpool, if_neg hlen, hmanual, hres, if_neg hty, Bool.false_eq_true,
        if_false]

/-- Witness for C14: the sample pool has no IP `10.0.0.98`, and the manual request
for it is refused with nothing but the tenant memo changed. -/
theorem AssignIPs_manual_verifies_membership_witness :
    (∀ info ∈ (retrievePoolIPs sampleAssignment.getPoolIPs "default").1,
      info.IP ≠ "10.0.0.98") ∧
    ∃ err : String,
      AssignIPs sampleAssignment 2 { services := [sampleWeb] }
          { ServiceID := "web", IPAddress := "10.0.0.98" }
        = some (.ok (some err), { services := [sampleWeb], tenantIDs := [("web", "web")] }) := by
  have hnone : ∀ info ∈ (retrievePoolIPs sampleAssignment.getPoolIPs "default").1,
      info.IP ≠ "10.0.0.98" := by decide
  refine ⟨hnone, ?_⟩
  obtain ⟨err, herr, _⟩ :=
    (AssignIPs_manual_verifies_membership sampleAssignment 2 { services := [sampleWeb] }
      { ServiceID := "web", IPAddress := "10.0.0.98" } sampleWeb
      { services := [sampleWeb], tenantIDs := [("web", "web")] }
      (retrievePoolIPs sampleAssignment.getPoolIPs "default").1 rfl rfl rfl).1 hnone
  exact ⟨err, herr⟩

end Facade

/-! ## facade/service.go: `AddService` -/

namespace Facade

theorem ServiceStore.Get_of_mem (store : ServiceStore) (id : String)
    (h : ∃ old ∈ store, old.ID = id) : ∃ svc : Service, store.Get id = .ok svc := by
  obtain ⟨old, hmem, hid⟩ := h
  unfold ServiceStore.Get
  cases hf : store.find? (fun svc => svc.ID = id) with
  | some svc => exact ⟨svc, rfl⟩
  | none =>
    have := List.find?_eq_none.mp hf old hmem
    simp [hid] at this

/-- C15.  When the id of `svc` is the id of a service in the service store,
`AddService` returns an error and leaves the state as it was: the service store,
the config-file revisions and the calls into the coordination store are not
modified.  When the lookup at the start fails with an error other than
no-such-entity, `AddService` returns that error and leaves the state as it
was. -/
theorem AddService_rejects_existing (env : Collaborators) (fuel : Nat) (st : FacadeState)
    (svc : Service) :
    ((∃ old ∈ st.services, old.ID = svc.ID) →
      ∃ err : String, AddService env fuel st svc = some (some err, st)) ∧
    (∀ err : String, env.getFault svc.ID = some err →
      AddService env fuel st svc = some (some err, st)) := by
  constructor
  · intro h
    obtain ⟨old, hold⟩ := ServiceStore.Get_of_mem st.services svc.ID h
    unfold AddService
    cases hfault : env.getFault svc.ID with
    | some e => exact ⟨e, rfl⟩
    | none =>
      refine ⟨"error adding service; " ++ svc.ID ++ " already exists", ?_⟩
      simp only [hold]
  · intro err hfault
    unfold AddService
    simp only [hfault]

/-- Witness for C15: `app` is in the sample store, and adding a service with that
id is refused with the state unchanged. -/
theorem AddService_rejects_existing_witness :
    (∃ old ∈ sampleStore, old.ID = "app") ∧
    ∃ err : String,
      AddService sampleEnv 1 { services := sampleStore } { ID := "app", Name := "other" }
        = some (some err, { services := sampleStore }) :=
  ⟨by decide,
    (AddService_rejects_existing sampleEnv 1 { services := sampleStore }
      { ID := "app", Name := "other" }).1 (by decide)⟩

end Facade

/-! ## facade/service.go: the config-file revisions of `updateService` -/

namespace GoMap

theorem delete_eq_filter {α : Type} (key : String) :
    ∀ m : GoMap α, m.delete key = m.filter fun kv => kv.1 ≠ key := by
  intro m
  induction m with
  | nil => rfl
  | cons kv rest ih =>
    obtain ⟨k, v⟩ := kv
    by_cases h : k = key
    · simp [delete, h, ih]
    · simp [delete, h, ih]

theorem filter_ne_of_get_none {α : Type} (key : String) :
    ∀ m : GoMap α, m.get key = none → (m.filter fun kv => kv.1 ≠ key) = m := by
  intro m
  induction m with
  | nil => intro _; rfl
  | cons kv rest ih =>
    obtain ⟨k, v⟩ := kv
    intro h
    by_cases hk : k = key
    · simp [get, hk] at h
    · simp only [get, if_neg hk] at h
      rw [List.filter_cons_of_pos (by simpa using hk), ih h]

theorem get_filter_ne {α : Type} (key k2 : String) (hne : k2 ≠ key) :
    ∀ m : GoMap α, GoMap.get (m.filter fun kv => kv.1 ≠ key) k2 = m.get k2 := by
  intro m
  induction m with
  | nil => rfl
  | cons kv rest ih =>
    obtain ⟨k, v⟩ := kv
    by_cases hk : k = key
    · have hk2 : ¬ k = k2 := fun h => hne (h ▸ hk)
      have hget : get ((k, v) :: rest) k2 = get rest k2 := by simp only [get, if_neg hk2]
      rw [hget, List.filter_cons_of_neg (by simpa using hk), ih]
    · rw [List.filter_cons_of_pos (by simpa using hk)]
      by_cases hkk : k = k2
      · simp only [get, if_pos hkk]
      · simp only [get, if_neg hkk]
        exact ih

theorem get_eq_none_iff {α : Type} (key : String) :
    ∀ m : GoMap α, m.get key = none ↔ key ∉ m.map fun e => e.1 := by
  intro m
  induction m with
  | nil => simp [get]
  | cons kv rest ih =>
    obtain ⟨k, v⟩ := kv
    by_cases hk : k = key
    · simp [get, hk]
    · simp only [get, if_neg hk, ih, List.map_cons, List.mem_cons, not_or]
      constructor
      · intro h; exact ⟨fun e => hk e.symm, h⟩
      · intro h; exact h.2

theorem mem_of_get {α : Type} (key : String) (v : α) :
    ∀ m : GoMap α, m.get key = some v → (key, v) ∈ m := by
  intro m
  induction m with
  | nil => intro h; simp [get] at h
  | cons kv rest ih =>
    obtain ⟨k, v2⟩ := kv
    intro h
    by_cases hk : k = key
    · simp only [get, if_pos hk, Option.some.injEq] at h
      rw [hk, h]; exact List.mem_cons_self _ _
    · simp only [get, if_neg hk] at h
      exact List.mem_cons_of_mem _ (ih h)

end GoMap

namespace Facade

theorem fillServiceAddr_ConfigFiles (env : Collaborators) (svc : Service) :
    (fillServiceAddr env svc).1.ConfigFiles = svc.ConfigFiles ∧
    (fillServiceAddr env svc).1.ID = svc.ID ∧
    (fillServiceAddr env svc).1.PoolID = svc.PoolID := by
  unfold fillServiceAddr
  cases env.getAddressAssignments svc.ID <;> exact ⟨rfl, rfl, rfl⟩

theorem writeRevisions_writes (env : Collaborators) (tenantID servicePath : String)
    (hnew : ∀ conf : ConfigFile, ∃ rev, env.newSvcConfigFile tenantID servicePath conf = .ok rev) :
    ∀ (entries : List (String × ConfigFile)) (oldConfigs : GoMap ConfigFile) (st : FacadeState),
      (entries.map fun e => e.1).Nodup →
      ∃ revs : List SvcConfigFile,
        List.Forall₂ (fun conf rev => env.newSvcConfigFile tenantID servicePath conf = .ok rev)
          (stamped st.clock ((changedFiles oldConfigs entries).map fun kv => kv.2)) revs ∧
        writeRevisions env tenantID servicePath entries oldConfigs st
          = (none, oldConfigs.filter (fun kv => kv.1 ∉ entries.map fun e => e.1),
              { st with configFiles := putRevisions st.configFiles revs,
                        clock := st.clock + revs.length }) := by
  intro entries
  induction entries with
  | nil =>
    intro oldConfigs st _
    refine ⟨[], ?_, ?_⟩
    · simp [changedFiles, stamped]
    · simp [writeRevisions, putRevisions]
  | cons kv rest ih =>
    intro oldConfigs st hnodup
    obtain ⟨key, conf⟩ := kv
    simp only [List.map_cons, List.nodup_cons] at hnodup
    obtain ⟨hkey, hrest⟩ := hnodup
    -- the old configs after the visit of `key`
    have hold1 : (if (oldConfigs.get key).isSome then oldConfigs.delete key else oldConfigs)
        = oldConfigs.filter fun kv => kv.1 ≠ key := by
      cases hg : oldConfigs.get key with
      | none =>
        rw [if_neg (by simp)]
        exact (GoMap.filter_ne_of_get_none key oldConfigs hg).symm
      | some v =>
        rw [if_pos (by simp)]
        exact GoMap.delete_eq_filter key oldConfigs
    have hchanged : changedFiles (oldConfigs.filter fun kv => kv.1 ≠ key) rest
        = changedFiles oldConfigs rest := by
      unfold changedFiles
      apply List.filter_congr
      intro e he
      have hne : e.1 ≠ key := by
        intro h
        exact hkey (h ▸ List.mem_map_of_mem (fun e => e.1) he)
      rw [GoMap.get_filter_ne key e.1 hne]
    have hfilter : ((oldConfigs.filter fun kv => kv.1 ≠ key).filter
          fun kv => kv.1 ∉ rest.map fun e => e.1)
        = oldConfigs.filter fun kv => kv.1 ∉ (key :: rest.map fun e => e.1) := by
      rw [List.filter_filter]
      apply List.filter_congr
      intro e _
      by_cases h1 : e.1 = key <;> by_cases h2 : e.1 ∈ rest.map fun e => e.1 <;>
        simp [h1, h2]
    rw [writeRevisions]
    simp only [hold1]
    by_cases hsame : oldConfigs.get key = some conf
    · rw [if_pos hsame]
      obtain ⟨revs, hrevs, hres⟩ := ih (oldConfigs.filter fun kv => kv.1 ≠ key) st hrest
      refine ⟨revs, ?_, ?_⟩
      · have : changedFiles oldConfigs ((key, conf) :: rest) = changedFiles oldConfigs rest := by
          simp [changedFiles, hsame]
        rw [this, ← hchanged]
        exact hrevs
      · rw [hres, hfilter]
        rfl
    · rw [if_neg hsame]
      obtain ⟨rev, hrev⟩ := hnew { conf with Updated := st.clock }
      simp only [hrev]
      obtain ⟨revs, hrevs, hres⟩ := ih (oldConfigs.filter fun kv => kv.1 ≠ key)
        { st with clock := st.clock + 1, configFiles := st.configFiles.set rev.ID rev } hrest
      refine ⟨rev :: revs, ?_, ?_⟩
      · have : changedFiles oldConfigs ((key, conf) :: rest)
            = (key, conf) :: changedFiles oldConfigs rest := by
          simp [changedFiles, hsame]
        rw [this, ← hchanged]
        simp only [List.map_cons, stamped]
        exact List.Forall₂.cons hrev hrevs
      · rw [hres, hfilter]
        have hc : st.clock + 1 + revs.length = st.clock + (revs.length + 1) := by omega
        simp only [putRevisions, List.foldl_cons, List.length_cons, hc]
        rfl

theorem writeTombstones_writes (env : Collaborators) (tenantID servicePath : String)
    (hnew : ∀ conf : ConfigFile, ∃ rev, env.newSvcConfigFile tenantID servicePath conf = .ok rev) :
    ∀ (entries : List (String × ConfigFile)) (st : FacadeState),
      ∃ revs : List SvcConfigFile,
        List.Forall₂ (fun conf rev => env.newSvcConfigFile tenantID servicePath conf = .ok rev)
          (stamped st.clock (entries.map fun kv => tombstone kv.2)) revs ∧
        writeTombstones env tenantID servicePath entries st
          = (false, { st with configFiles := putRevisions st.configFiles revs,
                              clock := st.clock + revs.length }) := by
  intro entries
  induction entries with
  | nil =>
    intro st
    exact ⟨[], by simp [stamped], by simp [writeTombstones, putRevisions]⟩
  | cons kv rest ih =>
    intro st
    obtain ⟨key, conf⟩ := kv
    rw [writeTombstones]
    obtain ⟨rev, hrev⟩ := hnew { conf with Content := "", Deleted := true, Updated := st.clock }
    simp only [hrev]
    obtain ⟨revs, hrevs, hres⟩ := ih
      { st with clock := st.clock + 1, configFiles := st.configFiles.set rev.ID rev }
    refine ⟨rev :: revs, ?_, ?_⟩
    · simp only [List.map_cons, stamped]
      exact List.Forall₂.cons hrev hrevs
    · rw [hres]
      have hc : st.clock + 1 + revs.length = st.clock + (revs.length + 1) := by omega
      simp only [putRevisions, List.foldl_cons, List.length_cons, hc]


theorem putRevisions_append (store : GoMap SvcConfigFile) (revs tombs : List SvcConfigFile) :
    putRevisions (putRevisions store revs) tombs = putRevisions store (revs ++ tombs) := by
  simp only [putRevisions, List.foldl_append]

theorem putAndPublish_configFiles (env : Collaborators) (st : FacadeState)
    (oldSvc svc : Service) :
    (putAndPublish env st oldSvc svc).2.configFiles = st.configFiles ∧
    (putAndPublish env st oldSvc svc).2.clock = st.clock := by
  unfold putAndPublish
  cases env.putError svc with
  | some e => exact ⟨rfl, rfl⟩
  | none =>
    by_cases hpool : oldSvc.PoolID ≠ svc.PoolID
    · simp only [if_pos hpool]
      cases env.zkRemoveService oldSvc <;> exact ⟨rfl, rfl⟩
    · rw [if_neg hpool]
      exact ⟨rfl, rfl⟩

theorem stamped_tombstones (now : Nat) (files : List ConfigFile) :
    ∀ conf ∈ stamped now (files.map tombstone), conf.Deleted = true ∧ conf.Content = "" := by
  induction files generalizing now with
  | nil => intro conf h; cases h
  | cons f rest ih =>
    intro conf h
    simp only [List.map_cons, stamped, List.mem_cons] at h
    rcases h with rfl | h
    · exact ⟨rfl, rfl⟩
    · exact ih (now + 1) conf h

/-- The run of `updateService` through its config-file part: the id is not empty,
the service is stored, its config files differ from the stored ones, it is valid,
its tenant and path are found, and `serviceconfigfile.New` does not fail. -/
theorem updateService_config_path (env : Collaborators) (fuel : Nat) (st stT : FacadeState)
    (svc oldSvc : Service) (tenantID servicePath : String)
    (hid : TrimSpace svc.ID ≠ "")
    (hold : st.services.Get (TrimSpace svc.ID) = .ok oldSvc)
    (hnodup : ((entriesOf svc.ConfigFiles).map fun e => e.1).Nodup)
    (hdiff : configFilesDeepEqual oldSvc.ConfigFiles svc.ConfigFiles = false)
    (hvalid : env.validEntity (trimmedAndFilled env svc) = none)
    (htp : getTenantIDAndPath env fuel st (trimmedAndFilled env svc)
      = some ((tenantID, servicePath, none), stT))
    (hnew : ∀ conf : ConfigFile,
      ∃ rev, env.newSvcConfigFile tenantID servicePath conf = .ok rev) :
    ∃ (revs tombs : List SvcConfigFile) (oldRest : Service),
      List.Forall₂ (fun conf rev => env.newSvcConfigFile tenantID servicePath conf = .ok rev)
        (stamped st.clock ((changedFiles (entriesOf oldSvc.ConfigFiles)
          (entriesOf svc.ConfigFiles)).map fun kv => kv.2)) revs ∧
      List.Forall₂ (fun conf rev => env.newSvcConfigFile tenantID servicePath conf = .ok rev)
        (stamped (st.clock + revs.length) ((removedFiles (entriesOf oldSvc.ConfigFiles)
          (entriesOf svc.ConfigFiles)).map fun kv => tombstone kv.2)) tombs ∧
      oldRest.PoolID = oldSvc.PoolID ∧
      updateService env fuel st svc
        = some (putAndPublish env
            { stT with configFiles := putRevisions st.configFiles (revs ++ tombs),
                       clock := st.clock + revs.length + tombs.length }
            oldRest (trimmedAndFilled env svc)) := by
  have hframe := getTenantIDAndPath_frame env fuel st _ _ _ htp
  have hcf : (trimmedAndFilled env svc).ConfigFiles = svc.ConfigFiles :=
    (fillServiceAddr_ConfigFiles env _).1
  have hsid : (trimmedAndFilled env svc).ID = TrimSpace svc.ID :=
    (fillServiceAddr_ConfigFiles env _).2.1
  have hclock : stT.clock = st.clock := by rw [hframe]
  have hconf : stT.configFiles = st.configFiles := by rw [hframe]
  obtain ⟨revs, hrevs, hw⟩ := writeRevisions_writes env tenantID servicePath hnew
    (entriesOf svc.ConfigFiles) (entriesOf oldSvc.ConfigFiles) stT hnodup
  obtain ⟨tombs, htombs, hwt⟩ := writeTombstones_writes env tenantID servicePath hnew
    ((entriesOf oldSvc.ConfigFiles).filter
      fun kv => kv.1 ∉ (entriesOf svc.ConfigFiles).map fun e => e.1)
    { stT with configFiles := putRevisions stT.configFiles revs,
               clock := stT.clock + revs.length }
  rw [hclock] at hrevs
  simp only [hclock, hconf] at htombs hw hwt
  let rest : GoMap ConfigFile := (entriesOf oldSvc.ConfigFiles).filter
    fun kv => kv.1 ∉ (entriesOf svc.ConfigFiles).map fun e => e.1
  refine ⟨revs, tombs, { oldSvc with ConfigFiles := oldSvc.ConfigFiles.map (fun _ => rest) },
    hrevs, htombs, rfl, ?_⟩
  unfold updateService
  simp only [if_neg hid]
  have hget : st.services.Get (fillServiceAddr env { svc with ID := TrimSpace svc.ID }).1.ID
      = .ok oldSvc := by
    have := hsid
    unfold trimmedAndFilled at this
    rw [this]
    exact hold
  have hdiff2 : configFilesDeepEqual oldSvc.ConfigFiles
      (fillServiceAddr env { svc with ID := TrimSpace svc.ID }).1.ConfigFiles = false := by
    have := hcf
    unfold trimmedAndFilled at this
    rw [this]
    exact hdiff
  have hcf2 : (fillServiceAddr env { svc with ID := TrimSpace svc.ID }).1.ConfigFiles
      = svc.ConfigFiles := hcf
  unfold trimmedAndFilled at hvalid htp
  simp only [hget, hdiff2, hdiff, hvalid, htp, hcf2, hw, hwt, Bool.false_eq_true, if_false,
    putRevisions_append, hclock, hconf]
  rfl


theorem updateService_equal_path (env : Collaborators) (fuel : Nat) (st : FacadeState)
    (svc oldSvc : Service)
    (hid : TrimSpace svc.ID ≠ "")
    (hold : st.services.Get (TrimSpace svc.ID) = .ok oldSvc)
    (hsame : configFilesDeepEqual oldSvc.ConfigFiles svc.ConfigFiles = true) :
    updateService env fuel st svc
      = some (putAndPublish env st oldSvc (trimmedAndFilled env svc)) := by
  have hcf : (fillServiceAddr env { svc with ID := TrimSpace svc.ID }).1.ConfigFiles
      = svc.ConfigFiles := (fillServiceAddr_ConfigFiles env _).1
  have hsid : (fillServiceAddr env { svc with ID := TrimSpace svc.ID }).1.ID
      = TrimSpace svc.ID := (fillServiceAddr_ConfigFiles env _).2.1
  unfold updateService
  simp only [if_neg hid, hsid, hold, hcf, hsame, if_true]
  rfl

/-- C17.  Let `updateService` be called with a service whose trimmed id is not
empty and is the id of the stored service `oldSvc`; `old` are the stored
`ConfigFiles` and `new` the incoming ones.  When `old` and `new` are deeply
equal, the revision store is left as it was.  Otherwise, when the service is
valid, its tenant and path are found and `serviceconfigfile.New` does not fail,
the revision store afterwards is the one before with the revisions `revs` and then
`tombs` put into it, where `revs` has exactly one revision for every entry of
`new` whose key is absent from `old` or whose file differs from the one in
`old` (in the order of `new`, made from the file stamped with the clock), and
`tombs` has exactly one revision for every entry of `old` whose key is absent
from `new`, made from the file with `Content` empty and `Deleted` true. -/
theorem updateService_writes_config_diff (env : Collaborators) (fuel : Nat)
    (st : FacadeState) (svc oldSvc : Service)
    (hid : TrimSpace svc.ID ≠ "")
    (hold : st.services.Get (TrimSpace svc.ID) = .ok oldSvc)
    (hnodup : ((entriesOf svc.ConfigFiles).map fun e => e.1).Nodup) :
    (configFilesDeepEqual oldSvc.ConfigFiles svc.ConfigFiles = true →
      ∃ (err : Option String) (st1 : FacadeState),
        updateService env fuel st svc = some (err, st1) ∧ st1.configFiles = st.configFiles) ∧
    (∀ (tenantID servicePath : String) (stT : FacadeState),
      configFilesDeepEqual oldSvc.ConfigFiles svc.ConfigFiles = false →
      env.validEntity (trimmedAndFilled env svc) = none →
      getTenantIDAndPath env fuel st (trimmedAndFilled env svc)
        = some ((tenantID, servicePath, none), stT) →
      (∀ conf : ConfigFile, ∃ rev, env.newSvcConfigFile tenantID servicePath conf = .ok rev) →
      ∃ (err : Option String) (st1 : FacadeState) (revs tombs : List SvcConfigFile),
        updateService env fuel st svc = some (err, st1) ∧
        st1.configFiles = putRevisions st.configFiles (revs ++ tombs) ∧
        List.Forall₂ (fun conf rev => env.newSvcConfigFile tenantID servicePath conf = .ok rev)
          (stamped st.clock ((changedFiles (entriesOf oldSvc.ConfigFiles)
            (entriesOf svc.ConfigFiles)).map fun kv => kv.2)) revs ∧
        List.Forall₂ (fun conf rev => env.newSvcConfigFile tenantID servicePath conf = .ok rev)
          (stamped (st.clock + revs.length) ((removedFiles (entriesOf oldSvc.ConfigFiles)
            (entriesOf svc.ConfigFiles)).map fun kv => tombstone kv.2)) tombs ∧
        ∀ conf ∈ stamped (st.clock + revs.length) ((removedFiles (entriesOf oldSvc.ConfigFiles)
            (entriesOf svc.ConfigFiles)).map fun kv => tombstone kv.2),
          conf.Deleted = true ∧ conf.Content = "") := by
  constructor
  · intro hsame
    refine ⟨(putAndPublish env st oldSvc (trimmedAndFilled env svc)).1,
      (putAndPublish env st oldSvc (trimmedAndFilled env svc)).2, ?_, ?_⟩
    · rw [updateService_equal_path env fuel st svc oldSvc hid hold hsame]
    · exact (putAndPublish_configFiles env st oldSvc _).1
  · intro tenantID servicePath stT hdiff hvalid htp hnew
    obtain ⟨revs, tombs, oldRest, hrevs, htombs, _, hrun⟩ :=
      updateService_config_path env fuel st stT svc oldSvc tenantID servicePath hid hold hnodup
        hdiff hvalid htp hnew
    refine ⟨(putAndPublish env _ oldRest (trimmedAndFilled env svc)).1,
      (putAndPublish env _ oldRest (trimmedAndFilled env svc)).2, revs, tombs, hrun, ?_,
      hrevs, htombs, ?_⟩
    · exact (putAndPublish_configFiles env _ oldRest _).1
    · have := stamped_tombstones (st.clock + revs.length)
        ((removedFiles (entriesOf oldSvc.ConfigFiles) (entriesOf svc.ConfigFiles)).map
          fun kv => kv.2)
      simpa only [List.map_map] using this

/-- Witness for C17: the stored sample service has the files `a.conf` and
`b.conf`, the submitted one has `a.conf` unchanged and `c.conf`; one revision is
written for `c.conf` and one tombstone for `b.conf`. -/
theorem updateService_writes_config_diff_witness :
    changedFiles (entriesOf sampleConfigured.ConfigFiles)
        (entriesOf sampleReconfigured.ConfigFiles)
      = [("c.conf", { Filename := "c.conf", Content := "gamma" })] ∧
    removedFiles (entriesOf sampleConfigured.ConfigFiles)
        (entriesOf sampleReconfigured.ConfigFiles)
      = [("b.conf", { Filename := "b.conf", Content := "beta" })] ∧
    ∃ (err : Option String) (st1 : FacadeState) (revs tombs : List SvcConfigFile),
      updateService sampleEnv 1 { services := [sampleConfigured], clock := 7 } sampleReconfigured
        = some (err, st1) ∧
      st1.configFiles = putRevisions [] (revs ++ tombs) ∧
      List.Forall₂ (fun conf rev => sampleEnv.newSvcConfigFile "app" "/app" conf = .ok rev)
        [{ Filename := "c.conf", Content := "gamma", Updated := 7 }] revs ∧
      List.Forall₂ (fun conf rev => sampleEnv.newSvcConfigFile "app" "/app" conf = .ok rev)
        (stamped (7 + revs.length)
          [{ Filename := "b.conf", Content := "", Deleted := true }]) tombs := by
  refine ⟨by decide, by decide, ?_⟩
  obtain ⟨err, st1, revs, tombs, hrun, hconf, hrevs, htombs, _⟩ :=
    (updateService_writes_config_diff sampleEnv 1 { services := [sampleConfigured], clock := 7 }
      sampleReconfigured sampleConfigured (by decide) rfl (by decide)).2
      "app" "/app" { services := [sampleConfigured], clock := 7, tenantIDs := [("app", "app")] }
      (by decide) (by decide) (by decide) (fun conf => ⟨_, rfl⟩)
  exact ⟨err, st1, revs, tombs, hrun, hconf, hrevs, htombs⟩

end Facade

/-! ## facade/service.go: config queries -/

namespace GoMap

theorem set_of_get_none {α : Type} (k : String) (v : α) :
    ∀ m : GoMap α, m.get k = none → m.set k v = m ++ [(k, v)] := by
  intro m
  induction m with
  | nil => intro _; rfl
  | cons kv rest ih =>
    obtain ⟨k2, v2⟩ := kv
    intro h
    by_cases hk : k2 = k
    · simp [get, hk] at h
    · simp only [get, if_neg hk] at h
      simp only [set, if_neg hk, List.cons_append, ih h]

theorem keys_set_of_get_some {α : Type} (k : String) (v : α) :
    ∀ (m : GoMap α) (v0 : α), m.get k = some v0 →
      (m.set k v).map (fun e => e.1) = m.map fun e => e.1 := by
  intro m
  induction m with
  | nil => intro v0 h; simp [get] at h
  | cons kv rest ih =>
    obtain ⟨k2, v2⟩ := kv
    intro v0 h
    by_cases hk : k2 = k
    · subst hk
      simp [set]
    · simp only [get, if_neg hk] at h
      simp only [set, if_neg hk, List.map_cons, ih v0 h]

theorem mem_set {α : Type} (k : String) (v : α) :
    ∀ (m : GoMap α) (e : String × α), (m.map fun e => e.1).Nodup → e ∈ m.set k v →
      e = (k, v) ∨ (e.1 ≠ k ∧ e ∈ m) := by
  intro m
  induction m with
  | nil =>
    intro e _ h
    simp only [set, List.mem_singleton] at h
    exact Or.inl h
  | cons kv rest ih =>
    obtain ⟨k2, v2⟩ := kv
    intro e hnd h
    simp only [List.map_cons, List.nodup_cons] at hnd
    by_cases hk : k2 = k
    · simp only [set, if_pos hk, List.mem_cons] at h
      rcases h with h | h
      · exact Or.inl h
      · right
        refine ⟨?_, List.mem_cons_of_mem _ h⟩
        intro he
        apply hnd.1
        rw [hk, ← he]
        exact List.mem_map_of_mem (fun e => e.1) h
    · simp only [set, if_neg hk, List.mem_cons] at h
      rcases h with h | h
      · right
        rw [h]
        exact ⟨hk, List.mem_cons_self _ _⟩
      · rcases ih e hnd.2 h with h2 | ⟨h2, h3⟩
        · exact Or.inl h2
        · exact Or.inr ⟨h2, List.mem_cons_of_mem _ h3⟩

theorem mem_set_self {α : Type} (k : String) (v : α) :
    ∀ m : GoMap α, (k, v) ∈ m.set k v := by
  intro m
  induction m with
  | nil => simp [set]
  | cons kv rest ih =>
    obtain ⟨k2, v2⟩ := kv
    by_cases hk : k2 = k
    · simp only [set, if_pos hk]; exact List.mem_cons_self _ _
    · simp only [set, if_neg hk]; exact List.mem_cons_of_mem _ ih

theorem get_isSome_of_mem_keys {α : Type} (k : String) :
    ∀ m : GoMap α, (k ∈ m.map fun e => e.1) → ∃ v, m.get k = some v := by
  intro m hk
  cases hg : m.get k with
  | some v => exact ⟨v, rfl⟩
  | none => exact absurd hk ((get_eq_none_iff k m).mp hg)

theorem map_set_of_get {α : Type} (f : α → α) (k : String) (v : α) :
    ∀ (m : GoMap α) (v0 : α), m.get k = some v0 → f v0 = f v →
      (m.set k v).map (fun kv => (kv.1, f kv.2)) = m.map fun kv => (kv.1, f kv.2) := by
  intro m
  induction m with
  | nil => intro v0 h; simp [get] at h
  | cons kv rest ih =>
    obtain ⟨k2, v2⟩ := kv
    intro v0 h hf
    by_cases hk : k2 = k
    · simp only [get, if_pos hk, Option.some.injEq] at h
      subst hk
      subst h
      simp [set, hf]
    · simp only [get, if_neg hk] at h
      simp only [set, if_neg hk, List.map_cons, ih v0 h hf]

end GoMap

namespace Facade

theorem foundConfs_newest :
    ∀ (rest done : List SvcConfigFile) (found : GoMap ConfigFile), FoundNewest done found →
      FoundNewest (done ++ rest) (foundConfs rest found) := by
  intro rest
  induction rest with
  | nil => intro done found h; simpa [foundConfs] using h
  | cons rev rest ih =>
    intro done found hinv
    obtain ⟨hnd, hent, hkeys⟩ := hinv
    have hstep : FoundNewest (done ++ [rev])
        (match found.get rev.ConfFile.Filename with
          | none => found.set rev.ConfFile.Filename rev.ConfFile
          | some confFile =>
            if confFile.Updated < rev.ConfFile.Updated then
              found.set rev.ConfFile.Filename rev.ConfFile
            else found) := by
      cases hg : found.get rev.ConfFile.Filename with
      | none =>
        have hnot := (GoMap.get_eq_none_iff _ _).mp hg
        simp only
        rw [GoMap.set_of_get_none _ _ _ hg]
        refine ⟨?_, ?_, ?_⟩
        · rw [List.map_append, List.nodup_append]
          refine ⟨hnd, by simp, ?_⟩
          intro a ha hb
          simp only [List.map_cons, List.map_nil, List.mem_singleton] at hb
          exact hnot (hb ▸ ha)
        · intro kv hkv
          rcases List.mem_append.mp hkv with hkv | hkv
          · obtain ⟨h1, ⟨r, hr, hrc⟩, h3⟩ := hent kv hkv
            refine ⟨h1, ⟨r, List.mem_append_left _ hr, hrc⟩, ?_⟩
            intro r2 hr2 hname
            rcases List.mem_append.mp hr2 with hr2 | hr2
            · exact h3 r2 hr2 hname
            · simp only [List.mem_singleton] at hr2
              have hmem : kv.1 ∈ found.map fun e => e.1 :=
                List.mem_map_of_mem (fun e => e.1) hkv
              rw [hr2] at hname
              rw [← hname] at hmem
              exact absurd hmem hnot
          · simp only [List.mem_singleton] at hkv
            subst hkv
            refine ⟨rfl, ⟨rev, by simp, rfl⟩, ?_⟩
            intro r2 hr2 hname
            have hname2 : r2.ConfFile.Filename = rev.ConfFile.Filename := hname
            rcases List.mem_append.mp hr2 with hr2 | hr2
            · have hmem := hkeys r2 hr2
              rw [hname2] at hmem
              exact absurd hmem hnot
            · simp only [List.mem_singleton] at hr2
              rw [hr2]
        · intro r hr
          rw [List.map_append]
          rcases List.mem_append.mp hr with hr | hr
          · exact List.mem_append_left _ (hkeys r hr)
          · simp only [List.mem_singleton] at hr
            subst hr
            exact List.mem_append_right _ (by simp)
      | some confFile =>
        have hmemOld : (rev.ConfFile.Filename, confFile) ∈ found := GoMap.mem_of_get _ _ _ hg
        simp only
        by_cases hlt : confFile.Updated < rev.ConfFile.Updated
        · rw [if_pos hlt]
          refine ⟨?_, ?_, ?_⟩
          · rw [GoMap.keys_set_of_get_some _ _ _ _ hg]
            exact hnd
          · intro kv hkv
            rcases GoMap.mem_set _ _ _ kv hnd hkv with h | ⟨hne, hin⟩
            · subst h
              refine ⟨rfl, ⟨rev, by simp, rfl⟩, ?_⟩
              intro r2 hr2 hname
              rcases List.mem_append.mp hr2 with hr2 | hr2
              · exact Nat.le_of_lt (Nat.lt_of_le_of_lt ((hent _ hmemOld).2.2 r2 hr2 hname) hlt)
              · simp only [List.mem_singleton] at hr2
                subst hr2
                exact Nat.le_refl _
            · obtain ⟨h1, ⟨r, hr, hrc⟩, h3⟩ := hent kv hin
              refine ⟨h1, ⟨r, List.mem_append_left _ hr, hrc⟩, ?_⟩
              intro r2 hr2 hname
              rcases List.mem_append.mp hr2 with hr2 | hr2
              · exact h3 r2 hr2 hname
              · simp only [List.mem_singleton] at hr2
                subst hr2
                exact absurd hname.symm hne
          · intro r hr
            rw [GoMap.keys_set_of_get_some _ _ _ _ hg]
            rcases List.mem_append.mp hr with hr | hr
            · exact hkeys r hr
            · simp only [List.mem_singleton] at hr
              subst hr
              exact List.mem_map_of_mem (fun e => e.1) hmemOld
        · rw [if_neg hlt]
          refine ⟨hnd, ?_, ?_⟩
          · intro kv hkv
            obtain ⟨h1, ⟨r, hr, hrc⟩, h3⟩ := hent kv hkv
            refine ⟨h1, ⟨r, List.mem_append_left _ hr, hrc⟩, ?_⟩
            intro r2 hr2 hname
            rcases List.mem_append.mp hr2 with hr2 | hr2
            · exact h3 r2 hr2 hname
            · simp only [List.mem_singleton] at hr2
              subst hr2
              have hget := GoMap.get_of_mem_nodup found kv.1 kv.2 hnd hkv
              rw [← hname, hg] at hget
              simp only [Option.some.injEq] at hget
              rw [← hget]
              exact Nat.le_of_not_lt hlt
          · intro r hr
            rcases List.mem_append.mp hr with hr | hr
            · exact hkeys r hr
            · simp only [List.mem_singleton] at hr
              subst hr
              exact List.mem_map_of_mem (fun e => e.1) hmemOld
    have hgoal := ih (done ++ [rev]) _ hstep
    rw [List.append_assoc] at hgoal
    rw [foundConfs]
    cases hg : found.get rev.ConfFile.Filename with
    | none => simpa [hg] using hgoal
    | some confFile =>
      simp only [hg] at hgoal
      by_cases hlt : confFile.Updated < rev.ConfFile.Updated
      · simpa [hlt] using hgoal
      · simpa [hlt] using hgoal

theorem foundConfs_newest_all (revs : List SvcConfigFile) :
    FoundNewest revs (foundConfs revs []) := by
  have := foundConfs_newest revs [] [] ⟨by simp, by simp, by simp⟩
  simpa using this


theorem replaceConfs_get :
    ∀ (entries : List (String × ConfigFile)) (m : GoMap ConfigFile),
      (entries.map fun e => e.1).Nodup →
      ∃ m2 : GoMap ConfigFile, replaceConfs entries (some m) = .ok (some m2) ∧
        ∀ n : String, m2.get n =
          match GoMap.get entries n with
          | some conf => if conf.Deleted then m.get n else some conf
          | none => m.get n := by
  intro entries
  induction entries with
  | nil =>
    intro m _
    exact ⟨m, rfl, fun n => by simp [GoMap.get]⟩
  | cons kv rest ih =>
    intro m hnd
    obtain ⟨name, conf⟩ := kv
    simp only [List.map_cons, List.nodup_cons] at hnd
    have hrestNone : GoMap.get rest name = none := (GoMap.get_eq_none_iff name rest).mpr hnd.1
    by_cases hdel : conf.Deleted = true
    · obtain ⟨m2, hrun, hget⟩ := ih m hnd.2
      refine ⟨m2, by simp only [replaceConfs, hdel, if_true]; exact hrun, ?_⟩
      intro n
      rw [hget n]
      by_cases hn : name = n
      · subst hn
        simp [GoMap.get, hrestNone, hdel]
      · simp [GoMap.get, hn]
    · obtain ⟨m2, hrun, hget⟩ := ih (m.set name conf) hnd.2
      refine ⟨m2, by simp only [replaceConfs, hdel, if_false]; exact hrun, ?_⟩
      intro n
      rw [hget n]
      by_cases hn : name = n
      · subst hn
        simp [GoMap.get, hrestNone, hdel, GoMap.get_set_self]
      · simp only [GoMap.get, if_neg hn, GoMap.get_set_ne m name n conf hn]

theorem replaceConfs_modulo (g : ConfigFile → ConfigFile) :
    ∀ (entries : List (String × ConfigFile)) (configFiles : Option (GoMap ConfigFile)),
      (∀ kv ∈ entries, kv.2.Deleted = false →
        ∃ f : ConfigFile, GoMap.get (entriesOf configFiles) kv.1 = some f ∧ g f = g kv.2) →
      ∃ configFiles2 : Option (GoMap ConfigFile),
        replaceConfs entries configFiles = .ok configFiles2 ∧
        mapFiles g configFiles2 = mapFiles g configFiles := by
  intro entries
  induction entries with
  | nil => intro configFiles _; exact ⟨configFiles, rfl, rfl⟩
  | cons kv rest ih =>
    intro configFiles h
    obtain ⟨name, conf⟩ := kv
    by_cases hdel : conf.Deleted = true
    · obtain ⟨c2, hrun, hmap⟩ := ih configFiles
        (fun kv hkv hlive => h kv (List.mem_cons_of_mem _ hkv) hlive)
      exact ⟨c2, by simp only [replaceConfs, hdel, if_true]; exact hrun, hmap⟩
    · have hlive : conf.Deleted = false := by
        cases hc : conf.Deleted with
        | true => exact absurd hc hdel
        | false => rfl
      obtain ⟨f, hf, hgf⟩ := h (name, conf) (List.mem_cons_self _ _) hlive
      cases configFiles with
      | none => simp [entriesOf, GoMap.get] at hf
      | some m =>
        simp only [entriesOf] at hf
        obtain ⟨c2, hrun, hmap⟩ := ih (some (m.set name conf)) (by
          intro kv hkv hl
          obtain ⟨f2, hf2, hgf2⟩ := h kv (List.mem_cons_of_mem _ hkv) hl
          simp only [entriesOf] at hf2 ⊢
          by_cases hn : name = kv.1
          · rw [← hn] at hf2 ⊢
            rw [hf] at hf2
            simp only [Option.some.injEq] at hf2
            refine ⟨conf, GoMap.get_set_self m name conf, ?_⟩
            rw [← hgf, hf2, hgf2]
          · exact ⟨f2, by rw [GoMap.get_set_ne m name kv.1 conf hn]; exact hf2, hgf2⟩)
        refine ⟨c2, by simp only [replaceConfs, hdel, if_false]; exact hrun, ?_⟩
        rw [hmap]
        simp only [mapFiles, Option.map_some', Option.some.injEq]
        exact GoMap.map_set_of_get g name conf m f hf hgf

theorem fillServiceConfigs_found (env : Collaborators) (fuel : Nat) (st st1 : FacadeState)
    (svc : Service) (tenantID servicePath : String)
    (hlookup : getTenantIDAndPath env fuel st svc = some ((tenantID, servicePath, none), st1))
    (hread : env.getConfigFilesError tenantID servicePath = none) :
    fillServiceConfigs env fuel st svc =
      match replaceConfs (foundConfs (GetConfigFiles st.configFiles tenantID servicePath) [])
          svc.ConfigFiles with
      | .error msg => some (.error msg, st1)
      | .ok configFiles => some (.ok ({ svc with ConfigFiles := configFiles }, none), st1) := by
  have hframe := getTenantIDAndPath_frame env fuel st _ _ _ hlookup
  have hconf : st1.configFiles = st.configFiles := by rw [hframe]
  unfold fillServiceConfigs
  simp only [hlookup, hread, hconf]

theorem ServiceStore.Get_Put (svc : Service) :
    ∀ store : ServiceStore, (store.Put svc).Get svc.ID = .ok svc := by
  intro store
  induction store with
  | nil => simp [ServiceStore.Put, ServiceStore.Get]
  | cons old rest ih =>
    by_cases h : old.ID = svc.ID
    · simp [ServiceStore.Put, ServiceStore.Get, h]
    · simp only [ServiceStore.Put, if_neg h]
      unfold ServiceStore.Get at ih ⊢
      simp only [List.find?, h, decide_False]
      exact ih

theorem fillServiceAddr_idempotent (env : Collaborators) (svc : Service)
    (addrs : GoMap AddressAssignment) (haddr : env.getAddressAssignments svc.ID = .ok addrs) :
    fillServiceAddr env (fillServiceAddr env svc).1 = ((fillServiceAddr env svc).1, none) := by
  unfold fillServiceAddr
  simp only [haddr, List.map_map]
  congr 2
  apply List.map_congr_left
  intro ep _
  simp only [Function.comp]
  cases h : addrs.get ep.Name with
  | none => simp [h]
  | some a => simp [h]

theorem putAndPublish_ok (env : Collaborators) (st st1 : FacadeState) (oldSvc svc : Service)
    (h : putAndPublish env st oldSvc svc = (none, st1)) :
    st1.services = st.services.Put svc ∧ st1.configFiles = st.configFiles := by
  unfold putAndPublish at h
  cases hp : env.putError svc with
  | some e => simp [hp] at h
  | none =>
    simp only [hp] at h
    by_cases hpool : oldSvc.PoolID ≠ svc.PoolID
    · simp only [if_pos hpool] at h
      cases hz : env.zkRemoveService oldSvc with
      | some e => simp [hz] at h
      | none =>
        simp only [hz, Prod.mk.injEq] at h
        rw [← h.2]
        exact ⟨rfl, rfl⟩
    · simp only [if_neg hpool, Prod.mk.injEq] at h
      rw [← h.2]
      exact ⟨rfl, rfl⟩

theorem configFilesDeepEqual_get (a b : Option (GoMap ConfigFile)) (n : String)
    (f : ConfigFile) (h : configFilesDeepEqual a b = true)
    (hget : GoMap.get (entriesOf a) n = some f) : GoMap.get (entriesOf b) n = some f := by
  cases a with
  | none => simp [entriesOf, GoMap.get] at hget
  | some ma =>
    cases b with
    | none => simp [configFilesDeepEqual] at h
    | some mb =>
      simp only [configFilesDeepEqual, Bool.and_eq_true, List.all_eq_true] at h
      have := h.2 (n, f) (GoMap.mem_of_get n f ma hget)
      simpa [entriesOf] using this

theorem putRevisions_fresh :
    ∀ (writes : List SvcConfigFile) (store : GoMap SvcConfigFile),
      (writes.map fun r => r.ID).Nodup → (∀ r ∈ writes, store.get r.ID = none) →
      putRevisions store writes = store ++ writes.map fun r => (r.ID, r) := by
  intro writes
  induction writes with
  | nil => intro store _ _; simp [putRevisions]
  | cons r rest ih =>
    intro store hnd hfresh
    simp only [List.map_cons, List.nodup_cons] at hnd
    have hr : store.get r.ID = none := hfresh r (List.mem_cons_self _ _)
    have hstep : putRevisions store (r :: rest) = putRevisions (store.set r.ID r) rest := rfl
    rw [hstep, GoMap.set_of_get_none _ _ _ hr, ih _ hnd.2]
    · simp
    · intro r2 hr2
      rw [GoMap.get_eq_none_iff]
      rw [List.map_append, List.mem_append, not_or]
      refine ⟨(GoMap.get_eq_none_iff _ _).mp (hfresh r2 (List.mem_cons_of_mem _ hr2)), ?_⟩
      simp only [List.map_cons, List.map_nil, List.mem_singleton]
      intro he
      exact hnd.1 (he ▸ List.mem_map_of_mem (fun r => r.ID) hr2)

theorem GetConfigFiles_append (store extra : GoMap SvcConfigFile) (tenantID servicePath : String) :
    GetConfigFiles (store ++ extra) tenantID servicePath
      = GetConfigFiles store tenantID servicePath ++ GetConfigFiles extra tenantID servicePath := by
  simp only [GetConfigFiles, List.map_append, List.filter_append]

theorem GetConfigFiles_written (tenantID servicePath : String) :
    ∀ writes : List SvcConfigFile,
      (∀ r ∈ writes, r.ServiceTenantID = tenantID ∧ r.ServicePath = servicePath) →
      GetConfigFiles (writes.map fun r => (r.ID, r)) tenantID servicePath = writes := by
  intro writes
  induction writes with
  | nil => intro _; rfl
  | cons r rest ih =>
    intro h
    have hr := h r (List.mem_cons_self _ _)
    have hrest := ih (fun r2 hr2 => h r2 (List.mem_cons_of_mem _ hr2))
    unfold GetConfigFiles at hrest ⊢
    simp only [List.map_cons]
    rw [List.filter_cons_of_pos (by simp [hr.1, hr.2]), hrest]

theorem stamped_mem (now : Nat) (files : List ConfigFile) :
    ∀ conf ∈ stamped now files,
      ∃ f ∈ files, now ≤ conf.Updated ∧ conf = { f with Updated := conf.Updated } := by
  induction files generalizing now with
  | nil => intro conf h; cases h
  | cons f rest ih =>
    intro conf h
    simp only [stamped, List.mem_cons] at h
    rcases h with rfl | h
    · exact ⟨f, List.mem_cons_self _ _, Nat.le_refl _, rfl⟩
    · obtain ⟨f2, hf2, hle, heq⟩ := ih (now + 1) conf h
      exact ⟨f2, List.mem_cons_of_mem _ hf2, by omega, heq⟩

theorem stamped_filenames (now : Nat) (files : List ConfigFile) :
    (stamped now files).map (fun c => c.Filename) = files.map fun c => c.Filename := by
  induction files generalizing now with
  | nil => rfl
  | cons f rest ih => simp only [stamped, List.map_cons, ih (now + 1)]

theorem forall₂_append_of {α β : Type} (R : α → β → Prop) :
    ∀ (a1 : List α) (b1 : List β) (a2 : List α) (b2 : List β),
      List.Forall₂ R a1 b1 → List.Forall₂ R a2 b2 → List.Forall₂ R (a1 ++ a2) (b1 ++ b2) := by
  intro a1 b1 a2 b2 h1 h2
  induction h1 with
  | nil => simpa using h2
  | cons hab _ ih => exact List.Forall₂.cons hab ih

theorem forall₂_mem_right {α β : Type} (R : α → β → Prop) :
    ∀ (as : List α) (bs : List β), List.Forall₂ R as bs → ∀ b ∈ bs, ∃ a ∈ as, R a b := by
  intro as bs h
  induction h with
  | nil => intro b hb; cases hb
  | cons hab _ ih =>
    intro b hb
    rcases List.mem_cons.mp hb with rfl | hb
    · exact ⟨_, List.mem_cons_self _ _, hab⟩
    · obtain ⟨a, ha, hr⟩ := ih b hb
      exact ⟨a, List.mem_cons_of_mem _ ha, hr⟩

theorem written_ids_nodup (env : Collaborators) (tenantID servicePath : String)
    (hdistinct : ∀ (conf conf2 : ConfigFile) (rev rev2 : SvcConfigFile),
      env.newSvcConfigFile tenantID servicePath conf = .ok rev →
      env.newSvcConfigFile tenantID servicePath conf2 = .ok rev2 →
      rev.ID = rev2.ID → conf.Filename = conf2.Filename) :
    ∀ (files : List ConfigFile) (writes : List SvcConfigFile),
      List.Forall₂ (fun conf rev => env.newSvcConfigFile tenantID servicePath conf = .ok rev)
        files writes →
      (files.map fun c => c.Filename).Nodup → (writes.map fun r => r.ID).Nodup := by
  intro files writes h
  induction h with
  | nil => intro _; simp
  | cons hab htail ih =>
    rename_i c r cs rs
    intro hnd
    simp only [List.map_cons, List.nodup_cons] at hnd ⊢
    refine ⟨?_, ih hnd.2⟩
    intro hmem
    obtain ⟨r2, hr2, hid⟩ := List.mem_map.mp hmem
    obtain ⟨c2, hc2, hnew2⟩ := forall₂_mem_right _ _ _ htail r2 hr2
    have := hdistinct c c2 r r2 hab hnew2 hid.symm
    exact hnd.1 (this ▸ List.mem_map_of_mem (fun c => c.Filename) hc2)


theorem written_faithful (env : Collaborators) (tenantID servicePath : String)
    (hfaith : FaithfulRevisions env tenantID servicePath) :
    ∀ (files : List ConfigFile) (writes : List SvcConfigFile),
      List.Forall₂ (fun conf rev => env.newSvcConfigFile tenantID servicePath conf = .ok rev)
        files writes →
      writes.map (fun r => r.ConfFile) = files ∧
      ∀ r ∈ writes, r.ServiceTenantID = tenantID ∧ r.ServicePath = servicePath := by
  intro files writes h
  induction h with
  | nil => exact ⟨rfl, fun r hr => by cases hr⟩
  | cons hab htail ih =>
    rename_i c r cs rs
    obtain ⟨r2, hr2, ht, hp, hc⟩ := hfaith c
    rw [hab] at hr2
    simp only [Except.ok.injEq] at hr2
    subst hr2
    refine ⟨by simp only [List.map_cons, hc, ih.1], ?_⟩
    intro x hx
    rcases List.mem_cons.mp hx with rfl | hx
    · exact ⟨ht, hp⟩
    · exact ih.2 x hx

theorem changedFiles_mem (old new : GoMap ConfigFile) (kv : String × ConfigFile) :
    kv ∈ changedFiles old new ↔ kv ∈ new ∧ old.get kv.1 ≠ some kv.2 := by
  simp [changedFiles]

theorem removedFiles_mem (old new : GoMap ConfigFile) (kv : String × ConfigFile) :
    kv ∈ removedFiles old new ↔ kv ∈ old ∧ kv.1 ∉ new.map fun e => e.1 := by
  simp [removedFiles]

theorem written_filenames_nodup (cfOld cfNew : Option (GoMap ConfigFile))
    (hkeysNew : KeyedByFilename cfNew) (hkeysOld : KeyedByFilename cfOld) (now now2 : Nat) :
    ((stamped now ((changedFiles (entriesOf cfOld) (entriesOf cfNew)).map fun kv => kv.2)
        ++ stamped now2 ((removedFiles (entriesOf cfOld) (entriesOf cfNew)).map
            fun kv => tombstone kv.2)).map fun c => c.Filename).Nodup := by
  have hchanged : ((changedFiles (entriesOf cfOld) (entriesOf cfNew)).map fun kv => kv.2).map
      (fun c => c.Filename)
      = (changedFiles (entriesOf cfOld) (entriesOf cfNew)).map fun kv => kv.1 := by
    rw [List.map_map]
    apply List.map_congr_left
    intro kv hkv
    exact hkeysNew.2 kv ((changedFiles_mem _ _ kv).mp hkv).1
  have hremoved : ((removedFiles (entriesOf cfOld) (entriesOf cfNew)).map
      fun kv => tombstone kv.2).map (fun c => c.Filename)
      = (removedFiles (entriesOf cfOld) (entriesOf cfNew)).map fun kv => kv.1 := by
    rw [List.map_map]
    apply List.map_congr_left
    intro kv hkv
    exact hkeysOld.2 kv ((removedFiles_mem _ _ kv).mp hkv).1
  rw [List.map_append, stamped_filenames, stamped_filenames, hchanged, hremoved,
    List.nodup_append]
  refine ⟨?_, ?_, ?_⟩
  · exact List.Nodup.sublist (List.Sublist.map _ (List.filter_sublist _)) hkeysNew.1
  · exact List.Nodup.sublist (List.Sublist.map _ (List.filter_sublist _)) hkeysOld.1
  · intro k hk1 hk2
    obtain ⟨kv1, hkv1, rfl⟩ := List.mem_map.mp hk1
    obtain ⟨kv2, hkv2, he⟩ := List.mem_map.mp hk2
    have h1 := ((changedFiles_mem _ _ kv1).mp hkv1).1
    have h2 := ((removedFiles_mem _ _ kv2).mp hkv2).2
    rw [he] at h2
    exact h2 (List.mem_map_of_mem (fun e => e.1) h1)

/-- The files `foundConfs` holds after an update and that are not deleted are,
up to `Updated`, the files of the incoming map. -/
theorem found_after_update (cfOld cfNew : Option (GoMap ConfigFile))
    (olds writes : List SvcConfigFile) (now now2 : Nat)
    (hkeysNew : KeyedByFilename cfNew) (hkeysOld : KeyedByFilename cfOld)
    (holder : ∀ rev ∈ olds, rev.ConfFile.Updated < now)
    (hagree : RevisionsAgree olds cfOld)
    (hnow : now ≤ now2)
    (hwrites : writes.map (fun r => r.ConfFile)
      = stamped now ((changedFiles (entriesOf cfOld) (entriesOf cfNew)).map fun kv => kv.2)
        ++ stamped now2 ((removedFiles (entriesOf cfOld) (entriesOf cfNew)).map
            fun kv => tombstone kv.2)) :
    ∀ kv ∈ foundConfs (olds ++ writes) [], kv.2.Deleted = false →
      ∃ f : ConfigFile, GoMap.get (entriesOf cfNew) kv.1 = some f ∧
        withoutUpdated f = withoutUpdated kv.2 := by
  -- what the written files are
  have hwfile : ∀ w ∈ writes,
      w.ConfFile ∈ stamped now ((changedFiles (entriesOf cfOld) (entriesOf cfNew)).map
          fun kv => kv.2) ∨
      w.ConfFile ∈ stamped now2 ((removedFiles (entriesOf cfOld) (entriesOf cfNew)).map
          fun kv => tombstone kv.2) := by
    intro w hw
    have : w.ConfFile ∈ writes.map (fun r => r.ConfFile) :=
      List.mem_map_of_mem (fun r => r.ConfFile) hw
    rw [hwrites] at this
    exact List.mem_append.mp this
  have hwclock : ∀ w ∈ writes, now ≤ w.ConfFile.Updated := by
    intro w hw
    rcases hwfile w hw with h | h
    · obtain ⟨_, _, hle, _⟩ := stamped_mem _ _ _ h
      exact hle
    · obtain ⟨_, _, hle, _⟩ := stamped_mem _ _ _ h
      omega
  -- every changed and every removed file has a written revision of its filename
  have hexists : ∀ c ∈ stamped now ((changedFiles (entriesOf cfOld) (entriesOf cfNew)).map
          fun kv => kv.2)
        ++ stamped now2 ((removedFiles (entriesOf cfOld) (entriesOf cfNew)).map
          fun kv => tombstone kv.2),
      ∃ w ∈ writes, w.ConfFile = c := by
    intro c hc
    rw [← hwrites] at hc
    obtain ⟨w, hw, hwc⟩ := List.mem_map.mp hc
    exact ⟨w, hw, hwc⟩
  have hchangedWritten : ∀ e ∈ changedFiles (entriesOf cfOld) (entriesOf cfNew),
      ∃ w ∈ writes, w.ConfFile.Filename = e.1 := by
    intro e he
    have hfn : e.2.Filename ∈ (stamped now ((changedFiles (entriesOf cfOld)
        (entriesOf cfNew)).map fun kv => kv.2)).map fun c => c.Filename := by
      rw [stamped_filenames, List.map_map]
      exact List.mem_map.mpr ⟨e, he, rfl⟩
    obtain ⟨c, hc, hcf⟩ := List.mem_map.mp hfn
    obtain ⟨w, hw, hwc⟩ := hexists c (List.mem_append_left _ hc)
    refine ⟨w, hw, ?_⟩
    rw [hwc, hcf]
    exact hkeysNew.2 e ((changedFiles_mem _ _ e).mp he).1
  have hremovedWritten : ∀ e ∈ removedFiles (entriesOf cfOld) (entriesOf cfNew),
      ∃ w ∈ writes, w.ConfFile.Filename = e.1 := by
    intro e he
    have hfn : e.2.Filename ∈ (stamped now2 ((removedFiles (entriesOf cfOld)
        (entriesOf cfNew)).map fun kv => tombstone kv.2)).map fun c => c.Filename := by
      rw [stamped_filenames, List.map_map]
      exact List.mem_map.mpr ⟨e, he, rfl⟩
    obtain ⟨c, hc, hcf⟩ := List.mem_map.mp hfn
    obtain ⟨w, hw, hwc⟩ := hexists c (List.mem_append_right _ hc)
    refine ⟨w, hw, ?_⟩
    rw [hwc, hcf]
    exact hkeysOld.2 e ((removedFiles_mem _ _ e).mp he).1
  intro kv hkv hlive
  obtain ⟨_, hent, _⟩ := foundConfs_newest_all (olds ++ writes)
  obtain ⟨hname, ⟨rev, hrev, hrc⟩, hmax⟩ := hent kv hkv
  rcases List.mem_append.mp hrev with holdm | hwm
  · -- the file is that of a revision stored before
    have hlt : kv.2.Updated < now := by rw [← hrc]; exact holder rev holdm
    have hnowrite : ∀ w ∈ writes, w.ConfFile.Filename ≠ kv.1 := by
      intro w hw hfn
      have h1 := hmax w (List.mem_append_right _ hw) hfn
      have h2 := hwclock w hw
      omega
    have hrevname : rev.ConfFile.Filename = kv.1 := by rw [hrc]; exact hname
    obtain ⟨f, hf, hfu⟩ := hagree rev holdm (by rw [hrc]; exact hlive) (by
      intro other ho hfn
      rw [hrc]
      exact hmax other (List.mem_append_left _ ho) (by rw [hfn, hrevname]))
    rw [hrevname] at hf
    rw [hrc] at hfu
    cases hnew : GoMap.get (entriesOf cfNew) kv.1 with
    | none =>
      have hrem : (kv.1, f) ∈ removedFiles (entriesOf cfOld) (entriesOf cfNew) :=
        (removedFiles_mem _ _ _).mpr
          ⟨GoMap.mem_of_get _ _ _ hf, (GoMap.get_eq_none_iff _ _).mp hnew⟩
      obtain ⟨w, hw, hwn⟩ := hremovedWritten _ hrem
      exact absurd hwn (hnowrite w hw)
    | some f2 =>
      by_cases heq : GoMap.get (entriesOf cfOld) kv.1 = some f2
      · rw [hf] at heq
        simp only [Option.some.injEq] at heq
        exact ⟨f2, rfl, by rw [← heq]; exact hfu⟩
      · have hch : (kv.1, f2) ∈ changedFiles (entriesOf cfOld) (entriesOf cfNew) :=
          (changedFiles_mem _ _ _).mpr ⟨GoMap.mem_of_get _ _ _ hnew, heq⟩
        obtain ⟨w, hw, hwn⟩ := hchangedWritten _ hch
        exact absurd hwn (hnowrite w hw)
  · -- the file is that of a revision just written
    rcases hwfile rev hwm with hc | hc
    · obtain ⟨f0, hf0, _, hcf⟩ := stamped_mem _ _ _ hc
      obtain ⟨e, he, rfl⟩ := List.mem_map.mp hf0
      have hein := ((changedFiles_mem _ _ e).mp he).1
      have hkey : e.1 = kv.1 := by
        rw [← hname, ← hrc, hcf]
        exact (hkeysNew.2 e hein).symm
      refine ⟨e.2, ?_, ?_⟩
      · rw [← hkey]
        exact GoMap.get_of_mem_nodup _ e.1 e.2 hkeysNew.1 hein
      · rw [← hrc, hcf]
        rfl
    · obtain ⟨f0, hf0, _, hcf⟩ := stamped_mem _ _ _ hc
      obtain ⟨e, _, rfl⟩ := List.mem_map.mp hf0
      rw [← hrc, hcf] at hlive
      simp [tombstone] at hlive


theorem updateService_nonempty_id (env : Collaborators) (fuel : Nat) (st st1 : FacadeState)
    (svc : Service) (hrun : updateService env fuel st svc = some (none, st1)) :
    TrimSpace svc.ID ≠ "" := by
  intro h
  unfold updateService at hrun
  simp [h] at hrun

/-- After a successful `updateService` the stored service is the one submitted
(trimmed and filled), and the files the config query finds and that are not
deleted are, up to `Updated`, files of the submitted map. -/
theorem updateService_stored (env : Collaborators) (fuel : Nat) (st st1 : FacadeState)
    (svc oldSvc : Service) (tenantID servicePath : String)
    (hold : st.services.Get (TrimSpace svc.ID) = .ok oldSvc)
    (hrun : updateService env fuel st svc = some (none, st1))
    (hkeysNew : KeyedByFilename svc.ConfigFiles) (hkeysOld : KeyedByFilename oldSvc.ConfigFiles)
    (hfaith : FaithfulRevisions env tenantID servicePath)
    (hfresh : FreshRevisions env tenantID servicePath st)
    (holder : ∀ rev ∈ GetConfigFiles st.configFiles tenantID servicePath,
      rev.ConfFile.Updated < st.clock)
    (hagree : RevisionsAgree (GetConfigFiles st.configFiles tenantID servicePath)
      oldSvc.ConfigFiles)
    (hsame : ∀ (t p : String) (stT : FacadeState),
      getTenantIDAndPath env fuel st (trimmedAndFilled env svc) = some ((t, p, none), stT) →
      t = tenantID ∧ p = servicePath) :
    st1.services = st.services.Put (trimmedAndFilled env svc) ∧
    ∀ kv ∈ foundConfs (GetConfigFiles st1.configFiles tenantID servicePath) [],
      kv.2.Deleted = false →
      ∃ f : ConfigFile, GoMap.get (entriesOf svc.ConfigFiles) kv.1 = some f ∧
        withoutUpdated f = withoutUpdated kv.2 := by
  have hid := updateService_nonempty_id env fuel st st1 svc hrun
  have hcf : (fillServiceAddr env { svc with ID := TrimSpace svc.ID }).1.ConfigFiles
      = svc.ConfigFiles := (fillServiceAddr_ConfigFiles env _).1
  have hsid : (fillServiceAddr env { svc with ID := TrimSpace svc.ID }).1.ID
      = TrimSpace svc.ID := (fillServiceAddr_ConfigFiles env _).2.1
  by_cases hdeep : configFilesDeepEqual oldSvc.ConfigFiles svc.ConfigFiles = true
  · -- nothing is written
    rw [updateService_equal_path env fuel st svc oldSvc hid hold hdeep] at hrun
    simp only [Option.some.injEq] at hrun
    obtain ⟨hserv, hconf⟩ := putAndPublish_ok env st st1 oldSvc _ hrun
    refine ⟨hserv, ?_⟩
    rw [hconf]
    intro kv hkv hlive
    obtain ⟨_, hent, _⟩ := foundConfs_newest_all (GetConfigFiles st.configFiles tenantID servicePath)
    obtain ⟨hname, ⟨rev, hrev, hrc⟩, hmax⟩ := hent kv hkv
    have hrevname : rev.ConfFile.Filename = kv.1 := by rw [hrc]; exact hname
    obtain ⟨f, hf, hfu⟩ := hagree rev hrev (by rw [hrc]; exact hlive) (by
      intro other ho hfn
      rw [hrc]
      exact hmax other ho (by rw [hfn, hrevname]))
    rw [hrevname] at hf
    rw [hrc] at hfu
    exact ⟨f, configFilesDeepEqual_get _ _ _ _ hdeep hf, hfu⟩
  · have hdiff : configFilesDeepEqual oldSvc.ConfigFiles svc.ConfigFiles = false := by
      cases h : configFilesDeepEqual oldSvc.ConfigFiles svc.ConfigFiles with
      | true => exact absurd h hdeep
      | false => rfl
    have hvalid : env.validEntity (trimmedAndFilled env svc) = none := by
      cases hv : env.validEntity (trimmedAndFilled env svc) with
      | none => rfl
      | some e =>
        unfold trimmedAndFilled at hv
        unfold updateService at hrun
        simp [hid, hsid, hold, hcf, hdiff, hv] at hrun
    obtain ⟨stT, htp⟩ : ∃ stT : FacadeState,
        getTenantIDAndPath env fuel st (trimmedAndFilled env svc)
          = some ((tenantID, servicePath, none), stT) := by
      cases hl : getTenantIDAndPath env fuel st (trimmedAndFilled env svc) with
      | none =>
        unfold trimmedAndFilled at hl hvalid
        unfold updateService at hrun
        simp [hid, hsid, hold, hcf, hdiff, hvalid, hl] at hrun
      | some res =>
        obtain ⟨⟨t, p, err⟩, stT⟩ := res
        cases err with
        | some e =>
          unfold trimmedAndFilled at hl hvalid
          unfold updateService at hrun
          simp [hid, hsid, hold, hcf, hdiff, hvalid, hl] at hrun
        | none =>
          obtain ⟨ht, hp⟩ := hsame t p stT hl
          subst ht
          subst hp
          exact ⟨stT, rfl⟩
    have hnewTotal : ∀ conf : ConfigFile,
        ∃ rev, env.newSvcConfigFile tenantID servicePath conf = .ok rev := by
      intro conf
      obtain ⟨rev, hrev, _⟩ := hfaith conf
      exact ⟨rev, hrev⟩
    obtain ⟨revs, tombs, oldRest, hrevs, htombs, _, hpath⟩ :=
      updateService_config_path env fuel st stT svc oldSvc tenantID servicePath hid hold
        hkeysNew.1 hdiff hvalid htp hnewTotal
    rw [hpath] at hrun
    simp only [Option.some.injEq] at hrun
    obtain ⟨hserv, hconf⟩ := putAndPublish_ok env _ st1 oldRest _ hrun
    have hframe := getTenantIDAndPath_frame env fuel st _ _ _ htp
    have hservT : stT.services = st.services := by rw [hframe]
    refine ⟨by rw [hserv]; exact congrArg (fun s => ServiceStore.Put s _) hservT, ?_⟩
    -- the revisions written
    have hall := forall₂_append_of _ _ _ _ _ hrevs htombs
    obtain ⟨hfiles, htenant⟩ := written_faithful env tenantID servicePath hfaith _ _ hall
    have hids := written_ids_nodup env tenantID servicePath hfresh.2 _ _ hall
      (written_filenames_nodup oldSvc.ConfigFiles svc.ConfigFiles hkeysNew hkeysOld _ _)
    have hnotin : ∀ r ∈ revs ++ tombs, st.configFiles.get r.ID = none := by
      intro r hr
      obtain ⟨c, hc, hnew⟩ := forall₂_mem_right _ _ _ hall r hr
      refine hfresh.1 c r ?_ hnew
      rcases List.mem_append.mp hc with h | h
      · obtain ⟨_, _, hle, _⟩ := stamped_mem _ _ _ h
        exact hle
      · obtain ⟨_, _, hle, _⟩ := stamped_mem _ _ _ h
        omega
    have hstore : st1.configFiles = st.configFiles ++ (revs ++ tombs).map fun r => (r.ID, r) := by
      rw [hconf]
      exact putRevisions_fresh _ _ hids hnotin
    have hquery : GetConfigFiles st1.configFiles tenantID servicePath
        = GetConfigFiles st.configFiles tenantID servicePath ++ (revs ++ tombs) := by
      rw [hstore, GetConfigFiles_append, GetConfigFiles_written _ _ _ htenant]
    rw [hquery]
    exact found_after_update oldSvc.ConfigFiles svc.ConfigFiles _ _ st.clock
      (st.clock + revs.length) hkeysNew hkeysOld holder hagree (by omega) hfiles

/-- The query after a successful `updateService`: `GetService` returns the
service submitted (trimmed and filled), with config files that are, up to
`Updated`, those submitted. -/
theorem updateService_then_GetService (env : Collaborators) (fuel fuel2 : Nat)
    (st st1 st2 : FacadeState) (svc oldSvc : Service) (tenantID servicePath : String)
    (addrs : GoMap AddressAssignment)
    (hold : st.services.Get (TrimSpace svc.ID) = .ok oldSvc)
    (hrun : updateService env fuel st svc = some (none, st1))
    (haddr : env.getAddressAssignments (TrimSpace svc.ID) = .ok addrs)
    (hkeysNew : KeyedByFilename svc.ConfigFiles) (hkeysOld : KeyedByFilename oldSvc.ConfigFiles)
    (hfaith : FaithfulRevisions env tenantID servicePath)
    (hfresh : FreshRevisions env tenantID servicePath st)
    (holder : ∀ rev ∈ GetConfigFiles st.configFiles tenantID servicePath,
      rev.ConfFile.Updated < st.clock)
    (hagree : RevisionsAgree (GetConfigFiles st.configFiles tenantID servicePath)
      oldSvc.ConfigFiles)
    (hsame : ∀ (t p : String) (stT : FacadeState),
      getTenantIDAndPath env fuel st (trimmedAndFilled env svc) = some ((t, p, none), stT) →
      t = tenantID ∧ p = servicePath)
    (hlookup : getTenantIDAndPath env fuel2 st1 (trimmedAndFilled env svc)
      = some ((tenantID, servicePath, none), st2))
    (hread : env.getConfigFilesError tenantID servicePath = none) :
    ∃ r : Service,
      GetService env fuel2 st1 (TrimSpace svc.ID) = some (.ok (.ok r), st2) ∧
      { r with ConfigFiles := none } = { trimmedAndFilled env svc with ConfigFiles := none } ∧
      mapFiles withoutUpdated r.ConfigFiles = mapFiles withoutUpdated svc.ConfigFiles := by
  obtain ⟨hserv, hfound⟩ := updateService_stored env fuel st st1 svc oldSvc tenantID servicePath
    hold hrun hkeysNew hkeysOld hfaith hfresh holder hagree hsame
  have hcf : (trimmedAndFilled env svc).ConfigFiles = svc.ConfigFiles :=
    (fillServiceAddr_ConfigFiles env _).1
  have hsid : (trimmedAndFilled env svc).ID = TrimSpace svc.ID :=
    (fillServiceAddr_ConfigFiles env _).2.1
  have hget : st1.services.Get (TrimSpace svc.ID) = .ok (trimmedAndFilled env svc) := by
    rw [hserv, ← hsid]
    exact ServiceStore.Get_Put _ _
  have hfill : fillServiceAddr env (trimmedAndFilled env svc)
      = (trimmedAndFilled env svc, none) :=
    fillServiceAddr_idempotent env { svc with ID := TrimSpace svc.ID } addrs haddr
  obtain ⟨cf2, hrep, hmap⟩ := replaceConfs_modulo withoutUpdated
    (foundConfs (GetConfigFiles st1.configFiles tenantID servicePath) [])
    (trimmedAndFilled env svc).ConfigFiles (by rw [hcf]; exact hfound)
  refine ⟨{ trimmedAndFilled env svc with ConfigFiles := cf2 }, ?_, rfl, by rw [← hcf]; exact hmap⟩
  unfold GetService
  simp only [hget]
  unfold fillOutService
  simp only [hfill]
  rw [fillServiceConfigs_found env fuel2 st1 st2 _ tenantID servicePath hlookup hread]
  simp only [hrep]

end Facade

namespace Facade

theorem replaceConfs_nil :
    ∀ entries : List (String × ConfigFile), (∃ kv ∈ entries, kv.2.Deleted = false) →
      replaceConfs entries none = .error "assignment to entry in nil map" := by
  intro entries
  induction entries with
  | nil => rintro ⟨kv, h, _⟩; cases h
  | cons e rest ih =>
    obtain ⟨name, conf⟩ := e
    rintro ⟨kv, hkv, hlive⟩
    by_cases hdel : conf.Deleted = true
    · simp only [replaceConfs, hdel, if_true]
      rcases List.mem_cons.mp hkv with rfl | hin
      · rw [hdel] at hlive; cases hlive
      · exact ih ⟨kv, hin, hlive⟩
    · simp [replaceConfs, hdel]

theorem found_of_newest (revs : List SvcConfigFile) (rev : SvcConfigFile)
    (hnewest : IsNewest rev revs) :
    GoMap.get (foundConfs revs []) rev.ConfFile.Filename = some rev.ConfFile := by
  obtain ⟨hnd, hent, hkeys⟩ := foundConfs_newest_all revs
  obtain ⟨conf, hconf⟩ := GoMap.get_isSome_of_mem_keys _ _ (hkeys rev hnewest.1)
  obtain ⟨hname, ⟨rev2, hrev2, hrc⟩, hmax⟩ := hent _ (GoMap.mem_of_get _ _ _ hconf)
  rw [hconf]
  by_cases heq : conf = rev.ConfFile
  · rw [heq]
  · have hlt := hnewest.2 rev2 hrev2 (by rw [hrc]; exact hname) (by rw [hrc]; exact heq)
    have hle := hmax rev hnewest.1 rfl
    rw [hrc] at hlt
    exact absurd hle (Nat.not_le_of_lt hlt)

theorem found_of_no_revision (revs : List SvcConfigFile) (n : String)
    (hnone : ∀ rev ∈ revs, rev.ConfFile.Filename ≠ n) :
    GoMap.get (foundConfs revs []) n = none := by
  obtain ⟨_, hent, _⟩ := foundConfs_newest_all revs
  cases hg : GoMap.get (foundConfs revs []) n with
  | none => rfl
  | some conf =>
    obtain ⟨hname, ⟨rev, hrev, hrc⟩, _⟩ := hent _ (GoMap.mem_of_get _ _ _ hg)
    exact absurd (by rw [hrc]; exact hname) (hnone rev hrev)

theorem UpdateService_ok (env : Collaborators) (fuel : Nat) (st st1 : FacadeState)
    (svc : Service) (h : UpdateService env fuel st svc = some (none, st1)) :
    updateService env fuel st svc = some (none, st1) := by
  unfold UpdateService at h
  split at h
  · split at h
    · simp at h
    · split at h
      · simp at h
      · exact h
  · exact h

theorem String.append_cancel_left (a b c : String) (h : a ++ b = a ++ c) : b = c := by
  have hd := congrArg String.data h
  simp only [String.data_append] at hd
  exact String.ext (List.append_cancel_left hd)

theorem sampleEnv_faithful (tenantID servicePath : String) :
    FaithfulRevisions sampleEnv tenantID servicePath :=
  fun _ => ⟨_, rfl, rfl, rfl, rfl⟩

theorem sampleEnv_fresh (tenantID servicePath : String) (st : FacadeState)
    (hempty : st.configFiles = []) : FreshRevisions sampleEnv tenantID servicePath st := by
  constructor
  · intro conf rev _ _
    rw [hempty]
    rfl
  · intro conf conf2 rev rev2 h1 h2 hid
    simp only [sampleEnv, Except.ok.injEq] at h1 h2
    rw [← h1, ← h2] at hid
    exact String.append_cancel_left _ _ _ hid

/-- The stamps of the round trip.  The sample service is stored with `a.conf` and
`b.conf`, no revision is stored, and the clock reads 7.  `UpdateService` of the
service with `a.conf` unchanged and `c.conf` added succeeds; the revision of
`c.conf` is stamped 7 and the tombstone of `b.conf` 8.  `GetService` then returns
`c.conf` with `Updated` 7, the time of the write, while the file submitted has
`Updated` 0: the stamp is set by the server. -/
theorem UpdateService_query_restamps :
    UpdateService sampleEnv 1 sampleBeforeUpdate sampleReconfigured
      = some (none, sampleAfterUpdate) ∧
    GetService sampleEnv 1 sampleAfterUpdate "app"
      = some (.ok (.ok { sampleReconfigured with
          ConfigFiles := some [("a.conf", { Filename := "a.conf", Content := "alpha" }),
            ("c.conf", { Filename := "c.conf", Content := "gamma", Updated := 7 })] }),
          sampleAfterUpdate) ∧
    some [("a.conf", ({ Filename := "a.conf", Content := "alpha" } : ConfigFile)),
        ("c.conf", { Filename := "c.conf", Content := "gamma", Updated := 7 })]
      ≠ sampleReconfigured.ConfigFiles :=
  ⟨by decide, rfl, by decide⟩

theorem replaceConfs_none :
    ∀ entries : List (String × ConfigFile), (∀ kv ∈ entries, kv.2.Deleted = true) →
      replaceConfs entries none = .ok none := by
  intro entries
  induction entries with
  | nil => intro _; rfl
  | cons e rest ih =>
    obtain ⟨name, conf⟩ := e
    intro hall
    have hdel : conf.Deleted = true := hall (name, conf) (List.mem_cons_self _ _)
    simp only [replaceConfs, hdel, if_true]
    exact ih (fun kv hkv => hall kv (List.mem_cons_of_mem _ hkv))

/-- C18 (the claim as stated fails in these round trips).  (1) The sample service
is stored with `a.conf` (content `alpha`) and `b.conf`; one revision is stored
for it, of `a.conf` with the content `omega`, stamped 3, and the clock reads 7,
so that the time stamps of the revisions increase strictly.  `UpdateService` of
the service with `a.conf` unchanged and `c.conf` added succeeds; `a.conf` is
unchanged, so no revision is written for it, and `GetService` returns `a.conf`
with the content `omega` of the stored revision, not the content `alpha`
submitted.  (2) No revision is stored, and the service is submitted with the one
file `c.conf` under the key `settings`.  `UpdateService` succeeds and
`GetService` returns two entries, the file submitted under `settings` and its
revision under `c.conf`.  In both runs the config files returned differ from the
ones submitted in more than the `Updated` stamps. -/
theorem UpdateService_query_returns_store_revision :
    (∀ rev ∈ GetConfigFiles sampleStale.configFiles "app" "/app",
      rev.ConfFile.Updated < sampleStale.clock) ∧
    (∃ (st1 st2 : FacadeState) (r : Service),
      UpdateService sampleEnv 1 sampleStale sampleReconfigured = some (none, st1) ∧
      GetService sampleEnv 1 st1 "app" = some (.ok (.ok r), st2) ∧
      r.ConfigFiles
        = some [("a.conf", { Filename := "a.conf", Content := "omega", Updated := 3 }),
                ("c.conf", { Filename := "c.conf", Content := "gamma", Updated := 7 })] ∧
      sampleReconfigured.ConfigFiles
        = some [("a.conf", { Filename := "a.conf", Content := "alpha" }),
                ("c.conf", { Filename := "c.conf", Content := "gamma" })] ∧
      mapFiles withoutUpdated r.ConfigFiles
        ≠ mapFiles withoutUpdated sampleReconfigured.ConfigFiles) ∧
    (∃ (st1 st2 : FacadeState) (r : Service),
      UpdateService sampleEnv 1 sampleBeforeUpdate sampleMiskeyed = some (none, st1) ∧
      GetService sampleEnv 1 st1 "app" = some (.ok (.ok r), st2) ∧
      r.ConfigFiles
        = some [("settings", { Filename := "c.conf", Content := "gamma" }),
                ("c.conf", { Filename := "c.conf", Content := "gamma", Updated := 7 })] ∧
      sampleMiskeyed.ConfigFiles
        = some [("settings", { Filename := "c.conf", Content := "gamma" })] ∧
      mapFiles withoutUpdated r.ConfigFiles
        ≠ mapFiles withoutUpdated sampleMiskeyed.ConfigFiles) := by
  refine ⟨by decide, ⟨_, _, _, rfl, rfl, rfl, rfl, by decide⟩,
    ⟨_, _, _, rfl, rfl, rfl, rfl, by decide⟩⟩

/-- C18 (amended).  The config query: when the tenant and path of the service are
found and the revisions stored for them are read, whenever `fillServiceConfigs`
returns, it returns no error and the service with a `ConfigFiles` map in which
every filename whose newest stored revision is not deleted has the file of that
revision, every filename whose newest stored revision is a tombstone has what
the map had, and every filename without a stored revision has what the map had;
and it does return for every service whose `ConfigFiles` map is not nil.  The
round trip: after a successful `UpdateService` of a service whose config files,
like the stored ones, are keyed by their filenames, with revision ids that are
fresh, the revisions stored before stamped earlier than the clock and in
agreement with the stored service, and the tenant and path found by the update
and by the query the same, `GetService` succeeds and returns config files that
are, up to the `Updated` stamps, the ones submitted. -/
theorem config_query_returns_newest_revision (env : Collaborators) :
    (∀ (fuel : Nat) (st st1 : FacadeState) (svc : Service) (tenantID servicePath : String),
      getTenantIDAndPath env fuel st svc = some ((tenantID, servicePath, none), st1) →
      env.getConfigFilesError tenantID servicePath = none →
      (∀ (svc2 : Service) (err : Option String) (st2 : FacadeState),
        fillServiceConfigs env fuel st svc = some (.ok (svc2, err), st2) →
        err = none ∧ st2 = st1 ∧ svc2 = { svc with ConfigFiles := svc2.ConfigFiles } ∧
        (∀ rev : SvcConfigFile,
          IsNewest rev (GetConfigFiles st.configFiles tenantID servicePath) →
          (rev.ConfFile.Deleted = false →
            GoMap.get (entriesOf svc2.ConfigFiles) rev.ConfFile.Filename = some rev.ConfFile) ∧
          (rev.ConfFile.Deleted = true →
            GoMap.get (entriesOf svc2.ConfigFiles) rev.ConfFile.Filename
              = GoMap.get (entriesOf svc.ConfigFiles) rev.ConfFile.Filename)) ∧
        (∀ n : String,
          (∀ rev ∈ GetConfigFiles st.configFiles tenantID servicePath,
            rev.ConfFile.Filename ≠ n) →
          GoMap.get (entriesOf svc2.ConfigFiles) n = GoMap.get (entriesOf svc.ConfigFiles) n)) ∧
      (∀ m : GoMap ConfigFile, svc.ConfigFiles = some m →
        ∃ m2 : GoMap ConfigFile,
          fillServiceConfigs env fuel st svc
            = some (.ok ({ svc with ConfigFiles := some m2 }, none), st1))) ∧
    (∀ (fuel fuel2 : Nat) (st st1 st2 : FacadeState) (svc oldSvc : Service)
      (tenantID servicePath : String) (addrs : GoMap AddressAssignment),
      st.services.Get (TrimSpace svc.ID) = .ok oldSvc →
      UpdateService env fuel st svc = some (none, st1) →
      env.getAddressAssignments (TrimSpace svc.ID) = .ok addrs →
      KeyedByFilename svc.ConfigFiles → KeyedByFilename oldSvc.ConfigFiles →
      FaithfulRevisions env tenantID servicePath →
      FreshRevisions env tenantID servicePath st →
      (∀ rev ∈ GetConfigFiles st.configFiles tenantID servicePath,
        rev.ConfFile.Updated < st.clock) →
      RevisionsAgree (GetConfigFiles st.configFiles tenantID servicePath) oldSvc.ConfigFiles →
      (∀ (t p : String) (stT : FacadeState),
        getTenantIDAndPath env fuel st (trimmedAndFilled env svc) = some ((t, p, none), stT) →
        t = tenantID ∧ p = servicePath) →
      getTenantIDAndPath env fuel2 st1 (trimmedAndFilled env svc)
        = some ((tenantID, servicePath, none), st2) →
      env.getConfigFilesError tenantID servicePath = none →
      ∃ r : Service,
        GetService env fuel2 st1 (TrimSpace svc.ID) = some (.ok (.ok r), st2) ∧
        mapFiles withoutUpdated r.ConfigFiles = mapFiles withoutUpdated svc.ConfigFiles) := by
  constructor
  · intro fuel st st1 svc tenantID servicePath hlookup hread
    have hrun := fillServiceConfigs_found env fuel st st1 svc tenantID servicePath hlookup hread
    obtain ⟨hnd, _, _⟩ :=
      foundConfs_newest_all (GetConfigFiles st.configFiles tenantID servicePath)
    constructor
    · intro svc2 err st2 h
      rw [hrun] at h
      cases hcf : svc.ConfigFiles with
      | some m =>
        obtain ⟨m2, hrep, hget⟩ := replaceConfs_get
          (foundConfs (GetConfigFiles st.configFiles tenantID servicePath) []) m hnd
        rw [hcf, hrep] at h
        simp only [Option.some.injEq, Prod.mk.injEq, Except.ok.injEq] at h
        obtain ⟨⟨hsvc, herr⟩, hst⟩ := h
        subst hsvc
        refine ⟨herr.symm, hst.symm, rfl, ?_, ?_⟩
        · intro rev hnewest
          have hfound := found_of_newest _ rev hnewest
          have := hget rev.ConfFile.Filename
          rw [hfound] at this
          constructor
          · intro hlive
            simp only [entriesOf]
            rw [this]
            simp [hlive]
          · intro hdel
            simp only [entriesOf]
            rw [this]
            simp [hdel]
        · intro n hnone
          have := hget n
          rw [found_of_no_revision _ n hnone] at this
          simp only [entriesOf]
          exact this
      | none =>
        rw [hcf] at h
        by_cases hall : ∀ kv ∈ foundConfs (GetConfigFiles st.configFiles tenantID servicePath) [],
            kv.2.Deleted = true
        · rw [replaceConfs_none _ hall] at h
          simp only [Option.some.injEq, Prod.mk.injEq, Except.ok.injEq] at h
          obtain ⟨⟨hsvc, herr⟩, hst⟩ := h
          subst hsvc
          refine ⟨herr.symm, hst.symm, rfl, ?_, ?_⟩
          · intro rev hnewest
            have hmem := GoMap.mem_of_get _ _ _ (found_of_newest _ rev hnewest)
            have hdel := hall _ hmem
            constructor
            · intro hlive
              rw [hlive] at hdel
              cases hdel
            · intro _
              rfl
          · intro n _
            rfl
        · exfalso
          have hlive : ∃ kv ∈ foundConfs (GetConfigFiles st.configFiles tenantID servicePath) [],
              kv.2.Deleted = false := by
            by_contra hno
            apply hall
            intro kv hkv
            cases hd : kv.2.Deleted with
            | true => rfl
            | false => exact absurd ⟨kv, hkv, hd⟩ hno
          rw [replaceConfs_nil _ hlive] at h
          simp at h
    · intro m hm
      obtain ⟨m2, hrep, _⟩ := replaceConfs_get
        (foundConfs (GetConfigFiles st.configFiles tenantID servicePath) []) m hnd
      refine ⟨m2, ?_⟩
      rw [hrun, hm]
      simp only [hrep]
  · intro fuel fuel2 st st1 st2 svc oldSvc tenantID servicePath addrs hold hrun haddr
      hkeysNew hkeysOld hfaith hfresh holder hagree hsame hlookup hread
    obtain ⟨r, hget, _, hmap⟩ := updateService_then_GetService env fuel fuel2 st st1 st2 svc
      oldSvc tenantID servicePath addrs hold (UpdateService_ok env fuel st st1 svc hrun) haddr
      hkeysNew hkeysOld hfaith hfresh holder hagree hsame hlookup hread
    exact ⟨r, hget, hmap⟩

/-- Witness for C18 (amended): the sample update, after which `GetService`
returns the two files submitted, `c.conf` with a new `Updated` stamp. -/
theorem config_query_returns_newest_revision_witness :
    UpdateService sampleEnv 1 sampleBeforeUpdate sampleReconfigured
      = some (none, sampleAfterUpdate) ∧
    KeyedByFilename sampleReconfigured.ConfigFiles ∧
    KeyedByFilename sampleConfigured.ConfigFiles ∧
    ∃ r : Service,
      GetService sampleEnv 1 sampleAfterUpdate "app" = some (.ok (.ok r), sampleAfterUpdate) ∧
      mapFiles withoutUpdated r.ConfigFiles
        = mapFiles withoutUpdated sampleReconfigured.ConfigFiles := by
  have hrun : UpdateService sampleEnv 1 sampleBeforeUpdate sampleReconfigured
      = some (none, sampleAfterUpdate) := by decide
  have hk1 : KeyedByFilename sampleReconfigured.ConfigFiles := ⟨by decide, by decide⟩
  have hk2 : KeyedByFilename sampleConfigured.ConfigFiles := ⟨by decide, by decide⟩
  refine ⟨hrun, hk1, hk2, ?_⟩
  exact (config_query_returns_newest_revision sampleEnv).2 1 1 sampleBeforeUpdate
    sampleAfterUpdate sampleAfterUpdate sampleReconfigured sampleConfigured "app" "/app" []
    rfl hrun rfl hk1 hk2 (sampleEnv_faithful _ _) (sampleEnv_fresh _ _ _ rfl)
    (fun rev h => by cases h) (fun rev h => by cases h)
    (fun t p stT h => by
      have hc : getTenantIDAndPath sampleEnv 1 sampleBeforeUpdate
          (trimmedAndFilled sampleEnv sampleReconfigured)
          = some (("app", "/app", none),
              { sampleBeforeUpdate with tenantIDs := [("app", "app")] }) := by decide
      rw [hc] at h
      simp only [Option.some.injEq, Prod.mk.injEq] at h
      exact ⟨h.1.1.symm, h.1.2.1.symm⟩)
    (by decide) rfl

end Facade

/-! ## facade/service.go: the round trip of `AddService` and `GetService` -/

namespace Facade

theorem fillServiceAddr_with_configFiles (env : Collaborators) (svc : Service)
    (configFiles : Option (GoMap ConfigFile)) (h : fillServiceAddr env svc = (svc, none)) :
    fillServiceAddr env { svc with ConfigFiles := configFiles }
      = ({ svc with ConfigFiles := configFiles }, none) := by
  unfold fillServiceAddr at h ⊢
  cases ha : env.getAddressAssignments svc.ID with
  | error e => simp [ha] at h
  | ok addrs =>
    simp only [ha, Prod.mk.injEq, and_true] at h ⊢
    have hep := congrArg (fun s : Service => s.Endpoints) h
    simp only at hep
    rw [hep]

theorem fillServiceAddr_ok_addrs (env : Collaborators) (svc : Service)
    (h : fillServiceAddr env svc = (svc, none)) :
    ∃ addrs, env.getAddressAssignments svc.ID = .ok addrs := by
  unfold fillServiceAddr at h
  cases ha : env.getAddressAssignments svc.ID with
  | error e => simp [ha] at h
  | ok addrs => exact ⟨addrs, rfl⟩

theorem mapFiles_mapFiles (f g : ConfigFile → ConfigFile)
    (configFiles : Option (GoMap ConfigFile)) :
    mapFiles f (mapFiles g configFiles) = mapFiles (fun c => f (g c)) configFiles := by
  cases configFiles with
  | none => rfl
  | some m => simp [mapFiles, List.map_map, Function.comp]

theorem KeyedByFilename_initial (m : GoMap ConfigFile) (h : KeyedByFilename (some m)) :
    KeyedByFilename (some (initialRevisions m)) := by
  obtain ⟨hnd, hkeys⟩ := h
  simp only [entriesOf] at hnd hkeys
  constructor
  · simp only [entriesOf, initialRevisions, List.map_map]
    exact hnd
  · intro kv hkv
    simp only [entriesOf, initialRevisions, List.mem_map] at hkv
    obtain ⟨kv0, hkv0, rfl⟩ := hkv
    exact hkeys kv0 hkv0

theorem ServiceStore.Get_of_not_mem (store : ServiceStore) (id : String)
    (h : ∀ old ∈ store, old.ID ≠ id) : store.Get id = .error "No such entity" := by
  unfold ServiceStore.Get
  have : store.find? (fun svc => svc.ID = id) = none := by
    apply List.find?_eq_none.mpr
    intro x hx
    simpa using h x hx
  rw [this]

/-- C16 (as stated, refuted).  The sample service `app` names a parent that is not
stored, and the store is empty.  `AddService` stores the service and succeeds;
`GetService` of its id then fails, since the tenant lookup of `fillServiceConfigs`
cannot find the parent. -/
theorem AddService_then_GetService_fails :
    AddService sampleEnv 1 {} sampleOrphan
      = some (none, { services := [sampleOrphan], zkCalls := [.updateService sampleOrphan] }) ∧
    GetService sampleEnv 1
        { services := [sampleOrphan], zkCalls := [.updateService sampleOrphan] } "app"
      = some (.ok (.error "No such entity"),
          { services := [sampleOrphan], zkCalls := [.updateService sampleOrphan] }) :=
  ⟨by decide, rfl⟩

/-- C16 (amended).  Let `s` be a service whose id is not in the store, is trimmed,
whose endpoints carry the address assignments stored for them, and whose config
files are keyed by their filenames; let `AddService(s)` succeed.  When the tenant
and path of the stored service are found by the query (and, with config files,
are the ones found while adding), no revision is stored for them beforehand, and
revision ids are fresh, `GetService(s.ID)` succeeds and returns a service equal
to `s` up to the fields `Commit` and `Updated` of its config files. -/
theorem AddService_GetService_round_trip (env : Collaborators) (fuel fuel2 : Nat)
    (st st1 st2 : FacadeState) (s : Service) (tenantID servicePath : String)
    (hnew : ∀ old ∈ st.services, old.ID ≠ s.ID)
    (hadd : AddService env fuel st s = some (none, st1))
    (htrim : TrimSpace s.ID = s.ID)
    (haddr : fillServiceAddr env s = (s, none))
    (hkeys : KeyedByFilename s.ConfigFiles)
    (hfaith : FaithfulRevisions env tenantID servicePath)
    (hfresh : FreshRevisions env tenantID servicePath st)
    (hstale : GetConfigFiles st.configFiles tenantID servicePath = [])
    (hsame : ∀ (t p : String) (stT : FacadeState),
      getTenantIDAndPath env fuel { st with services := st.services.Put s } (initialCopy s)
        = some ((t, p, none), stT) →
      t = tenantID ∧ p = servicePath)
    (hlookup : getTenantIDAndPath env fuel2 st1 (initialCopy s)
      = some ((tenantID, servicePath, none), st2))
    (hread : env.getConfigFilesError tenantID servicePath = none) :
    ∃ r : Service,
      GetService env fuel2 st1 s.ID = some (.ok (.ok r), st2) ∧
      { r with ConfigFiles := mapFiles withoutServerSet r.ConfigFiles }
        = { s with ConfigFiles := mapFiles withoutServerSet s.ConfigFiles } := by
  have hmissing := ServiceStore.Get_of_not_mem st.services s.ID hnew
  unfold AddService at hadd
  cases hfault : env.getFault s.ID with
  | some e => simp [hfault] at hadd
  | none =>
    simp only [hfault, hmissing] at hadd
    cases hput : env.putError s with
    | some e => simp [hput] at hadd
    | none =>
      simp only [hput] at hadd
      cases hcf : s.ConfigFiles with
      | none =>
        -- no config files: the service is stored and published
        simp only [hcf, Option.some.injEq, Prod.mk.injEq] at hadd
        have hst1 := hadd.2
        have hs : { s with ConfigFiles := none } = s := by
          cases s
          subst hcf
          rfl
        have hcopy : initialCopy s = s := by
          unfold initialCopy
          rw [hcf]
          exact hs
        rw [hcopy] at hlookup
        have hget : st1.services.Get s.ID = .ok s := by
          rw [← hst1]
          exact ServiceStore.Get_Put s _
        have hconf : st1.configFiles = st.configFiles := by rw [← hst1]
        refine ⟨s, ?_, by simp only [hcf]⟩
        unfold GetService
        simp only [hget]
        unfold fillOutService
        simp only [haddr]
        rw [fillServiceConfigs_found env fuel2 st1 st2 s tenantID servicePath hlookup hread,
          hconf, hstale, hcf]
        simp only [foundConfs, replaceConfs, hs]
      | some m =>
        simp only [hcf] at hadd
        have hcopy : initialCopy s = { s with ConfigFiles := some (initialRevisions m) } := by
          simp only [initialCopy, hcf, Option.map_some']
        have hfillCopy : fillServiceAddr env { s with ConfigFiles := some (initialRevisions m) }
            = ({ s with ConfigFiles := some (initialRevisions m) }, none) :=
          fillServiceAddr_with_configFiles env s _ haddr
        have htf : trimmedAndFilled env { s with ConfigFiles := some (initialRevisions m) }
            = { s with ConfigFiles := some (initialRevisions m) } := by
          unfold trimmedAndFilled
          simp only [htrim]
          exact congrArg Prod.fst hfillCopy
        obtain ⟨addrs, haddrs⟩ := fillServiceAddr_ok_addrs env s haddr
        rw [hcopy] at hsame hlookup
        obtain ⟨r, hget, hrest, hmap⟩ := updateService_then_GetService env fuel fuel2
          { st with services := st.services.Put s } st1 st2
          { s with ConfigFiles := some (initialRevisions m) } s tenantID servicePath addrs
          (by simp only [htrim]; exact ServiceStore.Get_Put s _)
          hadd
          (by simp only [htrim]; exact haddrs)
          (KeyedByFilename_initial m (hcf ▸ hkeys))
          hkeys hfaith hfresh
          (by intro rev hrev; simp only [hstale] at hrev; cases hrev)
          (by intro rev hrev; simp only [hstale] at hrev; cases hrev)
          (by rw [htf]; exact hsame)
          (by rw [htf]; exact hlookup)
          hread
        simp only [htrim] at hget
        refine ⟨r, hget, ?_⟩
        rw [htf] at hrest
        have hfiles : mapFiles withoutServerSet r.ConfigFiles
            = mapFiles withoutServerSet (some m) := by
          have h1 := congrArg (mapFiles withoutServerSet) hmap
          rw [mapFiles_mapFiles, mapFiles_mapFiles] at h1
          have h2 : (fun c => withoutServerSet (withoutUpdated c)) = withoutServerSet := rfl
          rw [h2] at h1
          rw [h1]
          simp only [mapFiles, Option.map_some', initialRevisions, List.map_map, Option.some.injEq]
          apply List.map_congr_left
          intro kv _
          rfl
        rw [hfiles]
        have h3 := congrArg
          (fun q : Service => { q with ConfigFiles := mapFiles withoutServerSet (some m) })
          hrest
        exact h3

/-- Witness for the amended C16: the sample service with its two config files is
added to an empty store; `GetService` returns it with the commit text and the
`Updated` stamps the server set. -/
theorem AddService_GetService_round_trip_witness :
    ∃ (st1 st2 : FacadeState) (r : Service),
      AddService sampleEnv 1 { clock := 3 } sampleConfigured = some (none, st1) ∧
      GetService sampleEnv 1 st1 "app" = some (.ok (.ok r), st2) ∧
      { r with ConfigFiles := mapFiles withoutServerSet r.ConfigFiles }
        = { sampleConfigured with
            ConfigFiles := mapFiles withoutServerSet sampleConfigured.ConfigFiles } := by
  have hadd : AddService sampleEnv 1 { clock := 3 } sampleConfigured
      = some (none, (AddService sampleEnv 1 { clock := 3 } sampleConfigured).get
          (by decide) |>.2) := by decide
  obtain ⟨r, hget, heq⟩ := AddService_GetService_round_trip sampleEnv 1 1 { clock := 3 }
    _ ((AddService sampleEnv 1 { clock := 3 } sampleConfigured).get (by decide) |>.2)
    sampleConfigured "app" "/app"
    (fun old h => by cases h) hadd (by decide) (by decide) ⟨by decide, by decide⟩
    (sampleEnv_faithful _ _) (sampleEnv_fresh _ _ _ rfl) rfl
    (fun t p stT h => by
      have hc : getTenantIDAndPath sampleEnv 1
          { ({ clock := 3 } : FacadeState) with
            services := ServiceStore.Put [] sampleConfigured }
          (initialCopy sampleConfigured)
          = some (("app", "/app", none),
              { services := [sampleConfigured], tenantIDs := [("app", "app")],
                clock := 3 }) := by decide
      rw [hc] at h
      simp only [Option.some.injEq, Prod.mk.injEq] at h
      exact ⟨h.1.1.symm, h.1.2.1.symm⟩)
    (by decide) rfl
  exact ⟨_, _, r, hadd, hget, heq⟩

end Facade

/-! ## facade/service.go: `CheckRunningVHost` -/

namespace Facade

theorem CheckRunningVHost_nodes (zk : VHostCollaborators) (vhostName serviceID : String)
    (nodes : List VhostEndpoint)
    (hconn : zk.connectionError = none) (hreg : zk.registryError = none)
    (hnodes : zk.getVHostKeyChildren vhostName = .ok nodes) :
    (CheckRunningVHost zk vhostName serviceID = none ↔
      nodes = [] ∨ ∃ node : VhostEndpoint, nodes = [node] ∧ node.ServiceID = serviceID) := by
  unfold CheckRunningVHost
  simp only [hconn, hreg, hnodes]
  cases nodes with
  | nil => simp
  | cons node rest =>
    cases rest with
    | nil =>
      by_cases h : node.ServiceID = serviceID
      · simp [h]
      · simp [h]
    | cons node2 rest2 => simp

/-- C20.  With the registry reachable and `nodes` the ephemeral nodes of the vhost:
`CheckRunningVHost` returns no error exactly when `nodes` is empty or is a single
node of the requesting service; a single node of another service, and more than
one node, give an error.  Consequently, when `UpdateService` checks vhosts with
this function, a service submitted with `DesiredState` `SVCRun` that declares a
vhost whose single node belongs to another service is refused with an error and
the state is left as it was: nothing is stored, written or published. -/
theorem CheckRunningVHost_conflict (zk : VHostCollaborators) (vhostName serviceID : String)
    (nodes : List VhostEndpoint)
    (hconn : zk.connectionError = none) (hreg : zk.registryError = none)
    (hnodes : zk.getVHostKeyChildren vhostName = .ok nodes) :
    (CheckRunningVHost zk vhostName serviceID = none ↔
      nodes = [] ∨ ∃ node : VhostEndpoint, nodes = [node] ∧ node.ServiceID = serviceID) ∧
    ((∃ node : VhostEndpoint, nodes = [node] ∧ node.ServiceID ≠ serviceID) →
      ∃ err : String, CheckRunningVHost zk vhostName serviceID = some err) ∧
    (1 < nodes.length → ∃ err : String, CheckRunningVHost zk vhostName serviceID = some err) ∧
    (∀ (env : Collaborators) (fuel : Nat) (st : FacadeState) (svc : Service),
      env.checkRunningVHost = CheckRunningVHost zk →
      svc.DesiredState = SVCRun → svc.ID = serviceID →
      (∃ ep ∈ svc.Endpoints, vhostName ∈ ep.VHosts) →
      (∃ node : VhostEndpoint, nodes = [node] ∧ node.ServiceID ≠ serviceID) →
      ∃ err : String, UpdateService env fuel st svc = some (some err, st)) := by
  have hiff := CheckRunningVHost_nodes zk vhostName serviceID nodes hconn hreg hnodes
  have hsingle : (∃ node : VhostEndpoint, nodes = [node] ∧ node.ServiceID ≠ serviceID) →
      ∃ err : String, CheckRunningVHost zk vhostName serviceID = some err := by
    rintro ⟨node, rfl, hne⟩
    cases hc : CheckRunningVHost zk vhostName serviceID with
    | some err => exact ⟨err, rfl⟩
    | none =>
      rcases hiff.mp hc with h | ⟨node2, h, hid⟩
      · cases h
      · simp only [List.cons.injEq, and_true] at h
        exact absurd (h ▸ hid) hne
  refine ⟨hiff, hsingle, ?_, ?_⟩
  · intro hlen
    cases hc : CheckRunningVHost zk vhostName serviceID with
    | some err => exact ⟨err, rfl⟩
    | none =>
      rcases hiff.mp hc with h | ⟨node2, h, _⟩
      · rw [h] at hlen; simp at hlen
      · rw [h] at hlen; simp at hlen
  · intro env fuel st svc henv hrun hsid hdecl hother
    obtain ⟨err, herr⟩ := hsingle hother
    obtain ⟨ep, hep, hvh⟩ := hdecl
    unfold UpdateService
    rw [if_pos hrun]
    cases hv : env.validateServicesForStarting svc with
    | some e => exact ⟨e, rfl⟩
    | none =>
      simp only
      cases hf : firstVHostError env svc with
      | some e => exact ⟨e, rfl⟩
      | none =>
        exfalso
        unfold firstVHostError at hf
        rw [List.findSome?_eq_none_iff] at hf
        have hmem : vhostName ∈ (GetServiceVHosts svc).flatMap fun ep => ep.VHosts := by
          rw [List.mem_flatMap]
          refine ⟨ep, ?_, hvh⟩
          unfold GetServiceVHosts
          rw [List.mem_filter]
          refine ⟨hep, ?_⟩
          have : ep.VHosts ≠ [] := fun h => by rw [h] at hvh; cases hvh
          simpa using this
        have := hf vhostName hmem
        rw [henv, hsid, herr] at this
        cases this

/-- Witness for C20: the vhost `www` has a node of the service `other`, and the
start of `app`, which declares `www`, is refused with the state unchanged. -/
theorem CheckRunningVHost_conflict_witness :
    sampleVHosts.getVHostKeyChildren "www" = .ok [{ ServiceID := "other" }] ∧
    ∃ err : String,
      UpdateService { sampleEnv with checkRunningVHost := CheckRunningVHost sampleVHosts } 1
          { services := sampleStore } sampleVHostService
        = some (some err, { services := sampleStore }) :=
  ⟨rfl,
    (CheckRunningVHost_conflict sampleVHosts "www" "app" [{ ServiceID := "other" }] rfl rfl
      rfl).2.2.2 { sampleEnv with checkRunningVHost := CheckRunningVHost sampleVHosts } 1
      { services := sampleStore } sampleVHostService rfl rfl rfl
      ⟨{ Name := "http", VHosts := ["www"] }, by decide, by decide⟩
      ⟨{ ServiceID := "other" }, rfl, by decide⟩⟩

end Facade

/-! ## facade/service.go: `GetServiceEndpoints` -/

namespace Facade

theorem appendUnder_step (entry : Option (List Proxy.ApplicationEndpoint))
    (ep : Proxy.ApplicationEndpoint) (more : List Proxy.ApplicationEndpoint) :
    appendUnder (some (entry.getD [] ++ [ep])) more = appendUnder entry (ep :: more) := by
  cases entry with
  | none => simp [appendUnder]
  | some es => simp [appendUnder]

theorem get_after_append (result : GoMap (List Proxy.ApplicationEndpoint)) (key : String)
    (ep : Proxy.ApplicationEndpoint) (k : String) :
    GoMap.get
        ((if (result.get key).isNone then result.set key [] else result).set key
          (((if (result.get key).isNone then result.set key [] else result).get key).getD []
            ++ [ep])) k
      = if key = k then some ((result.get k).getD [] ++ [ep]) else result.get k := by
  by_cases hk : key = k
  · subst hk
    rw [GoMap.get_set_self, if_pos rfl]
    cases hg : result.get key with
    | none => simp [GoMap.get_set_self]
    | some es => simp [hg]
  · rw [GoMap.get_set_ne _ _ _ _ hk, if_neg hk]
    cases hg : result.get key with
    | none => simp [GoMap.get_set_ne _ _ _ _ hk]
    | some es => simp

theorem statesLoop_get (ec : EndpointCollaborators) (endpoint : ServiceEndpoint) (k : String) :
    ∀ (states : List ServiceState) (result : GoMap (List Proxy.ApplicationEndpoint)),
      (statesLoop ec endpoint states result).get k
        = appendUnder (result.get k)
            ((matchesOf ec endpoint states).filter fun e => endpointKey e = k) := by
  intro states
  induction states with
  | nil =>
    intro result
    cases hg : result.get k <;> simp [statesLoop, matchesOf, appendUnder, hg]
  | cons ss rest ih =>
    intro result
    rw [statesLoop]
    rcases hinfo : ec.getHostEndpointInfo ss (applicationPattern endpoint) with
      ⟨hostPort, containerPort, protocol, isMatch⟩
    cases isMatch with
    | false =>
      simp only
      rw [ih]
      have : matchesOf ec endpoint (ss :: rest) = matchesOf ec endpoint rest := by
        simp [matchesOf, hinfo]
      rw [this]
    | true =>
      simp only
      rw [ih, get_after_append]
      have hm : matchesOf ec endpoint (ss :: rest)
          = applicationEndpoint endpoint ss hostPort
              (if endpoint.PortNumber ≠ 0 then endpoint.PortNumber else containerPort)
              (if endpoint.Protocol ≠ "" then endpoint.Protocol else protocol)
            :: matchesOf ec endpoint rest := by
        simp [matchesOf, hinfo]
      rw [hm]
      by_cases hk : ((if endpoint.Protocol ≠ "" then endpoint.Protocol else protocol) ++ ":" ++
          toString (if endpoint.PortNumber ≠ 0 then endpoint.PortNumber else containerPort)) = k
      · rw [if_pos hk, appendUnder_step]
        rw [List.filter_cons_of_pos]
        simp only [endpointKey, applicationEndpoint, decide_eq_true_eq]
        exact hk
      · rw [if_neg hk]
        rw [List.filter_cons_of_neg]
        simp only [endpointKey, applicationEndpoint, decide_eq_true_eq]
        exact hk

theorem appendUnder_append (entry : Option (List Proxy.ApplicationEndpoint))
    (a b : List Proxy.ApplicationEndpoint) :
    appendUnder (appendUnder entry a) b = appendUnder entry (a ++ b) := by
  cases entry with
  | some es => simp [appendUnder]
  | none =>
    by_cases ha : a = []
    · simp [appendUnder, ha]
    · simp [appendUnder, ha]

theorem importsLoop_get (ec : EndpointCollaborators) (states : List ServiceState) (k : String) :
    ∀ (imports : List ServiceEndpoint) (result : GoMap (List Proxy.ApplicationEndpoint)),
      (importsLoop ec states imports result).get k
        = appendUnder (result.get k)
            ((matchedEndpoints ec imports states).filter fun e => endpointKey e = k) := by
  intro imports
  induction imports with
  | nil =>
    intro result
    cases hg : result.get k <;> simp [importsLoop, matchedEndpoints, appendUnder, hg]
  | cons endpoint rest ih =>
    intro result
    rw [importsLoop]
    cases hc : ec.compileError (applicationPattern endpoint) with
    | some e =>
      simp only
      rw [ih]
      have : matchedEndpoints ec (endpoint :: rest) states = matchedEndpoints ec rest states := by
        simp [matchedEndpoints, hc]
      rw [this]
    | none =>
      simp only
      rw [ih, statesLoop_get, appendUnder_append]
      have : matchedEndpoints ec (endpoint :: rest) states
          = matchesOf ec endpoint states ++ matchedEndpoints ec rest states := by
        simp [matchedEndpoints, hc]
      rw [this, List.filter_append]

theorem matchedEndpoints_mem (ec : EndpointCollaborators) (imports : List ServiceEndpoint)
    (states : List ServiceState) (e : Proxy.ApplicationEndpoint)
    (he : e ∈ matchedEndpoints ec imports states) :
    ∃ endpoint ∈ imports, ∃ ss ∈ states,
      ec.compileError (applicationPattern endpoint) = none ∧
      (ec.getHostEndpointInfo ss (applicationPattern endpoint)).2.2.2 = true ∧
      e.ContainerPort = (if endpoint.PortNumber ≠ 0 then endpoint.PortNumber
        else (ec.getHostEndpointInfo ss (applicationPattern endpoint)).2.1) ∧
      e.Protocol = (if endpoint.Protocol ≠ "" then endpoint.Protocol
        else (ec.getHostEndpointInfo ss (applicationPattern endpoint)).2.2.1) ∧
      e.Application = endpoint.Application ∧ e.ServiceID = ss.ServiceID := by
  unfold matchedEndpoints at he
  rw [List.mem_flatMap] at he
  obtain ⟨endpoint, hep, hin⟩ := he
  cases hc : ec.compileError (applicationPattern endpoint) with
  | some err => simp [hc] at hin
  | none =>
    simp only [hc, Option.isSome_none, Bool.false_eq_true, if_false] at hin
    unfold matchesOf at hin
    rw [List.mem_filterMap] at hin
    obtain ⟨ss, hss, hsome⟩ := hin
    by_cases hmatch : (ec.getHostEndpointInfo ss (applicationPattern endpoint)).2.2.2 = true
    · simp only [hmatch, if_true, Option.some.injEq] at hsome
      refine ⟨endpoint, hep, ss, hss, hc, hmatch, ?_⟩
      rw [← hsome]
      exact ⟨rfl, rfl, rfl, rfl⟩
    · simp [hmatch] at hsome

theorem product_cons_eq {α β : Type} (a : α) (l1 : List α) (l2 : List β) :
    List.product (a :: l1) l2 = l2.map (Prod.mk a) ++ List.product l1 l2 := by
  simp [List.product]

theorem matchesOf_eq_map (ec : EndpointCollaborators) (endpoint : ServiceEndpoint) :
    ∀ states : List ServiceState,
      matchesOf ec endpoint states
        = ((states.filter fun ss =>
              (ec.getHostEndpointInfo ss (applicationPattern endpoint)).2.2.2).map
            fun ss => endpointFor ec (endpoint, ss)) := by
  intro states
  induction states with
  | nil => rfl
  | cons ss rest ih =>
    have hstep : matchesOf ec endpoint (ss :: rest)
        = (if (ec.getHostEndpointInfo ss (applicationPattern endpoint)).2.2.2 = true
            then [endpointFor ec (endpoint, ss)] else []) ++ matchesOf ec endpoint rest := by
      by_cases hm : (ec.getHostEndpointInfo ss (applicationPattern endpoint)).2.2.2 = true
      · simp [matchesOf, endpointFor, hm]
      · simp [matchesOf, hm]
    rw [hstep, ih]
    by_cases hm : (ec.getHostEndpointInfo ss (applicationPattern endpoint)).2.2.2 = true
    · simp [hm, List.filter_cons]
    · simp [hm, List.filter_cons]

/-- The matched endpoints are one endpoint for every matching pair of an import
and a state, in the order of the pairs. -/
theorem matchedEndpoints_eq_pairs (ec : EndpointCollaborators) (states : List ServiceState) :
    ∀ imports : List ServiceEndpoint,
      matchedEndpoints ec imports states
        = (matchingPairs ec imports states).map (endpointFor ec) := by
  intro imports
  induction imports with
  | nil => rfl
  | cons endpoint rest ih =>
    unfold matchedEndpoints matchingPairs at ih ⊢
    rw [List.flatMap_cons, product_cons_eq, List.filter_append, List.map_append, ih]
    congr 1
    cases hc : ec.compileError (applicationPattern endpoint) with
    | some err =>
      have hnil : (states.map (Prod.mk endpoint)).filter (matchingPair ec) = [] := by
        rw [List.filter_eq_nil_iff]
        intro p hp
        rw [List.mem_map] at hp
        obtain ⟨ss, -, rfl⟩ := hp
        simp [matchingPair, hc]
      rw [hnil]
      simp
    | none =>
      simp only [Option.isSome_none, Bool.false_eq_true, if_false]
      rw [matchesOf_eq_map, List.filter_map, List.map_map]
      have hfun : (matchingPair ec ∘ Prod.mk endpoint)
          = fun ss => (ec.getHostEndpointInfo ss (applicationPattern endpoint)).2.2.2 := by
        funext ss
        simp [matchingPair, hc]
      rw [hfun]
      rfl

theorem matchingPairs_mem (ec : EndpointCollaborators) (imports : List ServiceEndpoint)
    (states : List ServiceState) (p : ServiceEndpoint × ServiceState) :
    p ∈ matchingPairs ec imports states ↔
      p.1 ∈ imports ∧ p.2 ∈ states ∧ ec.compileError (applicationPattern p.1) = none ∧
      (ec.getHostEndpointInfo p.2 (applicationPattern p.1)).2.2.2 = true := by
  unfold matchingPairs
  rw [List.mem_filter]
  have hprod : p ∈ List.product imports states ↔ p.1 ∈ imports ∧ p.2 ∈ states := by
    obtain ⟨a, b⟩ := p
    exact List.pair_mem_product
  rw [hprod]
  simp only [matchingPair, Bool.and_eq_true, Option.isNone_iff_eq_none]
  tauto

theorem emitted_set (k : String) (v : List Proxy.ApplicationEndpoint) :
    ∀ m : GoMap (List Proxy.ApplicationEndpoint),
      (emitted (m.set k v)).length + ((m.get k).getD []).length
        = (emitted m).length + v.length := by
  intro m
  induction m with
  | nil => simp [GoMap.set, GoMap.get, emitted]
  | cons entry rest ih =>
    obtain ⟨k2, v2⟩ := entry
    by_cases hk : k2 = k
    · simp only [GoMap.set, GoMap.get, if_pos hk, emitted, List.flatMap_cons, List.length_append,
        Option.getD_some]
      omega
    · simp only [GoMap.set, GoMap.get, if_neg hk, emitted, List.flatMap_cons, List.length_append]
      simp only [emitted] at ih
      omega

/-- The step of the inner loop for a match adds one endpoint to the map. -/
theorem emitted_after_append (result : GoMap (List Proxy.ApplicationEndpoint)) (key : String)
    (ep : Proxy.ApplicationEndpoint) :
    (emitted
        ((if (result.get key).isNone then result.set key [] else result).set key
          (((if (result.get key).isNone then result.set key [] else result).get key).getD []
            ++ [ep]))).length
      = (emitted result).length + 1 := by
  cases hg : result.get key with
  | none =>
    simp only [Option.isNone_none, if_true, GoMap.get_set_self, Option.getD_some, List.nil_append]
    have h1 := emitted_set key [] result
    have h2 := emitted_set key [ep] (result.set key [])
    rw [hg] at h1
    rw [GoMap.get_set_self] at h2
    simp only [Option.getD_none, Option.getD_some, List.length_nil, List.length_singleton] at h1 h2
    omega
  | some es =>
    simp only [Option.isNone_some, Bool.false_eq_true, if_false, hg, Option.getD_some]
    have h1 := emitted_set key (es ++ [ep]) result
    rw [hg] at h1
    simp only [Option.getD_some, List.length_append, List.length_singleton] at h1
    omega

theorem statesLoop_emitted (ec : EndpointCollaborators) (endpoint : ServiceEndpoint) :
    ∀ (states : List ServiceState) (result : GoMap (List Proxy.ApplicationEndpoint)),
      (emitted (statesLoop ec endpoint states result)).length
        = (emitted result).length + (matchesOf ec endpoint states).length := by
  intro states
  induction states with
  | nil =>
    intro result
    simp [statesLoop, matchesOf]
  | cons ss rest ih =>
    intro result
    rw [statesLoop]
    rcases hinfo : ec.getHostEndpointInfo ss (applicationPattern endpoint) with
      ⟨hostPort, containerPort, protocol, isMatch⟩
    cases isMatch with
    | false =>
      simp only
      rw [ih]
      have : matchesOf ec endpoint (ss :: rest) = matchesOf ec endpoint rest := by
        simp [matchesOf, hinfo]
      rw [this]
    | true =>
      simp only
      rw [ih, emitted_after_append]
      have hm : (matchesOf ec endpoint (ss :: rest)).length
          = (matchesOf ec endpoint rest).length + 1 := by
        simp [matchesOf, hinfo]
      rw [hm]
      omega

theorem importsLoop_emitted (ec : EndpointCollaborators) (states : List ServiceState) :
    ∀ (imports : List ServiceEndpoint) (result : GoMap (List Proxy.ApplicationEndpoint)),
      (emitted (importsLoop ec states imports result)).length
        = (emitted result).length + (matchedEndpoints ec imports states).length := by
  intro imports
  induction imports with
  | nil =>
    intro result
    simp [importsLoop, matchedEndpoints]
  | cons endpoint rest ih =>
    intro result
    rw [importsLoop]
    cases hc : ec.compileError (applicationPattern endpoint) with
    | some e =>
      simp only
      rw [ih]
      have : matchedEndpoints ec (endpoint :: rest) states = matchedEndpoints ec rest states := by
        simp [matchedEndpoints, hc]
      rw [this]
    | none =>
      simp only
      rw [ih, statesLoop_emitted]
      have : matchedEndpoints ec (endpoint :: rest) states
          = matchesOf ec endpoint states ++ matchedEndpoints ec rest states := by
        simp [matchedEndpoints, hc]
      rw [this, List.length_append]
      omega

/-- The map the two loops build from the empty map: under every key the endpoints
of the matching pairs with that key, and as many endpoints as matching pairs. -/
theorem importsLoop_result (ec : EndpointCollaborators) (states : List ServiceState)
    (imports : List ServiceEndpoint) :
    (∀ k : String, (importsLoop ec states imports []).get k
      = endpointsUnder ((matchingPairs ec imports states).map (endpointFor ec)) k) ∧
    (emitted (importsLoop ec states imports [])).length
      = (matchingPairs ec imports states).length := by
  constructor
  · intro k
    rw [importsLoop_get, matchedEndpoints_eq_pairs]
    rfl
  · rw [importsLoop_emitted, matchedEndpoints_eq_pairs, List.length_map]
    simp [emitted]

theorem endpointsUnder_keyed (all : List Proxy.ApplicationEndpoint) (k : String)
    (es : List Proxy.ApplicationEndpoint) (e : Proxy.ApplicationEndpoint)
    (hk : endpointsUnder all k = some es) (he : e ∈ es) :
    k = e.Protocol ++ ":" ++ toString e.ContainerPort := by
  unfold endpointsUnder at hk
  split at hk
  · cases hk
  · simp only [Option.some.injEq] at hk
    rw [← hk, List.mem_filter] at he
    have := he.2
    simp only [endpointKey, decide_eq_true_eq] at this
    exact this.symm

/-- What `GetServiceEndpoints` returns, by the way it is left. -/
theorem GetServiceEndpoints_returns (ec : EndpointCollaborators) (fuel : Nat) (st : FacadeState)
    (serviceId : String) (result : GoMap (List Proxy.ApplicationEndpoint)) (err : Option String)
    (h : GetServiceEndpoints ec fuel st serviceId = some (.ok (result, err))) :
    (∃ e : String, err = some e ∧ result = []) ∨
    (err = none ∧ ∃ myService : Service, getService st.services serviceId = .ok myService ∧
      ((GetServiceImports myService = [] ∧ result = []) ∨
        (GetServiceImports myService ≠ [] ∧
          ∃ (servicesMap : GoMap treenode) (topService : treenode)
            (relatedServiceIDs : List String) (states : List ServiceState),
            getServiceTree fuel serviceId st.services = some (.ok (servicesMap, topService)) ∧
            walkTree servicesMap fuel topService = some relatedServiceIDs ∧
            ec.getSvcStates myService.PoolID relatedServiceIDs = .ok states ∧
            result = importsLoop ec states (GetServiceImports myService) []))) := by
  unfold GetServiceEndpoints at h
  split at h
  · simp only [Option.some.injEq, Except.ok.injEq, Prod.mk.injEq] at h
    exact Or.inl ⟨_, h.2.symm, h.1.symm⟩
  · rename_i myService hget
    simp only at h
    split at h
    · rename_i hlen
      have hne : GetServiceImports myService ≠ [] := by
        intro hnil
        rw [hnil] at hlen
        exact absurd hlen (by decide)
      split at h
      · simp only [Option.some.injEq, Except.ok.injEq, Prod.mk.injEq] at h
        exact Or.inl ⟨_, h.2.symm, h.1.symm⟩
      · split at h
        · cases h
        · simp at h
        · rename_i servicesMap topService htree
          split at h
          · cases h
          · rename_i relatedServiceIDs hwalk
            split at h
            · simp only [Option.some.injEq, Except.ok.injEq, Prod.mk.injEq] at h
              exact Or.inl ⟨_, h.2.symm, h.1.symm⟩
            · rename_i states hstates
              simp only [Option.some.injEq, Except.ok.injEq, Prod.mk.injEq] at h
              exact Or.inr ⟨h.2.symm, myService, hget, Or.inr ⟨hne, servicesMap, topService,
                relatedServiceIDs, states, htree, hwalk, hstates, h.1.symm⟩⟩
    · rename_i hlen
      simp only [Option.some.injEq, Except.ok.injEq, Prod.mk.injEq] at h
      refine Or.inr ⟨h.2.symm, myService, hget, Or.inl ⟨?_, h.1.symm⟩⟩
      cases himp : GetServiceImports myService with
      | nil => rfl
      | cons a l =>
        rw [himp] at hlen
        exact absurd (Nat.succ_pos _) hlen

/-- C19.  `GetServiceEndpoints` keys its result by `<protocol>:<containerPort>`:
in every map it returns, every endpoint `e` stored under a key `k` has
`k = e.Protocol ++ ":" ++ decimal(e.ContainerPort)`.  For a service without an
endpoint of purpose import it returns the empty map and no error.  For a
service with such endpoints, when the services are listed, the tree is built and
walked and the states are read, it returns with no error the map that holds
exactly one endpoint for every pair of an import and a state that match (the
pattern of the import compiles and the state has a matching export): under
every key the endpoints of the matching pairs with that key, in their order, no
entry for a key without such an endpoint, and as many endpoints in all as there
are matching pairs.  The map returned is empty only on the ways out with an
error, for a service without imports, and when that map of the matching pairs
is.  The container port and the protocol of the endpoint of a pair are those of
the import when they are not zero and not empty, and those of the matched
export otherwise. -/
theorem GetServiceEndpoints_keyed (ec : EndpointCollaborators) (fuel : Nat) (st : FacadeState)
    (serviceId : String) :
    (∀ (result : GoMap (List Proxy.ApplicationEndpoint)) (err : Option String),
      GetServiceEndpoints ec fuel st serviceId = some (.ok (result, err)) →
      ∀ (k : String) (es : List Proxy.ApplicationEndpoint) (e : Proxy.ApplicationEndpoint),
        result.get k = some es → e ∈ es →
        k = e.Protocol ++ ":" ++ toString e.ContainerPort) ∧
    (∀ myService : Service, getService st.services serviceId = .ok myService →
      GetServiceImports myService = [] →
      GetServiceEndpoints ec fuel st serviceId = some (.ok ([], none))) ∧
    (∀ (myService : Service) (servicesMap : GoMap treenode) (topService : treenode)
      (relatedServiceIDs : List String) (states : List ServiceState),
      getService st.services serviceId = .ok myService →
      GetServiceImports myService ≠ [] →
      ec.getServicesError = none →
      getServiceTree fuel serviceId st.services = some (.ok (servicesMap, topService)) →
      walkTree servicesMap fuel topService = some relatedServiceIDs →
      ec.getSvcStates myService.PoolID relatedServiceIDs = .ok states →
      ∃ result : GoMap (List Proxy.ApplicationEndpoint),
        GetServiceEndpoints ec fuel st serviceId = some (.ok (result, none)) ∧
        (∀ k : String, result.get k
          = endpointsUnder
              ((matchingPairs ec (GetServiceImports myService) states).map (endpointFor ec)) k) ∧
        (emitted result).length
          = (matchingPairs ec (GetServiceImports myService) states).length) ∧
    (∀ (result : GoMap (List Proxy.ApplicationEndpoint)) (err : Option String),
      GetServiceEndpoints ec fuel st serviceId = some (.ok (result, err)) →
      (∃ e : String, err = some e ∧ result = []) ∨
      (err = none ∧ ∃ myService : Service, getService st.services serviceId = .ok myService ∧
        ((GetServiceImports myService = [] ∧ result = []) ∨
          (GetServiceImports myService ≠ [] ∧
            ∃ (servicesMap : GoMap treenode) (topService : treenode)
              (relatedServiceIDs : List String) (states : List ServiceState),
              getServiceTree fuel serviceId st.services = some (.ok (servicesMap, topService)) ∧
              walkTree servicesMap fuel topService = some relatedServiceIDs ∧
              ec.getSvcStates myService.PoolID relatedServiceIDs = .ok states ∧
              (∀ k : String, result.get k
                = endpointsUnder
                    ((matchingPairs ec (GetServiceImports myService) states).map
                      (endpointFor ec)) k) ∧
              (emitted result).length
                = (matchingPairs ec (GetServiceImports myService) states).length)))) ∧
    (∀ (imports : List ServiceEndpoint) (states : List ServiceState)
      (p : ServiceEndpoint × ServiceState),
      p ∈ matchingPairs ec imports states ↔
        p.1 ∈ imports ∧ p.2 ∈ states ∧ ec.compileError (applicationPattern p.1) = none ∧
        (ec.getHostEndpointInfo p.2 (applicationPattern p.1)).2.2.2 = true) ∧
    (∀ p : ServiceEndpoint × ServiceState,
      (endpointFor ec p).ContainerPort = (if p.1.PortNumber ≠ 0 then p.1.PortNumber
        else (ec.getHostEndpointInfo p.2 (applicationPattern p.1)).2.1) ∧
      (endpointFor ec p).Protocol = (if p.1.Protocol ≠ "" then p.1.Protocol
        else (ec.getHostEndpointInfo p.2 (applicationPattern p.1)).2.2.1) ∧
      (endpointFor ec p).HostPort = (ec.getHostEndpointInfo p.2 (applicationPattern p.1)).1 ∧
      (endpointFor ec p).Application = p.1.Application ∧
      (endpointFor ec p).VirtualAddress = p.1.VirtualAddress ∧
      (endpointFor ec p).ServiceID = p.2.ServiceID ∧
      (endpointFor ec p).HostIP = p.2.HostIP ∧
      (endpointFor ec p).ContainerIP = p.2.PrivateIP ∧
      (endpointFor ec p).InstanceID = p.2.InstanceID) := by
  refine ⟨?_, ?_, ?_, ?_, fun imports states p => matchingPairs_mem ec imports states p,
    fun p => ⟨rfl, rfl, rfl, rfl, rfl, rfl, rfl, rfl, rfl⟩⟩
  · intro result err h k es e hk he
    rcases GetServiceEndpoints_returns ec fuel st serviceId result err h with
      ⟨_, -, hnil⟩ | ⟨-, myService, -, ⟨-, hnil⟩ | ⟨-, _, _, _, states, -, -, -, hres⟩⟩
    · rw [hnil] at hk
      cases hk
    · rw [hnil] at hk
      cases hk
    · rw [hres, (importsLoop_result ec states (GetServiceImports myService)).1 k] at hk
      exact endpointsUnder_keyed _ k es e hk he
  · intro myService hget himports
    unfold GetServiceEndpoints
    simp [hget, himports]
  · intro myService servicesMap topService relatedServiceIDs states hget himports hlist htree
      hwalk hstates
    have hlen : (GetServiceImports myService).length > 0 :=
      List.length_pos.mpr himports
    refine ⟨importsLoop ec states (GetServiceImports myService) [], ?_,
      (importsLoop_result ec states _).1, (importsLoop_result ec states _).2⟩
    unfold GetServiceEndpoints
    simp only [hget, hlen, if_true, hlist, htree, hwalk, hstates]
  · intro result err h
    rcases GetServiceEndpoints_returns ec fuel st serviceId result err h with
      herr | ⟨hnone, myService, hget, hempty | ⟨hne, servicesMap, topService, relatedServiceIDs,
        states, htree, hwalk, hstates, hres⟩⟩
    · exact Or.inl herr
    · exact Or.inr ⟨hnone, myService, hget, Or.inl hempty⟩
    · refine Or.inr ⟨hnone, myService, hget, Or.inr ⟨hne, servicesMap, topService,
        relatedServiceIDs, states, htree, hwalk, hstates, ?_, ?_⟩⟩
      · rw [hres]
        exact (importsLoop_result ec states _).1
      · rw [hres]
        exact (importsLoop_result ec states _).2

/-- Witness for C19: the sample client imports `mysql` without a port of its own,
an application whose pattern does not compile, and `redis` on port 6380 over
udp; of the two states one exports `mysql` on port 3306 over tcp and the other
`redis` on port 6379 over tcp.  Two pairs match, and two endpoints are returned,
under the keys `tcp:3306` and `udp:6380`. -/
theorem GetServiceEndpoints_keyed_witness :
    GetServiceEndpoints sampleExports 2 { services := [sampleClient] } "web"
      = some (.ok (sampleClientEndpoints, none)) ∧
    (emitted sampleClientEndpoints).length = 2 ∧
    ∃ (states : List ServiceState) (result : GoMap (List Proxy.ApplicationEndpoint)),
      GetServiceEndpoints sampleExports 2 { services := [sampleClient] } "web"
        = some (.ok (result, none)) ∧
      (∀ k : String, result.get k
        = endpointsUnder
            ((matchingPairs sampleExports (GetServiceImports sampleClient) states).map
              (endpointFor sampleExports)) k) ∧
      (emitted result).length
        = (matchingPairs sampleExports (GetServiceImports sampleClient) states).length :=
  ⟨by rfl, by decide, _,
    (GetServiceEndpoints_keyed sampleExports 2 { services := [sampleClient] } "web").2.2.1
      sampleClient _ _ _ _ rfl (by decide) rfl rfl rfl rfl⟩

end Facade

/-! ## zzk/service/host.go: `addInstance` -/

namespace GoMap

theorem delete_set_of_get_none {α : Type} (k : String) (v : α) :
    ∀ m : GoMap α, m.get k = none → (m.set k v).delete k = m := by
  intro m
  induction m with
  | nil => intro _; simp [set, delete]
  | cons kv rest ih =>
    obtain ⟨k2, v2⟩ := kv
    intro h
    by_cases hk : k2 = k
    · simp [get, hk] at h
    · simp only [get, if_neg hk] at h
      simp only [set, if_neg hk, delete, ih h]

end GoMap

namespace Zzk

/-- A create that fails leaves the nodes as they are. -/
theorem Conn.Create_fails (faults : Faults) (conn : Conn) (path : String) (node : Node)
    (err : String) (h : (conn.Create faults path node).1 = some err) :
    conn.Create faults path node
      = (some err, { conn with calls := conn.calls ++ [.create path node] }) := by
  unfold Conn.Create at h ⊢
  cases hf : faults.create path with
  | some e => simp only [hf] at h ⊢; simp only [Option.some.injEq] at h; rw [h]
  | none =>
    simp only [hf] at h ⊢
    cases hg : conn.nodes.get path with
    | some n => simp only [hg] at h ⊢; simp only [Option.some.injEq] at h; rw [h]
    | none => simp [hg] at h

/-- A create that succeeds adds the node under a path that held none. -/
theorem Conn.Create_ok (faults : Faults) (conn : Conn) (path : String) (node : Node)
    (h : (conn.Create faults path node).1 = none) :
    conn.nodes.get path = none ∧
    conn.Create faults path node
      = (none, { nodes := conn.nodes.set path node,
                 calls := conn.calls ++ [.create path node] }) := by
  unfold Conn.Create at h ⊢
  cases hf : faults.create path with
  | some e => simp [hf] at h
  | none =>
    simp only [hf] at h ⊢
    cases hg : conn.nodes.get path with
    | some n => simp [hg] at h
    | none => exact ⟨rfl, rfl⟩

/-- The nodes after the delete of a node that is stored. -/
theorem Conn.Delete_nodes (faults : Faults) (conn : Conn) (path : String) (node : Node)
    (hf : faults.delete path = none) (hg : conn.nodes.get path = some node) :
    conn.Delete faults path
      = (none, { nodes := conn.nodes.delete path, calls := conn.calls ++ [.delete path] }) := by
  unfold Conn.Delete
  simp only [hf, hg]

theorem Conn.Delete_calls (faults : Faults) (conn : Conn) (path : String) :
    (conn.Delete faults path).2.calls = conn.calls ++ [.delete path] := by
  unfold Conn.Delete
  cases faults.delete path with
  | some e => rfl
  | none => cases conn.nodes.get path <;> rfl

/-- `addInstance` when the first create fails: the error is returned and only that
call was made. -/
theorem addInstance_first_fails (faults : Faults) (conn : Conn) (state : ServiceState)
    (hid : state.Id ≠ "") (hsid : state.ServiceID ≠ "") (err : String)
    (h : (conn.Create faults (servicepath [state.ServiceID, state.Id])
            (.serviceState state)).1 = some err) :
    addInstance faults conn state
      = (some err, { conn with
          calls := conn.calls ++
            [.create (servicepath [state.ServiceID, state.Id]) (.serviceState state)] }) := by
  unfold addInstance
  rw [if_neg hid, if_neg hsid]
  simp only [Conn.Create_fails faults conn _ _ err h]

/-- `addInstance` when the second create fails: the error is returned after the
delete of the node created first, which is gone unless that delete fails. -/
theorem addInstance_second_fails (faults : Faults) (conn : Conn) (state : ServiceState)
    (hid : state.Id ≠ "") (hsid : state.ServiceID ≠ "") (err : String)
    (h1 : (conn.Create faults (servicepath [state.ServiceID, state.Id])
            (.serviceState state)).1 = none)
    (h2 : ((conn.Create faults (servicepath [state.ServiceID, state.Id])
            (.serviceState state)).2.Create faults (hostpath [state.HostID, state.Id])
            (.hostState (NewHostState state))).1 = some err) :
    (addInstance faults conn state).1 = some err ∧
    (addInstance faults conn state).2.calls = conn.calls ++
      [.create (servicepath [state.ServiceID, state.Id]) (.serviceState state),
       .create (hostpath [state.HostID, state.Id]) (.hostState (NewHostState state)),
       .delete (servicepath [state.ServiceID, state.Id])] ∧
    (faults.delete (servicepath [state.ServiceID, state.Id]) = none →
      (addInstance faults conn state).2.nodes = conn.nodes) := by
  obtain ⟨hnone, hc1⟩ := Conn.Create_ok faults conn _ _ h1
  rw [hc1] at h2
  have hc2 := Conn.Create_fails faults _ _ _ err h2
  unfold addInstance
  rw [if_neg hid, if_neg hsid]
  simp only [hc1, hc2]
  refine ⟨trivial, ?_, ?_⟩
  · rw [Conn.Delete_calls]
    simp
  · intro hf
    rw [Conn.Delete_nodes faults _ _ (.serviceState state) hf (GoMap.get_set_self _ _ _)]
    exact GoMap.delete_set_of_get_none _ _ _ hnone

/-- `addInstance` when both creates succeed. -/
theorem addInstance_ok (faults : Faults) (conn : Conn) (state : ServiceState)
    (h : (addInstance faults conn state).1 = none) :
    state.Id ≠ "" ∧ state.ServiceID ≠ "" ∧
    conn.nodes.get (servicepath [state.ServiceID, state.Id]) = none ∧
    conn.nodes.get (hostpath [state.HostID, state.Id]) = none ∧
    hostpath [state.HostID, state.Id] ≠ servicepath [state.ServiceID, state.Id] ∧
    addInstance faults conn state
      = (none,
         { nodes := (conn.nodes.set (servicepath [state.ServiceID, state.Id])
                      (.serviceState state)).set (hostpath [state.HostID, state.Id])
                      (.hostState (NewHostState state)),
           calls := conn.calls ++
             [.create (servicepath [state.ServiceID, state.Id]) (.serviceState state),
              .create (hostpath [state.HostID, state.Id])
                (.hostState (NewHostState state))] }) := by
  unfold addInstance at h
  by_cases hid : state.Id = ""
  · simp [hid] at h
  by_cases hsid : state.ServiceID = ""
  · simp [hid, hsid] at h
  rw [if_neg hid, if_neg hsid] at h
  cases h1 : (conn.Create faults (servicepath [state.ServiceID, state.Id])
      (.serviceState state)).1 with
  | some err =>
    simp only [Conn.Create_fails faults conn _ _ err h1] at h
    cases h
  | none =>
    obtain ⟨hnone, hc1⟩ := Conn.Create_ok faults conn _ _ h1
    simp only [hc1] at h
    cases h2 : (Conn.Create faults
        { nodes := conn.nodes.set (servicepath [state.ServiceID, state.Id])
            (.serviceState state),
          calls := conn.calls ++
            [.create (servicepath [state.ServiceID, state.Id]) (.serviceState state)] }
        (hostpath [state.HostID, state.Id]) (.hostState (NewHostState state))).1 with
    | some err =>
      simp only [Conn.Create_fails faults _ _ _ err h2] at h
      cases h
    | none =>
      obtain ⟨hnone2, hc2⟩ := Conn.Create_ok faults _ _ _ h2
      have hne : hostpath [state.HostID, state.Id] ≠ servicepath [state.ServiceID, state.Id] := by
        intro heq
        simp only at hnone2
        rw [heq, GoMap.get_set_self] at hnone2
        cases hnone2
      refine ⟨hid, hsid, hnone, ?_, hne, ?_⟩
      · simp only at hnone2
        rw [GoMap.get_set_ne _ _ _ _ (Ne.symm hne)] at hnone2
        exact hnone2
      · unfold addInstance
        rw [if_neg hid, if_neg hsid]
        simp only [hc1, hc2, List.append_assoc, List.singleton_append]

/-- A failed `addInstance` whose clean-up does not fail leaves the nodes as they
were. -/
theorem addInstance_failed_nodes (faults : Faults) (conn : Conn) (state : ServiceState)
    (err : String) (h : (addInstance faults conn state).1 = some err)
    (hf : faults.delete (servicepath [state.ServiceID, state.Id]) = none) :
    (addInstance faults conn state).2.nodes = conn.nodes := by
  by_cases hid : state.Id = ""
  · simp [addInstance, hid]
  by_cases hsid : state.ServiceID = ""
  · simp [addInstance, hid, hsid]
  cases h1 : (conn.Create faults (servicepath [state.ServiceID, state.Id])
      (.serviceState state)).1 with
  | some e => rw [addInstance_first_fails faults conn state hid hsid e h1]
  | none =>
    cases h2 : ((conn.Create faults (servicepath [state.ServiceID, state.Id])
        (.serviceState state)).2.Create faults (hostpath [state.HostID, state.Id])
        (.hostState (NewHostState state))).1 with
    | some e => exact (addInstance_second_fails faults conn state hid hsid e h1 h2).2.2 hf
    | none =>
      exfalso
      obtain ⟨-, hc1⟩ := Conn.Create_ok faults conn _ _ h1
      rw [hc1] at h2
      obtain ⟨-, hc2⟩ := Conn.Create_ok faults _ _ _ h2
      unfold addInstance at h
      rw [if_neg hid, if_neg hsid] at h
      simp [hc1, hc2] at h

/-- C21 (amended).  `addInstance` creates the pair of nodes atomically, a failed
call leaving the store as it found it.  For a state with an
id and a service id, the first call on the connection is the create of the
service-state node at `servicepath(ServiceID, Id)`.  When that create fails, its
error is returned, no other call is made and the nodes are as before.  When it
succeeds and the create of the host-state node at `hostpath(HostID, Id)` fails,
that error is returned after the delete of the service-state node, and unless
that delete fails the nodes are as before.  So after any failed `addInstance`
whose clean-up delete does not fail the nodes are as they were, and the store
holds neither node when it held neither before.  After a successful one the calls
made are the two creates in that order, and the store holds both nodes, the
host-state node with `DesiredState = SVCRun` and the state's `HostID`,
`ServiceID` and `Id`. -/
theorem addInstance_creates_pair_atomically (faults : Faults) (conn : Conn)
    (state : ServiceState) :
    (state.Id ≠ "" → state.ServiceID ≠ "" →
      (∀ err : String,
        (conn.Create faults (servicepath [state.ServiceID, state.Id])
          (.serviceState state)).1 = some err →
        addInstance faults conn state
          = (some err, { conn with
              calls := conn.calls ++
                [.create (servicepath [state.ServiceID, state.Id]) (.serviceState state)] })) ∧
      (∀ err : String,
        (conn.Create faults (servicepath [state.ServiceID, state.Id])
          (.serviceState state)).1 = none →
        ((conn.Create faults (servicepath [state.ServiceID, state.Id])
          (.serviceState state)).2.Create faults (hostpath [state.HostID, state.Id])
          (.hostState (NewHostState state))).1 = some err →
        (addInstance faults conn state).1 = some err ∧
        (addInstance faults conn state).2.calls = conn.calls ++
          [.create (servicepath [state.ServiceID, state.Id]) (.serviceState state),
           .create (hostpath [state.HostID, state.Id]) (.hostState (NewHostState state)),
           .delete (servicepath [state.ServiceID, state.Id])] ∧
        (faults.delete (servicepath [state.ServiceID, state.Id]) = none →
          (addInstance faults conn state).2.nodes = conn.nodes))) ∧
    (∀ err : String, (addInstance faults conn state).1 = some err →
      faults.delete (servicepath [state.ServiceID, state.Id]) = none →
      (addInstance faults conn state).2.nodes = conn.nodes ∧
      (conn.nodes.get (servicepath [state.ServiceID, state.Id]) = none →
        conn.nodes.get (hostpath [state.HostID, state.Id]) = none →
        (addInstance faults conn state).2.nodes.get
            (servicepath [state.ServiceID, state.Id]) = none ∧
        (addInstance faults conn state).2.nodes.get
            (hostpath [state.HostID, state.Id]) = none)) ∧
    ((addInstance faults conn state).1 = none →
      (addInstance faults conn state).2.calls = conn.calls ++
        [.create (servicepath [state.ServiceID, state.Id]) (.serviceState state),
         .create (hostpath [state.HostID, state.Id]) (.hostState (NewHostState state))] ∧
      (addInstance faults conn state).2.nodes.get (servicepath [state.ServiceID, state.Id])
        = some (.serviceState state) ∧
      (addInstance faults conn state).2.nodes.get (hostpath [state.HostID, state.Id])
        = some (.hostState { HostID := state.HostID, ServiceID := state.ServiceID,
                             ServiceStateID := state.Id, DesiredState := SVCRun })) := by
  refine ⟨fun hid hsid => ⟨fun err h => addInstance_first_fails faults conn state hid hsid err h,
    fun err h1 h2 => addInstance_second_fails faults conn state hid hsid err h1 h2⟩, ?_, ?_⟩
  · intro err h hf
    have hn := addInstance_failed_nodes faults conn state err h hf
    refine ⟨hn, fun hs hh => ?_⟩
    rw [hn]
    exact ⟨hs, hh⟩
  · intro h
    obtain ⟨-, -, -, -, hne, heq⟩ := addInstance_ok faults conn state h
    rw [heq]
    refine ⟨rfl, ?_, ?_⟩
    · simp only
      rw [GoMap.get_set_ne _ _ _ _ hne, GoMap.get_set_self]
    · simp only
      rw [GoMap.get_set_self]
      rfl

end Zzk
namespace Zzk

/-- Witness for C21 (amended): on the empty store the sample instance is added, and both
nodes are stored; when the create of the host-state node fails, the error is
returned and the store is empty again. -/
theorem addInstance_creates_pair_atomically_witness :
    ((addInstance {} {} sampleState).2.calls =
        [.create "/services/svc/s1" (.serviceState sampleState),
         .create "/hosts/h1/s1" (.hostState (NewHostState sampleState))] ∧
      (addInstance {} {} sampleState).2.nodes.get "/services/svc/s1"
        = some (.serviceState sampleState) ∧
      (addInstance {} {} sampleState).2.nodes.get "/hosts/h1/s1"
        = some (.hostState { HostID := "h1", ServiceID := "svc", ServiceStateID := "s1",
                             DesiredState := SVCRun })) ∧
    (addInstance sampleFaults {} sampleState).1 = some "session lost" ∧
    (addInstance sampleFaults {} sampleState).2.nodes = [] :=
  ⟨(addInstance_creates_pair_atomically {} {} sampleState).2.2 (by decide),
   by decide,
   ((addInstance_creates_pair_atomically sampleFaults {} sampleState).2.1 "session lost"
      (by decide) (by decide)).1⟩

/-- C22 (as stated, refuted).  On a store that already holds the host-state node of
the sample instance, the create of the service-state node succeeds, the create
of the host-state node fails because the node exists, and `addInstance` returns
that error; the service-state node is not kept. -/
theorem addInstance_existing_host_state_is_an_error :
    sampleRetry.nodes.get (hostpath [sampleState.HostID, sampleState.Id])
      = some (.hostState (NewHostState sampleState)) ∧
    (sampleRetry.Create {} (servicepath [sampleState.ServiceID, sampleState.Id])
      (.serviceState sampleState)).1 = none ∧
    ((sampleRetry.Create {} (servicepath [sampleState.ServiceID, sampleState.Id])
      (.serviceState sampleState)).2.Create {} (hostpath [sampleState.HostID, sampleState.Id])
      (.hostState (NewHostState sampleState))).1 = some ErrNodeExists ∧
    (addInstance {} sampleRetry sampleState).1 = some ErrNodeExists ∧
    (addInstance {} sampleRetry sampleState).2.nodes.get
      (servicepath [sampleState.ServiceID, sampleState.Id]) = none := by
  decide

/-- C22 (amended).  `addInstance` has no case for a host-state node that already
exists.  When the service-state node is created and the create of the host-state
node fails because that path already holds a node, the already-exists error is
returned like any other, after the delete of the service-state node just
created; unless that delete fails the nodes are as before, so the service-state
node is not kept. -/
theorem addInstance_rolls_back_on_existing_host_state (faults : Faults) (conn : Conn)
    (state : ServiceState) (old : Node)
    (hid : state.Id ≠ "") (hsid : state.ServiceID ≠ "")
    (hfirst : (conn.Create faults (servicepath [state.ServiceID, state.Id])
      (.serviceState state)).1 = none)
    (hfault : faults.create (hostpath [state.HostID, state.Id]) = none)
    (hold : conn.nodes.get (hostpath [state.HostID, state.Id]) = some old) :
    (addInstance faults conn state).1 = some ErrNodeExists ∧
    (addInstance faults conn state).2.calls = conn.calls ++
      [.create (servicepath [state.ServiceID, state.Id]) (.serviceState state),
       .create (hostpath [state.HostID, state.Id]) (.hostState (NewHostState state)),
       .delete (servicepath [state.ServiceID, state.Id])] ∧
    (faults.delete (servicepath [state.ServiceID, state.Id]) = none →
      (addInstance faults conn state).2.nodes = conn.nodes ∧
      (addInstance faults conn state).2.nodes.get
        (servicepath [state.ServiceID, state.Id]) = none) := by
  obtain ⟨hnone, hc1⟩ := Conn.Create_ok faults conn _ _ hfirst
  have hne : servicepath [state.ServiceID, state.Id] ≠ hostpath [state.HostID, state.Id] := by
    intro heq
    rw [heq, hold] at hnone
    cases hnone
  have h2 : ((conn.Create faults (servicepath [state.ServiceID, state.Id])
      (.serviceState state)).2.Create faults (hostpath [state.HostID, state.Id])
      (.hostState (NewHostState state))).1 = some ErrNodeExists := by
    rw [hc1]
    unfold Conn.Create
    simp only [hfault, GoMap.get_set_ne _ _ _ _ hne, hold]
  obtain ⟨h1, hcalls, hnodes⟩ :=
    addInstance_second_fails faults conn state hid hsid ErrNodeExists hfirst h2
  refine ⟨h1, hcalls, fun hf => ⟨hnodes hf, ?_⟩⟩
  rw [hnodes hf]
  exact hnone

/-- Witness for the amended C22: the sample instance on the store that holds its
host-state node. -/
theorem addInstance_rolls_back_on_existing_host_state_witness :
    (addInstance {} sampleRetry sampleState).1 = some ErrNodeExists ∧
    (addInstance {} sampleRetry sampleState).2.nodes = sampleRetry.nodes :=
  ⟨(addInstance_rolls_back_on_existing_host_state {} sampleRetry sampleState
      (.hostState (NewHostState sampleState)) (by decide) (by decide) (by decide) rfl
      (by decide)).1,
   ((addInstance_rolls_back_on_existing_host_state {} sampleRetry sampleState
      (.hostState (NewHostState sampleState)) (by decide) (by decide) (by decide) rfl
      (by decide)).2.2 rfl).1⟩

end Zzk
/-! ## zzk/service/host.go: `listenHostState` -/

namespace Zzk

theorem Conn.read_calls (faults : Faults) (nodes : GoMap Node) (calls calls2 : List ConnCall)
    (path : String) :
    Conn.read faults { nodes := nodes, calls := calls } path
      = Conn.read faults { nodes := nodes, calls := calls2 } path := rfl

/-- The switch on the desired state that a pass of `listenHostState` comes to
once the three nodes are loaded. -/
theorem pass_loaded (faults : Faults) (handler : HostHandler) (hostID ssID : String)
    (l : Listener) (hs : HostState) (state : ServiceState) (svc : Service)
    (hload : Loaded faults l.conn hostID ssID hs state svc) :
    pass faults handler hostID ssID l =
      if hs.DesiredState = SVCRun then
        if state.Started ≤ state.Terminated then
          match startInstance faults handler (l.loaded hostID ssID hs) svc state with
          | ((_, some _), state1, l4) =>
            some (.returned, (stopInstance faults handler l4 state1).2)
          | ((processDone, none), state1, l4) =>
            some (.selecting state1, { l4 with processDone := processDone })
        else if l.processDone = none then
          match attachInstance faults handler (l.loaded hostID ssID hs) svc state with
          | ((_, some _), state1, l4) =>
            some (.returned, (stopInstance faults handler l4 state1).2)
          | ((processDone, none), state1, l4) =>
            some (.selecting state1, { l4 with processDone := processDone })
        else some (.selecting state, l.loaded hostID ssID hs)
      else if hs.DesiredState = SVCStop then
        match l.processDone with
        | some done =>
          match detachInstance faults handler (l.loaded hostID ssID hs) done state with
          | none => none
          | some (_, l4) => some (.returned, l4)
        | none => some (.returned, (stopInstance faults handler (l.loaded hostID ssID hs) state).2)
      else some (.selecting state, l.loaded hostID ssID hs) := by
  obtain ⟨h1, h2, h3, h4, h5⟩ := hload
  have h4a : ∀ calls, Conn.read faults { nodes := l.conn.nodes, calls := calls }
      (servicepath [hs.ServiceID, hs.ServiceStateID]) = .ok (.serviceState state) :=
    fun calls => h4
  have h5a : ∀ calls, Conn.read faults { nodes := l.conn.nodes, calls := calls }
      (servicepath [hs.ServiceID]) = .ok (.service svc) :=
    fun calls => h5
  unfold pass
  simp only [Conn.GetWHostState, h1, Conn.GetServiceState, Conn.GetService, h2, h3, h4a, h5a,
    or_self, if_false, Listener.loaded, List.append_assoc, List.singleton_append,
    List.cons_append, List.nil_append]

end Zzk
namespace Zzk

/-- Whether `updateInstance` fails depends on the nodes only. -/
theorem updateInstance_error (faults : Faults) (nodes : GoMap Node) (calls calls2 : List ConnCall)
    (state : ServiceState) :
    (updateInstance faults { nodes := nodes, calls := calls } state).1
      = (updateInstance faults { nodes := nodes, calls := calls2 } state).1 := by
  unfold updateInstance Conn.Set
  cases faults.set (servicepath [state.ServiceID, state.Id]) with
  | some e => rfl
  | none =>
    cases nodes.get (servicepath [state.ServiceID, state.Id]) <;> rfl

/-- The steps of `stopInstance`: the one call of `StopService`. -/
theorem stopInstance_actions (faults : Faults) (handler : HostHandler) (l : Listener)
    (state : ServiceState) :
    (stopInstance faults handler l state).2.actions = l.actions ++ [.stopService state] := by
  unfold stopInstance
  cases h : handler.StopService state with
  | mk err state1 =>
    cases err with
    | some e => rfl
    | none => rfl

/-- `startInstance` when `StartService` or the update that follows it fails. -/
theorem startInstance_fails (faults : Faults) (handler : HostHandler) (l : Listener)
    (svc : Service) (state : ServiceState)
    (h : (handler.StartService svc state).1 ≠ none ∨
      (updateInstance faults l.conn (handler.StartService svc state).2).1 ≠ none) :
    ∃ (err : String) (l1 : Listener),
      startInstance faults handler l svc state
        = ((none, some err), (handler.StartService svc state).2, l1) ∧
      l1.actions = l.actions ++ [.startService svc state l.chans] := by
  unfold startInstance
  cases hs : handler.StartService svc state with
  | mk err state1 =>
    rw [hs] at h
    cases err with
    | some e => exact ⟨e, _, rfl, rfl⟩
    | none =>
      simp only [ne_eq, not_true_eq_false, false_or] at h
      simp only
      cases hu : updateInstance faults l.conn state1 with
      | mk uerr conn1 =>
        rw [hu] at h
        cases uerr with
        | some e => exact ⟨e, _, rfl, rfl⟩
        | none => exact absurd rfl h

/-- `startInstance` when `StartService` and the update succeed. -/
theorem startInstance_ok (faults : Faults) (handler : HostHandler) (l : Listener)
    (svc : Service) (state : ServiceState)
    (h1 : (handler.StartService svc state).1 = none)
    (h2 : (updateInstance faults l.conn (handler.StartService svc state).2).1 = none) :
    ∃ l1 : Listener,
      startInstance faults handler l svc state
        = ((some l.chans, none), (handler.StartService svc state).2, l1) ∧
      l1.actions = l.actions ++ [.startService svc state l.chans] := by
  unfold startInstance
  cases hs : handler.StartService svc state with
  | mk err state1 =>
    rw [hs] at h1 h2
    simp only at h1 h2
    subst h1
    simp only
    cases hu : updateInstance faults l.conn state1 with
    | mk uerr conn1 =>
      rw [hu] at h2
      simp only at h2
      subst h2
      exact ⟨_, rfl, rfl⟩

/-- `attachInstance` when `AttachService` or the update that follows it fails. -/
theorem attachInstance_fails (faults : Faults) (handler : HostHandler) (l : Listener)
    (svc : Service) (state : ServiceState)
    (h : (handler.AttachService svc state).1 ≠ none ∨
      (updateInstance faults l.conn (handler.AttachService svc state).2).1 ≠ none) :
    ∃ (err : String) (l1 : Listener),
      attachInstance faults handler l svc state
        = ((none, some err), (handler.AttachService svc state).2, l1) ∧
      l1.actions = l.actions ++ [.attachService svc state l.chans] := by
  unfold attachInstance
  cases hs : handler.AttachService svc state with
  | mk err state1 =>
    rw [hs] at h
    cases err with
    | some e => exact ⟨e, _, rfl, rfl⟩
    | none =>
      simp only [ne_eq, not_true_eq_false, false_or] at h
      simp only
      cases hu : updateInstance faults l.conn state1 with
      | mk uerr conn1 =>
        rw [hu] at h
        cases uerr with
        | some e => exact ⟨e, _, rfl, rfl⟩
        | none => exact absurd rfl h

/-- `attachInstance` when `AttachService` and the update succeed. -/
theorem attachInstance_ok (faults : Faults) (handler : HostHandler) (l : Listener)
    (svc : Service) (state : ServiceState)
    (h1 : (handler.AttachService svc state).1 = none)
    (h2 : (updateInstance faults l.conn (handler.AttachService svc state).2).1 = none) :
    ∃ l1 : Listener,
      attachInstance faults handler l svc state
        = ((some l.chans, none), (handler.AttachService svc state).2, l1) ∧
      l1.actions = l.actions ++ [.attachService svc state l.chans] := by
  unfold attachInstance
  cases hs : handler.AttachService svc state with
  | mk err state1 =>
    rw [hs] at h1 h2
    simp only at h1 h2
    subst h1
    simp only
    cases hu : updateInstance faults l.conn state1 with
    | mk uerr conn1 =>
      rw [hu] at h2
      simp only at h2
      subst h2
      exact ⟨_, rfl, rfl⟩

/-- A pass that returns ends `listenHostState`, whatever is to come. -/
theorem listenHostState_returned (faults : Faults) (handler : HostHandler)
    (hostID ssID : String) (l l1 : Listener)
    (h : pass faults handler hostID ssID l = some (.returned, l1)) (schedule : List Wakeup) :
    listenHostState faults handler hostID ssID schedule l = some l1 := by
  unfold listenHostState
  rw [h]

/-- A pass that comes to the `select` leaves `listenHostState` waiting there. -/
theorem listenHostState_selecting (faults : Faults) (handler : HostHandler)
    (hostID ssID : String) (l l1 : Listener) (state1 : ServiceState)
    (h : pass faults handler hostID ssID l = some (.selecting state1, l1))
    (schedule : List Wakeup) :
    listenHostState faults handler hostID ssID schedule l
      = selectLoop faults handler hostID ssID schedule state1 l1 := by
  unfold listenHostState
  rw [h]

/-- C23. The `Run` branch of the host listener.  In a pass of `listenHostState`
that loads a host state with `DesiredState = SVCRun`: if `state.Started` is not
after `state.Terminated`, `StartService` is called, and when neither it nor the
update of the service state fails, the channel made for the call becomes
`processDone` and the pass comes to the `select`; otherwise, if `processDone` is
nil, the same holds with `AttachService`; otherwise neither is called and the
pass comes to the `select` with `processDone` as it was.  When the call made or
the update after it fails, `StopService` is called for the instance and the pass
returns.  A pass that returns ends `listenHostState`; a pass that comes to the
`select` leaves it waiting for the next wake-up. -/
theorem listenHostState_run_branch (faults : Faults) (handler : HostHandler)
    (hostID ssID : String) (l : Listener) (hs : HostState) (state : ServiceState)
    (svc : Service) (hload : Loaded faults l.conn hostID ssID hs state svc)
    (hrun : hs.DesiredState = SVCRun) :
    (state.Started ≤ state.Terminated →
      ((handler.StartService svc state).1 ≠ none ∨
          (updateInstance faults l.conn (handler.StartService svc state).2).1 ≠ none →
        ∃ l1 : Listener, pass faults handler hostID ssID l = some (.returned, l1) ∧
          l1.actions = l.actions ++
            [.startService svc state l.chans,
             .stopService (handler.StartService svc state).2]) ∧
      ((handler.StartService svc state).1 = none →
          (updateInstance faults l.conn (handler.StartService svc state).2).1 = none →
        ∃ l1 : Listener,
          pass faults handler hostID ssID l
            = some (.selecting (handler.StartService svc state).2, l1) ∧
          l1.actions = l.actions ++ [.startService svc state l.chans] ∧
          l1.processDone = some l.chans)) ∧
    (¬ state.Started ≤ state.Terminated → l.processDone = none →
      ((handler.AttachService svc state).1 ≠ none ∨
          (updateInstance faults l.conn (handler.AttachService svc state).2).1 ≠ none →
        ∃ l1 : Listener, pass faults handler hostID ssID l = some (.returned, l1) ∧
          l1.actions = l.actions ++
            [.attachService svc state l.chans,
             .stopService (handler.AttachService svc state).2]) ∧
      ((handler.AttachService svc state).1 = none →
          (updateInstance faults l.conn (handler.AttachService svc state).2).1 = none →
        ∃ l1 : Listener,
          pass faults handler hostID ssID l
            = some (.selecting (handler.AttachService svc state).2, l1) ∧
          l1.actions = l.actions ++ [.attachService svc state l.chans] ∧
          l1.processDone = some l.chans)) ∧
    (¬ state.Started ≤ state.Terminated → l.processDone ≠ none →
      ∃ l1 : Listener, pass faults handler hostID ssID l = some (.selecting state, l1) ∧
        l1.actions = l.actions ∧ l1.processDone = l.processDone ∧
        l1.conn.nodes = l.conn.nodes) ∧
    (∀ l1 : Listener, pass faults handler hostID ssID l = some (.returned, l1) →
      ∀ schedule : List Wakeup,
        listenHostState faults handler hostID ssID schedule l = some l1) ∧
    (∀ (state1 : ServiceState) (l1 : Listener),
      pass faults handler hostID ssID l = some (.selecting state1, l1) →
      listenHostState faults handler hostID ssID [] l = none ∧
      ∀ schedule : List Wakeup,
        listenHostState faults handler hostID ssID schedule l
          = selectLoop faults handler hostID ssID schedule state1 l1) := by
  have hp := pass_loaded faults handler hostID ssID l hs state svc hload
  rw [if_pos hrun] at hp
  refine ⟨fun hle => ?_, fun hnle hnil => ?_, fun hnle hheld => ?_,
    fun l1 h schedule => listenHostState_returned faults handler hostID ssID l l1 h schedule,
    fun state1 l1 h => ⟨?_, fun schedule =>
      listenHostState_selecting faults handler hostID ssID l l1 state1 h schedule⟩⟩
  · rw [if_pos hle] at hp
    refine ⟨fun herr => ?_, fun h1 h2 => ?_⟩
    · obtain ⟨err, l1, hstart, hact⟩ :=
        startInstance_fails faults handler (l.loaded hostID ssID hs) svc state
          (by
            rcases herr with h | h
            · exact Or.inl h
            · exact Or.inr
                (by rw [Listener.loaded, ← updateInstance_error faults l.conn.nodes
                  l.conn.calls]; exact h))
      rw [hstart] at hp
      refine ⟨_, hp, ?_⟩
      rw [stopInstance_actions, hact]
      simp [Listener.loaded]
    · obtain ⟨l1, hstart, hact⟩ :=
        startInstance_ok faults handler (l.loaded hostID ssID hs) svc state h1
          (by rw [Listener.loaded, ← updateInstance_error faults l.conn.nodes
                l.conn.calls]; exact h2)
      rw [hstart] at hp
      refine ⟨_, hp, ?_, rfl⟩
      simp only [hact]
      rfl
  · rw [if_neg hnle, if_pos hnil] at hp
    refine ⟨fun herr => ?_, fun h1 h2 => ?_⟩
    · obtain ⟨err, l1, hstart, hact⟩ :=
        attachInstance_fails faults handler (l.loaded hostID ssID hs) svc state
          (by
            rcases herr with h | h
            · exact Or.inl h
            · exact Or.inr
                (by rw [Listener.loaded, ← updateInstance_error faults l.conn.nodes
                  l.conn.calls]; exact h))
      rw [hstart] at hp
      refine ⟨_, hp, ?_⟩
      rw [stopInstance_actions, hact]
      simp [Listener.loaded]
    · obtain ⟨l1, hstart, hact⟩ :=
        attachInstance_ok faults handler (l.loaded hostID ssID hs) svc state h1
          (by rw [Listener.loaded, ← updateInstance_error faults l.conn.nodes
                l.conn.calls]; exact h2)
      rw [hstart] at hp
      refine ⟨_, hp, ?_, rfl⟩
      simp only [hact]
      rfl
  · rw [if_neg hnle, if_neg hheld] at hp
    exact ⟨_, hp, rfl, rfl, rfl⟩
  · unfold listenHostState
    rw [h]
    rfl

end Zzk
namespace Zzk

/-- Witness for C23: on the sample nodes with `DesiredState = SVCRun` the start
time is not after the termination time, so the instance is started, channel `0`
becomes `processDone`, and `listenHostState` waits in the `select`; with a
handler whose `StartService` fails, `StopService` follows and the function
returns. -/
theorem listenHostState_run_branch_witness :
    (∃ l1 : Listener,
      pass {} sampleHandler "h1" "s1" (sampleListener SVCRun)
        = some (.selecting (sampleHandler.StartService { ID := "svc" } sampleState).2, l1) ∧
      l1.actions = (sampleListener SVCRun).actions ++
        [.startService { ID := "svc" } sampleState (sampleListener SVCRun).chans] ∧
      l1.processDone = some (sampleListener SVCRun).chans) ∧
    (∃ l1 : Listener,
      pass {} failingHandler "h1" "s1" (sampleListener SVCRun) = some (.returned, l1) ∧
      l1.actions = (sampleListener SVCRun).actions ++
        [.startService { ID := "svc" } sampleState (sampleListener SVCRun).chans,
         .stopService (failingHandler.StartService { ID := "svc" } sampleState).2]) :=
  ⟨((listenHostState_run_branch {} sampleHandler "h1" "s1" (sampleListener SVCRun)
      (NewHostState sampleState) sampleState { ID := "svc" }
      ⟨rfl, by decide, by decide, rfl, rfl⟩ rfl).1 (by decide)).2 rfl rfl,
   ((listenHostState_run_branch {} failingHandler "h1" "s1" (sampleListener SVCRun)
      (NewHostState sampleState) sampleState { ID := "svc" }
      ⟨rfl, by decide, by decide, rfl, rfl⟩ rfl).1 (by decide)).1 (Or.inl (by decide))⟩

/-- A read that succeeds returns the node stored. -/
theorem Conn.read_ok (faults : Faults) (conn : Conn) (path : String) (node : Node)
    (h : conn.read faults path = .ok node) :
    faults.get path = none ∧ conn.nodes.get path = some node := by
  unfold Conn.read at h
  cases hf : faults.get path with
  | some e => simp [hf] at h
  | none =>
    simp only [hf] at h
    cases hg : conn.nodes.get path with
    | none => simp [hg] at h
    | some n =>
      simp only [hg, Except.ok.injEq] at h
      exact ⟨rfl, by rw [h]⟩

/-- `removeInstance` on a store that holds the host-state node and the
service-state node it names, when neither delete fails. -/
theorem removeInstance_ok (faults : Faults) (conn : Conn) (hostID ssID : String)
    (hs : HostState) (state : ServiceState)
    (hh : conn.read faults (hostpath [hostID, ssID]) = .ok (.hostState hs))
    (hst : conn.read faults (servicepath [hs.ServiceID, hs.ServiceStateID])
      = .ok (.serviceState state))
    (hd1 : faults.delete (hostpath [hostID, ssID]) = none)
    (hd2 : faults.delete (servicepath [hs.ServiceID, hs.ServiceStateID]) = none) :
    removeInstance faults conn hostID ssID
      = (none,
         { nodes := (conn.nodes.delete (hostpath [hostID, ssID])).delete
             (servicepath [hs.ServiceID, hs.ServiceStateID]),
           calls := conn.calls ++
             [.get (hostpath [hostID, ssID]), .delete (hostpath [hostID, ssID]),
              .delete (servicepath [hs.ServiceID, hs.ServiceStateID])] }) := by
  obtain ⟨-, hg1⟩ := Conn.read_ok faults conn _ _ hh
  obtain ⟨-, hg2⟩ := Conn.read_ok faults conn _ _ hst
  have hne : hostpath [hostID, ssID] ≠ servicepath [hs.ServiceID, hs.ServiceStateID] := by
    intro heq
    rw [heq, hg2] at hg1
    cases hg1
  have hh2 : ∀ calls, Conn.read faults { nodes := conn.nodes, calls := calls }
      (hostpath [hostID, ssID]) = .ok (.hostState hs) := fun _ => hh
  unfold removeInstance Conn.GetHostState
  simp only [hh2, Conn.Delete, hd1, hg1, hd2, GoMap.get_delete_ne _ _ _ hne, hg2,
    List.append_assoc, List.singleton_append, List.cons_append, List.nil_append]

/-- `stopInstance` when `StopService` fails: nothing is removed. -/
theorem stopInstance_fails (faults : Faults) (handler : HostHandler) (l : Listener)
    (state : ServiceState) (err : String) (h : (handler.StopService state).1 = some err) :
    stopInstance faults handler l state
      = (some err, { l with actions := l.actions ++ [.stopService state] }) := by
  unfold stopInstance
  cases hs : handler.StopService state with
  | mk e state1 =>
    rw [hs] at h
    simp only at h
    subst h
    rfl

/-- `detachInstance` when `StopService` fails: no receive, and nothing is
removed. -/
theorem detachInstance_fails (faults : Faults) (handler : HostHandler) (l : Listener)
    (done : Nat) (state : ServiceState) (err : String)
    (h : (handler.StopService state).1 = some err) :
    detachInstance faults handler l done state
      = some (some err, { l with actions := l.actions ++ [.stopService state] }) := by
  unfold detachInstance
  cases hs : handler.StopService state with
  | mk e state1 =>
    rw [hs] at h
    simp only at h
    subst h
    rfl

/-- The steps of a `detachInstance` that returns. -/
theorem detachInstance_actions (faults : Faults) (handler : HostHandler) (l : Listener)
    (done : Nat) (state : ServiceState) (err : Option String) (l1 : Listener)
    (h : detachInstance faults handler l done state = some (err, l1)) :
    l1.actions = l.actions ++ [.stopService state] ∨
    l1.actions = l.actions ++ [.stopService state, .waitDone done] := by
  unfold detachInstance at h
  cases hs : handler.StopService state with
  | mk e state1 =>
    rw [hs] at h
    cases e with
    | some e =>
      simp only [Option.some.injEq, Prod.mk.injEq] at h
      rw [← h.2]
      exact Or.inl rfl
    | none =>
      simp only at h
      split at h
      · simp only [Option.some.injEq, Prod.mk.injEq] at h
        rw [← h.2]
        right
        simp
      · cases h

/-- C24 (amended).  The `Stop` branch of the host listener.  In a pass of
`listenHostState` that loads its three nodes, the host state with
`DesiredState = SVCStop`, `StopService` is called
for the instance, followed by the receive on `processDone` when one is held and
`StopService` did not fail, and the pass returns whenever it comes to an end,
which ends `listenHostState`.  When `StopService` succeeds for the state of this
host and id, the deletes do not fail and the channel held delivers, the store
is asked for the host-state node, that node and the service-state node are
deleted, in that order, and the store holds neither afterwards, all other nodes
being as before.  When `StopService` fails, nothing is removed. -/
theorem listenHostState_stop_branch (faults : Faults) (handler : HostHandler)
    (hostID ssID : String) (l : Listener) (hs : HostState) (state : ServiceState)
    (svc : Service) (hload : Loaded faults l.conn hostID ssID hs state svc)
    (hstop : hs.DesiredState = SVCStop) :
    (∀ (p : Pass) (l1 : Listener), pass faults handler hostID ssID l = some (p, l1) →
      p = .returned ∧
      (l1.actions = l.actions ++ [.stopService state] ∨
        ∃ done : Nat, l.processDone = some done ∧
          l1.actions = l.actions ++ [.stopService state, .waitDone done]) ∧
      ∀ schedule : List Wakeup,
        listenHostState faults handler hostID ssID schedule l = some l1) ∧
    ((handler.StopService state).1 = none →
      (handler.StopService state).2.HostID = hostID →
      (handler.StopService state).2.Id = ssID →
      faults.delete (hostpath [hostID, ssID]) = none →
      faults.delete (servicepath [hs.ServiceID, hs.ServiceStateID]) = none →
      (∀ done : Nat, l.processDone = some done → handler.delivers done = true) →
      ∃ l1 : Listener, pass faults handler hostID ssID l = some (.returned, l1) ∧
        l1.actions = l.actions ++
          .stopService state :: l.processDone.toList.map HostAction.waitDone ∧
        l1.conn.calls = (l.loaded hostID ssID hs).conn.calls ++
          [.get (hostpath [hostID, ssID]), .delete (hostpath [hostID, ssID]),
           .delete (servicepath [hs.ServiceID, hs.ServiceStateID])] ∧
        l1.conn.nodes.get (hostpath [hostID, ssID]) = none ∧
        l1.conn.nodes.get (servicepath [hs.ServiceID, hs.ServiceStateID]) = none ∧
        ∀ path : String, path ≠ hostpath [hostID, ssID] →
          path ≠ servicepath [hs.ServiceID, hs.ServiceStateID] →
          l1.conn.nodes.get path = l.conn.nodes.get path) ∧
    (∀ err : String, (handler.StopService state).1 = some err →
      ∃ l1 : Listener, pass faults handler hostID ssID l = some (.returned, l1) ∧
        l1.actions = l.actions ++ [.stopService state] ∧
        l1.conn.nodes = l.conn.nodes) := by
  have hp := pass_loaded faults handler hostID ssID l hs state svc hload
  have hne : ¬ hs.DesiredState = SVCRun := by rw [hstop]; decide
  rw [if_neg hne, if_pos hstop] at hp
  refine ⟨fun p l1 h => ?_, fun hok hhost hid hd1 hd2 hdel => ?_, fun err herr => ?_⟩
  · rw [hp] at h
    cases hpd : l.processDone with
    | none =>
      simp only [hpd, Option.some.injEq, Prod.mk.injEq] at h
      obtain ⟨rfl, rfl⟩ := h
      refine ⟨rfl, Or.inl ?_, fun schedule =>
        listenHostState_returned faults handler hostID ssID l _ (by rw [hp, hpd]) schedule⟩
      rw [stopInstance_actions]
      rfl
    | some done =>
      simp only [hpd] at h
      cases hd : detachInstance faults handler (l.loaded hostID ssID hs) done state with
      | none => simp [hd] at h
      | some r =>
        obtain ⟨err, l4⟩ := r
        simp only [hd, Option.some.injEq, Prod.mk.injEq] at h
        obtain ⟨rfl, rfl⟩ := h
        refine ⟨rfl, ?_, fun schedule =>
          listenHostState_returned faults handler hostID ssID l _
            (by rw [hp, hpd]; simp only [hd]) schedule⟩
        rcases detachInstance_actions faults handler _ done state err _ hd with ha | ha
        · exact Or.inl ha
        · exact Or.inr ⟨done, rfl, ha⟩
  · obtain ⟨hh, -, -, hst, -⟩ := hload
    have hrem := removeInstance_ok faults (l.loaded hostID ssID hs).conn hostID ssID hs state
      hh hst hd1 hd2
    have hg1 : ∀ m : GoMap Node, ((m.delete (hostpath [hostID, ssID])).delete
        (servicepath [hs.ServiceID, hs.ServiceStateID])).get (hostpath [hostID, ssID]) = none := by
      intro m
      by_cases heq : servicepath [hs.ServiceID, hs.ServiceStateID] = hostpath [hostID, ssID]
      · rw [heq, GoMap.get_delete_self]
      · rw [GoMap.get_delete_ne _ _ _ heq, GoMap.get_delete_self]
    have hg3 : ∀ (m : GoMap Node) (path : String), path ≠ hostpath [hostID, ssID] →
        path ≠ servicepath [hs.ServiceID, hs.ServiceStateID] →
        ((m.delete (hostpath [hostID, ssID])).delete
          (servicepath [hs.ServiceID, hs.ServiceStateID])).get path = m.get path := by
      intro m path h1 h2
      rw [GoMap.get_delete_ne _ _ _ (Ne.symm h2), GoMap.get_delete_ne _ _ _ (Ne.symm h1)]
    cases hs2 : handler.StopService state with
    | mk e state1 =>
      rw [hs2] at hok hhost hid
      simp only at hok hhost hid
      subst hok hhost hid
      cases hpd : l.processDone with
      | none =>
        rw [hpd] at hp
        simp only at hp
        refine ⟨_, hp, ?_, ?_, ?_, ?_, ?_⟩
        · rw [stopInstance_actions]; rfl
        · simp only [stopInstance, hs2, hrem]
        · simp only [stopInstance, hs2, hrem]
          exact hg1 _
        · simp only [stopInstance, hs2, hrem]
          exact GoMap.get_delete_self _ _
        · intro path h1 h2
          simp only [stopInstance, hs2, hrem]
          exact hg3 _ path h1 h2
      | some done =>
        rw [hpd] at hp
        simp only at hp
        have hdet : ∃ l4 : Listener,
            detachInstance faults handler (l.loaded state1.HostID state1.Id hs) done state
              = some (none, l4) ∧
            l4.actions = l.actions ++ [.stopService state, .waitDone done] ∧
            l4.conn = (removeInstance faults (l.loaded state1.HostID state1.Id hs).conn
              state1.HostID state1.Id).2 := by
          unfold detachInstance
          simp only [hs2, hdel done hpd, if_true, hrem]
          exact ⟨_, rfl, by simp [Listener.loaded], rfl⟩
        obtain ⟨l4, hdet, hact, hconn⟩ := hdet
        rw [hdet] at hp
        simp only at hp
        rw [hrem] at hconn
        refine ⟨_, hp, ?_, ?_, ?_, ?_, ?_⟩
        · rw [hact]; simp
        · rw [hconn]
        · rw [hconn]
          exact hg1 _
        · rw [hconn]
          exact GoMap.get_delete_self _ _
        · intro path h1 h2
          rw [hconn]
          exact hg3 _ path h1 h2
  · cases hpd : l.processDone with
    | none =>
      rw [hpd] at hp
      simp only at hp
      rw [stopInstance_fails faults handler _ state err herr] at hp
      exact ⟨_, hp, rfl, rfl⟩
    | some done =>
      rw [hpd] at hp
      simp only at hp
      rw [detachInstance_fails faults handler _ done state err herr] at hp
      exact ⟨_, hp, rfl, rfl⟩

/-- Witness for C24 (amended): on the sample nodes with `DesiredState = SVCStop` and no
channel held, `StopService` is called, the two nodes of the instance are removed
and `listenHostState` returns. -/
theorem listenHostState_stop_branch_witness :
    ∃ l1 : Listener, pass {} sampleHandler "h1" "s1" (sampleListener SVCStop)
        = some (.returned, l1) ∧
      l1.actions = (sampleListener SVCStop).actions ++
        .stopService sampleState ::
          (sampleListener SVCStop).processDone.toList.map HostAction.waitDone ∧
      l1.conn.nodes.get (hostpath ["h1", "s1"]) = none ∧
      l1.conn.nodes.get
        (servicepath [({ NewHostState sampleState with DesiredState := SVCStop }).ServiceID,
          ({ NewHostState sampleState with DesiredState := SVCStop }).ServiceStateID]) = none := by
  obtain ⟨l1, h1, h2, -, h4, h5, -⟩ :=
    (listenHostState_stop_branch {} sampleHandler "h1" "s1" (sampleListener SVCStop)
      { NewHostState sampleState with DesiredState := SVCStop } sampleState { ID := "svc" }
      ⟨rfl, by decide, by decide, rfl, rfl⟩ rfl).2.1 rfl rfl rfl rfl rfl
      (fun done h => by cases h)
  exact ⟨l1, h1, h2, h4, h5⟩

end Zzk

/-! ## container/controller.go: `NewController` -/

/-- Go `len(s) == 0` holds of the empty string only. -/
theorem length_eq_zero_iff (s : String) : s.length = 0 ↔ s = "" := by
  constructor
  · intro h
    cases s with
    | mk d =>
      have hd : d = [] := List.length_eq_zero.mp h
      subst hd
      rfl
  · intro h
    subst h
    rfl

namespace Container

/-- With a metric remote endpoint and a tenant id, `NewController` returns
`ErrInvalidServicedID` for every service id that is not empty, once the log
forwarder is made or not asked for. -/
theorem NewController_of_nonempty_service_id (env : Constructors) (options : ControllerOptions)
    (logforwarder : Option Instance) (hlog : newLogforwarder env options = .ok logforwarder)
    (hmetric : options.Metric.RemoteEndoint ≠ "") (htenant : options.Service.TenantID ≠ "")
    (hid : options.Service.ID ≠ "") :
    NewController env options = (none, some ErrInvalidServicedID) := by
  have h1 : ¬ options.Metric.RemoteEndoint.length = 0 :=
    fun h => hmetric ((length_eq_zero_iff _).mp h)
  have h2 : ¬ options.Service.TenantID.length = 0 :=
    fun h => htenant ((length_eq_zero_iff _).mp h)
  have h3 : options.Service.ID.length > 0 :=
    Nat.pos_of_ne_zero fun h => hid ((length_eq_zero_iff _).mp h)
  unfold NewController
  simp only [hlog, if_neg h1, if_neg h2, if_pos h3]

/-- With a metric remote endpoint and a tenant id, an empty service id passes the
check of `NewController`: the forwarder is made with it. -/
theorem NewController_of_empty_service_id (env : Constructors) (options : ControllerOptions)
    (logforwarder : Option Instance) (hlog : newLogforwarder env options = .ok logforwarder)
    (hmetric : options.Metric.RemoteEndoint ≠ "") (htenant : options.Service.TenantID ≠ "")
    (hid : options.Service.ID = "") (forwarder : MetricForwarder)
    (hfw : env.NewMetricForwarder options.Metric.Address
      (options.Metric.RemoteEndoint ++ "&controlplane_service_id=" ++ options.Service.ID ++
        "?controlplane_tenant_id=" ++ options.Service.TenantID) = .ok forwarder) :
    NewController env options
      = (some { logforwarder := logforwarder, metricForwarder := some forwarder,
                looping := true }, none) := by
  have h1 : ¬ options.Metric.RemoteEndoint.length = 0 :=
    fun h => hmetric ((length_eq_zero_iff _).mp h)
  have h2 : ¬ options.Service.TenantID.length = 0 :=
    fun h => htenant ((length_eq_zero_iff _).mp h)
  have h3 : ¬ options.Service.ID.length > 0 := by
    rw [hid]
    decide
  unfold NewController
  simp only [hlog, if_neg h1, if_neg h2, if_neg h3, hfw]

/-- With a metric remote endpoint and an empty tenant id `NewController` returns
`ErrInvalidTenantID`; without a metric remote endpoint neither id is looked
at. -/
theorem NewController_other_checks (env : Constructors) (options : ControllerOptions)
    (logforwarder : Option Instance) (hlog : newLogforwarder env options = .ok logforwarder) :
    (options.Metric.RemoteEndoint ≠ "" → options.Service.TenantID = "" →
      NewController env options = (none, some ErrInvalidTenantID)) ∧
    (options.Metric.RemoteEndoint = "" →
      NewController env options = (some { logforwarder := logforwarder, looping := true }, none)) := by
  refine ⟨fun hmetric htenant => ?_, fun hmetric => ?_⟩
  · have h1 : ¬ options.Metric.RemoteEndoint.length = 0 :=
    fun h => hmetric ((length_eq_zero_iff _).mp h)
    unfold NewController
    simp only [hlog, if_neg h1, htenant]
    rfl
  · unfold NewController
    simp only [hlog, hmetric]
    rfl

/-- C25 (the code at the failing input).  For the sample options, which carry a
metric remote endpoint, the tenant id `t1` and the service id `svc1`,
`NewController` returns `ErrInvalidServicedID` and no controller, although the
service id is not empty; for the same options with an empty service id it
returns a controller and no error. -/
theorem NewController_rejects_nonempty_service_id :
    sampleOptions.Metric.RemoteEndoint ≠ "" ∧ sampleOptions.Service.TenantID ≠ "" ∧
    sampleOptions.Service.ID ≠ "" ∧
    NewController sampleConstructors sampleOptions = (none, some ErrInvalidServicedID) ∧
    sampleOptionsNoID.Service.ID = "" ∧
    (NewController sampleConstructors sampleOptionsNoID).2 = none ∧
    (NewController sampleConstructors sampleOptionsNoID).1 ≠ none := by
  decide

end Container

/-! ## facade/service.go: `updateService` and the tombstones -/

namespace Facade

/-- C29 (the code at the failing input).  The sample service is stored with the
files `a.conf` and `b.conf` and is resubmitted without `b.conf`, on collaborators
whose `serviceconfigfile.New` fails for the tombstone of `b.conf`.
`updateService` returns a nil error, but the service store still holds the old
record and not the one submitted, and no call into the coordination store was
made: the failure is reported as success, and no `Put` took place. -/
theorem updateService_nil_without_put :
    (updateService tombstoneFailing 1 sampleBeforeUpdate sampleReconfigured).map
        (fun r => (r.1, r.2.services, r.2.zkCalls))
      = some (none, [sampleConfigured], []) ∧
    sampleBeforeUpdate.services = [sampleConfigured] ∧
    sampleConfigured ≠ sampleReconfigured ∧
    (writeTombstones tombstoneFailing "app" "/app"
        [("b.conf", { Filename := "b.conf", Content := "beta" })]
        { sampleBeforeUpdate with clock := 8 }).1 = true := by
  decide

end Facade

/-! ## facade/service.go: `StopService` -/

namespace Facade

theorem stopRecord_fields (env : Collaborators) (svc : Service) :
    (stopRecord env svc).ID = svc.ID ∧
    (stopRecord env svc).ParentServiceID = svc.ParentServiceID ∧
    (stopRecord env svc).Launch = svc.Launch ∧
    (stopRecord env svc).ConfigFiles = svc.ConfigFiles ∧
    (stopRecord env svc).DesiredState = SVCStop := by
  unfold stopRecord fillServiceAddr
  simp only
  cases env.getAddressAssignments svc.ID <;> exact ⟨rfl, rfl, rfl, rfl, rfl⟩

theorem stopRecord_idempotent (env : Collaborators) (svc : Service) :
    stopRecord env (stopRecord env svc) = stopRecord env svc := by
  unfold stopRecord fillServiceAddr
  simp only
  cases h : env.getAddressAssignments svc.ID with
  | error e => simp only [h]
  | ok addrs =>
    simp only [h, List.map_map]
    congr 1
    apply List.map_congr_left
    intro ep _
    simp only [Function.comp]
    cases h2 : addrs.get ep.Name with
    | none => simp [h2]
    | some a => simp [h2]

theorem stopIn_fields (env : Collaborators) (visited : List String) (svc : Service) :
    (stopIn env visited svc).ID = svc.ID ∧
    (stopIn env visited svc).ParentServiceID = svc.ParentServiceID ∧
    (stopIn env visited svc).Launch = svc.Launch ∧
    (stopIn env visited svc).ConfigFiles = svc.ConfigFiles := by
  have f := stopRecord_fields env svc
  unfold stopIn
  split
  · exact ⟨f.1, f.2.1, f.2.2.1, f.2.2.2.1⟩
  · exact ⟨rfl, rfl, rfl, rfl⟩

theorem stopIn_append (env : Collaborators) (v1 v2 : List String) (svc : Service) :
    stopIn env v2 (stopIn env v1 svc) = stopIn env (v1 ++ v2) svc := by
  by_cases hl : svc.Launch = MANUAL
  · simp [stopIn, hl]
  · by_cases h1 : svc.ID ∈ v1
    · have e1 : stopIn env v1 svc = stopRecord env svc := by simp [stopIn, h1, hl]
      have e2 : stopIn env (v1 ++ v2) svc = stopRecord env svc := by simp [stopIn, h1, hl]
      have f := stopRecord_fields env svc
      rw [e1, e2]
      unfold stopIn
      rw [f.1, f.2.2.1]
      by_cases h2 : svc.ID ∈ v2
      · simp [h2, hl, stopRecord_idempotent]
      · simp [h2]
    · have e1 : stopIn env v1 svc = svc := by simp [stopIn, h1]
      rw [e1]
      simp [stopIn, h1, List.mem_append]

theorem ServiceStore.Get_mem (store : ServiceStore) (id : String) (svc : Service)
    (h : store.Get id = .ok svc) : svc ∈ store ∧ svc.ID = id := by
  unfold ServiceStore.Get at h
  split at h
  · rename_i found hfind
    cases h
    exact ⟨List.mem_of_find?_eq_some hfind, by simpa using List.find?_some hfind⟩
  · cases h

theorem ServiceStore.Get_of_mem_nodup (store : ServiceStore) (svc : Service)
    (hnd : (store.map fun s => s.ID).Nodup) (hmem : svc ∈ store) :
    store.Get svc.ID = .ok svc := by
  obtain ⟨s, hs⟩ := ServiceStore.Get_of_mem store svc.ID ⟨svc, hmem, rfl⟩
  obtain ⟨hm, hid⟩ := ServiceStore.Get_mem store _ _ hs
  have := List.inj_on_of_nodup_map hnd hm hmem hid
  rw [hs, this]

theorem ServiceStore.Get_map (g : Service → Service) (hg : ∀ s, (g s).ID = s.ID) (id : String) :
    ∀ store : ServiceStore,
      ServiceStore.Get (store.map g) id =
        match store.Get id with
        | .ok s => .ok (g s)
        | .error e => .error e := by
  intro store
  induction store with
  | nil => rfl
  | cons s rest ih =>
    unfold ServiceStore.Get at ih ⊢
    by_cases h : s.ID = id
    · simp [List.find?, h, hg]
    · simp only [List.map, List.find?, hg, h, decide_False]
      exact ih

theorem ServiceStore.Put_eq_map (x : Service) :
    ∀ store : ServiceStore, (store.map fun s => s.ID).Nodup → (∃ s ∈ store, s.ID = x.ID) →
      store.Put x = store.map fun s => if s.ID = x.ID then x else s := by
  intro store
  induction store with
  | nil => intro _ h; obtain ⟨s, hs, _⟩ := h; cases hs
  | cons old rest ih =>
    intro hnd hex
    simp only [List.map_cons, List.nodup_cons, List.mem_map, not_exists, not_and] at hnd
    by_cases h : old.ID = x.ID
    · simp only [ServiceStore.Put, if_pos h, List.map_cons, true_and, List.cons.injEq]
      symm
      conv_rhs => rw [← List.map_id rest]
      apply List.map_congr_left
      intro s hs
      have : s.ID ≠ x.ID := fun e => hnd.1 s hs (by rw [e, h])
      simp [this]
    · simp only [ServiceStore.Put, if_neg h, List.map_cons, List.cons.injEq, true_and]
      apply ih hnd.2
      obtain ⟨s, hs, hsid⟩ := hex
      rcases List.mem_cons.mp hs with rfl | hs
      · exact absurd hsid h
      · exact ⟨s, hs, hsid⟩

theorem ServiceStore.GetChildServices_map (g : Service → Service)
    (hg : ∀ s, (g s).ParentServiceID = s.ParentServiceID) (parentID : String)
    (store : ServiceStore) :
    ServiceStore.GetChildServices (store.map g) parentID
      = (store.GetChildServices parentID).map g := by
  unfold ServiceStore.GetChildServices
  rw [List.filter_map]
  congr 1
  apply List.filter_congr
  intro s _
  simp [Function.comp, hg]

theorem InSubtree_map (g : Service → Service) (hid : ∀ s, (g s).ID = s.ID)
    (hp : ∀ s, (g s).ParentServiceID = s.ParentServiceID) (store : ServiceStore)
    (root x : String) :
    InSubtree (store.map g) root x ↔ InSubtree store root x := by
  constructor
  · intro h
    induction h with
    | root => exact InSubtree.root
    | child svc hmem _ ih =>
      obtain ⟨s, hs, rfl⟩ := List.mem_map.mp hmem
      rw [hp] at ih
      rw [hid]
      exact InSubtree.child s hs ih
  · intro h
    induction h with
    | root => exact InSubtree.root
    | child svc hmem _ ih =>
      have := @InSubtree.child (store.map g) root (g svc)
        (List.mem_map_of_mem g hmem) (by rw [hp]; exact ih)
      rw [hid] at this
      exact this

theorem InSubtree_iff (store : ServiceStore) (root v : String) :
    InSubtree store root v ↔
      v = root ∨ ∃ c ∈ store, c.ParentServiceID = root ∧ InSubtree store c.ID v := by
  constructor
  · intro h
    induction h with
    | root => exact Or.inl rfl
    | child svc hmem _ ih =>
      rcases ih with hr | ⟨c, hc, hcp, hsub⟩
      · exact Or.inr ⟨svc, hmem, hr, InSubtree.root⟩
      · exact Or.inr ⟨c, hc, hcp, InSubtree.child svc hmem hsub⟩
  · intro h
    rcases h with rfl | ⟨c, hc, hcp, hsub⟩
    · exact InSubtree.root
    · induction hsub with
      | root => exact InSubtree.child c hc (by rw [hcp]; exact InSubtree.root)
      | child svc hmem _ ih => exact InSubtree.child svc hmem ih

theorem StoreKept_map (env : Collaborators) (visited : List String) (store : ServiceStore)
    (h : StoreKept store) : StoreKept (store.map (stopIn env visited)) := by
  obtain ⟨h1, h2, h3⟩ := h
  refine ⟨?_, ?_, ?_⟩
  · have : (store.map (stopIn env visited)).map (fun svc => svc.ID) = store.map fun svc => svc.ID := by
      rw [List.map_map]
      apply List.map_congr_left
      intro s _
      exact (stopIn_fields env visited s).1
    rw [this]
    exact h1
  · intro svc hmem
    obtain ⟨s, hs, rfl⟩ := List.mem_map.mp hmem
    rw [(stopIn_fields env visited s).1]
    exact h2 s hs
  · intro svc hmem
    obtain ⟨s, hs, rfl⟩ := List.mem_map.mp hmem
    rw [(stopIn_fields env visited s).2.2.2]
    exact h3 s hs

theorem configFilesDeepEqual_self (configFiles : Option (GoMap ConfigFile))
    (hnd : ((entriesOf configFiles).map fun e => e.1).Nodup) :
    configFilesDeepEqual configFiles configFiles = true := by
  cases configFiles with
  | none => rfl
  | some m =>
    simp only [configFilesDeepEqual, Bool.and_eq_true, beq_self_eq_true, true_and,
      List.all_eq_true, beq_iff_eq]
    intro kv hkv
    exact GoMap.get_of_mem_nodup m kv.1 kv.2 hnd hkv

/-- A visit of `StopService` to a stored service: a service launched manually is
left alone, any other is stored anew with the desired state `SVCStop`; no other
stored service changes. -/
theorem stopVisitor_stored (env : Collaborators) (fuel : Nat) (st st1 : FacadeState)
    (id : String) (svc : Service) (hkept : StoreKept st.services)
    (hget : st.services.Get id = .ok svc)
    (h : stopVisitor env fuel st svc = some (none, st1)) :
    st1.services = st.services.map (stopIn env [id]) := by
  obtain ⟨hmem, hid⟩ := ServiceStore.Get_mem st.services id svc hget
  have hone : ∀ s ∈ st.services, s.ID = id → s = svc := fun s hs e =>
    List.inj_on_of_nodup_map hkept.1 hs hmem (by rw [e, hid])
  unfold stopVisitor at h
  by_cases hl : svc.Launch = MANUAL
  · rw [if_pos hl] at h
    simp only [Option.some.injEq, Prod.mk.injEq, true_and] at h
    rw [← h]
    conv_lhs => rw [← List.map_id st.services]
    apply List.map_congr_left
    intro s hs
    by_cases hsid : s.ID = id
    · rw [hone s hs hsid]
      simp [stopIn, hl]
    · simp [stopIn, hsid]
  · rw [if_neg hl] at h
    have htrim : TrimSpace svc.ID = svc.ID := hkept.2.1 svc hmem
    have hne := updateService_nonempty_id env fuel st st1 _ h
    have hold : st.services.Get (TrimSpace ({ svc with DesiredState := SVCStop } : Service).ID)
        = .ok svc := by
      show st.services.Get (TrimSpace svc.ID) = .ok svc
      rw [htrim, hid]
      exact hget
    have hsame : configFilesDeepEqual svc.ConfigFiles
        ({ svc with DesiredState := SVCStop } : Service).ConfigFiles = true :=
      configFilesDeepEqual_self svc.ConfigFiles (hkept.2.2 svc hmem)
    rw [updateService_equal_path env fuel st _ svc hne hold hsame] at h
    simp only [Option.some.injEq] at h
    have hput := (putAndPublish_ok env st st1 svc _ h).1
    have hrec : trimmedAndFilled env { svc with DesiredState := SVCStop } = stopRecord env svc := by
      unfold trimmedAndFilled stopRecord
      show (fillServiceAddr env { svc with DesiredState := SVCStop, ID := TrimSpace svc.ID }).1 = _
      rw [htrim]
    rw [hrec] at hput
    rw [hput, ServiceStore.Put_eq_map _ _ hkept.1
      ⟨svc, hmem, ((stopRecord_fields env svc).1).symm⟩]
    apply List.map_congr_left
    intro s hs
    rw [(stopRecord_fields env svc).1, hid]
    by_cases hsid : s.ID = id
    · rw [hone s hs hsid]
      simp [stopIn, hid, hl]
    · simp [stopIn, hsid]

theorem walkChildren_stop (env : Collaborators)
    (walk : String → FacadeState → Option (Option String × FacadeState))
    (hwalk : ∀ (id : String) (st st1 : FacadeState), StoreKept st.services →
      walk id st = some (none, st1) →
      ∃ visited : List String, st1.services = st.services.map (stopIn env visited) ∧
        ∀ v, v ∈ visited ↔ InSubtree st.services id v) :
    ∀ (children : List Service) (st st1 : FacadeState), StoreKept st.services →
      walkChildren walk children st = some (none, st1) →
      ∃ visited : List String, st1.services = st.services.map (stopIn env visited) ∧
        ∀ v, v ∈ visited ↔ ∃ c ∈ children, InSubtree st.services c.ID v := by
  intro children
  induction children with
  | nil =>
    intro st st1 _ h
    simp only [walkChildren, Option.some.injEq, Prod.mk.injEq, true_and] at h
    refine ⟨[], ?_, by simp⟩
    rw [← h]
    conv_lhs => rw [← List.map_id st.services]
    apply List.map_congr_left
    intro s _
    simp [stopIn]
  | cons child rest ih =>
    intro st st1 hkept h
    rw [walkChildren] at h
    split at h
    · cases h
    · simp at h
    · rename_i st2 hw
      obtain ⟨v1, hs2, hv1⟩ := hwalk child.ID st st2 hkept hw
      have hkept2 : StoreKept st2.services := by rw [hs2]; exact StoreKept_map env v1 _ hkept
      obtain ⟨v2, hs1, hv2⟩ := ih st2 st1 hkept2 h
      refine ⟨v1 ++ v2, ?_, ?_⟩
      · rw [hs1, hs2, List.map_map]
        apply List.map_congr_left
        intro s _
        exact stopIn_append env v1 v2 s
      · intro v
        have hsub : ∀ r : String, InSubtree st2.services r v ↔ InSubtree st.services r v := by
          intro r
          rw [hs2]
          exact InSubtree_map _ (fun s => (stopIn_fields env v1 s).1)
            (fun s => (stopIn_fields env v1 s).2.1) _ _ _
        rw [List.mem_append, hv1, hv2]
        constructor
        · rintro (h1 | ⟨c, hc, h2⟩)
          · exact ⟨child, List.mem_cons_self _ _, h1⟩
          · exact ⟨c, List.mem_cons_of_mem _ hc, (hsub _).mp h2⟩
        · rintro ⟨c, hc, h2⟩
          rcases List.mem_cons.mp hc with rfl | hc
          · exact Or.inl h2
          · exact Or.inr ⟨c, hc, (hsub _).mpr h2⟩

/-- A successful walk of `StopService` changes the service store as the visits to
the services of the subtree do, and to no others. -/
theorem walkServices_stop (env : Collaborators) (fuel2 : Nat) :
    ∀ (fuel : Nat) (id : String) (st st1 : FacadeState), StoreKept st.services →
      walkServices (stopVisitor env fuel2) fuel id st = some (none, st1) →
      ∃ visited : List String, st1.services = st.services.map (stopIn env visited) ∧
        ∀ v, v ∈ visited ↔ InSubtree st.services id v := by
  intro fuel
  induction fuel with
  | zero => intro id st st1 _ h; simp [walkServices] at h
  | succ fuel ih =>
    intro id st st1 hkept h
    rw [walkServices] at h
    split at h
    · simp at h
    · rename_i svc hget
      split at h
      · cases h
      · simp at h
      · rename_i st2 hv
        have hs2 := stopVisitor_stored env fuel2 st st2 id svc hkept hget hv
        have hkept2 : StoreKept st2.services := by rw [hs2]; exact StoreKept_map env [id] _ hkept
        obtain ⟨v2, hs1, hv2⟩ :=
          walkChildren_stop env (walkServices (stopVisitor env fuel2) fuel) ih _ st2 st1 hkept2 h
        refine ⟨[id] ++ v2, ?_, ?_⟩
        · rw [hs1, hs2, List.map_map]
          apply List.map_congr_left
          intro s _
          exact stopIn_append env [id] v2 s
        · intro v
          have hsub : ∀ r : String, InSubtree st2.services r v ↔ InSubtree st.services r v := by
            intro r
            rw [hs2]
            exact InSubtree_map _ (fun s => (stopIn_fields env [id] s).1)
              (fun s => (stopIn_fields env [id] s).2.1) _ _ _
          rw [List.mem_append, List.mem_singleton, hv2, InSubtree_iff st.services id v, hs2,
            ServiceStore.GetChildServices_map _ (fun s => (stopIn_fields env [id] s).2.1)]
          constructor
          · rintro (h1 | ⟨c, hc, h2⟩)
            · exact Or.inl h1
            · obtain ⟨c0, hc0, rfl⟩ := List.mem_map.mp hc
              unfold ServiceStore.GetChildServices at hc0
              rw [List.mem_filter] at hc0
              rw [(stopIn_fields env [id] c0).1] at h2
              rw [← hs2] at h2
              exact Or.inr ⟨c0, hc0.1, by simpa using hc0.2, (hsub _).mp h2⟩
          · rintro (h1 | ⟨c, hc, hcp, h2⟩)
            · exact Or.inl h1
            · refine Or.inr ⟨stopIn env [id] c, List.mem_map_of_mem _ ?_, ?_⟩
              · unfold ServiceStore.GetChildServices
                rw [List.mem_filter]
                exact ⟨hc, by simpa using hcp⟩
              · rw [(stopIn_fields env [id] c).1, ← hs2]
                exact (hsub _).mpr h2

/-- C30 (amended).  `StopService` skips the services launched manually.  On a
service store whose ids are trimmed (and pairwise distinct, as in a store indexed
by id, the config-file maps being without a key twice, as Go maps are),
after a successful `StopService(id)` every stored service of the subtree rooted
at `id` whose `Launch` is not `MANUAL` is stored with `DesiredState = SVCStop`
(as the record `updateService` writes for it), every service of the subtree
whose `Launch` is `MANUAL` is stored as it was, and so is every service outside
the subtree; no service is added or removed. -/
theorem StopService_skips_manual (env : Collaborators) (fuel : Nat) (st st1 : FacadeState)
    (id : String) (hkept : StoreKept st.services)
    (h : StopService env fuel st id = some (none, st1)) :
    (st1.services.map fun svc => svc.ID) = (st.services.map fun svc => svc.ID) ∧
    ∀ svc ∈ st.services,
      (InSubtree st.services id svc.ID → svc.Launch ≠ MANUAL →
        st1.services.Get svc.ID = .ok (stopRecord env svc) ∧
        (stopRecord env svc).DesiredState = SVCStop) ∧
      (InSubtree st.services id svc.ID → svc.Launch = MANUAL →
        st1.services.Get svc.ID = .ok svc) ∧
      (¬ InSubtree st.services id svc.ID → st1.services.Get svc.ID = .ok svc) := by
  obtain ⟨visited, hs1, hv⟩ := walkServices_stop env fuel fuel id st st1 hkept h
  have hgetmap : ∀ svc ∈ st.services,
      st1.services.Get svc.ID = .ok (stopIn env visited svc) := by
    intro svc hmem
    rw [hs1, ServiceStore.Get_map _ (fun s => (stopIn_fields env visited s).1),
      ServiceStore.Get_of_mem_nodup _ svc hkept.1 hmem]
  refine ⟨?_, fun svc hmem => ⟨fun hin hl => ?_, fun hin hl => ?_, fun hout => ?_⟩⟩
  · rw [hs1, List.map_map]
    apply List.map_congr_left
    intro s _
    exact (stopIn_fields env visited s).1
  · rw [hgetmap svc hmem]
    have : stopIn env visited svc = stopRecord env svc := by
      simp [stopIn, (hv svc.ID).mpr hin, hl]
    rw [this]
    exact ⟨rfl, (stopRecord_fields env svc).2.2.2.2⟩
  · rw [hgetmap svc hmem]
    simp [stopIn, hl]
  · rw [hgetmap svc hmem]
    have : svc.ID ∉ visited := fun hm => hout ((hv svc.ID).mp hm)
    simp [stopIn, this]

end Facade
namespace Facade

/-- Witness for C30 (amended): on the sample tree `StopService("tenantA")` stops `tenantA` and
`db`, leaves `web`, which is launched manually, as it was, and does not touch
`tenantB`. -/
theorem StopService_skips_manual_witness :
    StopService sampleEnv 3 { services := sampleTree } "tenantA"
      = some (none, sampleStoppedState) ∧
    sampleStoppedState.services.Get "db"
      = .ok (stopRecord sampleEnv
          { ID := "db", ParentServiceID := "tenantA", Launch := "auto", DesiredState := SVCRun }) ∧
    sampleStoppedState.services.Get "web"
      = .ok { ID := "web", ParentServiceID := "tenantA", Launch := "manual",
              DesiredState := SVCRun } ∧
    sampleStoppedState.services.Get "tenantB"
      = .ok { ID := "tenantB", Launch := "auto", DesiredState := SVCRun } :=
  have hrun : StopService sampleEnv 3 { services := sampleTree } "tenantA"
      = some (none, sampleStoppedState) := by decide
  have hkept : StoreKept sampleTree := ⟨by decide, by decide, by decide⟩
  have hall := (StopService_skips_manual sampleEnv 3 { services := sampleTree }
    sampleStoppedState "tenantA" hkept hrun).2
  have hweb : InSubtree sampleTree "tenantA" "web" :=
    InSubtree.child { ID := "web", ParentServiceID := "tenantA", Launch := "manual",
                      DesiredState := SVCRun } (by decide) InSubtree.root
  have hdb : InSubtree sampleTree "tenantA" "db" :=
    InSubtree.child { ID := "db", ParentServiceID := "tenantA", Launch := "auto",
                      DesiredState := SVCRun } (by decide) InSubtree.root
  have hout : ¬ InSubtree sampleTree "tenantA" "tenantB" := by
    intro h
    have key : ∀ v, InSubtree sampleTree "tenantA" v → v = "tenantA" ∨ v = "web" ∨ v = "db" := by
      intro v hv
      induction hv with
      | root => exact Or.inl rfl
      | child svc hmem _ ih =>
        simp only [sampleTree, List.mem_cons, List.mem_singleton, List.not_mem_nil, or_false]
          at hmem
        rcases hmem with rfl | rfl | rfl | rfl
        · exact Or.inl rfl
        · exact Or.inr (Or.inl rfl)
        · exact Or.inr (Or.inr rfl)
        · exact absurd ih (by decide)
    have := key _ h
    simp at this
  ⟨hrun,
    ((hall { ID := "db", ParentServiceID := "tenantA", Launch := "auto", DesiredState := SVCRun }
      (by decide)).1 hdb (by decide)).1,
    (hall { ID := "web", ParentServiceID := "tenantA", Launch := "manual", DesiredState := SVCRun }
      (by decide)).2.1 hweb rfl,
    (hall { ID := "tenantB", Launch := "auto", DesiredState := SVCRun } (by decide)).2.2 hout⟩

end Facade

/-! ## facade/service.go: the tenant memo as a refinement -/

namespace Facade

theorem AncestorOrSelf.step_up (store : ServiceStore) (v x : String)
    (h : AncestorOrSelf store v x) :
    ∀ (svc p : Service), store.Get x = .ok svc → svc.ParentServiceID ≠ "" →
      store.Get svc.ParentServiceID = .ok p → AncestorOrSelf store v svc.ParentServiceID := by
  induction h with
  | self x svc0 hget =>
    intro svc p hsvc hp hpget
    exact AncestorOrSelf.parent x _ svc hsvc hp (AncestorOrSelf.self _ p hpget)
  | parent x a svc0 hget0 hp0 _ ih =>
    intro svc p hsvc hp hpget
    exact AncestorOrSelf.parent x _ svc0 hget0 hp0 (ih svc p hsvc hp hpget)

theorem walkUp_rootedCache (store : ServiceStore) (c : TenantCache) (hc : RootedCache store c) :
    ∀ (fuel : Nat) (svc : Service) (visited : List String) (r : String × Option String)
      (c1 : TenantCache),
      store.Get svc.ID = .ok svc → (∀ v ∈ visited, AncestorOrSelf store v svc.ID) →
      walkUp (getService store) fuel svc visited c = some (r, c1) → RootedCache store c1 := by
  have hroot : ∀ (svc : Service) (visited : List String),
      store.Get svc.ID = .ok svc → (∀ v ∈ visited, AncestorOrSelf store v svc.ID) →
      svc.ParentServiceID = "" → RootedCache store (updateTenants svc.ID visited c) := by
    intro svc visited hsvc hvis hp k t hkt
    rw [updateTenants_get] at hkt
    by_cases hmem : k ∈ visited
    · simp only [hmem, if_true, Option.some.injEq] at hkt
      subst hkt
      exact ⟨hvis k hmem, svc, hsvc, hp⟩
    · simp only [hmem, if_false] at hkt
      exact hc k t hkt
  intro fuel
  induction fuel with
  | zero =>
    intro svc visited r c1 hsvc hvis h
    unfold walkUp at h
    split at h
    · cases h
    · rename_i hp
      simp only [ne_eq, not_not] at hp
      simp only [Option.some.injEq, Prod.mk.injEq] at h
      rw [← h.2]
      exact hroot svc visited hsvc hvis hp
  | succ fuel ih =>
    intro svc visited r c1 hsvc hvis h
    unfold walkUp at h
    split at h
    · rename_i hp
      cases hl : lookUpTenant c svc.ParentServiceID with
      | some tID =>
        simp only [hl, Option.some.injEq, Prod.mk.injEq] at h
        rw [← h.2]
        exact hc
      | none =>
        simp only [hl] at h
        cases hg : getService store svc.ParentServiceID with
        | error e =>
          simp only [hg, Option.some.injEq, Prod.mk.injEq] at h
          rw [← h.2]
          exact hc
        | ok svc1 =>
          simp only [hg] at h
          have hid : svc1.ID = svc.ParentServiceID := ServiceStore.Get_keyed store _ _ hg
          have hsvc1 : store.Get svc1.ID = .ok svc1 := by rw [hid]; exact hg
          refine ih svc1 (visited ++ [svc1.ID]) r c1 hsvc1 ?_ h
          intro v hv
          rcases List.mem_append.mp hv with hv | hv
          · rw [hid]
            exact AncestorOrSelf.step_up store v svc.ID (hvis v hv) svc svc1 hsvc hp hg
          · rw [List.mem_singleton] at hv
            rw [hv]
            exact AncestorOrSelf.self _ svc1 hsvc1
    · rename_i hp
      simp only [ne_eq, not_not] at hp
      simp only [Option.some.injEq, Prod.mk.injEq] at h
      rw [← h.2]
      exact hroot svc visited hsvc hvis hp

theorem getTenantID_rootedCache (store : ServiceStore) (c : TenantCache)
    (hc : RootedCache store c) (fuel : Nat) (x : String) (r : String × Option String)
    (c1 : TenantCache) (h : GetTenantID fuel store c x = some (r, c1)) :
    RootedCache store c1 := by
  unfold GetTenantID getTenantID at h
  cases hl : lookUpTenant c x with
  | some tID =>
    simp only [hl, Option.some.injEq, Prod.mk.injEq] at h
    rw [← h.2]
    exact hc
  | none =>
    simp only [hl] at h
    cases hg : getService store x with
    | error e =>
      simp only [hg, Option.some.injEq, Prod.mk.injEq] at h
      rw [← h.2]
      exact hc
    | ok svc =>
      simp only [hg] at h
      have hid : svc.ID = x := ServiceStore.Get_keyed store _ _ hg
      have hsvc : store.Get svc.ID = .ok svc := by rw [hid]; exact hg
      refine walkUp_rootedCache store c hc fuel svc [svc.ID] r c1 hsvc ?_ h
      intro v hv
      rw [List.mem_singleton] at hv
      rw [hv]
      exact AncestorOrSelf.self _ svc hsvc

theorem ReachableCache.rooted (store : ServiceStore) (c : TenantCache)
    (h : ReachableCache store c) : RootedCache store c := by
  induction h with
  | empty => intro k t hkt; simp [GoMap.get] at hkt
  | step c0 c1 fuel x r _ hstep ih => exact getTenantID_rootedCache store c0 ih fuel x r c1 hstep

/-- On a memo whose entries are roots, the tenant the loop of `getTenantID`
returns is the root of the chain of the service it starts from. -/
theorem walkUp_returns_root (store : ServiceStore) (c : TenantCache) (hc : RootedCache store c) :
    ∀ (fuel : Nat) (svc : Service) (visited : List String) (t : String) (c1 : TenantCache),
      store.Get svc.ID = .ok svc →
      walkUp (getService store) fuel svc visited c = some ((t, none), c1) →
      IsRootOf store svc.ID t := by
  intro fuel
  induction fuel with
  | zero =>
    intro svc visited t c1 hsvc h
    unfold walkUp at h
    split at h
    · cases h
    · rename_i hp
      simp only [ne_eq, not_not] at hp
      simp only [Option.some.injEq, Prod.mk.injEq] at h
      rw [← h.1.1]
      exact ⟨AncestorOrSelf.self _ svc hsvc, svc, hsvc, hp⟩
  | succ fuel ih =>
    intro svc visited t c1 hsvc h
    unfold walkUp at h
    split at h
    · rename_i hp
      cases hl : lookUpTenant c svc.ParentServiceID with
      | some tID =>
        simp only [hl, Option.some.injEq, Prod.mk.injEq] at h
        obtain ⟨hanc, hroot⟩ := hc _ _ hl
        rw [← h.1.1]
        exact ⟨AncestorOrSelf.parent _ _ svc hsvc hp hanc, hroot⟩
      | none =>
        simp only [hl] at h
        cases hg : getService store svc.ParentServiceID with
        | error e => simp [hg] at h
        | ok svc1 =>
          simp only [hg] at h
          have hid : svc1.ID = svc.ParentServiceID := ServiceStore.Get_keyed store _ _ hg
          have hsvc1 : store.Get svc1.ID = .ok svc1 := by rw [hid]; exact hg
          obtain ⟨hanc, hroot⟩ := ih svc1 _ t c1 hsvc1 h
          rw [hid] at hanc
          exact ⟨AncestorOrSelf.parent _ _ svc hsvc hp hanc, hroot⟩
    · rename_i hp
      simp only [ne_eq, not_not] at hp
      simp only [Option.some.injEq, Prod.mk.injEq] at h
      rw [← h.1.1]
      exact ⟨AncestorOrSelf.self _ svc hsvc, svc, hsvc, hp⟩

/-- On a memo whose entries are roots, the loop of `getTenantID` returns the tenant
it returns on the empty memo, with the same fuel. -/
theorem walkUp_refines (store : ServiceStore) (c : TenantCache) (hc : RootedCache store c) :
    ∀ (fuel : Nat) (svc : Service) (visited visited2 : List String) (t : String)
      (c0 : TenantCache),
      store.Get svc.ID = .ok svc →
      walkUp (getService store) fuel svc visited [] = some ((t, none), c0) →
      ∃ c1 : TenantCache,
        walkUp (getService store) fuel svc visited2 c = some ((t, none), c1) := by
  intro fuel
  induction fuel with
  | zero =>
    intro svc visited visited2 t c0 hsvc h
    unfold walkUp at h ⊢
    split at h
    · cases h
    · rename_i hp
      simp only [Option.some.injEq, Prod.mk.injEq] at h
      rw [if_neg hp, ← h.1.1]
      exact ⟨_, rfl⟩
  | succ fuel ih =>
    intro svc visited visited2 t c0 hsvc h
    unfold walkUp at h ⊢
    split at h
    · rename_i hp
      rw [if_pos hp]
      simp only [lookUpTenant, GoMap.get] at h
      cases hg : getService store svc.ParentServiceID with
      | error e => simp [hg] at h
      | ok svc1 =>
        simp only [hg] at h
        have hid : svc1.ID = svc.ParentServiceID := ServiceStore.Get_keyed store _ _ hg
        have hsvc1 : store.Get svc1.ID = .ok svc1 := by rw [hid]; exact hg
        cases hl : lookUpTenant c svc.ParentServiceID with
        | some tID =>
          have h1 : IsRootOf store svc.ParentServiceID tID := hc _ _ hl
          have h2 : IsRootOf store svc1.ID t :=
            walkUp_returns_root store [] (fun k t hkt => by simp [GoMap.get] at hkt)
              fuel svc1 _ t c0 hsvc1 h
          rw [hid] at h2
          have : tID = t := IsRootOf.unique store _ t tID h2 h1
          rw [this]
          exact ⟨_, rfl⟩
        | none =>
          simp only
          exact ih svc1 _ _ t c0 hsvc1 h
    · rename_i hp
      simp only [Option.some.injEq, Prod.mk.injEq] at h
      rw [if_neg hp, ← h.1.1]
      exact ⟨_, rfl⟩

/-- C27. The memoized tenant lookup refines the uncached one.  Over a fixed
service store, every memo reached from the empty memo by calls of `GetTenantID`
satisfies: (i) every value in it is the id of a stored service with empty
`ParentServiceID` that is the root of the parent chain of its key; (ii) the value
stored under a value of the memo is that value again; and whenever
`GetTenantID(x)` on the empty memo returns a tenant id without error,
`GetTenantID(x)` on that memo returns the same tenant id without error, with the
same fuel. -/
theorem memoized_tenant_lookup_refines (store : ServiceStore) (tenantIDs : TenantCache)
    (hreach : ReachableCache store tenantIDs) :
    (∀ k t : String, tenantIDs.get k = some t →
      AncestorOrSelf store k t ∧
      ∃ root : Service, store.Get t = .ok root ∧ root.ParentServiceID = "") ∧
    (∀ k t : String, tenantIDs.get k = some t → tenantIDs.get t = some t) ∧
    (∀ (fuel : Nat) (x t : String) (c0 : TenantCache),
      GetTenantID fuel store [] x = some ((t, none), c0) →
      ∃ c1 : TenantCache, GetTenantID fuel store tenantIDs x = some ((t, none), c1)) := by
  have hc := ReachableCache.rooted store tenantIDs hreach
  refine ⟨hc, ReachableCache.fixed store tenantIDs hreach, ?_⟩
  intro fuel x t c0 h
  unfold GetTenantID getTenantID at h ⊢
  simp only [lookUpTenant, GoMap.get] at h
  cases hg : getService store x with
  | error e => simp [hg] at h
  | ok svc =>
    simp only [hg] at h
    have hid : svc.ID = x := ServiceStore.Get_keyed store _ _ hg
    have hsvc : store.Get svc.ID = .ok svc := by rw [hid]; exact hg
    cases hl : lookUpTenant tenantIDs x with
    | some tID =>
      have h1 : IsRootOf store x tID := hc _ _ hl
      have h2 : IsRootOf store svc.ID t :=
        walkUp_returns_root store [] (fun k t hkt => by simp [GoMap.get] at hkt)
          fuel svc _ t c0 hsvc h
      rw [hid] at h2
      have : tID = t := IsRootOf.unique store _ t tID h2 h1
      rw [this]
      exact ⟨_, rfl⟩
    | none =>
      simp only
      exact walkUp_refines store tenantIDs hc fuel svc _ _ t c0 hsvc h

/-- Witness for C27: the sample memo is reached by `GetTenantID("app")` on the
sample store; its entries are roots, and `GetTenantID("app")` on it returns
`tenantA` as it does on the empty memo. -/
theorem memoized_tenant_lookup_refines_witness :
    ReachableCache sampleStore sampleMemo ∧
    sampleMemo.get "tenantA" = some "tenantA" ∧
    ∃ c1 : TenantCache, GetTenantID 1 sampleStore sampleMemo "app" = some (("tenantA", none), c1) :=
  have hreach : ReachableCache sampleStore sampleMemo :=
    ReachableCache.step [] sampleMemo 1 "app" ("tenantA", none) ReachableCache.empty (by decide)
  ⟨hreach,
   (memoized_tenant_lookup_refines sampleStore sampleMemo hreach).2.1 "app" "tenantA" (by decide),
   (memoized_tenant_lookup_refines sampleStore sampleMemo hreach).2.2 1 "app" "tenantA" sampleMemo
     (by decide)⟩

end Facade
/-! ## facade/service.go: termination of the tenant lookup -/

namespace Facade

/-- On a chain that ends after `d` parent references, the loop of `getTenantID`
from the service of `x` returns with fuel `d` or more, after at most `d`
lookups. -/
theorem walkUp_terminates (gs : Serviced.GetService) (x : String) (d : Nat)
    (hd : ChainDepth gs x d) :
    ∀ (svc : Service), gs x = .ok svc → ∀ (fuel : Nat), d ≤ fuel →
      ∀ (visited : List String) (c : TenantCache),
        (∃ (r : String × Option String) (c1 : TenantCache),
          walkUp gs fuel svc visited c = some (r, c1)) ∧
        (walkUpLookups gs fuel svc c).length ≤ d := by
  induction hd with
  | failed x e hget =>
    intro svc hsvc
    rw [hget] at hsvc
    cases hsvc
  | root x svc0 hget hp =>
    intro svc hsvc fuel _ visited c
    rw [hget] at hsvc
    cases hsvc
    cases fuel with
    | zero =>
      exact ⟨⟨(svc0.ID, none), updateTenants svc0.ID visited c, by simp [walkUp, hp]⟩,
        by simp [walkUpLookups]⟩
    | succ f =>
      exact ⟨⟨(svc0.ID, none), updateTenants svc0.ID visited c, by simp [walkUp, hp]⟩,
        by simp [walkUpLookups, hp]⟩
  | parent x svc0 d hget hp _ ih =>
    intro svc hsvc fuel hle visited c
    rw [hget] at hsvc
    cases hsvc
    obtain ⟨f, rfl⟩ : ∃ f, fuel = f + 1 := ⟨fuel - 1, by omega⟩
    unfold walkUp walkUpLookups
    rw [if_pos hp, if_pos hp]
    cases hl : lookUpTenant c svc0.ParentServiceID with
    | some tID => exact ⟨⟨_, _, rfl⟩, by simp⟩
    | none =>
      simp only
      cases hg : gs svc0.ParentServiceID with
      | error e => exact ⟨⟨_, _, rfl⟩, by simp⟩
      | ok svc1 =>
        simp only
        obtain ⟨hret, hlen⟩ := ih svc1 hg f (by omega) (visited ++ [svc1.ID]) c
        exact ⟨hret, by simp only [List.length_cons]; omega⟩

/-- C28. `getTenantID` terminates on acyclic data.  When the parent chain that
starts at `x` ends after `d` parent references (at a service without parent, or
at a lookup that fails), `GetTenantID(x)` returns on every memo with fuel `d`,
one unit for every turn of the loop, or more; it hands at most `d + 1` ids to
the lookup; and it ends in one of three ways only: with the error of a lookup,
with a tenant id found in the memo, or with the id of a stored service whose
`ParentServiceID` is empty. -/
theorem getTenantID_terminates (store : ServiceStore) (x : String) (d : Nat)
    (hd : ChainDepth (getService store) x d) (tenantIDs : TenantCache) (fuel : Nat)
    (hfuel : d ≤ fuel) :
    (∃ (r : String × Option String) (tenantIDs1 : TenantCache),
      GetTenantID fuel store tenantIDs x = some (r, tenantIDs1) ∧
      ((∃ e : String, r = ("", some e)) ∨
        (r.2 = none ∧ ∃ k : String, tenantIDs.get k = some r.1) ∨
        (r.2 = none ∧ ∃ root : Service, store.Get r.1 = .ok root ∧
          root.ParentServiceID = ""))) ∧
    (getTenantIDLookups fuel x (getService store) tenantIDs).length ≤ d + 1 := by
  have hret : ∃ (r : String × Option String) (tenantIDs1 : TenantCache),
      GetTenantID fuel store tenantIDs x = some (r, tenantIDs1) := by
    unfold GetTenantID getTenantID
    cases hl : lookUpTenant tenantIDs x with
    | some tID => exact ⟨_, _, rfl⟩
    | none =>
      simp only
      cases hg : getService store x with
      | error e => exact ⟨_, _, rfl⟩
      | ok svc => exact (walkUp_terminates _ x d hd svc hg fuel hfuel [svc.ID] tenantIDs).1
  refine ⟨?_, ?_⟩
  · obtain ⟨r, c1, h⟩ := hret
    refine ⟨r, c1, h, ?_⟩
    rcases (getTenantID_outcome (getService store) (ServiceStore.Get_keyed store) tenantIDs fuel
      x r c1 h).1 with hA | hB | hC
    · exact Or.inl hA.2
    · exact Or.inr (Or.inl hB.2)
    · obtain ⟨hr, -, -, -, -, hroot⟩ := hC
      exact Or.inr (Or.inr ⟨hr, hroot⟩)
  · unfold getTenantIDLookups
    cases hl : lookUpTenant tenantIDs x with
    | some tID => simp
    | none =>
      simp only
      cases hg : getService store x with
      | error e => simp
      | ok svc =>
        simp only [List.length_cons]
        have := (walkUp_terminates _ x d hd svc hg fuel hfuel [] tenantIDs).2
        omega

/-- Witness for C28: on the sample store the chain of `app` ends after one parent
reference, so `GetTenantID("app")` returns with fuel 1 after at most two
lookups. -/
theorem getTenantID_terminates_witness :
    ChainDepth (getService sampleStore) "app" 1 ∧
    (getTenantIDLookups 1 "app" (getService sampleStore) []).length ≤ 1 + 1 :=
  have hd : ChainDepth (getService sampleStore) "app" 1 :=
    ChainDepth.parent "app" { ID := "app", ParentServiceID := "tenantA" } 0 rfl (by decide)
      (ChainDepth.root "tenantA" { ID := "tenantA" } rfl rfl)
  ⟨hd, (getTenantID_terminates sampleStore "app" 1 hd [] 1 (Nat.le_refl 1)).2⟩

end Facade

/-! ## facade/service.go: `getServiceTree` and `walkTree` -/

namespace Facade

theorem newNodes_get_of_not_mem :
    ∀ (servicesList : List Service) (servicesMap : GoMap treenode) (id : String),
      (∀ svc ∈ servicesList, svc.ID ≠ id) →
      (newNodes servicesList servicesMap).get id = servicesMap.get id := by
  intro servicesList
  induction servicesList with
  | nil => intro _ _ _; rfl
  | cons a rest ih =>
    intro servicesMap id h
    rw [newNodes, ih _ id (fun svc hs => h svc (List.mem_cons_of_mem _ hs)),
      GoMap.get_set_ne _ _ _ _ (h a (List.mem_cons_self _ _))]

theorem newNodes_get_of_mem :
    ∀ (servicesList : List Service) (servicesMap : GoMap treenode),
      (servicesList.map fun svc => svc.ID).Nodup → ∀ svc ∈ servicesList,
      (newNodes servicesList servicesMap).get svc.ID
        = some { id := svc.ID, parent := svc.ParentServiceID, children := [] } := by
  intro servicesList
  induction servicesList with
  | nil => intro _ _ svc h; cases h
  | cons a rest ih =>
    intro servicesMap hnd svc hmem
    simp only [List.map_cons, List.nodup_cons, List.mem_map, not_exists, not_and] at hnd
    rw [newNodes]
    rcases List.mem_cons.mp hmem with rfl | hmem
    · rw [newNodes_get_of_not_mem rest _ svc.ID (fun s hs e => hnd.1 s hs e),
        GoMap.get_set_self]
    · exact ih _ hnd.2 svc hmem

theorem childIds_cons (a : Service) (rest : List Service) (id : String) :
    childIds (a :: rest) id
      = if a.ParentServiceID = id then a.ID :: childIds rest id else childIds rest id := by
  unfold childIds
  by_cases h : a.ParentServiceID = id
  · simp [List.filter_cons, h]
  · simp [List.filter_cons, h]

/-- The second loop of `getServiceTree` adds to every node the ids of the services
that name it as their parent, in the order of the list. -/
theorem linkNodes_get :
    ∀ (servicesList : List Service) (servicesMap : GoMap treenode) (id : String),
      (linkNodes servicesList servicesMap).get id
        = (servicesMap.get id).map fun node =>
            { node with children := node.children ++ childIds servicesList id } := by
  intro servicesList
  induction servicesList with
  | nil =>
    intro servicesMap id
    cases h : servicesMap.get id with
    | none => simp [linkNodes, h]
    | some node => simp [linkNodes, h, childIds]
  | cons a rest ih =>
    intro servicesMap id
    rw [linkNodes, childIds_cons]
    cases hp : servicesMap.get a.ParentServiceID with
    | none =>
      simp only
      rw [ih]
      by_cases hid : a.ParentServiceID = id
      · rw [← hid, hp]
        rfl
      · rw [if_neg hid]
    | some parent =>
      simp only
      rw [ih]
      by_cases hid : a.ParentServiceID = id
      · rw [if_pos hid, ← hid, GoMap.get_set_self, hp]
        simp
      · rw [if_neg hid, GoMap.get_set_ne _ _ _ _ hid]

/-- The map `getServiceTree` builds holds, for every service of a list with
pairwise distinct ids, the node with its id, its parent and the ids of its
children. -/
theorem servicesMap_get (servicesList : List Service)
    (hnd : (servicesList.map fun svc => svc.ID).Nodup) (svc : Service)
    (hmem : svc ∈ servicesList) :
    (linkNodes servicesList (newNodes servicesList [])).get svc.ID
      = some (nodeOf servicesList svc) := by
  rw [linkNodes_get, newNodes_get_of_mem servicesList [] hnd svc hmem]
  simp [nodeOf]

theorem Below.is_listed (servicesList : List Service) (a d : String) (k : Nat)
    (h : Below servicesList a d k) : ∃ svc ∈ servicesList, svc.ID = d := by
  cases h with
  | self svc hmem hid => exact ⟨svc, hmem, hid⟩
  | child svc k hmem _ => exact ⟨svc, hmem, rfl⟩

theorem Below.inv (servicesList : List Service) (a d : String) (k : Nat)
    (h : Below servicesList a d k) :
    (k = 0 ∧ d = a ∧ ∃ svc ∈ servicesList, svc.ID = a) ∨
    ∃ (svc : Service) (j : Nat), svc ∈ servicesList ∧ svc.ID = d ∧ k = j + 1 ∧
      Below servicesList a svc.ParentServiceID j := by
  cases h with
  | self svc hmem hid => exact Or.inl ⟨rfl, rfl, svc, hmem, hid⟩
  | child svc j hmem hb => exact Or.inr ⟨svc, j, hmem, rfl, rfl, hb⟩

theorem Below.compose (servicesList : List Service) (a x i : String) (k j : Nat)
    (h1 : Below servicesList a x k) (h2 : Below servicesList x i j) :
    Below servicesList a i (k + j) := by
  induction h2 with
  | self svc hmem hid => exact h1
  | child svc j hmem _ ih => exact Below.child svc (k + j) hmem ih

theorem Below.split (servicesList : List Service) (x : String) :
    ∀ (j : Nat) (i : String), Below servicesList x i (j + 1) →
      ∃ c ∈ servicesList, c.ParentServiceID = x ∧ Below servicesList c.ID i j := by
  intro j
  induction j with
  | zero =>
    intro i h
    rcases Below.inv _ _ _ _ h with ⟨h0, -, -⟩ | ⟨svc, j, hmem, hid, hk, hb⟩
    · cases h0
    · have hj : j = 0 := by omega
      subst hj
      rcases Below.inv _ _ _ _ hb with ⟨-, hp, -⟩ | ⟨_, j2, -, -, hk2, -⟩
      · exact ⟨svc, hmem, hp, by rw [← hid]; exact Below.self svc hmem rfl⟩
      · omega
  | succ j ih =>
    intro i h
    rcases Below.inv _ _ _ _ h with ⟨h0, -, -⟩ | ⟨svc, j2, hmem, hid, hk, hb⟩
    · cases h0
    · have hj : j2 = j + 1 := by omega
      subst hj
      obtain ⟨c, hc, hcp, hcb⟩ := ih _ hb
      refine ⟨c, hc, hcp, ?_⟩
      rw [← hid]
      exact Below.child svc j hmem hcb

/-- The same number of parent references up from a service leads to one
service. -/
theorem Below.same_distance (servicesList : List Service)
    (hnd : (servicesList.map fun svc => svc.ID).Nodup) :
    ∀ (j : Nat) (i a a2 : String), Below servicesList a i j → Below servicesList a2 i j →
      a = a2 := by
  intro j
  induction j with
  | zero =>
    intro i a a2 h1 h2
    rcases Below.inv _ _ _ _ h1 with ⟨-, e1, -⟩ | ⟨_, j, -, -, hk, -⟩
    · rcases Below.inv _ _ _ _ h2 with ⟨-, e2, -⟩ | ⟨_, j, -, -, hk, -⟩
      · rw [← e1, ← e2]
      · omega
    · omega
  | succ j ih =>
    intro i a a2 h1 h2
    rcases Below.inv _ _ _ _ h1 with ⟨h0, -, -⟩ | ⟨s1, j1, hm1, hid1, hk1, hb1⟩
    · cases h0
    · rcases Below.inv _ _ _ _ h2 with ⟨h0, -, -⟩ | ⟨s2, j2, hm2, hid2, hk2, hb2⟩
      · cases h0
      · have e : s1 = s2 := List.inj_on_of_nodup_map hnd hm1 hm2 (by rw [hid1, hid2])
        subst e
        have e1 : j1 = j := by omega
        have e2 : j2 = j := by omega
        subst e1
        subst e2
        exact ih _ _ _ hb1 hb2

/-- A service is a fixed number of parent references below a service without
parent. -/
theorem Below.depth_unique (servicesList : List Service)
    (hnd : (servicesList.map fun svc => svc.ID).Nodup)
    (hids : ∀ svc ∈ servicesList, svc.ID ≠ "") (top : Service) (htop : top ∈ servicesList)
    (hroot : top.ParentServiceID = "") :
    ∀ (k : Nat) (d : String) (k2 : Nat), Below servicesList top.ID d k →
      Below servicesList top.ID d k2 → k = k2 := by
  have hnone : ∀ j, ¬ Below servicesList top.ID "" j := by
    intro j h
    obtain ⟨s, hs, hid⟩ := Below.is_listed _ _ _ _ h
    exact hids s hs hid
  have hzero : ∀ j, Below servicesList top.ID top.ID j → j = 0 := by
    intro j h
    rcases Below.inv _ _ _ _ h with ⟨h0, -, -⟩ | ⟨s, j2, hm, hid, -, hb⟩
    · exact h0
    · have e : s = top := List.inj_on_of_nodup_map hnd hm htop hid
      subst e
      rw [hroot] at hb
      exact absurd hb (hnone _)
  intro k
  induction k with
  | zero =>
    intro d k2 h1 h2
    rcases Below.inv _ _ _ _ h1 with ⟨-, e1, -⟩ | ⟨_, j, -, -, hk, -⟩
    · subst e1
      exact (hzero _ h2).symm
    · omega
  | succ k ih =>
    intro d k2 h1 h2
    rcases Below.inv _ _ _ _ h1 with ⟨h0, -, -⟩ | ⟨s1, j1, hm1, hid1, hk1, hb1⟩
    · cases h0
    · rcases Below.inv _ _ _ _ h2 with ⟨h0, e2, -⟩ | ⟨s2, j2, hm2, hid2, hk2, hb2⟩
      · subst e2
        have := hzero _ h1
        omega
      · have e : s1 = s2 := List.inj_on_of_nodup_map hnd hm1 hm2 (by rw [hid1, hid2])
        subst e
        have e1 : j1 = k := by omega
        subst e1
        have := ih _ _ hb1 hb2
        omega

/-- The services below a service without parent are boundedly far below it. -/
theorem Below.bounded (servicesList : List Service)
    (hnd : (servicesList.map fun svc => svc.ID).Nodup)
    (hids : ∀ svc ∈ servicesList, svc.ID ≠ "") (top : Service) (htop : top ∈ servicesList)
    (hroot : top.ParentServiceID = "") :
    ∃ bound : Nat, ∀ (i : String) (j : Nat), Below servicesList top.ID i j → j ≤ bound := by
  have aux : ∀ part : List Service, ∃ bound : Nat, ∀ svc ∈ part, ∀ j : Nat,
      Below servicesList top.ID svc.ID j → j ≤ bound := by
    intro part
    induction part with
    | nil => exact ⟨0, fun svc h => by cases h⟩
    | cons s rest ih =>
      obtain ⟨b, hb⟩ := ih
      by_cases hex : ∃ j, Below servicesList top.ID s.ID j
      · obtain ⟨j0, hj0⟩ := hex
        refine ⟨max b j0, fun svc hmem j hj => ?_⟩
        rcases List.mem_cons.mp hmem with rfl | hmem
        · have := Below.depth_unique servicesList hnd hids top htop hroot _ _ _ hj hj0
          omega
        · have := hb svc hmem j hj
          omega
      · refine ⟨b, fun svc hmem j hj => ?_⟩
        rcases List.mem_cons.mp hmem with rfl | hmem
        · exact absurd ⟨j, hj⟩ hex
        · exact hb svc hmem j hj
  obtain ⟨b, hb⟩ := aux servicesList
  refine ⟨b, fun i j h => ?_⟩
  obtain ⟨s, hs, hid⟩ := Below.is_listed _ _ _ _ h
  rw [← hid] at h
  exact hb s hs j h

end Facade
namespace Facade

/-- The last loop of `getServiceTree` climbs from a service to the service without
parent it is below, given fuel for every reference on the way. -/
theorem topNode_climbs (servicesList : List Service)
    (hids : ∀ svc ∈ servicesList, svc.ID ≠ "") (top : Service) (htop : top ∈ servicesList)
    (hroot : top.ParentServiceID = "") (servicesMap : GoMap treenode)
    (hmap : ∀ svc ∈ servicesList, servicesMap.get svc.ID = some (nodeOf servicesList svc)) :
    ∀ (x : String) (k : Nat), Below servicesList top.ID x k → ∀ fuel : Nat, k + 1 ≤ fuel →
      topNode servicesMap fuel (servicesMap.get x) = some (.ok (nodeOf servicesList top)) := by
  intro x k h
  induction h with
  | self svc hmem hid =>
    intro fuel hle
    obtain ⟨f, rfl⟩ : ∃ f, fuel = f + 1 := ⟨fuel - 1, by omega⟩
    rw [hmap top htop, topNode]
    have : ¬ (nodeOf servicesList top).parent.length ≠ 0 := by
      simp [nodeOf, hroot]
    rw [if_neg this]
  | child svc k hmem hb ih =>
    intro fuel hle
    obtain ⟨f, rfl⟩ : ∃ f, fuel = f + 1 := ⟨fuel - 1, by omega⟩
    rw [hmap svc hmem, topNode]
    have hne : (nodeOf servicesList svc).parent.length ≠ 0 := by
      obtain ⟨p, hp, hpid⟩ := Below.is_listed _ _ _ _ hb
      intro hlen
      have : svc.ParentServiceID = "" := (length_eq_zero_iff _).mp hlen
      exact hids p hp (by rw [hpid, this])
    rw [if_pos hne]
    exact ih f (by omega)

/-- The loops of `walkTree` over the children of a node: the ids below the
children, none twice when the subtrees of the children share no service. -/
theorem walkEach_spec (servicesList : List Service) (servicesMap : GoMap treenode)
    (walk : treenode → Option (List String)) :
    ∀ children : List Service,
      (∀ c ∈ children, servicesMap.get c.ID = some (nodeOf servicesList c) ∧
        ∃ ids : List String, walk (nodeOf servicesList c) = some ids ∧ ids.Nodup ∧
          ∀ i, i ∈ ids ↔ ∃ j, Below servicesList c.ID i j) →
      (∀ c ∈ children, ∀ c2 ∈ children, c.ID ≠ c2.ID → ∀ (i : String) (j j2 : Nat),
        Below servicesList c.ID i j → Below servicesList c2.ID i j2 → False) →
      (children.map fun c => c.ID).Nodup →
      ∃ all : List String,
        walkEach walk servicesMap (children.map fun c => c.ID) = some all ∧ all.Nodup ∧
        ∀ i, i ∈ all ↔ ∃ c ∈ children, ∃ j, Below servicesList c.ID i j := by
  intro children
  induction children with
  | nil => intro _ _ _; exact ⟨[], rfl, List.nodup_nil, by simp⟩
  | cons c rest ih =>
    intro hwalk hdisj hnd
    simp only [List.map_cons, List.nodup_cons, List.mem_map, not_exists, not_and] at hnd
    obtain ⟨hget, ids, hids, hidsnd, hidsmem⟩ := hwalk c (List.mem_cons_self _ _)
    obtain ⟨more, hmore, hmorend, hmoremem⟩ :=
      ih (fun c2 h2 => hwalk c2 (List.mem_cons_of_mem _ h2))
        (fun a ha b hb => hdisj a (List.mem_cons_of_mem _ ha) b (List.mem_cons_of_mem _ hb))
        hnd.2
    refine ⟨ids ++ more, ?_, ?_, ?_⟩
    · simp only [List.map_cons, walkEach, hget, hids, hmore]
    · rw [List.nodup_append]
      refine ⟨hidsnd, hmorend, ?_⟩
      intro i hi1 hi2
      obtain ⟨j, hj⟩ := (hidsmem i).mp hi1
      obtain ⟨c2, hc2, j2, hj2⟩ := (hmoremem i).mp hi2
      exact hdisj c (List.mem_cons_self _ _) c2 (List.mem_cons_of_mem _ hc2)
        (fun e => hnd.1 c2 hc2 e.symm) i j j2 hj hj2
    · intro i
      rw [List.mem_append, hidsmem, hmoremem]
      constructor
      · rintro (⟨j, hj⟩ | ⟨c2, hc2, j, hj⟩)
        · exact ⟨c, List.mem_cons_self _ _, j, hj⟩
        · exact ⟨c2, List.mem_cons_of_mem _ hc2, j, hj⟩
      · rintro ⟨c2, hc2, j, hj⟩
        rcases List.mem_cons.mp hc2 with rfl | hc2
        · exact Or.inl ⟨j, hj⟩
        · exact Or.inr ⟨c2, hc2, j, hj⟩

/-- One level of `walkTree`: when the walk of every child of a service returns the
ids below the child, none twice, the walk of the service returns the ids below
the service, none twice, its own id last. -/
theorem walkTree_step (servicesList : List Service)
    (hnd : (servicesList.map fun svc => svc.ID).Nodup)
    (hids : ∀ svc ∈ servicesList, svc.ID ≠ "") (top : Service) (htop : top ∈ servicesList)
    (hroot : top.ParentServiceID = "") (servicesMap : GoMap treenode)
    (hmap : ∀ svc ∈ servicesList, servicesMap.get svc.ID = some (nodeOf servicesList svc))
    (x : Service) (k : Nat) (hx : x ∈ servicesList) (hk : Below servicesList top.ID x.ID k)
    (f : Nat)
    (hchildren : ∀ c ∈ servicesList, c.ParentServiceID = x.ID →
      ∃ ids : List String, walkTree servicesMap f (nodeOf servicesList c) = some ids ∧
        ids.Nodup ∧ ∀ i, i ∈ ids ↔ ∃ j, Below servicesList c.ID i j) :
    ∃ ids : List String, walkTree servicesMap (f + 1) (nodeOf servicesList x) = some ids ∧
      ids.Nodup ∧ (∀ i, i ∈ ids ↔ ∃ j, Below servicesList x.ID i j) ∧
      ids.getLast? = some x.ID := by
  have hself : Below servicesList x.ID x.ID 0 := Below.self x hx rfl
  have hchild : ∀ c ∈ servicesList, c.ParentServiceID = x.ID →
      Below servicesList x.ID c.ID 1 := fun c hc hcp =>
    Below.child c 0 hc (by rw [hcp]; exact hself)
  have hmemc : ∀ c : Service, c ∈ servicesList.filter (fun svc => svc.ParentServiceID = x.ID) ↔
      c ∈ servicesList ∧ c.ParentServiceID = x.ID := by
    intro c
    rw [List.mem_filter]
    simp
  rw [walkTree]
  by_cases hlen : (nodeOf servicesList x).children.length = 0
  · rw [if_pos hlen]
    refine ⟨[x.ID], rfl, List.nodup_singleton _, ?_, rfl⟩
    intro i
    rw [List.mem_singleton]
    constructor
    · intro e
      rw [e]
      exact ⟨0, hself⟩
    · rintro ⟨j, hj⟩
      cases j with
      | zero =>
        rcases Below.inv _ _ _ _ hj with ⟨-, e, -⟩ | ⟨_, j2, -, -, hk2, -⟩
        · exact e
        · omega
      | succ j =>
        exfalso
        obtain ⟨c, hc, hcp, -⟩ := Below.split servicesList x.ID j i hj
        have hin : c.ID ∈ childIds servicesList x.ID :=
          List.mem_map_of_mem _ ((hmemc c).mpr ⟨hc, hcp⟩)
        have hnil : childIds servicesList x.ID = [] := List.length_eq_zero.mp hlen
        rw [hnil] at hin
        cases hin
  · rw [if_neg hlen]
    obtain ⟨all, hall, hallnd, hallmem⟩ :=
      walkEach_spec servicesList servicesMap (walkTree servicesMap f)
        (servicesList.filter fun svc => svc.ParentServiceID = x.ID)
        (fun c hc => ⟨hmap c ((hmemc c).mp hc).1,
          hchildren c ((hmemc c).mp hc).1 ((hmemc c).mp hc).2⟩)
        (by
          intro c hc c2 hc2 hne i j j2 hj hj2
          have h1 := Below.compose _ _ _ _ _ _
            (Below.compose _ _ _ _ _ _ hk (hchild c ((hmemc c).mp hc).1 ((hmemc c).mp hc).2)) hj
          have h2 := Below.compose _ _ _ _ _ _
            (Below.compose _ _ _ _ _ _ hk (hchild c2 ((hmemc c2).mp hc2).1 ((hmemc c2).mp hc2).2))
            hj2
          have e := Below.depth_unique servicesList hnd hids top htop hroot _ _ _ h1 h2
          have e2 : j = j2 := by omega
          subst e2
          exact hne (Below.same_distance servicesList hnd _ _ _ _ hj hj2))
        (List.Nodup.sublist (List.Sublist.map _ (List.filter_sublist _)) hnd)
    have hall2 : walkEach (walkTree servicesMap f) servicesMap (nodeOf servicesList x).children
        = some all := hall
    rw [hall2]
    refine ⟨all ++ [x.ID], rfl, ?_, ?_, by simp⟩
    · rw [List.nodup_append]
      refine ⟨hallnd, List.nodup_singleton _, ?_⟩
      intro i hi1 hi2
      rw [List.mem_singleton] at hi2
      subst hi2
      obtain ⟨c, hc, j, hj⟩ := (hallmem _).mp hi1
      have h1 := Below.compose _ _ _ _ _ _
        (Below.compose _ _ _ _ _ _ hk (hchild c ((hmemc c).mp hc).1 ((hmemc c).mp hc).2)) hj
      have := Below.depth_unique servicesList hnd hids top htop hroot _ _ _ h1 hk
      omega
    · intro i
      rw [List.mem_append, List.mem_singleton, hallmem]
      constructor
      · rintro (⟨c, hc, j, hj⟩ | e)
        · exact ⟨1 + j, Below.compose _ _ _ _ _ _
            (hchild c ((hmemc c).mp hc).1 ((hmemc c).mp hc).2) hj⟩
        · rw [e]
          exact ⟨0, hself⟩
      · rintro ⟨j, hj⟩
        cases j with
        | zero =>
          rcases Below.inv _ _ _ _ hj with ⟨-, e, -⟩ | ⟨_, j2, -, -, hk2, -⟩
          · exact Or.inr e
          · omega
        | succ j =>
          obtain ⟨c, hc, hcp, hcb⟩ := Below.split servicesList x.ID j i hj
          exact Or.inl ⟨c, (hmemc c).mpr ⟨hc, hcp⟩, j, hcb⟩

/-- `walkTree` returns on the node of a service below a service without parent,
given fuel for the levels below it. -/
theorem walkTree_spec (servicesList : List Service)
    (hnd : (servicesList.map fun svc => svc.ID).Nodup)
    (hids : ∀ svc ∈ servicesList, svc.ID ≠ "") (top : Service) (htop : top ∈ servicesList)
    (hroot : top.ParentServiceID = "") (servicesMap : GoMap treenode)
    (hmap : ∀ svc ∈ servicesList, servicesMap.get svc.ID = some (nodeOf servicesList svc))
    (bound : Nat)
    (hbound : ∀ (i : String) (j : Nat), Below servicesList top.ID i j → j ≤ bound) :
    ∀ (n : Nat) (x : Service) (k : Nat), x ∈ servicesList →
      Below servicesList top.ID x.ID k → bound - k ≤ n → ∀ fuel : Nat, n + 1 ≤ fuel →
      ∃ ids : List String, walkTree servicesMap fuel (nodeOf servicesList x) = some ids ∧
        ids.Nodup ∧ (∀ i, i ∈ ids ↔ ∃ j, Below servicesList x.ID i j) ∧
        ids.getLast? = some x.ID := by
  intro n
  induction n with
  | zero =>
    intro x k hx hk hle fuel hfuel
    obtain ⟨f, rfl⟩ : ∃ f, fuel = f + 1 := ⟨fuel - 1, by omega⟩
    apply walkTree_step servicesList hnd hids top htop hroot servicesMap hmap x k hx hk f
    intro c hc hcp
    exfalso
    have := hbound c.ID (k + 1) (Below.child c k hc (by rw [hcp]; exact hk))
    omega
  | succ n ih =>
    intro x k hx hk hle fuel hfuel
    obtain ⟨f, rfl⟩ : ∃ f, fuel = f + 1 := ⟨fuel - 1, by omega⟩
    apply walkTree_step servicesList hnd hids top htop hroot servicesMap hmap x k hx hk f
    intro c hc hcp
    obtain ⟨ids, h1, h2, h3, -⟩ :=
      ih c (k + 1) hc (Below.child c k hc (by rw [hcp]; exact hk)) (by omega) f (by omega)
    exact ⟨ids, h1, h2, h3⟩

/-- C26 (the code at the failing input).  The list with the one service whose id
is empty has pairwise distinct ids, and its service has an empty
`ParentServiceID`, so that it has no parent reference and no ancestor.  The
second loop of `getServiceTree` looks the empty parent id up in `servicesMap` and
finds the service itself, where the comment in the code says that a service
without parent belongs to the root; `getServiceTree` for the empty id returns
the node of that service, which is listed among the children of itself, and
`walkTree` of that node does not return, whatever the fuel. -/
theorem walkTree_loops_on_empty_id :
    (sampleNameless.map fun svc => svc.ID).Nodup ∧
    (∀ svc ∈ sampleNameless, svc.ParentServiceID = "") ∧
    getServiceTree 1 "" sampleNameless
      = some (.ok ([("", { id := "", parent := "", children := [""] })],
                   { id := "", parent := "", children := [""] })) ∧
    ∀ fuel : Nat,
      walkTree [("", { id := "", parent := "", children := [""] })] fuel
        { id := "", parent := "", children := [""] } = none := by
  refine ⟨by decide, by decide, rfl, ?_⟩
  intro fuel
  induction fuel with
  | zero => rfl
  | succ fuel ih =>
    rw [walkTree]
    simp only [List.length_singleton, one_ne_zero, if_false, walkEach, GoMap.get, if_true, ih]

/-- The subtree construction on a list without an empty id, where the lookup of
an empty parent id finds nothing.  For a list of services with pairwise distinct
ids, none of them empty, and a `serviceId` that is `k` parent references below a service
`top` of the list with empty `ParentServiceID` (the chain of parents of
`serviceId` stays in the list and ends there), `getServiceTree` returns the node
of `top`, given enough fuel, without dereferencing a missing map entry, and
`walkTree` of that node returns a list that contains `serviceId`, contains
exactly the ids of the services of the list below `top`, each once, and ends
with the id of `top`. -/
theorem getServiceTree_walkTree_subtree (servicesList : List Service) (serviceId : String)
    (top : Service) (k : Nat)
    (hnodup : (servicesList.map fun svc => svc.ID).Nodup)
    (hids : ∀ svc ∈ servicesList, svc.ID ≠ "")
    (htop : top ∈ servicesList) (hroot : top.ParentServiceID = "")
    (hbelow : Below servicesList top.ID serviceId k) :
    ∃ fuel0 : Nat, ∀ fuel : Nat, fuel0 ≤ fuel →
      ∃ (servicesMap : GoMap treenode) (topService : treenode) (ids : List String),
        getServiceTree fuel serviceId servicesList = some (.ok (servicesMap, topService)) ∧
        topService.id = top.ID ∧ topService.parent = "" ∧
        walkTree servicesMap fuel topService = some ids ∧
        serviceId ∈ ids ∧ ids.Nodup ∧
        (∀ i, i ∈ ids ↔ ∃ j, Below servicesList top.ID i j) ∧
        ids.getLast? = some top.ID := by
  obtain ⟨bound, hbound⟩ := Below.bounded servicesList hnodup hids top htop hroot
  have hmap := servicesMap_get servicesList hnodup
  refine ⟨max (k + 1) (bound + 1), fun fuel hfuel => ?_⟩
  have htopNode := topNode_climbs servicesList hids top htop hroot _ hmap serviceId k hbelow
    fuel (by omega)
  obtain ⟨ids, hwalk, hnd, hmem, hlast⟩ :=
    walkTree_spec servicesList hnodup hids top htop hroot _ hmap bound hbound bound top 0 htop
      (Below.self top htop rfl) (by omega) fuel (by omega)
  refine ⟨_, nodeOf servicesList top, ids, ?_, rfl, hroot, hwalk, (hmem _).mpr ⟨k, hbelow⟩, hnd,
    hmem, hlast⟩
  unfold getServiceTree
  simp only [htopNode]

/-- The subtree construction at a sample: in the sample list `cache` is two
parent references below the tenant `web`; the node of `web` is returned, and its walk
gives `cache`, `db`, `web`. -/
theorem getServiceTree_walkTree_subtree_witness :
    Below sampleHierarchy "web" "cache" 2 ∧
    (∃ fuel0 : Nat, ∀ fuel : Nat, fuel0 ≤ fuel →
      ∃ (servicesMap : GoMap treenode) (topService : treenode) (ids : List String),
        getServiceTree fuel "cache" sampleHierarchy = some (.ok (servicesMap, topService)) ∧
        topService.id = "web" ∧ topService.parent = "" ∧
        walkTree servicesMap fuel topService = some ids ∧
        "cache" ∈ ids ∧ ids.Nodup ∧
        (∀ i, i ∈ ids ↔ ∃ j, Below sampleHierarchy "web" i j) ∧
        ids.getLast? = some "web") ∧
    walkTree (linkNodes sampleHierarchy (newNodes sampleHierarchy [])) 3
      { id := "web", parent := "", children := ["db"] } = some ["cache", "db", "web"] :=
  have hweb : Below sampleHierarchy "web" "web" 0 := Below.self { ID := "web" } (by decide) rfl
  have hdb : Below sampleHierarchy "web" "db" 1 :=
    Below.child { ID := "db", ParentServiceID := "web" } 0 (by decide) hweb
  have hcache : Below sampleHierarchy "web" "cache" 2 :=
    Below.child { ID := "cache", ParentServiceID := "db" } 1 (by decide) hdb
  ⟨hcache,
   getServiceTree_walkTree_subtree sampleHierarchy "cache" { ID := "web" } 2 (by decide)
     (by decide) (by decide) rfl hcache,
   by decide⟩

end Facade

namespace Zzk

/-- C21 (the claim as stated fails when a node of the pair is stored before the
call).  On the store that holds the host-state node of the sample instance,
`addInstance` creates the service-state node, fails on the host-state node,
deletes the service-state node again (the delete succeeds) and returns the error:
the call has failed and the store still contains the host-state node.  On the
store that holds the service-state node, the first create fails, no other call is
made, and the store still contains the service-state node. -/
theorem addInstance_failure_keeps_stored_node :
    ((addInstance {} sampleRetry sampleState).1 = some ErrNodeExists ∧
      (addInstance {} sampleRetry sampleState).2.calls =
        [.create "/services/svc/s1" (.serviceState sampleState),
         .create "/hosts/h1/s1" (.hostState (NewHostState sampleState)),
         .delete "/services/svc/s1"] ∧
      (addInstance {} sampleRetry sampleState).2.nodes.get
        (servicepath [sampleState.ServiceID, sampleState.Id]) = none ∧
      (addInstance {} sampleRetry sampleState).2.nodes.get
        (hostpath [sampleState.HostID, sampleState.Id])
          = some (.hostState (NewHostState sampleState))) ∧
    ((addInstance {} sampleTaken sampleState).1 = some ErrNodeExists ∧
      (addInstance {} sampleTaken sampleState).2.calls =
        [.create "/services/svc/s1" (.serviceState sampleState)] ∧
      (addInstance {} sampleTaken sampleState).2.nodes.get
        (servicepath [sampleState.ServiceID, sampleState.Id])
          = some (.serviceState sampleState)) := by
  decide

/-- C24 (the claim as stated fails in these Stop iterations).  Each run is a pass
of `listenHostState` on nodes whose host state has `DesiredState = SVCStop`.
(1) `StopService` returns an error: the pass returns, `listenHostState` ends, and
both nodes of the instance are still stored.  (2) The delete of the host-state
node fails: both nodes are still stored.  (3) The delete of the service-state
node fails: the service-state node is still stored.  (4) A channel is held on
which no value arrives: after `StopService` the receive does not return, so the
pass does not end, nothing is removed and the loop does not exit.  (5) The
service state names another host: `removeInstance` asks for the host-state node
of that host, finds none, and both nodes are still stored.  (6) The service
state carries another id than the host state names: `removeInstance` asks for
the host-state node of that id, finds none, and both nodes are still stored.
(7) The node of the service is missing: the pass returns before the switch,
`StopService` is not called and both nodes are still stored. -/
theorem listenHostState_stop_leaves_nodes :
    (∃ l1 : Listener,
      pass {} stubbornHandler "h1" "s1" (sampleListener SVCStop) = some (.returned, l1) ∧
      listenHostState {} stubbornHandler "h1" "s1" [] (sampleListener SVCStop) = some l1 ∧
      l1.actions = [.stopService sampleState] ∧
      l1.conn.nodes = sampleNodes SVCStop) ∧
    (∃ l1 : Listener,
      pass (deleteFaults "/hosts/h1/s1") sampleHandler "h1" "s1" (sampleListener SVCStop)
        = some (.returned, l1) ∧
      l1.actions = [.stopService sampleState] ∧
      l1.conn.nodes = sampleNodes SVCStop) ∧
    (∃ l1 : Listener,
      pass (deleteFaults "/services/svc/s1") sampleHandler "h1" "s1" (sampleListener SVCStop)
        = some (.returned, l1) ∧
      l1.actions = [.stopService sampleState] ∧
      l1.conn.nodes.get "/hosts/h1/s1" = none ∧
      l1.conn.nodes.get "/services/svc/s1" = some (.serviceState sampleState)) ∧
    (pass {} silentHandler "h1" "s1" { sampleListener SVCStop with processDone := some 0 } = none ∧
      ∀ schedule : List Wakeup,
        listenHostState {} silentHandler "h1" "s1" schedule
          { sampleListener SVCStop with processDone := some 0 } = none) ∧
    (∃ l1 : Listener,
      pass {} sampleHandler "h1" "s1" { conn := { nodes := sampleMoved } } = some (.returned, l1) ∧
      l1.actions = [.stopService { sampleState with HostID := "h2" }] ∧
      l1.conn.nodes = sampleMoved) ∧
    (∃ l1 : Listener,
      pass {} sampleHandler "h1" "s1" { conn := { nodes := sampleRenamed } }
        = some (.returned, l1) ∧
      l1.actions = [.stopService { sampleState with Id := "s9" }] ∧
      l1.conn.nodes = sampleRenamed) ∧
    (∃ l1 : Listener,
      pass {} sampleHandler "h1" "s1" { conn := { nodes := sampleUnlisted } }
        = some (.returned, l1) ∧
      l1.actions = [] ∧
      l1.conn.nodes = sampleUnlisted) := by
  refine ⟨⟨_, rfl, rfl, by decide, by decide⟩, ⟨_, rfl, by decide, by decide⟩,
    ⟨_, rfl, by decide, by decide, by decide⟩, ⟨rfl, fun schedule => rfl⟩,
    ⟨_, rfl, by decide, by decide⟩, ⟨_, rfl, by decide, by decide⟩,
    ⟨_, rfl, by decide, by decide⟩⟩

end Zzk

namespace Facade

/-- C30 (the claim as stated fails on a stored id that is not trimmed).
`AddService` stores the id of a service as given: added to the store of `t` and
`db`, the child of `t` with the id `db` preceded by a blank is stored under that
id, and the ids of the store are pairwise distinct.  `StopService("t")` on that
store succeeds.  The child is in the subtree of `t` and is not launched
manually, and it is stored afterwards as before, with `DesiredState = SVCRun`;
the service `db` is outside the subtree, and it is stored afterwards with
`DesiredState = SVCStop` and `t` as parent: `updateService` has trimmed the id of
the child and written its record over that of `db`. -/
theorem StopService_misses_untrimmed_id :
    (AddService sampleEnv 3 { services := sampleApart }
        { ID := " db", ParentServiceID := "t", Launch := "auto", DesiredState := SVCRun }).map
      (fun r => (r.1, r.2.services)) = some (none, sampleUntrimmed) ∧
    (sampleUntrimmed.map fun svc => svc.ID).Nodup ∧
    InSubtree sampleUntrimmed "t" " db" ∧
    ¬ InSubtree sampleUntrimmed "t" "db" ∧
    ∃ st1 : FacadeState,
      StopService sampleEnv 3 { services := sampleUntrimmed } "t" = some (none, st1) ∧
      st1.services.Get " db"
        = .ok { ID := " db", ParentServiceID := "t", Launch := "auto", DesiredState := SVCRun } ∧
      st1.services.Get "db"
        = .ok { ID := "db", ParentServiceID := "t", Launch := "auto", DesiredState := SVCStop } ∧
      sampleUntrimmed.Get "db" = .ok { ID := "db", Launch := "auto", DesiredState := SVCRun } := by
  have hin : InSubtree sampleUntrimmed "t" " db" :=
    InSubtree.child { ID := " db", ParentServiceID := "t", Launch := "auto",
                      DesiredState := SVCRun } (by decide) InSubtree.root
  have hout : ¬ InSubtree sampleUntrimmed "t" "db" := by
    intro h
    have key : ∀ v, InSubtree sampleUntrimmed "t" v → v = "t" ∨ v = " db" := by
      intro v hv
      induction hv with
      | root => exact Or.inl rfl
      | child svc hmem _ ih =>
        simp only [sampleUntrimmed, List.mem_cons, List.mem_singleton, List.not_mem_nil,
          or_false] at hmem
        rcases hmem with rfl | rfl | rfl
        · exact Or.inl rfl
        · exact absurd ih (by decide)
        · exact Or.inr rfl
    have := key _ h
    simp at this
  refine ⟨by decide, by decide, hin, hout, _, rfl, rfl, rfl, rfl⟩

end Facade

end Serviced
